import Mathlib

/-!
# votingApp: booth lifecycle and voting engine

A shallow embedding of `server/models/booth.js`, `server/models/vote.js` and the
`createBooth`, `joinBooth` and `vote` handlers of
`server/controllers/boothController.js`.

Conventions of the embedding.

* A Mongo `ObjectId` is represented by its string form; the source compares ids
  through `toString()`.
* A `Date` is its millisecond timestamp (an `Int`); an unset date is `none`.
* A JavaScript `Number` holding a tally is an `Int`.
* A method that throws returns `Except.error msg`. A method that ends in
  `return this.save()` takes the database and returns the saved document and
  the database after the write.
* `save()` runs the validators declared in the schema and then the pre-save
  hook; a failed validation or a violated unique index is a thrown error.
* A handler is a function from the database and the request to the response
  and the database after the request. Requests are processed one at a time and
  every `new Date()` / `Date.now` of one request reads the same instant `now`.
* Functions of the JavaScript runtime and of the `validator` package whose
  tables are not part of the repository are fields of `Builtins`.
-/

namespace VotingApp

/-! ## JavaScript values and `parseInt` -/

/-- Functions of the runtime and of the `validator` package that the repository
calls but does not define. `largeNumberToString` is `Number::toString` on
integers of magnitude `10^21` or more (the exponent form), `parseDate` is
`new Date(string)` with `none` for an invalid date, and `nullPropertyMessage`
is the text of the `TypeError` raised by reading a property of `null`. -/
structure Builtins where
  toLowerCase : String → String
  toUpperCase : String → String
  isFQDN : String → Bool
  isMongoId : String → Bool
  largeNumberToString : Int → List Char
  parseDate : String → Option Int
  nullPropertyMessage : String → String

/-- A value found in a request body; `number n` is a JSON number that is an
integer. -/
inductive BodyValue where
  | missing
  | text (s : String)
  | number (n : Int)

/-- JavaScript truthiness of a body value. -/
def BodyValue.truthy : BodyValue → Bool
  | .missing => false
  | .text s => !s.data.isEmpty
  | .number n => n != 0

/-- Decimal digits of a natural number, most significant first. -/
def natDigits (n : Nat) : List Char := Nat.toDigits 10 n

/-- The operation `Number::toString` on an integer: the decimal expansion below
`10^21`, the exponent form from there on. -/
def numberToString (js : Builtins) (n : Int) : List Char :=
  if n.natAbs < 1000000000000000000000 then
    if n < 0 then '-' :: natDigits n.natAbs else natDigits n.natAbs
  else js.largeNumberToString n

/-- The abstract operation `ToString` on a body value. -/
def BodyValue.toJsString (js : Builtins) : BodyValue → List Char
  | .missing => "undefined".data
  | .text s => s.data
  | .number n => numberToString js n

/-- The code points of `StrWhiteSpaceChar` (white space and line terminators). -/
def isStrWhiteSpaceChar (c : Char) : Bool :=
  let n := c.toNat
  n == 0x9 || n == 0xA || n == 0xB || n == 0xC || n == 0xD || n == 0x20 || n == 0xA0 ||
  n == 0x1680 || (0x2000 ≤ n && n ≤ 0x200A) || n == 0x2028 || n == 0x2029 ||
  n == 0x202F || n == 0x205F || n == 0x3000 || n == 0xFEFF

/-- Value of a character as a digit in a radix up to 36. -/
def digitValue (c : Char) : Option Nat :=
  let n := c.toNat
  if 48 ≤ n ∧ n ≤ 57 then some (n - 48)
  else if 97 ≤ n ∧ n ≤ 122 then some (n - 97 + 10)
  else if 65 ≤ n ∧ n ≤ 90 then some (n - 65 + 10)
  else none

/-- Whether `c` is a digit of radix `r`. -/
def isRadixDigit (r : Nat) (c : Char) : Bool :=
  match digitValue c with
  | some d => decide (d < r)
  | none => false

/-- Value of a list of radix-`r` digits. -/
def digitsValue (r : Nat) (z : List Char) : Nat :=
  z.foldl (fun acc c => acc * r + (digitValue c).getD 0) 0

/-- The built-in `parseInt(string)` with the radix argument omitted, on the
characters of `ToString(string)`; `none` is `NaN`. The mathematical integer is
returned. Above `2^53` the runtime holds a rounding of it; the source compares
the result only with bounds far below and stores or indexes with it only when
it is within those bounds, where the rounding changes nothing. -/
def parseIntChars (input : List Char) : Option Int :=
  let s := input.dropWhile isStrWhiteSpaceChar
  let neg : Bool := s.head? == some '-'
  let s := if s.head? == some '-' || s.head? == some '+' then s.tail else s
  let hex : Bool := s.take 2 == ['0', 'x'] || s.take 2 == ['0', 'X']
  let r : Nat := if hex then 16 else 10
  let s := if hex then s.drop 2 else s
  let z := s.takeWhile (isRadixDigit r)
  if z.isEmpty then none
  else if neg then some (-(digitsValue r z : Int)) else some (digitsValue r z : Int)

/-- A character is a decimal digit. -/
def isDecimalDigit (c : Char) : Prop := 48 ≤ c.toNat ∧ c.toNat ≤ 57

/-- The call `parseInt(v)` on a body value. -/
def parseInt (js : Builtins) (v : BodyValue) : Option Int := parseIntChars (v.toJsString js)

/-- The method `String.prototype.trim` on the characters of a string. -/
def trim (s : List Char) : List Char :=
  ((s.dropWhile isStrWhiteSpaceChar).reverse.dropWhile isStrWhiteSpaceChar).reverse

/-- The property `length` of a string: the number of UTF-16 code units. -/
def jsLength (s : List Char) : Nat :=
  (s.map (fun c => if c.toNat ≥ 0x10000 then 2 else 1)).sum

/-! ## Data model (`models/booth.js`, `models/vote.js`, `models/user.js`) -/

/-- The enum of `status`. -/
inductive Status where
  | draft | active | closed | archived
  deriving DecidableEq, Repr, Inhabited

/-- An entry of `candidates`. -/
structure Candidate where
  name : String
  description : String
  voteCount : Int
  deriving DecidableEq, Repr, Inhabited

/-- An entry of `members`. -/
structure Member where
  user : String
  joinedAt : Int
  hasVoted : Bool
  deriving DecidableEq, Repr, Inhabited

/-- The `settings` sub-document. -/
structure Settings where
  resultsVisibleToVoters : Bool := true
  anonymousVoting : Bool := true
  allowVoteChange : Bool := false
  showLiveResults : Bool := false
  allowMultipleVotes : Bool := false
  requireEmailVerification : Bool := false
  requireApproval : Bool := false
  publicBooth : Bool := false
  sendNotifications : Bool := false
  votingStartTime : Option Int := none
  votingEndTime : Option Int := none
  allowedEmailDomains : List String := []
  deriving DecidableEq, Repr, Inhabited

/-- A booth document. -/
structure Booth where
  id : String
  name : String
  description : String
  creator : String
  inviteCode : String
  candidates : List Candidate
  members : List Member
  maxMembers : Int
  status : Status
  settings : Settings
  totalVotes : Int
  createdAt : Int
  updatedAt : Int
  deriving DecidableEq, Repr, Inhabited

/-- A vote document, the audit record of one cast vote. -/
structure Vote where
  booth : String
  voter : String
  candidateIndex : Int
  candidateName : String
  votedAt : Int
  ipAddress : Option String
  userAgent : Option String
  deriving DecidableEq, Repr, Inhabited

/-- The fields of a user document that the booth handlers read or write. -/
structure User where
  id : String
  email : Option String
  maxBooths : Nat
  createdBooths : List String
  joinedBooths : List String
  deriving DecidableEq, Repr, Inhabited

/-- The three collections. -/
structure Db where
  booths : List Booth
  votes : List Vote
  users : List User
  deriving DecidableEq, Repr, Inhabited

/-! ## The collections -/

/-- The validators of the booth schema: `required`, `maxLength`, `minLength`,
`min` and `max`. An invite code that is not yet assigned is the empty string. -/
def Booth.validate (b : Booth) : Bool :=
  !b.name.data.isEmpty && decide (jsLength b.name.data ≤ 100) &&
  !b.description.data.isEmpty && decide (jsLength b.description.data ≤ 500) &&
  (b.inviteCode.data.isEmpty ||
    (decide (6 ≤ jsLength b.inviteCode.data) && decide (jsLength b.inviteCode.data ≤ 8))) &&
  b.candidates.all (fun c =>
    !c.name.data.isEmpty && decide (jsLength c.description.data ≤ 200) &&
    decide (0 ≤ c.voteCount)) &&
  decide (1 ≤ b.maxMembers) && decide (b.maxMembers ≤ 10000) &&
  decide (0 ≤ b.totalVotes)

/-- The validators of the vote schema. -/
def Vote.validate (v : Vote) : Bool :=
  !v.candidateName.data.isEmpty

/-- The query `Booth.findById(id)`. -/
def Db.findBoothById (db : Db) (id : String) : Option Booth :=
  db.booths.find? (fun b => b.id == id)

/-- The query `Booth.findOne` on the field `inviteCode`. -/
def Db.findBoothByInviteCode (db : Db) (code : String) : Option Booth :=
  db.booths.find? (fun b => b.inviteCode == code)

/-- The query `User.findById(id)`. -/
def Db.findUserById (db : Db) (id : String) : Option User :=
  db.users.find? (fun u => u.id == id)

/-- The write of a booth document over the stored document with its `_id`. -/
def Db.replaceBooth (db : Db) (doc : Booth) : Db :=
  { db with booths := db.booths.map (fun x => if x.id == doc.id then doc else x) }

/-- The call `save()` on a booth document that is already in the collection:
validation, then the pre-save hook (which stamps `updatedAt`), then the
write. The saved document and the database after the write are returned. -/
def Db.saveBooth (db : Db) (b : Booth) (now : Int) : Except String (Booth × Db) :=
  if b.validate then
    .ok ({ b with updatedAt := now }, db.replaceBooth { b with updatedAt := now })
  else .error "Booth validation failed"

/-- The call `save()` on a user document. -/
def Db.saveUser (db : Db) (u : User) : Db :=
  { db with users := db.users.map (fun x => if x.id == u.id then u else x) }

/-- The query `Vote.findOne` on the pair `booth`, `voter`. -/
def Db.findVote (db : Db) (boothId voter : String) : Option Vote :=
  db.votes.find? (fun v => v.booth == boothId && v.voter == voter)

/-- The call `Vote.deleteOne` on the `_id` of the record that `findVote`
returned: the first record of the pair is removed. -/
def Db.deleteVote (db : Db) (boothId voter : String) : Db :=
  { db with votes := db.votes.eraseP (fun v => v.booth == boothId && v.voter == voter) }

/-- The call `save()` on a new vote document: validation, then the insert, which
the unique index on `(booth, voter)` refuses when the pair has a record. -/
def Db.insertVote (db : Db) (v : Vote) : Except String Db :=
  if !v.validate then .error "Vote validation failed"
  else if db.votes.any (fun w => w.booth == v.booth && w.voter == v.voter) then
    .error "E11000 duplicate key error"
  else .ok { db with votes := db.votes ++ [v] }

/-! ## Methods of the booth document -/

/-- The method `isMember`. -/
def Booth.isMember (b : Booth) (userId : String) : Bool :=
  b.members.any (fun m => m.user == userId)

/-- The method `hasUserVoted`. -/
def Booth.hasUserVoted (b : Booth) (userId : String) : Bool :=
  match b.members.find? (fun m => m.user == userId) with
  | some m => m.hasVoted
  | none => false

/-- The method `addMember`. -/
def Booth.addMember (b : Booth) (db : Db) (userId : String) (now : Int) :
    Except String (Booth × Db) :=
  if b.isMember userId then .error "User is already a member"
  else if (b.members.length : Int) ≥ b.maxMembers then .error "Booth is full"
  else
    db.saveBooth
      { b with members := b.members ++ [{ user := userId, joinedAt := now, hasVoted := false }] }
      now

/-- Assignment `member.hasVoted = true` to the member entry that `find` returns,
the first entry of the user. -/
def setVoted (userId : String) : List Member → List Member
  | [] => []
  | m :: rest =>
    if m.user == userId then { m with hasVoted := true } :: rest
    else m :: setVoted userId rest

/-- The method `markAsVoted`. -/
def Booth.markAsVoted (b : Booth) (db : Db) (userId : String) (now : Int) :
    Except String (Booth × Db) :=
  match b.members.find? (fun m => m.user == userId) with
  | none => .error "User is not a member of this booth"
  | some member =>
    if member.hasVoted && !b.settings.allowMultipleVotes then .error "User has already voted"
    else db.saveBooth { b with members := setVoted userId b.members } now

/-- Update of the `voteCount` of the candidate at position `i`. -/
def mapVoteCount (f : Int → Int) : Nat → List Candidate → List Candidate
  | _, [] => []
  | 0, c :: rest => { c with voteCount := f c.voteCount } :: rest
  | i + 1, c :: rest => c :: mapVoteCount f i rest

/-- The method `incrementVote`. -/
def Booth.incrementVote (b : Booth) (db : Db) (candidateIndex : Int) (now : Int) :
    Except String (Booth × Db) :=
  if candidateIndex < 0 ∨ candidateIndex ≥ (b.candidates.length : Int) then
    .error "Invalid candidate index"
  else
    db.saveBooth
      { b with
        candidates := mapVoteCount (fun v => v + 1) candidateIndex.toNat b.candidates
        totalVotes := b.totalVotes + 1 }
      now

/-- The result object of `isVotingAllowed`. -/
structure VotingStatus where
  allowed : Bool
  reason : Option String
  deriving DecidableEq, Repr, Inhabited

/-- The test `d && p(d)` on an optional date: a date that is set is truthy. -/
def dateSetAnd (d : Option Int) (p : Int → Bool) : Bool :=
  match d with
  | some t => p t
  | none => false

/-- The method `isVotingAllowed`; `now` is the value of `new Date()`. -/
def Booth.isVotingAllowed (b : Booth) (now : Int) : VotingStatus :=
  if b.status ≠ Status.active then
    { allowed := false, reason := some "Booth is not active" }
  else if dateSetAnd b.settings.votingStartTime (fun start => decide (now < start)) then
    { allowed := false, reason := some "Voting has not started yet" }
  else if dateSetAnd b.settings.votingEndTime (fun stop => decide (now > stop)) then
    { allowed := false, reason := some "Voting has ended" }
  else
    { allowed := true, reason := none }

/-! ## Responses -/

/-- How a response is sent: `res.json`, `res.render` or `res.redirect`. -/
inductive ResponseKind where
  | json | render | redirect
  deriving DecidableEq, Repr, Inhabited

/-- A response: the status code, how it is sent, and the fields of its body
that the handlers set. For `render`, `target` is the view; for `redirect`, the
location. -/
structure Response where
  status : Nat
  kind : ResponseKind
  target : Option String := none
  error : Option String := none
  message : Option String := none
  candidate : Option String := none
  boothId : Option String := none
  boothName : Option String := none
  deriving DecidableEq, Repr, Inhabited

/-- The pattern `if (req.accepts('html')) return res.status(s).render('error', ...)`
followed by `return res.status(s).json(...)`, with the error text `e`. -/
def errorPage (acceptsHtml : Bool) (status : Nat) (e : Option String) : Response :=
  if acceptsHtml then { status := status, kind := .render, target := some "error", error := e }
  else { status := status, kind := .json, error := e }

/-- The pattern of `joinBooth`: the join form is rendered with the error and the
default status, or the error is sent as JSON with status `s`. -/
def joinError (acceptsHtml : Bool) (status : Nat) (e : String) : Response :=
  if acceptsHtml then { status := 200, kind := .render, target := some "booth/join", error := some e }
  else { status := status, kind := .json, error := some e }

/-- The call `res.redirect(url)`. -/
def redirectTo (url : String) : Response :=
  { status := 302, kind := .redirect, target := some url }

/-! ## The handler `vote` -/

/-- The parts of the request that `vote` reads. -/
structure VoteRequest where
  boothId : String
  candidateIndex : BodyValue
  userId : String
  acceptsHtml : Bool
  ip : Option String
  userAgent : Option String

/-- The response of the outer `catch` of `vote`. -/
def voteFailure (acceptsHtml : Bool) : Response :=
  errorPage acceptsHtml 500 (some "Failed to record vote. Please try again.")

/-- The block `Handle vote change` of `vote`: when the user has voted and changes
are allowed, the previous audit record is looked up; if there is one, the tally
of its candidate and `totalVotes` are decremented in the in-memory document
(floored at zero) when its index is below the number of candidates, and the
record is deleted from the collection. Reading `voteCount` of a candidate that
does not exist throws. -/
def voteChange (db : Db) (booth : Booth) (req : VoteRequest) : Except String (Booth × Db) :=
  if booth.hasUserVoted req.userId && booth.settings.allowVoteChange then
    match db.findVote req.boothId req.userId with
    | none => .ok (booth, db)
    | some previousVote =>
      if previousVote.candidateIndex < (booth.candidates.length : Int) then
        if previousVote.candidateIndex < 0 then .error "TypeError"
        else
          .ok ({ booth with
                  candidates := mapVoteCount (fun v => max 0 (v - 1))
                    previousVote.candidateIndex.toNat booth.candidates
                  totalVotes := max 0 (booth.totalVotes - 1) },
               db.deleteVote req.boothId req.userId)
      else .ok (booth, db.deleteVote req.boothId req.userId)
  else .ok (booth, db)

/-- The statements of `vote` after the four checks: the vote-change block,
`markAsVoted`, `incrementVote` and the insert of the audit record. The result
is the name of the candidate and the database after the request; an error is
what the outer `catch` receives, with the database at the throw. -/
def castVote (db : Db) (booth : Booth) (req : VoteRequest) (candidateIdx : Int) (now : Int) :
    Except (String × Db) (String × Db) :=
  match voteChange db booth req with
  | .error e => .error (e, db)
  | .ok (booth1, db1) =>
    match booth1.markAsVoted db1 req.userId now with
    | .error e => .error (e, db1)
    | .ok (booth2, db2) =>
      match booth2.incrementVote db2 candidateIdx now with
      | .error e => .error (e, db2)
      | .ok (booth3, db3) =>
        match booth3.candidates[candidateIdx.toNat]? with
        | none => .error ("TypeError", db3)
        | some candidate =>
          match db3.insertVote
              { booth := req.boothId, voter := req.userId, candidateIndex := candidateIdx,
                candidateName := candidate.name, votedAt := now,
                ipAddress := req.ip, userAgent := req.userAgent } with
          | .error e => .error (e, db3)
          | .ok db4 => .ok (candidate.name, db4)

/-- The handler `exports.vote`. -/
def vote (js : Builtins) (db : Db) (req : VoteRequest) (now : Int) : Response × Db :=
  if !js.isMongoId req.boothId then
    (errorPage req.acceptsHtml 404 (some "Invalid booth ID"), db)
  else
    match db.findBoothById req.boothId with
    | none => (errorPage req.acceptsHtml 404 (some "Booth not found"), db)
    | some booth =>
      let votingStatus := booth.isVotingAllowed now
      if !votingStatus.allowed then
        (errorPage req.acceptsHtml 400 votingStatus.reason, db)
      else if !booth.isMember req.userId then
        (errorPage req.acceptsHtml 403 (some "You must be a member to vote"), db)
      else if booth.hasUserVoted req.userId && !booth.settings.allowVoteChange then
        (errorPage req.acceptsHtml 400 (some "You have already voted in this booth"), db)
      else
        match parseInt js req.candidateIndex with
        | none => (errorPage req.acceptsHtml 400 (some "Invalid candidate selection"), db)
        | some candidateIdx =>
          if candidateIdx < 0 ∨ candidateIdx ≥ (booth.candidates.length : Int) then
            (errorPage req.acceptsHtml 400 (some "Invalid candidate selection"), db)
          else
            match castVote db booth req candidateIdx now with
            | .error (_, dbAtThrow) => (voteFailure req.acceptsHtml, dbAtThrow)
            | .ok (candidateName, db4) =>
              if req.acceptsHtml then
                (redirectTo ("/booth/" ++ req.boothId ++ "/results"), db4)
              else
                ({ status := 200, kind := .json, message := some "Vote recorded successfully",
                   candidate := some candidateName }, db4)

/-! ## The handler `joinBooth` -/

/-- The parts of the request that `joinBooth` reads. -/
structure JoinRequest where
  code : String
  userId : String
  acceptsHtml : Bool

/-- The test of the pattern of `joinBooth` on a string: six to eight characters,
each of them in `A-Z` or `0-9`. -/
def isInviteCodeFormat (s : List Char) : Bool :=
  decide (6 ≤ s.length) && decide (s.length ≤ 8) &&
  s.all (fun c => (decide (65 ≤ c.toNat) && decide (c.toNat ≤ 90)) ||
                  (decide (48 ≤ c.toNat) && decide (c.toNat ≤ 57)))

/-- The call `s.split(sep)` for a one-character separator. -/
def splitChars (sep : Char) : List Char → List (List Char)
  | [] => [[]]
  | c :: rest =>
    if c == sep then [] :: splitChars sep rest
    else
      match splitChars sep rest with
      | [] => [[c]]
      | seg :: more => (c :: seg) :: more

/-- The expression `d.startsWith('@') ? d.slice(1) : d`. -/
def cleanDomain (d : String) : String :=
  match d.data with
  | '@' :: rest => String.mk rest
  | _ => d

/-- The expression `d.startsWith('@') ? d : '@' + d`. -/
def atDomain (d : String) : String :=
  match d.data with
  | '@' :: _ => d
  | _ => "@" ++ d

/-- The error text of a refused email domain. -/
def domainErrorMessage (allowed : List String) : String :=
  "Only users with " ++ ", ".intercalate (allowed.map atDomain) ++
    " email addresses can join this booth"

/-- The response of the outer `catch` of `joinBooth`. -/
def joinFailure (acceptsHtml : Bool) : Response :=
  joinError acceptsHtml 500 "Failed to join booth. Please try again."

/-- The block `Check email domain restriction` of `joinBooth`: `none` when the
check passes, otherwise the response that ends the request. An email without
`@` has no second segment and the comparison throws into the outer `catch`. -/
def emailDomainCheck (js : Builtins) (db : Db) (booth : Booth) (req : JoinRequest) :
    Option Response :=
  if booth.settings.allowedEmailDomains.length > 0 then
    match (db.findUserById req.userId).bind (fun u => u.email) with
    | none =>
      some (joinError req.acceptsHtml 400
        "User account must have a valid email address to join this booth")
    | some email =>
      if email.data.isEmpty then
        some (joinError req.acceptsHtml 400
          "User account must have a valid email address to join this booth")
      else
        match (splitChars '@' email.data)[1]? with
        | none => some (joinFailure req.acceptsHtml)
        | some userEmailDomain =>
          let isAllowed := booth.settings.allowedEmailDomains.any (fun allowedDomain =>
            js.toLowerCase (cleanDomain allowedDomain) == js.toLowerCase (String.mk userEmailDomain))
          if !isAllowed then
            some (joinError req.acceptsHtml 403
              (domainErrorMessage booth.settings.allowedEmailDomains))
          else none
  else none

/-- The inner `try` block of `joinBooth`: `addMember`, then the update of the
joined booths of the user, then the success response. An error thrown in the
block is answered by the inner `catch` with the message of the error. -/
def joinAdmit (js : Builtins) (db : Db) (booth : Booth) (req : JoinRequest) (now : Int) :
    Response × Db :=
  match booth.addMember db req.userId now with
  | .error e => (joinError req.acceptsHtml 400 e, db)
  | .ok (booth1, db1) =>
    match db1.findUserById req.userId with
    | none => (joinError req.acceptsHtml 400 (js.nullPropertyMessage "joinedBooths"), db1)
    | some user =>
      let db2 :=
        if !user.joinedBooths.contains booth1.id then
          db1.saveUser { user with joinedBooths := user.joinedBooths ++ [booth1.id] }
        else db1
      if req.acceptsHtml then (redirectTo ("/booth/" ++ booth1.id), db2)
      else
        ({ status := 200, kind := .json, message := some "Successfully joined booth",
           boothId := some booth1.id, boothName := some booth1.name }, db2)

/-- The handler `exports.joinBooth`. -/
def joinBooth (js : Builtins) (db : Db) (req : JoinRequest) (now : Int) : Response × Db :=
  if req.code.data.isEmpty || !isInviteCodeFormat (js.toUpperCase req.code).data then
    (joinError req.acceptsHtml 400 "Invalid invite code format", db)
  else
    match db.findBoothByInviteCode (js.toUpperCase req.code) with
    | none => (joinError req.acceptsHtml 404 "Invalid invite code", db)
    | some booth =>
      if booth.status ≠ Status.active then
        (joinError req.acceptsHtml 400 "This booth is not accepting new members", db)
      else if booth.isMember req.userId then
        if req.acceptsHtml then (redirectTo ("/booth/" ++ booth.id), db)
        else
          ({ status := 200, kind := .json,
             message := some "You are already a member of this booth",
             boothId := some booth.id, boothName := some booth.name }, db)
      else if (booth.members.length : Int) ≥ booth.maxMembers then
        (joinError req.acceptsHtml 400 "This booth is full", db)
      else
        match emailDomainCheck js db booth req with
        | some response => (response, db)
        | none => joinAdmit js db booth req now

/-! ## Invite codes -/

/-- The alphabet of `generateInviteCode`. -/
def inviteChars : List Char := "ABCDEFGHIJKLMNOPQRSTUVWXYZ0123456789".data

/-- The method `generateInviteCode`. The random source is a stream of the values
of `Math.floor(Math.random() * chars.length)`; the six draws are read from
position `pos`. -/
def generateInviteCode (rng : Nat → Fin 36) (pos : Nat) : String :=
  String.mk ((List.range 6).map (fun i => inviteChars.getD (rng (pos + i)).val ' '))

/-- The loop of the pre-save hook: codes are generated until one is held by no
booth. `fuel` bounds the number of iterations; `none` means the bound was
reached. -/
def assignInviteCode (db : Db) (rng : Nat → Fin 36) : Nat → Nat → Option String
  | 0, _ => none
  | fuel + 1, pos =>
    let code := generateInviteCode rng pos
    match db.findBoothByInviteCode code with
    | none => some code
    | some _ => assignInviteCode db rng fuel (pos + 6)

/-! ## The handler `createBooth` -/

/-- An element of the array `candidates` of the request body: a string, an
object with optional string fields `name` and `description`, or anything else. -/
inductive CandidateInput where
  | str (s : String)
  | obj (name : Option String) (description : Option String)
  | other

/-- A body key of the form `candidates[i][name]` with its value, and the value of
the key `candidates[i][description]`. -/
structure FormCandidate where
  index : Nat
  name : String
  description : Option String

/-- The parts of the request that `createBooth` reads. `settingsAllowMultipleVotes`
is the one field of the body value `settings` that the form settings do not
overwrite; the fields `form...` are the values of the body keys
`settings[...]`. -/
structure CreateRequest where
  userId : String
  acceptsHtml : Bool
  name : Option String
  description : Option String
  candidates : Option (List CandidateInput)
  formCandidates : List FormCandidate
  maxMembers : BodyValue
  settingsAllowMultipleVotes : Option Bool
  formResultsVisibleToVoters : Option String
  formAnonymousVoting : Option String
  formAllowVoteChange : Option String
  formShowLiveResults : Option String
  formRequireEmailVerification : Option String
  formRequireApproval : Option String
  formPublicBooth : Option String
  formSendNotifications : Option String
  formVotingStartTime : Option String
  formVotingEndTime : Option String
  formAllowedEmailDomains : Option String

/-- The helper `validateBoothName`, on the trimmed name. -/
def validateBoothName (name : String) : Bool :=
  !name.data.isEmpty && decide (jsLength (trim name.data) ≥ 3) &&
    decide (jsLength (trim name.data) ≤ 100)

/-- The helper `validateDescription`, on the trimmed description. -/
def validateDescription (description : String) : Bool :=
  !description.data.isEmpty && decide (jsLength (trim description.data) ≥ 10) &&
    decide (jsLength (trim description.data) ≤ 500)

/-- The helper `validateCandidates`, on the formatted candidates. -/
def validateCandidates (candidates : List Candidate) : Bool :=
  if candidates.length < 2 then false
  else candidates.all (fun c =>
    !c.name.data.isEmpty && decide (jsLength (trim c.name.data) ≥ 1) &&
      decide (jsLength (trim c.name.data) ≤ 100))

/-- The helper `validateMaxMembers`, on the number that `createBooth` computed
(`none` is `NaN`). -/
def validateMaxMembers (js : Builtins) (maxMembers : Option Int) : Bool :=
  match maxMembers with
  | none => false
  | some n =>
    match parseIntChars (numberToString js n) with
    | none => false
    | some num => decide (num ≥ 2) && decide (num ≤ 10000)

/-- The map and filter over the array `candidates`. -/
def formatCandidates (candidates : List CandidateInput) : List Candidate :=
  (candidates.filterMap (fun c =>
    match c with
    | .str s => some { name := String.mk (trim s.data), description := "", voteCount := 0 }
    | .obj name description =>
      some { name := String.mk (trim (name.getD "").data),
             description := String.mk (trim (description.getD "").data), voteCount := 0 }
    | .other => none)).filter (fun c => !c.name.data.isEmpty)

/-- Stable insertion of a form entry into a list sorted by index. -/
def insertByIndex (x : FormCandidate) : List FormCandidate → List FormCandidate
  | [] => [x]
  | y :: rest => if x.index ≤ y.index then x :: y :: rest else y :: insertByIndex x rest

/-- The stable sort of the form entries by index. -/
def sortByIndex (l : List FormCandidate) : List FormCandidate :=
  l.foldr insertByIndex []

/-- The form-data branch of the candidate formatting. -/
def formatFormCandidates (entries : List FormCandidate) : List Candidate :=
  (sortByIndex entries).filterMap (fun e =>
    let name := String.mk (trim e.name.data)
    if name.data.isEmpty then none
    else some { name := name,
                description := String.mk (trim (e.description.getD "").data), voteCount := 0 })

/-- Whether a list has no repeated element: the test that the size of
`new Set(names)` equals the length of `names`. -/
def allDistinct : List String → Bool
  | [] => true
  | x :: rest => !rest.contains x && allDistinct rest

/-- The test `v === 'on' || v === 'true'` on the value of a body key. -/
def formFlag (v : Option String) : Bool :=
  v == some "on" || v == some "true"

/-- A date setting as the handler builds it: `none` when the body key is falsy,
otherwise the result of `new Date(value)`, which is `none` for an invalid date. -/
def formDate (js : Builtins) (v : Option String) : Option (Option Int) :=
  match v with
  | none => none
  | some t => if t.data.isEmpty then none else some (js.parseDate t)

/-- The list of domains of the body key `settings[allowedEmailDomains]`. -/
def formDomains (v : Option String) : List String :=
  match v with
  | none => []
  | some t =>
    if t.data.isEmpty then []
    else ((splitChars ',' t.data).map (fun d => String.mk (trim d))).filter
      (fun d => decide (jsLength d.data > 0))

/-- The comparison `start >= end` of two dates; it is false when one of them is
invalid. -/
def dateGe (a b : Option Int) : Bool :=
  match a, b with
  | some x, some y => decide (x ≥ y)
  | _, _ => false

/-- The response with which `createBooth` reports an error of the request. -/
def createError (acceptsHtml : Bool) (status : Nat) (e : String) : Response :=
  if acceptsHtml then
    { status := 200, kind := .render, target := some "booth/create", error := some e }
  else { status := status, kind := .json, error := some e }

/-- The list `errors` that `createBooth` collects. -/
def createErrors (js : Builtins) (name description : String) (maxMembers : Option Int)
    (formattedCandidates : List Candidate) : List String :=
  (if !validateBoothName name then ["Booth name must be 3-100 characters"] else []) ++
  (if !validateDescription description then ["Description must be 10-500 characters"] else []) ++
  (if !validateMaxMembers js maxMembers then
    ["Maximum members must be between 2 and 10,000"] else []) ++
  (if !validateCandidates formattedCandidates then
    ["At least 2 valid candidates are required"] else []) ++
  (if !allDistinct (formattedCandidates.map (fun c => js.toLowerCase c.name)) then
    ["Candidate names must be unique"] else [])

/-- The call `booth.save()` on the new document and the update of the user that
follows it. The cast of an invalid date or of `NaN`, a failed validator and a
duplicate `_id` throw; `none` means that the invite-code loop reached its
bound. -/
def insertBooth (db : Db) (user : User) (booth : Booth) (rng : Nat → Fin 36) (fuel : Nat) :
    Option (Except String (Booth × Db)) :=
  if !booth.validate then some (.error "Booth validation failed")
  else
    match assignInviteCode db rng fuel 0 with
    | none => none
    | some code =>
      if db.booths.any (fun x => x.id == booth.id) then
        some (.error "E11000 duplicate key error")
      else
        let doc := { booth with inviteCode := code }
        let db1 := { db with booths := db.booths ++ [doc] }
        let joined :=
          if !user.joinedBooths.contains doc.id then user.joinedBooths ++ [doc.id]
          else user.joinedBooths
        let db2 := db1.saveUser
          { user with createdBooths := user.createdBooths ++ [doc.id], joinedBooths := joined }
        some (.ok (doc, db2))

/-- The method `canCreateBooth` of the user document: the number of booths of
the creator is below `subscription.maxBooths || 5`. -/
def User.canCreateBooth (user : User) (db : Db) : Bool :=
  let boothCount := (db.booths.filter (fun b => b.creator == user.id)).length
  let maxBooths := if user.maxBooths = 0 then 5 else user.maxBooths
  decide (boothCount < maxBooths)

/-- The document built by `new Booth(...)` in `createBooth`, before it is saved:
the creator is its only member, every flag of the settings is read from the
form keys, and the setter `lowercase` is applied to the email domains. -/
def newBooth (js : Builtins) (req : CreateRequest) (now : Int) (newId : String)
    (name description : String) (formattedCandidates : List Candidate) (maxMembers : Int)
    (votingStartTime votingEndTime : Option Int) (allowedEmailDomains : List String) : Booth :=
  { id := newId, name := name, description := description,
    creator := req.userId, inviteCode := "",
    candidates := formattedCandidates,
    members := [{ user := req.userId, joinedAt := now, hasVoted := false }],
    maxMembers := maxMembers, status := Status.active,
    settings :=
      { resultsVisibleToVoters := formFlag req.formResultsVisibleToVoters,
        anonymousVoting := formFlag req.formAnonymousVoting,
        allowVoteChange := formFlag req.formAllowVoteChange,
        showLiveResults := formFlag req.formShowLiveResults,
        allowMultipleVotes := req.settingsAllowMultipleVotes.getD false,
        requireEmailVerification := formFlag req.formRequireEmailVerification,
        requireApproval := formFlag req.formRequireApproval,
        publicBooth := formFlag req.formPublicBooth,
        sendNotifications := formFlag req.formSendNotifications,
        votingStartTime := votingStartTime,
        votingEndTime := votingEndTime,
        allowedEmailDomains := allowedEmailDomains.map js.toLowerCase },
    totalVotes := 0, createdAt := now, updatedAt := now }

/-- The value of `maxMembers` after the line
`maxMembers = maxMembers ? parseInt(maxMembers) : 100`; `none` is `NaN`. -/
def requestedMaxMembers (js : Builtins) (req : CreateRequest) : Option Int :=
  if req.maxMembers.truthy then parseInt js req.maxMembers else some 100

/-- The array `formattedCandidates` of `createBooth`. -/
def requestedCandidates (req : CreateRequest) : List Candidate :=
  match req.candidates with
  | some candidates => formatCandidates candidates
  | none => formatFormCandidates req.formCandidates

/-- The handler `exports.createBooth`. `newId` is the `_id` that the constructor
gives the document, `rng` the random source and `fuel` the bound on the
invite-code loop. -/
def createBooth (js : Builtins) (db : Db) (req : CreateRequest) (now : Int) (newId : String)
    (rng : Nat → Fin 36) (fuel : Nat) : Option (Response × Db) :=
  let name := String.mk (trim (req.name.getD "").data)
  let description := String.mk (trim (req.description.getD "").data)
  let maxMembers := requestedMaxMembers js req
  match db.findUserById req.userId with
  | none => some (createError req.acceptsHtml 404 "User not found", db)
  | some user =>
    if !user.canCreateBooth db then
      some (createError req.acceptsHtml 403
        "Booth creation limit reached. Upgrade your account to create more booths.", db)
    else
      let formattedCandidates := requestedCandidates req
      let errors := createErrors js name description maxMembers formattedCandidates
      if errors.length > 0 then
        some (createError req.acceptsHtml 400 (". ".intercalate errors), db)
      else
        let votingStartTime := formDate js req.formVotingStartTime
        let votingEndTime := formDate js req.formVotingEndTime
        let allowedEmailDomains := formDomains req.formAllowedEmailDomains
        if votingStartTime.isSome && votingEndTime.isSome &&
            dateGe (votingStartTime.getD none) (votingEndTime.getD none) then
          some (createError req.acceptsHtml 400 "Voting end time must be after start time", db)
        else
          let invalidDomains := allowedEmailDomains.filter (fun d => !js.isFQDN (cleanDomain d))
          if invalidDomains.length > 0 then
            some (createError req.acceptsHtml 400
              ("Invalid email domains: " ++ ", ".intercalate invalidDomains), db)
          else
            let failure : Response :=
              createError req.acceptsHtml 500 "Failed to create booth. Please try again."
            match maxMembers, votingStartTime, votingEndTime with
            | none, _, _ => some (failure, db)
            | _, some none, _ => some (failure, db)
            | _, _, some none => some (failure, db)
            | some maxMembers, votingStartTime, votingEndTime =>
              match insertBooth db user
                  (newBooth js req now newId name description formattedCandidates maxMembers
                    (votingStartTime.getD none) (votingEndTime.getD none) allowedEmailDomains)
                  rng fuel with
              | none => none
              | some (.error _) => some (failure, db)
              | some (.ok (doc, db2)) =>
                if req.acceptsHtml then some (redirectTo ("/booth/" ++ doc.id ++ "/admin"), db2)
                else
                  some ({ status := 201, kind := .json,
                          message := some "Booth created successfully",
                          boothId := some doc.id, boothName := some doc.name }, db2)

/-! ## Reference decisions and concrete data -/

/-- The reference decision of the time-window policy, rule by rule: the status,
then the start of the window, then its end. -/
def votingDecision (b : Booth) (now : Int) : VotingStatus :=
  match b.status, b.settings.votingStartTime, b.settings.votingEndTime with
  | .draft, _, _ => ⟨false, some "Booth is not active"⟩
  | .closed, _, _ => ⟨false, some "Booth is not active"⟩
  | .archived, _, _ => ⟨false, some "Booth is not active"⟩
  | .active, none, none => ⟨true, none⟩
  | .active, some start, none =>
    if now < start then ⟨false, some "Voting has not started yet"⟩ else ⟨true, none⟩
  | .active, none, some stop =>
    if stop < now then ⟨false, some "Voting has ended"⟩ else ⟨true, none⟩
  | .active, some start, some stop =>
    if now < start then ⟨false, some "Voting has not started yet"⟩
    else if stop < now then ⟨false, some "Voting has ended"⟩
    else ⟨true, none⟩

/-- A runtime for evaluating the handlers on concrete requests: ASCII case
mapping, a 24-digit hexadecimal test for ids, and dates written as a decimal
timestamp. -/
def asciiRuntime : Builtins where
  toLowerCase := fun s => String.mk (s.data.map (fun c =>
    if 65 ≤ c.toNat ∧ c.toNat ≤ 90 then Char.ofNat (c.toNat + 32) else c))
  toUpperCase := fun s => String.mk (s.data.map (fun c =>
    if 97 ≤ c.toNat ∧ c.toNat ≤ 122 then Char.ofNat (c.toNat - 32) else c))
  isFQDN := fun s => s.data.contains '.'
  isMongoId := fun s => s.data.length == 24 && s.data.all (fun c => isRadixDigit 16 c)
  largeNumberToString := fun n => if n < 0 then ['-', '1', 'e', '+', '2', '1'] else ['1', 'e', '+', '2', '1']
  parseDate := fun s => parseIntChars s.data
  nullPropertyMessage := fun p => "Cannot read properties of null (reading " ++ p ++ ")"

/-! ## A concrete run

Three users, one booth with candidates `A` and `B` and `maxMembers = 2`,
created by `ann`; `bob` joins with the invite code and votes for `A`. -/

/-- The id of the creator. -/
def ann : String := "64b000000000000000000001"

/-- The id of the first joiner. -/
def bob : String := "64b000000000000000000002"

/-- The id of the second joiner. -/
def cyd : String := "64b000000000000000000003"

/-- The id that the new booth receives. -/
def lunchId : String := "64b000000000000000000010"

/-- The database before the booth is created. -/
def db0 : Db :=
  { booths := [], votes := [],
    users := [⟨ann, some "ann@org.edu", 5, [], []⟩, ⟨bob, some "bob@org.edu", 5, [], []⟩,
              ⟨cyd, some "cyd@other.com", 5, [], []⟩] }

/-- The request that creates the booth, with an optional end of the voting
window and the two settings `allowVoteChange` and `allowMultipleVotes`. -/
def lunchRequest (endTime : Option String) (change multiple : Bool) : CreateRequest :=
  { userId := ann, acceptsHtml := false, name := some "Lunch",
    description := some "Where to eat today",
    candidates := some [.str "A", .str "B"], formCandidates := [], maxMembers := .number 2,
    settingsAllowMultipleVotes := some multiple,
    formResultsVisibleToVoters := none, formAnonymousVoting := none,
    formAllowVoteChange := if change then some "true" else none, formShowLiveResults := none,
    formRequireEmailVerification := none, formRequireApproval := none, formPublicBooth := none,
    formSendNotifications := none, formVotingStartTime := none, formVotingEndTime := endTime,
    formAllowedEmailDomains := none }

/-- The database after `ann` created the booth at time 1; the random source
always draws 0, so the invite code is `AAAAAA`. -/
def afterCreate (endTime : Option String) (change multiple : Bool) : Db :=
  match createBooth asciiRuntime db0 (lunchRequest endTime change multiple) 1 lunchId
      (fun _ => 0) 1 with
  | some (_, db) => db
  | none => db0

/-- The join request of a user with the invite code in lower case. -/
def joinReq (u : String) : JoinRequest := ⟨"aaaaaa", u, false⟩

/-- The database after `bob` joined at time 2. -/
def afterJoin (endTime : Option String) (change multiple : Bool) : Db :=
  (joinBooth asciiRuntime (afterCreate endTime change multiple) (joinReq bob) 2).2

/-- The vote request of a user for the candidate index written as text. -/
def voteReq (u : String) (i : String) : VoteRequest := ⟨lunchId, .text i, u, false, none, none⟩

/-- The database after `bob` voted for candidate 0 at time 5. -/
def afterVote (endTime : Option String) (change multiple : Bool) : Db :=
  (vote asciiRuntime (afterJoin endTime change multiple) (voteReq bob "0") 5).2

/-- The booth of the run in a database, if it is there. -/
def lunchBooth (db : Db) : Option Booth := db.findBoothById lunchId

/-- The tallies of a booth, candidate by candidate. -/
def Booth.tallies (b : Booth) : List Int := b.candidates.map (fun c => c.voteCount)

/-- The booth document after `markAsVoted` for user `u` at time `now`. -/
def Booth.voted (b : Booth) (u : String) (now : Int) : Booth :=
  { b with members := setVoted u b.members, updatedAt := now }

/-- The booth document after `incrementVote` for candidate `k` at time `now`. -/
def Booth.incremented (b : Booth) (k : Nat) (now : Int) : Booth :=
  { b with candidates := mapVoteCount (fun v => v + 1) k b.candidates,
           totalVotes := b.totalVotes + 1, updatedAt := now }

/-- The booth document that `addMember` saves for a new member `u` at time `now`. -/
def Booth.admitted (b : Booth) (u : String) (now : Int) : Booth :=
  { b with members := b.members ++ [{ user := u, joinedAt := now, hasVoted := false }],
           updatedAt := now }

/-- A sequence of join requests with the same invite code, one user and one
instant per request, processed in order. -/
def joinAll (js : Builtins) (code : String) : Db → List (String × Int) → Db
  | db, [] => db
  | db, (u, t) :: rest => joinAll js code (joinBooth js db ⟨code, u, false⟩ t).2 rest

/-- The response to the request that creates the booth of the concrete run. -/
def lunchCreated : Response :=
  { status := 201, kind := .json, message := some "Booth created successfully",
    boothId := some lunchId, boothName := some "Lunch" }

/-! ## Consistency and reachability -/

/-- The tally of the candidate at position `i`, zero when there is none. -/
def Booth.voteCountAt (b : Booth) (i : Nat) : Int :=
  match b.candidates[i]? with
  | some c => c.voteCount
  | none => 0

/-- The number of audit records of booth `id` that name candidate `i`. -/
def countVotes (votes : List Vote) (id : String) (i : Nat) : Nat :=
  (votes.filter (fun v => v.booth == id && v.candidateIndex == (i : Int))).length

/-- Consistency of the stored data: every booth satisfies its schema, its
`totalVotes` is the sum of its tallies, every tally is at least the number of
audit records of the booth that name the candidate, every audit record belongs
to a stored booth, and the voter of an audit record is flagged as having voted
in its booth. -/
structure Db.Consistent (db : Db) : Prop where
  valid : ∀ b ∈ db.booths, b.validate = true
  sum : ∀ b ∈ db.booths, b.tallies.sum = b.totalVotes
  audit : ∀ b ∈ db.booths, ∀ i, (countVotes db.votes b.id i : Int) ≤ b.voteCountAt i
  owner : ∀ v ∈ db.votes, ∃ b ∈ db.booths, b.id = v.booth
  voted : ∀ v ∈ db.votes, ∀ b ∈ db.booths, b.id = v.booth → b.hasUserVoted v.voter = true

/-- The databases reachable from an empty booth collection through requests to
`createBooth`, `joinBooth` and `vote` (first votes and vote changes), with any
request data and instants, interleaved with writes to the users collection by
the account operations. -/
inductive Reachable (js : Builtins) : Db → Prop where
  | init (users : List User) : Reachable js { booths := [], votes := [], users := users }
  | create (db : Db) (req : CreateRequest) (now : Int) (newId : String) (rng : Nat → Fin 36)
      (fuel : Nat) (resp : Response) (db1 : Db) :
      Reachable js db → createBooth js db req now newId rng fuel = some (resp, db1) →
      Reachable js db1
  | join (db : Db) (req : JoinRequest) (now : Int) :
      Reachable js db → Reachable js (joinBooth js db req now).2
  | vote (db : Db) (req : VoteRequest) (now : Int) :
      Reachable js db → Reachable js (vote js db req now).2
  | account (db : Db) (users : List User) :
      Reachable js db → Reachable js { db with users := users }

/-! ## A run with an email-domain restriction -/

/-- The id of the user with the address `x@other.com`. -/
def xOther : String := "64b000000000000000000004"

/-- The id of the user with the address `x@org.edu`. -/
def xOrg : String := "64b000000000000000000005"

/-- The database before the restricted booth is created. -/
def campusDb0 : Db :=
  { booths := [], votes := [],
    users := [⟨ann, some "ann@org.edu", 5, [], []⟩, ⟨xOther, some "x@other.com", 5, [], []⟩,
              ⟨xOrg, some "x@org.edu", 5, [], []⟩] }

/-- The request that creates a booth for five members whose setting
`allowedEmailDomains` is the one entry `org.edu`. -/
def campusRequest : CreateRequest :=
  { lunchRequest none false false with
    maxMembers := .number 5, formAllowedEmailDomains := some "org.edu" }

/-- The database after `ann` created the restricted booth at time 1. -/
def campusDb : Db :=
  match createBooth asciiRuntime campusDb0 campusRequest 1 lunchId (fun _ => 0) 1 with
  | some (_, db) => db
  | none => campusDb0

/-! ## Member removal (`models/booth.js`, `routes/boothRoutes.js`) -/

/-- The method `removeMember`. -/
def Booth.removeMember (b : Booth) (db : Db) (userId : String) (now : Int) :
    Except String (Booth × Db) :=
  db.saveBooth { b with members := b.members.filter (fun m => m.user != userId) } now

/-- The parts of the request that the member-removal route reads: the two
parameters of the path and the id of the authenticated user. -/
structure RemoveRequest where
  boothId : String
  memberId : String
  userId : String

/-- The call `Vote.deleteMany` on the pair `booth`, `voter`. -/
def Db.deleteVotes (db : Db) (boothId voter : String) : Db :=
  { db with votes := db.votes.filter (fun v => !(v.booth == boothId && v.voter == voter)) }

/-- The route `DELETE /api/:boothId/members/:memberId`: the creator removes a
member other than themselves. After `removeMember` the booth is dropped from
the joined booths of the removed user, if that user exists, and the audit
records of the pair are deleted; the tallies of the booth are not touched. An
error thrown by `save()` is answered by the `catch`. The ids are those of
documents; a path parameter that does not cast to an id is not modelled. -/
def removeMemberRoute (db : Db) (req : RemoveRequest) (now : Int) : Response × Db :=
  match db.findBoothById req.boothId with
  | none => ({ status := 404, kind := .json, error := some "Booth not found" }, db)
  | some booth =>
    if booth.creator != req.userId then
      ({ status := 403, kind := .json, error := some "Only booth creator can remove members" }, db)
    else if req.memberId == req.userId then
      ({ status := 400, kind := .json, error := some "Cannot remove yourself" }, db)
    else
      match booth.removeMember db req.memberId now with
      | .error _ => ({ status := 500, kind := .json, error := some "Failed to remove member" }, db)
      | .ok (_, db1) =>
        let db2 :=
          match db1.findUserById req.memberId with
          | some user =>
            db1.saveUser
              { user with joinedBooths := user.joinedBooths.filter (fun id => id != req.boothId) }
          | none => db1
        ({ status := 200, kind := .json, message := some "Member removed successfully" },
         db2.deleteVotes req.boothId req.memberId)

/-! ## The handler `editBooth` -/

/-- The parts of the request that `editBooth` reads. -/
structure EditRequest where
  boothId : String
  userId : String
  name : Option String
  description : Option String
  maxMembers : BodyValue

/-- The value of `maxMembers` after the line
`maxMembers = maxMembers ? parseInt(maxMembers) : null`, as the later tests
`maxMembers && ...` and `if (maxMembers)` see it: `none` stands for the falsy
values `null`, `NaN` and `0`. -/
def editedMaxMembers (js : Builtins) (req : EditRequest) : Option Int :=
  if req.maxMembers.truthy then
    match parseInt js req.maxMembers with
    | some n => if n = 0 then none else some n
    | none => none
  else none

/-- The list `errors` that `editBooth` collects. -/
def editErrors (js : Builtins) (booth : Booth) (name description : String)
    (maxMembers : Option Int) : List String :=
  (if !name.data.isEmpty && !validateBoothName name then
    ["Booth name must be 3-100 characters"] else []) ++
  (if !description.data.isEmpty && !validateDescription description then
    ["Description must be 10-500 characters"] else []) ++
  (match maxMembers with
   | some n =>
     if !validateMaxMembers js (some n) then ["Maximum members must be between 2 and 10,000"]
     else []
   | none => []) ++
  (match maxMembers with
   | some n =>
     if n < (booth.members.length : Int) then
       ["Cannot reduce maximum members below current member count (" ++
         String.mk (natDigits booth.members.length) ++ ")"]
     else []
   | none => [])

/-- The handler `exports.editBooth`. Every response is a rendered view. -/
def editBooth (js : Builtins) (db : Db) (req : EditRequest) (now : Int) : Response × Db :=
  let name := String.mk (trim (req.name.getD "").data)
  let description := String.mk (trim (req.description.getD "").data)
  let maxMembers := editedMaxMembers js req
  if !js.isMongoId req.boothId then
    (errorPage true 404 (some "Invalid booth ID"), db)
  else
    match db.findBoothById req.boothId with
    | none => (errorPage true 404 (some "Booth not found"), db)
    | some booth =>
      if booth.creator != req.userId then
        (errorPage true 403 (some "Only booth creator can edit booth"), db)
      else
        let errors := editErrors js booth name description maxMembers
        if errors.length > 0 then
          ({ status := 200, kind := .render, target := some "booth/edit",
             error := some (". ".intercalate errors) }, db)
        else
          match db.saveBooth
              { booth with
                name := if name.data.isEmpty then booth.name else name
                description := if description.data.isEmpty then booth.description else description
                maxMembers := maxMembers.getD booth.maxMembers }
              now with
          | .error _ => (errorPage true 500 (some "Failed to update booth"), db)
          | .ok (_, db1) =>
            ({ status := 200, kind := .render, target := some "booth/edit",
               message := some "Booth updated successfully" }, db1)

/-! ## Runs of the booth operations -/

/-- A request to one of the booth operations `joinBooth`, `vote` and member
removal, with the instant at which it is processed. -/
inductive BoothOp where
  | join (req : JoinRequest) (now : Int)
  | vote (req : VoteRequest) (now : Int)
  | remove (req : RemoveRequest) (now : Int)

/-- The database after one operation. -/
def BoothOp.run (js : Builtins) (db : Db) : BoothOp → Db
  | .join req now => (joinBooth js db req now).2
  | .vote req now => (VotingApp.vote js db req now).2
  | .remove req now => (removeMemberRoute db req now).2

/-- The database after a sequence of operations, processed in order. -/
def runOps (js : Builtins) (db : Db) (ops : List BoothOp) : Db :=
  ops.foldl (BoothOp.run js) db

/-- Whether an operation is a request to remove user `u` from booth `bid`. -/
def BoothOp.removes (bid u : String) : BoothOp → Bool
  | .remove req _ => req.boothId == bid && req.memberId == u
  | _ => false

/-- The number of members of a booth whose flag `hasVoted` is set. -/
def Booth.votedCount (b : Booth) : Nat := (b.members.filter (fun m => m.hasVoted)).length

/-- The concrete run continued: `ann` removes `bob` at time 6. -/
def afterRemoval : Db :=
  (removeMemberRoute (afterVote none false false) ⟨lunchId, bob, ann⟩ 6).2

/-- The concrete run continued: `bob` joins again at time 7. -/
def afterRejoin : Db := (joinBooth asciiRuntime afterRemoval (joinReq bob) 7).2

/-- The concrete run continued: `bob` votes for candidate 0 again at time 8. -/
def afterRevote : Db := (vote asciiRuntime afterRejoin (voteReq bob "0") 8).2

/-- The databases reachable from an empty booth collection through requests to
`createBooth`, `joinBooth`, `vote` (first votes and vote changes) and the
member-removal route, with any request data and instants, interleaved with
writes to the users collection by the account operations. -/
inductive ReachableWithRemoval (js : Builtins) : Db → Prop where
  | init (users : List User) :
      ReachableWithRemoval js { booths := [], votes := [], users := users }
  | create (db : Db) (req : CreateRequest) (now : Int) (newId : String) (rng : Nat → Fin 36)
      (fuel : Nat) (resp : Response) (db1 : Db) :
      ReachableWithRemoval js db → createBooth js db req now newId rng fuel = some (resp, db1) →
      ReachableWithRemoval js db1
  | join (db : Db) (req : JoinRequest) (now : Int) :
      ReachableWithRemoval js db → ReachableWithRemoval js (joinBooth js db req now).2
  | vote (db : Db) (req : VoteRequest) (now : Int) :
      ReachableWithRemoval js db → ReachableWithRemoval js (vote js db req now).2
  | remove (db : Db) (req : RemoveRequest) (now : Int) :
      ReachableWithRemoval js db → ReachableWithRemoval js (removeMemberRoute db req now).2
  | account (db : Db) (users : List User) :
      ReachableWithRemoval js db → ReachableWithRemoval js { db with users := users }

/-- The databases reachable from an empty booth collection through requests to
`createBooth`, `joinBooth`, `vote`, the member-removal route and `editBooth`,
and through calls of the methods `addMember` and `removeMember` on a stored
booth document, interleaved with writes to the users collection. -/
inductive MembershipReachable (js : Builtins) : Db → Prop where
  | init (users : List User) :
      MembershipReachable js { booths := [], votes := [], users := users }
  | create (db : Db) (req : CreateRequest) (now : Int) (newId : String) (rng : Nat → Fin 36)
      (fuel : Nat) (resp : Response) (db1 : Db) :
      MembershipReachable js db → createBooth js db req now newId rng fuel = some (resp, db1) →
      MembershipReachable js db1
  | join (db : Db) (req : JoinRequest) (now : Int) :
      MembershipReachable js db → MembershipReachable js (joinBooth js db req now).2
  | vote (db : Db) (req : VoteRequest) (now : Int) :
      MembershipReachable js db → MembershipReachable js (vote js db req now).2
  | remove (db : Db) (req : RemoveRequest) (now : Int) :
      MembershipReachable js db → MembershipReachable js (removeMemberRoute db req now).2
  | edit (db : Db) (req : EditRequest) (now : Int) :
      MembershipReachable js db → MembershipReachable js (editBooth js db req now).2
  | addMember (db : Db) (b : Booth) (userId : String) (now : Int) (doc : Booth) (db1 : Db) :
      MembershipReachable js db → b ∈ db.booths → b.addMember db userId now = .ok (doc, db1) →
      MembershipReachable js db1
  | removeMember (db : Db) (b : Booth) (userId : String) (now : Int) (doc : Booth) (db1 : Db) :
      MembershipReachable js db → b ∈ db.booths → b.removeMember db userId now = .ok (doc, db1) →
      MembershipReachable js db1
  | account (db : Db) (users : List User) :
      MembershipReachable js db → MembershipReachable js { db with users := users }

/-- The concrete run continued after `bob` joined: `ann` asks to lower
`maxMembers` of the full booth to 1 at time 3. -/
def afterEditDown : Db :=
  (editBooth asciiRuntime (afterJoin none false false) ⟨lunchId, ann, none, none, .text "1"⟩ 3).2

/-- The concrete run continued: `ann` raises `maxMembers` to 3 at time 4. -/
def afterEditUp : Db :=
  (editBooth asciiRuntime afterEditDown ⟨lunchId, ann, none, none, .text "3"⟩ 4).2

/-! ## Number arithmetic

The values of the type Number are IEEE 754 doubles. A finite double is
represented by the rational number it denotes; the result of an arithmetic
operation is the exact result rounded to the nearest double, ties to the double
with an even significand. Results beyond the largest double are not modelled;
the values computed here are at most 10000. The tallies and counts are integers
below `2^53`, which are doubles. -/

/-- The integer nearest to `x`, the even one of the two in a tie. -/
def roundHalfEven (x : ℚ) : ℤ :=
  if x - ⌊x⌋ < 1 / 2 then ⌊x⌋
  else if 1 / 2 < x - ⌊x⌋ then ⌊x⌋ + 1
  else if ⌊x⌋ % 2 = 0 then ⌊x⌋ else ⌊x⌋ + 1

/-- The distance between neighbouring doubles at `q`: `2^(e - 52)` for
`2^e ≤ |q| < 2^(e + 1)`, with `e` not below the exponent -1022 of the
subnormal doubles. -/
def ulp (q : ℚ) : ℚ := (2 : ℚ) ^ (max (Int.log 2 |q|) (-1022) - 52)

/-- The Number value of the real number `q`: the nearest double. -/
def toNumber (q : ℚ) : ℚ := roundHalfEven (q / ulp q) * ulp q

/-- The function `Math.round`: the nearest integer, the larger one in a tie. -/
def mathRound (x : ℚ) : ℤ := ⌊x + 1 / 2⌋

/-- The expression
`totalVotes > 0 ? Math.round((voteCount / totalVotes) * 100 * 100) / 100 : 0`
of `getResults` and of the results route. -/
def roundedPercent (voteCount totalVotes : Int) : ℚ :=
  if totalVotes > 0 then
    toNumber ((mathRound (toNumber (toNumber (toNumber ((voteCount : ℚ) / totalVotes) * 100)
      * 100)) : ℚ) / 100)
  else 0

/-- The value `voteCount / totalVotes * 100` rounded to two decimal places, as
a real number, and 0 when `totalVotes` is not positive: the percentage as the
specification words it. -/
def specPercent (voteCount totalVotes : Int) : ℚ :=
  if totalVotes > 0 then (⌊(voteCount : ℚ) / totalVotes * 100 * 100 + 1 / 2⌋ : ℚ) / 100 else 0

/-! ## Statistics and results (`models/booth.js`, `boothController.js`, `boothRoutes.js`) -/

/-- The object that `getStats` returns. -/
structure Stats where
  totalMembers : Nat
  totalVoted : Nat
  votingPercentage : ℚ
  totalVotes : Int
  candidatesCount : Nat
  deriving DecidableEq, Repr, Inhabited

/-- The method `getStats`. -/
def Booth.getStats (b : Booth) : Stats :=
  let totalMembers := b.members.length
  let totalVoted := (b.members.filter (fun m => m.hasVoted)).length
  let votingPercentage : ℚ :=
    if totalMembers > 0 then toNumber (toNumber ((totalVoted : ℚ) / totalMembers) * 100) else 0
  { totalMembers := totalMembers, totalVoted := totalVoted,
    votingPercentage := toNumber ((mathRound (toNumber (votingPercentage * 100)) : ℚ) / 100),
    totalVotes := b.totalVotes, candidatesCount := b.candidates.length }

/-- One entry of the array `candidates` in the results of `getResults`. -/
structure CandidateResult where
  index : Nat
  name : String
  description : String
  voteCount : Int
  percentage : ℚ
  deriving DecidableEq, Repr, Inhabited

/-- The array `candidates` of the results of `getResults`, from position `i`
on. -/
def candidateResultsFrom (totalVotes : Int) : Nat → List Candidate → List CandidateResult
  | _, [] => []
  | i, c :: rest =>
    { index := i, name := c.name, description := c.description, voteCount := c.voteCount,
      percentage := roundedPercent c.voteCount totalVotes } ::
      candidateResultsFrom totalVotes (i + 1) rest

/-- The object `results` that `getResults` sends. -/
structure Results where
  boothId : String
  boothName : String
  status : Status
  totalVotes : Int
  statistics : Stats
  candidates : List CandidateResult
  votingAllowed : VotingStatus
  userHasVoted : Bool
  isCreator : Bool
  deriving DecidableEq, Repr, Inhabited

/-- A response of `getResults`: the status code and the error text, or the
results. -/
structure ResultsResponse where
  status : Nat
  error : Option String := none
  results : Option Results := none
  deriving DecidableEq, Repr, Inhabited

/-- The parts of the request that the results operations read. -/
structure ResultsRequest where
  boothId : String
  userId : String

/-- The object `results` of `getResults` for a booth. -/
def Booth.results (b : Booth) (userId : String) (isCreator : Bool) (now : Int) : Results :=
  { boothId := b.id, boothName := b.name, status := b.status, totalVotes := b.totalVotes,
    statistics := b.getStats,
    candidates := candidateResultsFrom b.totalVotes 0 b.candidates,
    votingAllowed := b.isVotingAllowed now,
    userHasVoted := b.hasUserVoted userId, isCreator := isCreator }

/-- The handler `exports.getResults`. The creator is populated; when the user
document of the creator is missing, reading `booth.creator._id` throws and the
`catch` answers. -/
def getResults (js : Builtins) (db : Db) (req : ResultsRequest) (now : Int) : ResultsResponse :=
  if !js.isMongoId req.boothId then { status := 404, error := some "Invalid booth ID" }
  else
    match db.findBoothById req.boothId with
    | none => { status := 404, error := some "Booth not found" }
    | some booth =>
      match db.findUserById booth.creator with
      | none => { status := 500, error := some "Failed to fetch results" }
      | some creator =>
        let isCreator := creator.id == req.userId
        let isMember := booth.isMember req.userId
        if !isCreator && !booth.settings.resultsVisibleToVoters then
          { status := 403, error := some "Results are not visible to voters" }
        else if !isCreator && !isMember then
          { status := 403, error := some "You must be a member to view results" }
        else
          { status := 200, results := some (booth.results req.userId isCreator now) }

/-- One entry of the array `candidates` in the results of the results route:
the fields of the candidate and the percentage. -/
structure RouteCandidate where
  name : String
  description : String
  voteCount : Int
  percentage : ℚ
  deriving DecidableEq, Repr, Inhabited

/-- The object `data` that the results route sends: the booth, the results and
the permissions. -/
structure RouteResults where
  boothId : String
  boothName : String
  boothDescription : String
  creator : String
  candidates : List RouteCandidate
  totalVotes : Int
  stats : Stats
  isCreator : Bool
  deriving DecidableEq, Repr, Inhabited

/-- A response of the results route. -/
structure RouteResultsResponse where
  status : Nat
  error : Option String := none
  data : Option RouteResults := none
  deriving DecidableEq, Repr, Inhabited

/-- The object `data` of the results route for a booth; `totalVotes` is the sum
of the tallies. -/
def Booth.routeResults (b : Booth) (creator : String) (isCreator : Bool) : RouteResults :=
  let totalVotes := b.candidates.foldl (fun sum c => sum + c.voteCount) 0
  { boothId := b.id, boothName := b.name, boothDescription := b.description, creator := creator,
    candidates := b.candidates.map (fun c =>
      { name := c.name, description := c.description, voteCount := c.voteCount,
        percentage := roundedPercent c.voteCount totalVotes }),
    totalVotes := totalVotes, stats := b.getStats, isCreator := isCreator }

/-- The route `GET /api/:boothId/results`. The ids are those of documents; a
path parameter that does not cast to an id is not modelled. -/
def resultsRoute (db : Db) (req : ResultsRequest) : RouteResultsResponse :=
  match db.findBoothById req.boothId with
  | none => { status := 404, error := some "Booth not found" }
  | some booth =>
    match db.findUserById booth.creator with
    | none => { status := 500, error := some "Failed to load results" }
    | some creator =>
      let isCreator := creator.id == req.userId
      let isMember := booth.isMember req.userId
      if !isCreator && !booth.settings.resultsVisibleToVoters then
        { status := 403, error := some "Results are not visible to voters" }
      else if !isCreator && !isMember then
        { status := 403, error := some "You must be a member to view results" }
      else
        { status := 200, data := some (booth.routeResults creator.id isCreator) }

/-- A booth document with 160 members, of whom the first `voted` have voted,
with `a` votes for candidate `A` and `b` votes for candidate `B`. -/
def ballotBooth (voted a b : Nat) : Booth :=
  { id := lunchId, name := "Ballot", description := "A booth with 160 members",
    creator := ann, inviteCode := "AAAAAA",
    candidates := [⟨"A", "", a⟩, ⟨"B", "", b⟩],
    members := (List.range 160).map (fun i =>
      { user := String.mk (natDigits i), joinedAt := 2, hasVoted := decide (i < voted) }),
    maxMembers := 200, status := Status.active,
    settings := default,
    totalVotes := a + b, createdAt := 1, updatedAt := 3 }

/-- The concrete run continued after the vote of `bob`: `ann` votes for
candidate 1 at time 6. -/
def afterBothVoted : Db :=
  (vote asciiRuntime (afterVote none false false) (voteReq ann "1") 6).2

/-- A database that holds the booth with 160 members and the tallies 23 and
137, and the user document of its creator. -/
def ballotDb : Db :=
  { booths := [ballotBooth 160 23 137], votes := [], users := db0.users }

/-- The request that creates the booth of the concrete run with the setting
`resultsVisibleToVoters`. -/
def openRequest : CreateRequest :=
  { lunchRequest none false false with formResultsVisibleToVoters := some "on" }

/-- The database after `ann` created the booth with visible results at time 1
and `bob` joined it at time 2. -/
def openDb : Db :=
  match createBooth asciiRuntime db0 openRequest 1 lunchId (fun _ => 0) 1 with
  | some (_, db) => (joinBooth asciiRuntime db (joinReq bob) 2).2
  | none => db0

/-- The expression `Math.floor(Math.random() * chars.length)` of
`generateInviteCode`, for the double `r` that `Math.random` returned and the 36
characters of the alphabet. -/
def randomIndex (r : ℚ) : Int := ⌊toNumber (r * 36)⌋

/-- A form request of `ann` to create a booth with a single candidate. -/
def soloRequest : CreateRequest :=
  { lunchRequest none false false with
    acceptsHtml := true, candidates := none, formCandidates := [⟨0, "A", none⟩, ⟨1, "  ", none⟩] }

/-- A request to create a booth with the JSON number 0 as `maxMembers`. -/
def zeroRequest : CreateRequest := { lunchRequest none false false with maxMembers := .number 0 }

/-- A request of the creator to rename the booth of the concrete run, with the
form value `0` as `maxMembers`. -/
def zeroEdit : EditRequest := ⟨lunchId, ann, some "Dinner", none, .text "0"⟩

/-! ## Invite-code regeneration and the creator-only operations -/

/-- Whether a booth of the collection holds the invite code. -/
def Db.codeHeld (db : Db) (code : String) : Bool :=
  db.booths.any (fun x => x.inviteCode == code)

/-- Whether a booth of the collection other than `self` holds the invite code. -/
def Db.codeHeldByOther (db : Db) (self : Booth) (code : String) : Bool :=
  db.booths.any (fun x => x.inviteCode == code && x.id != self.id)

/-- The loop of `generateNewInviteCode`: codes are generated until `findOne`
returns no booth or the booth itself. `fuel` bounds the number of iterations;
`none` means the bound was reached. -/
def regenerateInviteCode (db : Db) (self : Booth) (rng : Nat → Fin 36) :
    Nat → Nat → Option String
  | 0, _ => none
  | fuel + 1, pos =>
    let code := generateInviteCode rng pos
    match db.findBoothByInviteCode code with
    | none => some code
    | some existing =>
      if existing.id == self.id then some code
      else regenerateInviteCode db self rng fuel (pos + 6)

/-- The method `generateNewInviteCode`: the loop, the assignment of the code and
`save()`. The setter `uppercase` of the field leaves a generated code as it
is. -/
def Booth.generateNewInviteCode (b : Booth) (db : Db) (rng : Nat → Fin 36) (fuel : Nat)
    (now : Int) : Option (Except String (Booth × Db)) :=
  match regenerateInviteCode db b rng fuel 0 with
  | none => none
  | some code => some (db.saveBooth { b with inviteCode := code } now)

/-- A response of `resetInviteCode`. -/
structure InviteResponse where
  status : Nat
  error : Option String := none
  message : Option String := none
  inviteCode : Option String := none
  inviteLink : Option String := none
  deriving DecidableEq, Repr, Inhabited

/-- The parts of the request that `resetInviteCode` reads. -/
structure ResetRequest where
  boothId : String
  userId : String
  protocol : String
  host : String

/-- The handler `exports.resetInviteCode`. -/
def resetInviteCode (js : Builtins) (db : Db) (req : ResetRequest) (rng : Nat → Fin 36)
    (fuel : Nat) (now : Int) : Option (InviteResponse × Db) :=
  if !js.isMongoId req.boothId then
    some ({ status := 404, error := some "Invalid booth ID" }, db)
  else
    match db.findBoothById req.boothId with
    | none => some ({ status := 404, error := some "Booth not found" }, db)
    | some booth =>
      if booth.creator != req.userId then
        some ({ status := 403, error := some "Only booth creator can reset invite code" }, db)
      else
        match booth.generateNewInviteCode db rng fuel now with
        | none => none
        | some (.error _) =>
          some ({ status := 500, error := some "Failed to reset invite code" }, db)
        | some (.ok (doc, db1)) =>
          some ({ status := 200, message := some "Invite code reset successfully",
                  inviteCode := some doc.inviteCode,
                  inviteLink := some (req.protocol ++ "://" ++ req.host ++ "/booth/join/" ++
                    doc.inviteCode) }, db1)

/-- The text of a value of `status`. -/
def Status.text : Status → String
  | .draft => "draft"
  | .active => "active"
  | .closed => "closed"
  | .archived => "archived"

/-- A response of `toggleBoothStatus`. -/
structure StatusResponse where
  status : Nat
  error : Option String := none
  message : Option String := none
  boothStatus : Option Status := none
  deriving DecidableEq, Repr, Inhabited

/-- The parts of the request that `toggleBoothStatus` reads. -/
structure ToggleRequest where
  boothId : String
  userId : String

/-- The handler `exports.toggleBoothStatus`. -/
def toggleBoothStatus (js : Builtins) (db : Db) (req : ToggleRequest) (now : Int) :
    StatusResponse × Db :=
  if !js.isMongoId req.boothId then
    ({ status := 404, error := some "Invalid booth ID" }, db)
  else
    match db.findBoothById req.boothId with
    | none => ({ status := 404, error := some "Booth not found" }, db)
    | some booth =>
      if booth.creator != req.userId then
        ({ status := 403, error := some "Only booth creator can toggle status" }, db)
      else
        let newStatus := if booth.status = Status.active then Status.closed else Status.active
        match db.saveBooth { booth with status := newStatus } now with
        | .error _ => ({ status := 500, error := some "Failed to toggle booth status" }, db)
        | .ok (_, db1) =>
          ({ status := 200, message := some ("Booth status changed to " ++ newStatus.text),
             boothStatus := some newStatus }, db1)

/-- The body of a request to `updateBoothSettings`, key by key; `none` is an
absent key. A flag is a JSON boolean and the domains are a JSON array of
strings. A date key holds `null` (`some none`) or a string. -/
structure SettingsBody where
  resultsVisibleToVoters : Option Bool := none
  anonymousVoting : Option Bool := none
  allowVoteChange : Option Bool := none
  showLiveResults : Option Bool := none
  allowMultipleVotes : Option Bool := none
  requireEmailVerification : Option Bool := none
  requireApproval : Option Bool := none
  publicBooth : Option Bool := none
  sendNotifications : Option Bool := none
  votingStartTime : Option (Option String) := none
  votingEndTime : Option (Option String) := none
  allowedEmailDomains : Option (List String) := none

/-- JavaScript truthiness of a date key of the body. -/
def bodyDateTruthy : Option (Option String) → Bool
  | some (some s) => !s.data.isEmpty
  | _ => false

/-- The value `new Date(v)` for a truthy date key of the body; `none` is an
invalid date. -/
def bodyDate (js : Builtins) : Option (Option String) → Option Int
  | some (some s) => js.parseDate s
  | _ => none

/-- A date path after the assignment of the merged settings: the stored value
when the key is absent, no date for `null` and the empty string, otherwise
the cast of the string. The outer `none` is a failed cast. -/
def mergedDate (js : Builtins) (stored : Option Int) : Option (Option String) →
    Option (Option Int)
  | none => some stored
  | some none => some none
  | some (some s) =>
    if s.data.isEmpty then some none
    else
      match js.parseDate s with
      | some t => some (some t)
      | none => none

/-- The settings after `booth.settings = \x7b ...booth.settings, ...settings \x7d`:
every key of the body replaces the stored value. `none` is a failed cast of a
date. -/
def mergeSettings (js : Builtins) (s : Settings) (body : SettingsBody) : Option Settings :=
  match mergedDate js s.votingStartTime body.votingStartTime,
      mergedDate js s.votingEndTime body.votingEndTime with
  | some startTime, some endTime =>
    some
      { resultsVisibleToVoters := body.resultsVisibleToVoters.getD s.resultsVisibleToVoters,
        anonymousVoting := body.anonymousVoting.getD s.anonymousVoting,
        allowVoteChange := body.allowVoteChange.getD s.allowVoteChange,
        showLiveResults := body.showLiveResults.getD s.showLiveResults,
        allowMultipleVotes := body.allowMultipleVotes.getD s.allowMultipleVotes,
        requireEmailVerification :=
          body.requireEmailVerification.getD s.requireEmailVerification,
        requireApproval := body.requireApproval.getD s.requireApproval,
        publicBooth := body.publicBooth.getD s.publicBooth,
        sendNotifications := body.sendNotifications.getD s.sendNotifications,
        votingStartTime := startTime,
        votingEndTime := endTime,
        allowedEmailDomains :=
          match body.allowedEmailDomains with
          | some domains => domains.map js.toLowerCase
          | none => s.allowedEmailDomains }
  | _, _ => none

/-- A response of `updateBoothSettings`. -/
structure SettingsResponse where
  status : Nat
  error : Option String := none
  message : Option String := none
  settings : Option Settings := none
  deriving DecidableEq, Repr, Inhabited

/-- The parts of the request that `updateBoothSettings` reads. -/
structure SettingsRequest where
  boothId : String
  userId : String
  body : SettingsBody

/-- The handler `exports.updateBoothSettings`. The two dates are compared only
when both keys of the body are truthy. -/
def updateBoothSettings (js : Builtins) (db : Db) (req : SettingsRequest) (now : Int) :
    SettingsResponse × Db :=
  if !js.isMongoId req.boothId then
    ({ status := 404, error := some "Invalid booth ID" }, db)
  else
    match db.findBoothById req.boothId with
    | none => ({ status := 404, error := some "Booth not found" }, db)
    | some booth =>
      if booth.creator != req.userId then
        ({ status := 403, error := some "Only booth creator can update settings" }, db)
      else if bodyDateTruthy req.body.votingStartTime && bodyDateTruthy req.body.votingEndTime &&
          dateGe (bodyDate js req.body.votingStartTime) (bodyDate js req.body.votingEndTime) then
        ({ status := 400, error := some "Voting end time must be after start time" }, db)
      else
        match mergeSettings js booth.settings req.body with
        | none => ({ status := 500, error := some "Failed to update settings" }, db)
        | some merged =>
          match db.saveBooth { booth with settings := merged } now with
          | .error _ => ({ status := 500, error := some "Failed to update settings" }, db)
          | .ok (doc, db1) =>
            ({ status := 200, message := some "Settings updated successfully",
               settings := some doc.settings }, db1)

/-- A random source whose first six draws are 0 and whose later draws are 1: the
first candidate code is `AAAAAA`, the following ones are `BBBBBB`. -/
def secondDraw : Nat → Fin 36 := fun i => if i < 6 then 0 else 1

/-- The request of the creator of the booth of the concrete run to set the
start of the voting window to the instant 300. -/
def lateStart : SettingsRequest :=
  ⟨lunchId, ann, { votingStartTime := some (some "300") }⟩

/-- The database after `ann` created the booth with the end of the voting window
at the instant 200 and then set its start to the instant 300 at time 2. -/
def afterLateStart : Db :=
  (updateBoothSettings asciiRuntime (afterCreate (some "200") false false) lateStart 2).2

/-! ## The booth-details operations (`getBoothDetails`, `GET /api/:boothId`) -/

/-- A populated user reference: the fields `_id` and `email` of the user
document. The name of a user is not part of the model. -/
structure PopulatedUser where
  id : String
  email : Option String
  deriving DecidableEq, Repr, Inhabited

/-- The search that `isMember` and `hasUserVoted` make in a booth whose path
`members.user` is populated: the first entry whose `member.user.toString()`
equals the id of the caller. `docToString` is the text that `toString()` gives
for a populated user document. The outer `none` is the error thrown when the
user document of an entry is missing. -/
def findMemberPopulated (docToString : User → String) (db : Db) :
    List Member → String → Option (Option Member)
  | [], _ => some none
  | m :: rest, userId =>
    match db.findUserById m.user with
    | none => none
    | some u =>
      if docToString u == userId then some (some m)
      else findMemberPopulated docToString db rest userId

/-- One entry of the array `candidates` that `getBoothDetails` sends; `none` is
`undefined`. -/
structure DetailCandidate where
  name : String
  description : String
  voteCount : Option Int
  deriving DecidableEq, Repr, Inhabited

/-- The object `response.booth` of `getBoothDetails`; `none` is `undefined`. -/
structure BoothDetails where
  id : String
  name : String
  description : String
  creator : PopulatedUser
  memberCount : Nat
  maxMembers : Int
  status : Status
  inviteCode : Option String
  inviteLink : Option String
  settings : Settings
  candidates : List DetailCandidate
  hasVoted : Bool
  isCreator : Bool
  votingStatus : VotingStatus
  members : Option (List Member)
  deriving DecidableEq, Repr, Inhabited

/-- A response of `getBoothDetails`. -/
structure DetailsResponse where
  status : Nat
  kind : ResponseKind
  target : Option String := none
  error : Option String := none
  booth : Option BoothDetails := none
  deriving DecidableEq, Repr, Inhabited

/-- The parts of the request that `getBoothDetails` reads. -/
structure DetailsRequest where
  boothId : String
  userId : String
  acceptsHtml : Bool
  protocol : String
  host : String

/-- An error response of `getBoothDetails`. -/
def detailsError (acceptsHtml : Bool) (status : Nat) (e : String) : DetailsResponse :=
  if acceptsHtml then { status := status, kind := .render, target := some "error", error := some e }
  else { status := status, kind := .json, error := some e }

/-- The object `response.booth` that `getBoothDetails` builds for a booth, the
populated creator and the entry of the caller in `members`. -/
def Booth.details (b : Booth) (creator : User) (found : Option Member) (isCreator : Bool)
    (req : DetailsRequest) (now : Int) : BoothDetails :=
  { id := b.id, name := b.name, description := b.description,
    creator := ⟨creator.id, creator.email⟩,
    memberCount := b.members.length, maxMembers := b.maxMembers, status := b.status,
    inviteCode := if isCreator then some b.inviteCode else none,
    inviteLink :=
      if isCreator then some (req.protocol ++ "://" ++ req.host ++ "/booth/join/" ++ b.inviteCode)
      else none,
    settings := b.settings,
    candidates := b.candidates.map (fun c =>
      { name := c.name, description := c.description,
        voteCount := if isCreator || b.settings.resultsVisibleToVoters then some c.voteCount
          else none }),
    hasVoted :=
      match found with
      | some m => m.hasVoted
      | none => false,
    isCreator := isCreator,
    votingStatus := b.isVotingAllowed now,
    members := if isCreator then some b.members else none }

/-- The statements of `getBoothDetails` after the booth was found. -/
def Booth.detailsResponse (docToString : User → String) (db : Db) (booth : Booth)
    (req : DetailsRequest) (now : Int) : DetailsResponse :=
  match findMemberPopulated docToString db booth.members req.userId,
      db.findUserById booth.creator with
  | some found, some creator =>
    let isMember := found.isSome
    let isCreator := creator.id == req.userId
    if !isMember && !isCreator then
      detailsError req.acceptsHtml 403 "Access denied. You are not a member of this booth."
    else if req.acceptsHtml then
      { status := 200, kind := .render, target := some "booth/detail",
        booth := some (booth.details creator found isCreator req now) }
    else
      { status := 200, kind := .json,
        booth := some (booth.details creator found isCreator req now) }
  | _, _ => detailsError req.acceptsHtml 500 "Failed to fetch booth details"

/-- The handler `exports.getBoothDetails`. The creator and the users of the
members are populated; a missing user document makes the handler throw, and
the `catch` answers. -/
def getBoothDetails (docToString : User → String) (js : Builtins) (db : Db)
    (req : DetailsRequest) (now : Int) : DetailsResponse :=
  if !js.isMongoId req.boothId then detailsError req.acceptsHtml 404 "Invalid booth ID"
  else
    match db.findBoothById req.boothId with
    | none => detailsError req.acceptsHtml 404 "Booth not found"
    | some booth => booth.detailsResponse docToString db req now

/-- The object `permissions` of the details route. -/
structure RoutePermissions where
  isCreator : Bool
  isMember : Bool
  hasVoted : Bool
  canVote : Bool
  deriving DecidableEq, Repr, Inhabited

/-- The object `booth` of the details route; `none` is `undefined`. -/
structure RouteBooth where
  id : String
  name : String
  description : String
  creator : PopulatedUser
  candidates : List Candidate
  members : List Member
  settings : Settings
  status : Status
  createdAt : Int
  inviteCode : Option String
  totalVotes : Int
  deriving DecidableEq, Repr, Inhabited

/-- The object `data` of the details route. -/
structure RouteDetails where
  booth : RouteBooth
  permissions : RoutePermissions
  votingStatus : VotingStatus
  stats : Stats
  deriving DecidableEq, Repr, Inhabited

/-- A response of the details route. -/
structure RouteDetailsResponse where
  status : Nat
  error : Option String := none
  data : Option RouteDetails := none
  deriving DecidableEq, Repr, Inhabited

/-- The route `GET /api/:boothId`. The ids are those of documents; a path
parameter that does not cast to an id is not modelled. The candidates, with
their tallies, `totalVotes` and the statistics are sent to every caller who
passed the membership test. -/
def detailsRoute (docToString : User → String) (db : Db) (req : ResultsRequest) (now : Int) :
    RouteDetailsResponse :=
  match db.findBoothById req.boothId with
  | none => { status := 404, error := some "Booth not found" }
  | some booth =>
    match findMemberPopulated docToString db booth.members req.userId,
        db.findUserById booth.creator with
    | some found, some creator =>
      let isMember := found.isSome
      let isCreator := creator.id == req.userId
      let hasVoted :=
        match found with
        | some m => m.hasVoted
        | none => false
      if !isMember && !isCreator then
        { status := 403,
          error := some "You are not a member of this booth. Please join using an invite code." }
      else
        let votingStatus := booth.isVotingAllowed now
        { status := 200,
          data := some
            { booth :=
                { id := booth.id, name := booth.name, description := booth.description,
                  creator := ⟨creator.id, creator.email⟩, candidates := booth.candidates,
                  members := booth.members, settings := booth.settings, status := booth.status,
                  createdAt := booth.createdAt,
                  inviteCode := if isCreator then some booth.inviteCode else none,
                  totalVotes := booth.totalVotes },
              permissions :=
                { isCreator := isCreator, isMember := isMember, hasVoted := hasVoted,
                  canVote := votingStatus.allowed && !hasVoted },
              votingStatus := votingStatus,
              stats := booth.getStats } }
    | _, _ => { status := 500, error := some "Failed to load booth details" }

/-- A booth document with every tally and `totalVotes` set to 0: two booth
documents that differ only in the tallies and in `totalVotes` have the same
image. -/
def Booth.withoutTallies (b : Booth) : Booth :=
  { b with candidates := b.candidates.map (fun c => { c with voteCount := 0 }), totalVotes := 0 }

/-- The request that creates the booth of the concrete run with room for three
members. -/
def trioRequest : CreateRequest := { lunchRequest none false false with maxMembers := .number 3 }

/-- The database after `ann` created the booth with room for three members,
`bob` and `cyd` joined it, and `bob` voted for the candidate with index `i` at
time 5. -/
def trioDb (i : String) : Db :=
  match createBooth asciiRuntime db0 trioRequest 1 lunchId (fun _ => 0) 1 with
  | some (_, db) =>
    (vote asciiRuntime
      (joinBooth asciiRuntime (joinBooth asciiRuntime db (joinReq bob) 2).2 (joinReq cyd) 3).2
      (voteReq bob i) 5).2
  | none => db0


/-- The request that creates a booth for five members whose setting
`allowedEmailDomains` is the one entry `@org.edu`, written with a leading
`@`. -/
def atCampusRequest : CreateRequest :=
  { lunchRequest none false false with
    maxMembers := .number 5, formAllowedEmailDomains := some "@org.edu" }

/-- The database after `ann` created the booth with the entry `@org.edu` at
time 1. -/
def atCampusDb : Db :=
  match createBooth asciiRuntime campusDb0 atCampusRequest 1 lunchId (fun _ => 0) 1 with
  | some (_, db) => db
  | none => campusDb0

/-- A text for a populated user document that begins with a brace, as the
inspect text of a document does, and so is the id of no caller: the id of the
document between braces. -/
def inspectText (u : User) : String := String.mk ('\x7b' :: ' ' :: u.id.data ++ [' ', '\x7d'])

/-! ## Theorems -/

theorem digitChar_decimal : ∀ m : Fin 10,
    isDecimalDigit (Nat.digitChar m.val) ∧ digitValue (Nat.digitChar m.val) = some m.val := by
  unfold isDecimalDigit
  decide

theorem digitChar_mod (n : Nat) :
    isDecimalDigit (Nat.digitChar (n % 10)) ∧
    digitValue (Nat.digitChar (n % 10)) = some (n % 10) :=
  digitChar_decimal ⟨n % 10, Nat.mod_lt _ (by decide)⟩

theorem digitsValue_foldl (r : Nat) (l : List Char) (a : Nat) :
    l.foldl (fun acc c => acc * r + (digitValue c).getD 0) a
      = a * r ^ l.length + digitsValue r l := by
  unfold digitsValue
  induction l generalizing a with
  | nil => simp
  | cons c t ih =>
    simp only [List.foldl_cons, List.length_cons]
    rw [ih, ih (0 * r + _)]
    ring

theorem digitsValue_cons (r : Nat) (c : Char) (l : List Char) :
    digitsValue r (c :: l) = (digitValue c).getD 0 * r ^ l.length + digitsValue r l := by
  have := digitsValue_foldl r l (0 * r + (digitValue c).getD 0)
  unfold digitsValue at this ⊢
  simp only [List.foldl_cons]
  rw [this]
  ring

theorem toDigitsCore_decimal (fuel n : Nat) (acc : List Char)
    (h : ∀ c ∈ acc, isDecimalDigit c) :
    ∀ c ∈ Nat.toDigitsCore 10 fuel n acc, isDecimalDigit c := by
  induction fuel generalizing n acc with
  | zero => simpa [Nat.toDigitsCore] using h
  | succ f ih =>
    have hacc : ∀ c ∈ Nat.digitChar (n % 10) :: acc, isDecimalDigit c := by
      intro c hc
      rcases List.mem_cons.mp hc with rfl | hc
      · exact (digitChar_mod n).1
      · exact h c hc
    unfold Nat.toDigitsCore
    simp only
    split
    · exact hacc
    · exact ih _ _ hacc

theorem toDigitsCore_value (fuel n : Nat) (acc : List Char) (h : n < fuel) :
    digitsValue 10 (Nat.toDigitsCore 10 fuel n acc)
      = n * 10 ^ acc.length + digitsValue 10 acc := by
  induction fuel generalizing n acc with
  | zero => omega
  | succ f ih =>
    unfold Nat.toDigitsCore
    simp only
    have hd := (digitChar_mod n).2
    split
    · rename_i h0
      rw [digitsValue_cons, hd]
      have : n % 10 = n := by omega
      simp [this]
    · rename_i h0
      rw [ih (n / 10) _ (by omega), digitsValue_cons, hd]
      simp only [List.length_cons, Option.getD_some]
      have := Nat.div_add_mod n 10
      have e : n / 10 * 10 ^ (acc.length + 1) + n % 10 * 10 ^ acc.length
          = (10 * (n / 10) + n % 10) * 10 ^ acc.length := by ring
      rw [← add_assoc, e, this]

theorem toDigitsCore_ne_nil (fuel n : Nat) (acc : List Char) :
    Nat.toDigitsCore 10 (fuel + 1) n acc ≠ [] := by
  induction fuel generalizing n acc with
  | zero =>
    unfold Nat.toDigitsCore
    simp only
    split
    · simp
    · simp [Nat.toDigitsCore]
  | succ f ih =>
    unfold Nat.toDigitsCore
    simp only
    split
    · simp
    · exact ih _ _

theorem natDigits_spec (n : Nat) :
    natDigits n ≠ [] ∧ (∀ c ∈ natDigits n, isDecimalDigit c) ∧ digitsValue 10 (natDigits n) = n := by
  unfold natDigits Nat.toDigits
  refine ⟨toDigitsCore_ne_nil _ _ _, toDigitsCore_decimal _ _ _ (by simp), ?_⟩
  rw [toDigitsCore_value _ _ _ (by omega)]
  simp [digitsValue]

theorem decimal_facts (c : Char) (h : isDecimalDigit c) :
    isStrWhiteSpaceChar c = false ∧ c ≠ '-' ∧ c ≠ '+' ∧ c ≠ 'x' ∧ c ≠ 'X' ∧
    isRadixDigit 10 c = true := by
  unfold isDecimalDigit at h
  obtain ⟨h1, h2⟩ := h
  refine ⟨?_, ?_, ?_, ?_, ?_, ?_⟩
  · unfold isStrWhiteSpaceChar
    simp only [Bool.or_eq_false_iff, Bool.and_eq_false_iff, beq_eq_false_iff_ne, ne_eq,
      decide_eq_false_iff_not]
    omega
  · rintro rfl; revert h1; decide
  · rintro rfl; revert h1; decide
  · rintro rfl; revert h2; decide
  · rintro rfl; revert h2; decide
  · unfold isRadixDigit digitValue
    simp only [h1, h2, and_self, if_true, decide_eq_true_eq]
    omega

theorem takeWhile_all (p : Char → Bool) (l : List Char) (h : ∀ c ∈ l, p c = true) :
    l.takeWhile p = l := by
  induction l with
  | nil => rfl
  | cons a t ih =>
    simp only [List.takeWhile_cons, h a (List.mem_cons_self _ _), if_true]
    rw [ih (fun c hc => h c (List.mem_cons_of_mem _ hc))]

theorem parseIntChars_digits (l : List Char) (hne : l ≠ []) (hd : ∀ c ∈ l, isDecimalDigit c) :
    parseIntChars l = some (digitsValue 10 l : Int) ∧
    parseIntChars ('-' :: l) = some (-(digitsValue 10 l : Int)) := by
  obtain ⟨c, t, rfl⟩ := List.exists_cons_of_ne_nil hne
  obtain ⟨hw, hm, hp, -, -, -⟩ := decimal_facts c (hd c (List.mem_cons_self _ _))
  have hall : (c :: t).takeWhile (isRadixDigit 10) = c :: t :=
    takeWhile_all _ _ (fun x hx => (decimal_facts x (hd x hx)).2.2.2.2.2)
  have hhex : ((c :: t).take 2 == ['0', 'x'] || (c :: t).take 2 == ['0', 'X']) = false := by
    cases t with
    | nil => simp
    | cons c2 t2 =>
      obtain ⟨-, -, -, hx, hX, -⟩ :=
        decimal_facts c2 (hd c2 (List.mem_cons_of_mem _ (List.mem_cons_self _ _)))
      simp [hx, hX]
  have hminus : isStrWhiteSpaceChar '-' = false := by decide
  constructor
  · unfold parseIntChars
    simp only [List.dropWhile_cons, hw, Bool.false_eq_true, if_false, List.head?_cons]
    have e1 : (some c == some '-') = false := by simpa using hm
    have e2 : (some c == some '+') = false := by simpa using hp
    simp only [e1, e2, Bool.or_self, Bool.false_eq_true, if_false, hhex, hall]
    simp
  · unfold parseIntChars
    simp only [List.dropWhile_cons, hminus, Bool.false_eq_true, if_false, List.head?_cons,
      beq_self_eq_true, Bool.true_or, if_true, List.tail_cons, hhex, hall]
    simp

/-- The call `parseInt` on a JSON number that is an integer of magnitude below
`10^21` returns the integer. -/
theorem parseInt_number (js : Builtins) (n : Int) (h : n.natAbs < 1000000000000000000000) :
    parseInt js (.number n) = some n := by
  obtain ⟨hne, hdec, hval⟩ := natDigits_spec n.natAbs
  obtain ⟨hpos, hnegc⟩ := parseIntChars_digits (natDigits n.natAbs) hne hdec
  unfold parseInt BodyValue.toJsString numberToString
  simp only [h, if_true]
  by_cases hn : n < 0
  · simp only [hn, if_true]
    rw [hnegc, hval]
    congr 1
    omega
  · simp only [hn, if_false]
    rw [hpos, hval]
    congr 1
    omega

/-- C7. `isVotingAllowed` equals the reference decision evaluated in the order
status, start of the window, end of the window, and both time comparisons are
strict: on an active booth a request at the instant `votingStartTime` or at the
instant `votingEndTime` is allowed as far as that bound is concerned. -/
theorem isVotingAllowed_eq_votingDecision (b : Booth) (now : Int) :
    b.isVotingAllowed now = votingDecision b now ∧
    (b.status = Status.active → b.settings.votingStartTime = some now →
      (b.isVotingAllowed now).reason ≠ some "Voting has not started yet") ∧
    (b.status = Status.active → b.settings.votingEndTime = some now →
      (b.isVotingAllowed now).reason ≠ some "Voting has ended") ∧
    (b.status = Status.active → b.settings.votingStartTime = some now →
      b.settings.votingEndTime = some now → b.isVotingAllowed now = ⟨true, none⟩) := by
  refine ⟨?_, ?_, ?_, ?_⟩
  · unfold Booth.isVotingAllowed votingDecision dateSetAnd
    cases hs : b.status <;> cases h1 : b.settings.votingStartTime <;>
      cases h2 : b.settings.votingEndTime <;> simp
  · intro hs h1
    unfold Booth.isVotingAllowed dateSetAnd
    cases h2 : b.settings.votingEndTime <;> simp [hs, h1]
    split_ifs <;> simp
  · intro hs h2
    unfold Booth.isVotingAllowed dateSetAnd
    cases h1 : b.settings.votingStartTime <;> simp [hs, h2]
    split_ifs <;> simp
  · intro hs h1 h2
    unfold Booth.isVotingAllowed dateSetAnd
    simp [hs, h1, h2]

/-- A member that `hasUserVoted` reports as having voted is a member. -/
theorem isMember_of_hasUserVoted (b : Booth) (u : String) (h : b.hasUserVoted u = true) :
    b.isMember u = true := by
  unfold Booth.hasUserVoted at h
  unfold Booth.isMember
  cases hf : b.members.find? (fun m => m.user == u) with
  | none => simp [hf] at h
  | some m =>
    have hm := List.mem_of_find?_eq_some hf
    have hp := List.find?_some hf
    exact List.any_eq_true.mpr ⟨m, hm, hp⟩

/-- The status of an error page is the status it is given, whatever the client
accepts. -/
theorem errorPage_status (a : Bool) (st : Nat) (e : Option String) :
    (errorPage a st e).status = st ∧ (errorPage a st e).error = e := by
  unfold errorPage
  cases a <;> simp

/-- C4, as amended. The error of `vote` is decided by the first failing check: a booth id
that is malformed or names no booth gives 404; then voting not allowed gives
400 with the reason of `isVotingAllowed`; then a non-member gives 403; then a
member who has voted in a booth without vote change gives 400; then an index
that `parseInt` does not read as an integer of `[0, candidates.length)` gives
400, in particular a JSON integer outside that range. Each leaves the database
as it was. A booth whose `votingEndTime` is
before `now` is refused by the first check whatever the user and the index
are. -/
theorem vote_first_failing_check (js : Builtins) (db : Db) (req : VoteRequest) (now : Int) :
    (js.isMongoId req.boothId = false →
      (vote js db req now).1.status = 404 ∧
      (vote js db req now).1.error = some "Invalid booth ID" ∧ (vote js db req now).2 = db) ∧
    (js.isMongoId req.boothId = true → db.findBoothById req.boothId = none →
      (vote js db req now).1.status = 404 ∧
      (vote js db req now).1.error = some "Booth not found" ∧ (vote js db req now).2 = db) ∧
    (∀ booth, js.isMongoId req.boothId = true → db.findBoothById req.boothId = some booth →
      ((booth.isVotingAllowed now).allowed = false →
        (vote js db req now).1.status = 400 ∧
        (vote js db req now).1.error = (booth.isVotingAllowed now).reason ∧
        (vote js db req now).2 = db) ∧
      ((booth.isVotingAllowed now).allowed = true → booth.isMember req.userId = false →
        (vote js db req now).1.status = 403 ∧
        (vote js db req now).1.error = some "You must be a member to vote" ∧
        (vote js db req now).2 = db) ∧
      ((booth.isVotingAllowed now).allowed = true → booth.isMember req.userId = true →
        booth.hasUserVoted req.userId = true → booth.settings.allowVoteChange = false →
        (vote js db req now).1.status = 400 ∧
        (vote js db req now).1.error = some "You have already voted in this booth" ∧
        (vote js db req now).2 = db) ∧
      ((booth.isVotingAllowed now).allowed = true → booth.isMember req.userId = true →
        ¬ (booth.hasUserVoted req.userId = true ∧ booth.settings.allowVoteChange = false) →
        (∀ k, parseInt js req.candidateIndex = some k →
          k < 0 ∨ k ≥ (booth.candidates.length : Int)) →
        (vote js db req now).1.status = 400 ∧
        (vote js db req now).1.error = some "Invalid candidate selection" ∧
        (vote js db req now).2 = db) ∧
      (∀ n : Int, req.candidateIndex = BodyValue.number n →
        n.natAbs < 1000000000000000000000 →
        (booth.isVotingAllowed now).allowed = true → booth.isMember req.userId = true →
        ¬ (booth.hasUserVoted req.userId = true ∧ booth.settings.allowVoteChange = false) →
        (n < 0 ∨ n ≥ (booth.candidates.length : Int)) →
        (vote js db req now).1.status = 400 ∧
        (vote js db req now).1.error = some "Invalid candidate selection" ∧
        (vote js db req now).2 = db) ∧
      (∀ stop, booth.settings.votingEndTime = some stop → stop < now →
        (booth.isVotingAllowed now).allowed = false ∧
        (booth.isVotingAllowed now).reason ≠ none ∧
        (vote js db req now).1.status = 400 ∧
        (vote js db req now).1.error = (booth.isVotingAllowed now).reason ∧
        (vote js db req now).2 = db)) := by
  have hnot : ∀ booth, js.isMongoId req.boothId = true →
      db.findBoothById req.boothId = some booth →
      (booth.isVotingAllowed now).allowed = false →
        (vote js db req now).1.status = 400 ∧
        (vote js db req now).1.error = (booth.isVotingAllowed now).reason ∧
        (vote js db req now).2 = db := by
    intro booth hid hb ha
    simp [vote, hid, hb, ha, errorPage_status]
  refine ⟨?_, ?_, ?_⟩
  · intro hid
    simp [vote, hid, errorPage_status]
  · intro hid hb
    simp [vote, hid, hb, errorPage_status]
  · intro booth hid hb
    have hidx : (booth.isVotingAllowed now).allowed = true → booth.isMember req.userId = true →
        ¬ (booth.hasUserVoted req.userId = true ∧ booth.settings.allowVoteChange = false) →
        (∀ k, parseInt js req.candidateIndex = some k →
          k < 0 ∨ k ≥ (booth.candidates.length : Int)) →
        (vote js db req now).1.status = 400 ∧
        (vote js db req now).1.error = some "Invalid candidate selection" ∧
        (vote js db req now).2 = db := by
      intro ha hm hv hk
      have hv2 : (booth.hasUserVoted req.userId && !booth.settings.allowVoteChange) = false := by
        cases h1 : booth.hasUserVoted req.userId <;>
          cases h2 : booth.settings.allowVoteChange <;> simp_all
      cases hp : parseInt js req.candidateIndex with
      | none => simp [vote, hid, hb, ha, hm, hv2, hp, errorPage_status]
      | some k =>
        have hr := hk k hp
        simp [vote, hid, hb, ha, hm, hv2, hp, hr, errorPage_status]
    refine ⟨hnot booth hid hb, ?_, ?_, hidx, ?_, ?_⟩
    · intro ha hm
      simp [vote, hid, hb, ha, hm, errorPage_status]
    · intro ha hm hv hc
      simp [vote, hid, hb, ha, hm, hv, hc, errorPage_status]
    · intro n hn hsmall ha hm hv hr
      apply hidx ha hm hv
      intro k hk
      rw [hn, parseInt_number js n hsmall] at hk
      cases hk
      exact hr
    · intro stop hs hlt
      have ha : (booth.isVotingAllowed now).allowed = false ∧
          (booth.isVotingAllowed now).reason ≠ none := by
        unfold Booth.isVotingAllowed dateSetAnd
        simp only [hs]
        split_ifs <;> simp_all
      exact ⟨ha.1, ha.2, hnot booth hid hb ha.1⟩

/-- C3, as amended. In a booth without vote change, a further vote request of a
member who has voted is refused with status 400 and the database (tallies,
`totalVotes`, members, audit records) is unchanged; the error is the
already-voted error when voting is allowed at the time of the request, and the
reason of `isVotingAllowed` when it is not. -/
theorem vote_again_refused (js : Builtins) (db : Db) (req : VoteRequest) (now : Int)
    (booth : Booth) (hid : js.isMongoId req.boothId = true)
    (hb : db.findBoothById req.boothId = some booth)
    (hc : booth.settings.allowVoteChange = false)
    (hv : booth.hasUserVoted req.userId = true) :
    (vote js db req now).1.status = 400 ∧ (vote js db req now).2 = db ∧
    ((booth.isVotingAllowed now).allowed = true →
      (vote js db req now).1.error = some "You have already voted in this booth") ∧
    ((booth.isVotingAllowed now).allowed = false →
      (vote js db req now).1.error = (booth.isVotingAllowed now).reason) := by
  have hm := isMember_of_hasUserVoted booth req.userId hv
  cases ha : (booth.isVotingAllowed now).allowed
  · simp [vote, hid, hb, ha, errorPage_status]
  · simp [vote, hid, hb, ha, hm, hv, hc, errorPage_status]

/-- Witness of `vote_first_failing_check`: `cyd`, who is not a member of the booth
of the concrete run, is answered 403. -/
theorem vote_first_failing_check_witness :
    asciiRuntime.isMongoId (voteReq cyd "0").boothId = true ∧
    (vote asciiRuntime (afterJoin none false false) (voteReq cyd "0") 5).1.status = 403 :=
  ⟨by decide,
   ((((vote_first_failing_check asciiRuntime (afterJoin none false false) (voteReq cyd "0")
      5).2.2
      ((lunchBooth (afterJoin none false false)).getD default) (by decide) (by decide)).2.1)
      (by decide) (by decide)).1⟩

/-- C3, counterexample. In the concrete run with `votingEndTime = 10` and without
vote change, `bob` has voted at time 5; his further request at time 11 is not
answered with the already-voted error but with the reason `Voting has ended`. -/
theorem vote_again_after_end_counterexample :
    (lunchBooth (afterVote (some "10") false false)).map
        (fun b => (b.settings.allowVoteChange, b.hasUserVoted bob)) = some (false, true) ∧
    (vote asciiRuntime (afterVote (some "10") false false) (voteReq bob "1") 11).1.error
      = some "Voting has ended" ∧
    (vote asciiRuntime (afterVote (some "10") false false) (voteReq bob "1") 11).1.error
      ≠ some "You have already voted in this booth" := by
  decide

/-- Witness of `vote_again_refused`: the further request of `bob` at time 6, inside
the voting window, is refused with status 400. -/
theorem vote_again_refused_witness :
    asciiRuntime.isMongoId (voteReq bob "1").boothId = true ∧
    (vote asciiRuntime (afterVote (some "10") false false) (voteReq bob "1") 6).1.status = 400 ∧
    (vote asciiRuntime (afterVote (some "10") false false) (voteReq bob "1") 6).1.error
      = some "You have already voted in this booth" :=
  ⟨by decide,
   (vote_again_refused asciiRuntime (afterVote (some "10") false false) (voteReq bob "1") 6
      ((lunchBooth (afterVote (some "10") false false)).getD default)
      (by decide) (by decide) (by decide) (by decide)).1,
   (vote_again_refused asciiRuntime (afterVote (some "10") false false) (voteReq bob "1") 6
      ((lunchBooth (afterVote (some "10") false false)).getD default)
      (by decide) (by decide) (by decide) (by decide)).2.2.1 (by decide)⟩

/-- C1, the code at the failing input. The booth of the concrete run allows vote
change and keeps the default `allowMultipleVotes = false`. After `bob` voted
for candidate 0 the tallies are `[1, 0]`. His change to candidate 1 is answered
with status 500: `markAsVoted` throws because he has voted. The tallies stay
`[1, 0]` and `totalVotes` stays 1, so candidate 0 is not back at its value
before the first vote and candidate 1 is not incremented. -/
theorem vote_change_fails_by_default :
    (lunchBooth (afterJoin none true false)).map Booth.tallies = some [0, 0] ∧
    (lunchBooth (afterVote none true false)).map Booth.tallies = some [1, 0] ∧
    (vote asciiRuntime (afterVote none true false) (voteReq bob "1") 6).1.status = 500 ∧
    (lunchBooth (vote asciiRuntime (afterVote none true false) (voteReq bob "1") 6).2).map
      Booth.tallies = some [1, 0] ∧
    (lunchBooth (vote asciiRuntime (afterVote none true false) (voteReq bob "1") 6).2).map
      (fun b => b.totalVotes) = some 1 := by
  decide

/-- C5, the code at the failing input. In the same run the change request of `bob`
passes the four checks of the handler and fails the already-voted check of
`markAsVoted`; it ends in the error response with status 500, and the audit
record of his first vote, present before the request, is gone after it. -/
theorem failed_vote_change_deletes_audit_record :
    (vote asciiRuntime (afterVote none true false) (voteReq bob "1") 6).1.status = 500 ∧
    (vote asciiRuntime (afterVote none true false) (voteReq bob "1") 6).1.error
      = some "Failed to record vote. Please try again." ∧
    (afterVote none true false).votes = [⟨lunchId, bob, 0, "A", 5, none, none⟩] ∧
    (vote asciiRuntime (afterVote none true false) (voteReq bob "1") 6).2.votes = [] ∧
    (vote asciiRuntime (afterVote none true false) (voteReq bob "1") 6).2.booths
      = (afterVote none true false).booths := by
  decide

theorem find_replace (l : List Booth) (d b : Booth) (id : String)
    (h : l.find? (fun x => x.id == id) = some b) (hd : d.id = id) :
    (l.map (fun x => if x.id == d.id then d else x)).find? (fun x => x.id == id) = some d := by
  induction l with
  | nil => simp at h
  | cons a t ih =>
    simp only [List.map_cons, List.find?_cons] at h ⊢
    by_cases ha : a.id = id
    · simp [ha, hd]
    · have h1 : (a.id == id) = false := by simpa using ha
      have h2 : (a.id == d.id) = false := by simpa [hd] using ha
      rw [h1] at h
      simp only [h2, Bool.false_eq_true, if_false, h1]
      exact ih h

theorem validate_members (b : Booth) (ms : List Member) (t : Int) :
    ({ b with members := ms, updatedAt := t } : Booth).validate = b.validate := by
  simp [Booth.validate]

theorem mapVoteCount_length (f : Int → Int) (k : Nat) (l : List Candidate) :
    (mapVoteCount f k l).length = l.length := by
  induction l generalizing k with
  | nil => cases k <;> simp [mapVoteCount]
  | cons c t ih => cases k <;> simp [mapVoteCount, ih]

theorem mapVoteCount_get_self (f : Int → Int) (k : Nat) (l : List Candidate) (c : Candidate)
    (h : l[k]? = some c) :
    (mapVoteCount f k l)[k]? = some { c with voteCount := f c.voteCount } := by
  induction l generalizing k with
  | nil => simp at h
  | cons a t ih =>
    cases k with
    | zero => simp at h; simp [mapVoteCount, h]
    | succ n => simp at h; simpa [mapVoteCount] using ih n h

theorem mapVoteCount_get_other (f : Int → Int) (k i : Nat) (l : List Candidate) (h : i ≠ k) :
    (mapVoteCount f k l)[i]? = l[i]? := by
  induction l generalizing k i with
  | nil => cases k <;> simp [mapVoteCount]
  | cons a t ih =>
    cases k with
    | zero =>
      cases i with
      | zero => exact absurd rfl h
      | succ j => simp [mapVoteCount]
    | succ n =>
      cases i with
      | zero => simp [mapVoteCount]
      | succ j => simpa [mapVoteCount] using ih n j (by omega)

theorem mapVoteCount_all (f : Int → Int) (p : Candidate → Bool) (k : Nat) (l : List Candidate)
    (hp : ∀ c, p c = true → p { c with voteCount := f c.voteCount } = true)
    (h : l.all p = true) : (mapVoteCount f k l).all p = true := by
  induction l generalizing k with
  | nil => cases k <;> simp [mapVoteCount]
  | cons a t ih =>
    simp only [List.all_cons, Bool.and_eq_true] at h
    cases k with
    | zero => simp [mapVoteCount, hp a h.1, h.2]
    | succ n => simp only [mapVoteCount, List.all_cons, Bool.and_eq_true]; exact ⟨h.1, ih n h.2⟩

theorem setVoted_length (u : String) (l : List Member) : (setVoted u l).length = l.length := by
  induction l with
  | nil => rfl
  | cons m t ih => simp only [setVoted]; split <;> simp [ih]

theorem setVoted_users (u : String) (l : List Member) :
    (setVoted u l).map (fun m => m.user) = l.map (fun m => m.user) := by
  induction l with
  | nil => rfl
  | cons m t ih => simp only [setVoted]; split <;> simp [ih]

theorem setVoted_get_other (u : String) (l : List Member) (i : Nat) (m : Member)
    (h : l[i]? = some m) (hu : m.user ≠ u) : (setVoted u l)[i]? = some m := by
  induction l generalizing i with
  | nil => simp at h
  | cons a t ih =>
    simp only [setVoted]
    cases i with
    | zero =>
      simp at h
      subst h
      have : (a.user == u) = false := by simpa using hu
      simp [this]
    | succ j =>
      simp at h
      split
      · simpa using h
      · simpa using ih j h

theorem setVoted_find (u : String) (l : List Member) (m : Member)
    (h : l.find? (fun x => x.user == u) = some m) :
    (setVoted u l).find? (fun x => x.user == u) = some { m with hasVoted := true } := by
  induction l with
  | nil => simp at h
  | cons a t ih =>
    simp only [setVoted, List.find?_cons] at h ⊢
    by_cases ha : (a.user == u) = true
    · simp only [ha, Option.some.injEq] at h
      subst h
      simp [ha]
    · have h1 : (a.user == u) = false := by simpa using ha
      rw [h1] at h
      simp only [h1]
      simp only [Bool.false_eq_true, if_false, List.find?_cons, h1]
      exact ih h

theorem validate_congr {b b2 : Booth} (h1 : b2.name = b.name)
    (h2 : b2.description = b.description) (h3 : b2.inviteCode = b.inviteCode)
    (h4 : b2.candidates = b.candidates) (h5 : b2.maxMembers = b.maxMembers)
    (h6 : b2.totalVotes = b.totalVotes) : b2.validate = b.validate := by
  simp [Booth.validate, h1, h2, h3, h4, h5, h6]

theorem saveBooth_ok (db : Db) (b : Booth) (now : Int) (h : b.validate = true) :
    db.saveBooth b now
      = .ok ({ b with updatedAt := now }, db.replaceBooth { b with updatedAt := now }) := by
  simp [Db.saveBooth, h]

theorem validate_mapVoteCount (b : Booth) (f : Int → Int) (k : Nat) (t : Int)
    (hf : ∀ v, 0 ≤ v → 0 ≤ f v) (ht : 0 ≤ t) (h : b.validate = true) :
    ({ b with candidates := mapVoteCount f k b.candidates, totalVotes := t } : Booth).validate
      = true := by
  simp only [Booth.validate, Bool.and_eq_true] at h ⊢
  obtain ⟨⟨⟨⟨⟨⟨⟨⟨h1, h2⟩, h3⟩, h4⟩, h5⟩, h6⟩, h7⟩, h8⟩, _⟩ := h
  refine ⟨⟨⟨⟨⟨⟨⟨⟨h1, h2⟩, h3⟩, h4⟩, h5⟩, ?_⟩, h7⟩, h8⟩, ?_⟩
  · apply mapVoteCount_all _ _ _ _ _ h6
    intro c hc
    simp only [Bool.and_eq_true, decide_eq_true_eq] at hc ⊢
    exact ⟨⟨hc.1.1, hc.1.2⟩, hf _ hc.2⟩
  · simpa using ht

theorem totalVotes_nonneg_of_validate (b : Booth) (h : b.validate = true) : 0 ≤ b.totalVotes := by
  simp only [Booth.validate, Bool.and_eq_true, decide_eq_true_eq] at h
  exact h.2

theorem find_of_isMember (b : Booth) (u : String) (h : b.isMember u = true) :
    ∃ m, b.members.find? (fun x => x.user == u) = some m := by
  unfold Booth.isMember at h
  cases hf : b.members.find? (fun x => x.user == u) with
  | some m => exact ⟨m, rfl⟩
  | none =>
    rw [List.find?_eq_none] at hf
    obtain ⟨m, hm, hp⟩ := List.any_eq_true.mp h
    exact absurd hp (hf m hm)

theorem candidate_name_of_validate (b : Booth) (k : Nat) (c : Candidate)
    (h : b.validate = true) (hc : b.candidates[k]? = some c) : c.name.data.isEmpty = false := by
  simp only [Booth.validate, Bool.and_eq_true] at h
  have h6 := h.1.1.1.2
  rw [List.all_eq_true] at h6
  have := h6 c (List.getElem?_mem hc)
  simp only [Bool.and_eq_true, Bool.not_eq_true'] at this
  exact this.1.1

theorem markAsVoted_ok (b : Booth) (db : Db) (u : String) (now : Int) (m : Member)
    (hf : b.members.find? (fun x => x.user == u) = some m)
    (hv : (m.hasVoted && !b.settings.allowMultipleVotes) = false)
    (hval : b.validate = true) :
    b.markAsVoted db u now
      = .ok ({ b with members := setVoted u b.members, updatedAt := now },
             db.replaceBooth { b with members := setVoted u b.members, updatedAt := now }) := by
  have hv2 : ({ b with members := setVoted u b.members } : Booth).validate = true := by
    exact (validate_congr (b := b) rfl rfl rfl rfl rfl rfl).trans hval
  unfold Booth.markAsVoted
  simp only [hf, hv, Bool.false_eq_true, if_false]
  rw [saveBooth_ok _ _ _ hv2]

theorem incrementVote_ok (b : Booth) (db : Db) (k : Nat) (now : Int)
    (hk : k < b.candidates.length) (hval : b.validate = true) :
    b.incrementVote db (k : Int) now
      = .ok ({ b with candidates := mapVoteCount (fun v => v + 1) k b.candidates,
                      totalVotes := b.totalVotes + 1, updatedAt := now },
             db.replaceBooth
               { b with candidates := mapVoteCount (fun v => v + 1) k b.candidates,
                        totalVotes := b.totalVotes + 1, updatedAt := now }) := by
  have h0 := totalVotes_nonneg_of_validate b hval
  have hv2 := validate_mapVoteCount b (fun v => v + 1) k (b.totalVotes + 1)
    (fun v hv => by show 0 ≤ v + 1; omega) (by omega) hval
  have hr : ¬ ((k : Int) < 0 ∨ (k : Int) ≥ (b.candidates.length : Int)) := by omega
  unfold Booth.incrementVote
  simp only [hr, if_false, Int.toNat_ofNat]
  rw [saveBooth_ok _ _ _ hv2]

theorem insertVote_ok (db : Db) (v : Vote) (hn : v.candidateName.data.isEmpty = false)
    (hd : db.findVote v.booth v.voter = none) :
    db.insertVote v = .ok { db with votes := db.votes ++ [v] } := by
  have hdup : db.votes.any (fun w => w.booth == v.booth && w.voter == v.voter) = false := by
    unfold Db.findVote at hd
    rw [List.find?_eq_none] at hd
    rw [Bool.eq_false_iff]
    intro h
    obtain ⟨w, hw, hp⟩ := List.any_eq_true.mp h
    exact hd w hw hp
  simp [Db.insertVote, Vote.validate, hn, hdup]

theorem castVote_first (db : Db) (booth : Booth) (req : VoteRequest) (k : Nat) (c : Candidate)
    (now : Int) (hvalid : booth.validate = true)
    (hm : booth.isMember req.userId = true)
    (hnv : booth.hasUserVoted req.userId = false)
    (hnr : db.findVote req.boothId req.userId = none)
    (hc : booth.candidates[k]? = some c) :
    castVote db booth req (k : Int) now = .ok (c.name,
      { ((db.replaceBooth (booth.voted req.userId now)).replaceBooth
          ((booth.voted req.userId now).incremented k now)) with
        votes := db.votes ++
          [⟨req.boothId, req.userId, k, c.name, now, req.ip, req.userAgent⟩] }) := by
  obtain ⟨m, hfind⟩ := find_of_isMember booth req.userId hm
  have hmv : m.hasVoted = false := by
    simpa [Booth.hasUserVoted, hfind] using hnv
  have hlt : k < booth.candidates.length := by
    rcases Nat.lt_or_ge k booth.candidates.length with h | h
    · exact h
    · rw [List.getElem?_eq_none h] at hc; cases hc
  have hv2 : (booth.voted req.userId now).validate = true :=
    (validate_congr (b := booth) rfl rfl rfl rfl rfl rfl).trans hvalid
  have hname := candidate_name_of_validate booth k c hvalid hc
  have hget := mapVoteCount_get_self (fun v => v + 1) k booth.candidates c hc
  have h1 : voteChange db booth req = .ok (booth, db) := by
    simp [voteChange, hnv]
  have h2 := markAsVoted_ok booth db req.userId now m hfind (by simp [hmv]) hvalid
  have h3 := incrementVote_ok (booth.voted req.userId now)
    (db.replaceBooth (booth.voted req.userId now)) k now hlt hv2
  unfold castVote
  simp only [h1, h2]
  change (match (booth.voted req.userId now).incrementVote
      (db.replaceBooth (booth.voted req.userId now)) (k : Int) now with
    | .error e => _
    | .ok (booth3, db3) => _) = _
  rw [h3]
  simp only [Int.toNat_ofNat]
  change (match ((booth.voted req.userId now).incremented k now).candidates[k]? with
    | none => _
    | some candidate => _) = _
  have hget2 : ((booth.voted req.userId now).incremented k now).candidates[k]?
      = some { c with voteCount := c.voteCount + 1 } := by
    simpa [Booth.incremented, Booth.voted] using hget
  rw [hget2]
  simp only []
  rw [insertVote_ok _ _ hname (by simpa [Db.findVote, Db.replaceBooth] using hnr)]
  rfl

theorem findBoothById_id (db : Db) (id : String) (b : Booth)
    (h : db.findBoothById id = some b) : b.id = id := by
  have := List.find?_some h
  simpa using this

theorem findBoothById_replace (db : Db) (d b : Booth) (id : String)
    (h : db.findBoothById id = some b) (hd : d.id = id) :
    (db.replaceBooth d).findBoothById id = some d :=
  find_replace db.booths d b id h hd

/-- The effect of a first vote, for a booth that satisfies its schema and a voter
without audit record. -/
theorem first_vote_run (js : Builtins) (db : Db) (req : VoteRequest) (now : Int)
    (booth : Booth) (k : Nat) (c : Candidate)
    (hid : js.isMongoId req.boothId = true)
    (hb : db.findBoothById req.boothId = some booth)
    (hvalid : booth.validate = true)
    (hnr : db.findVote req.boothId req.userId = none)
    (ha : (booth.isVotingAllowed now).allowed = true)
    (hm : booth.isMember req.userId = true)
    (hnv : booth.hasUserVoted req.userId = false)
    (hk : parseInt js req.candidateIndex = some (k : Int))
    (hc : booth.candidates[k]? = some c) :
    (vote js db req now).1 =
      (if req.acceptsHtml then redirectTo ("/booth/" ++ req.boothId ++ "/results")
       else { status := 200, kind := .json, message := some "Vote recorded successfully",
              candidate := some c.name }) ∧
    (vote js db req now).2.votes =
      db.votes ++ [⟨req.boothId, req.userId, k, c.name, now, req.ip, req.userAgent⟩] ∧
    ∃ after, (vote js db req now).2.findBoothById req.boothId = some after ∧
      after.totalVotes = booth.totalVotes + 1 ∧
      after.candidates[k]? = some { c with voteCount := c.voteCount + 1 } ∧
      (∀ i, i ≠ k → after.candidates[i]? = booth.candidates[i]?) ∧
      after.candidates.length = booth.candidates.length ∧
      after.hasUserVoted req.userId = true ∧
      after.members.length = booth.members.length ∧
      (∀ (i : Nat) (m : Member), booth.members[i]? = some m → m.user ≠ req.userId →
        after.members[i]? = some m) := by
  have hcast := castVote_first db booth req k c now hvalid hm hnv hnr hc
  have hlt : k < booth.candidates.length := by
    rcases Nat.lt_or_ge k booth.candidates.length with h | h
    · exact h
    · rw [List.getElem?_eq_none h] at hc; cases hc
  have hrange : ¬ ((k : Int) < 0 ∨ (k : Int) ≥ (booth.candidates.length : Int)) := by omega
  have hvc : (booth.hasUserVoted req.userId && !booth.settings.allowVoteChange) = false := by
    simp [hnv]
  have hvote : vote js db req now =
      (if req.acceptsHtml then redirectTo ("/booth/" ++ req.boothId ++ "/results")
       else { status := 200, kind := .json, message := some "Vote recorded successfully",
              candidate := some c.name },
       { ((db.replaceBooth (booth.voted req.userId now)).replaceBooth
          ((booth.voted req.userId now).incremented k now)) with
        votes := db.votes ++
          [⟨req.boothId, req.userId, k, c.name, now, req.ip, req.userAgent⟩] }) := by
    unfold vote
    simp only [hid, hb, ha, hm, hvc, hk, hrange, hcast]
    cases req.acceptsHtml <;> simp
  have hidb := findBoothById_id db req.boothId booth hb
  have hf1 := findBoothById_replace db (booth.voted req.userId now) booth req.boothId hb hidb
  have hf2 := findBoothById_replace _ ((booth.voted req.userId now).incremented k now) _
    req.boothId hf1 hidb
  obtain ⟨m, hfind⟩ := find_of_isMember booth req.userId hm
  rw [hvote]
  refine ⟨rfl, rfl, (booth.voted req.userId now).incremented k now, hf2, rfl, ?_, ?_, ?_, ?_, ?_, ?_⟩
  · exact mapVoteCount_get_self (fun v => v + 1) k booth.candidates c hc
  · intro i hi
    exact mapVoteCount_get_other (fun v => v + 1) k i booth.candidates hi
  · exact mapVoteCount_length _ _ _
  · have := setVoted_find req.userId booth.members m hfind
    simp [Booth.hasUserVoted, Booth.incremented, Booth.voted, this]
  · exact setVoted_length _ _
  · intro i m hi hu
    exact setVoted_get_other req.userId booth.members i m hi hu

theorem joinError_error (a : Bool) (st : Nat) (e : String) :
    (joinError a st e).error = some e := by
  unfold joinError
  cases a <;> rfl

theorem addMember_ok (b : Booth) (db : Db) (u : String) (now : Int)
    (hm : b.isMember u = false) (hcap : ¬ ((b.members.length : Int) ≥ b.maxMembers))
    (hval : b.validate = true) :
    b.addMember db u now = .ok (b.admitted u now, db.replaceBooth (b.admitted u now)) := by
  have hv2 : ({ b with members := b.members ++ [{ user := u, joinedAt := now, hasVoted := false }] }
      : Booth).validate = true :=
    (validate_congr (b := b) rfl rfl rfl rfl rfl rfl).trans hval
  unfold Booth.addMember
  simp only [hm, hcap, Bool.false_eq_true, if_false]
  rw [saveBooth_ok _ _ _ hv2]
  rfl

theorem emailDomainCheck_none (js : Builtins) (db : Db) (booth : Booth) (req : JoinRequest)
    (h : emailDomainCheck js db booth req = none) :
    booth.settings.allowedEmailDomains = [] ∨
    ∃ email dom, (db.findUserById req.userId).bind (fun x => x.email) = some email ∧
      email.data ≠ [] ∧ (splitChars '@' email.data)[1]? = some dom ∧
      ∃ d ∈ booth.settings.allowedEmailDomains,
        js.toLowerCase (cleanDomain d) = js.toLowerCase (String.mk dom) := by
  unfold emailDomainCheck at h
  by_cases hd : booth.settings.allowedEmailDomains = []
  · exact Or.inl hd
  · right
    have hlen : booth.settings.allowedEmailDomains.length > 0 :=
      List.length_pos.mpr hd
    simp only [hlen, if_true] at h
    cases he : (db.findUserById req.userId).bind (fun x => x.email) with
    | none => simp [he] at h
    | some email =>
      simp only [he] at h
      by_cases hem : email.data.isEmpty = true
      · simp [hem] at h
      · simp only [hem, Bool.false_eq_true, if_false] at h
        cases hs : (splitChars '@' email.data)[1]? with
        | none => simp [hs] at h
        | some dom =>
          simp only [hs] at h
          refine ⟨email, dom, rfl, ?_, ?_, ?_⟩
          · simpa using hem
          · simpa using hs
          · by_cases hany : (booth.settings.allowedEmailDomains.any (fun allowedDomain =>
                js.toLowerCase (cleanDomain allowedDomain) == js.toLowerCase (String.mk dom))) = true
            · obtain ⟨d, hd1, hd2⟩ := List.any_eq_true.mp hany
              exact ⟨d, hd1, by simpa using hd2⟩
            · simp [hany] at h

theorem joinAdmit_booths (js : Builtins) (db : Db) (booth : Booth) (req : JoinRequest) (now : Int) :
    (joinAdmit js db booth req now).2 = db ∨
    (joinAdmit js db booth req now).2.booths
      = (db.replaceBooth (booth.admitted req.userId now)).booths := by
  unfold joinAdmit
  cases hadd : booth.addMember db req.userId now with
  | error e => left; rfl
  | ok r =>
    right
    obtain ⟨booth1, db1⟩ := r
    have hdb1 : db1 = db.replaceBooth (booth.admitted req.userId now) := by
      unfold Booth.addMember at hadd
      split at hadd
      · cases hadd
      · split at hadd
        · cases hadd
        · unfold Db.saveBooth at hadd
          split at hadd
          · simp only [Except.ok.injEq, Prod.mk.injEq] at hadd
            exact hadd.2.symm
          · cases hadd
    subst hdb1
    simp only []
    cases hu : (db.replaceBooth (booth.admitted req.userId now)).findUserById req.userId with
    | none => rfl
    | some user =>
      simp only []
      split <;> split <;> simp [Db.saveUser, Db.replaceBooth]

/-- C8. Join precondition order. For a booth found by its invite code,
`joinBooth` decides by the first applicable rule: a booth that is not active is
refused as not accepting members; else a member is answered with success and
nothing is written; else a booth with `members.length >= maxMembers` is refused
as full; else, when `allowedEmailDomains` is not empty, a user without email
and a user whose email domain matches no entry are refused with the two
email-domain errors. Each refusal leaves the database as it was. Only if none
of the rules applies does the request write, and what it writes is the booth
with the user appended to `members`. -/
theorem joinBooth_first_applicable_rule (js : Builtins) (db : Db) (req : JoinRequest) (now : Int)
    (booth : Booth)
    (hfmt : (req.code.data.isEmpty || !isInviteCodeFormat (js.toUpperCase req.code).data) = false)
    (hb : db.findBoothByInviteCode (js.toUpperCase req.code) = some booth) :
    (booth.status ≠ Status.active →
      (joinBooth js db req now).1.error = some "This booth is not accepting new members" ∧
      (joinBooth js db req now).2 = db) ∧
    (booth.status = Status.active → booth.isMember req.userId = true →
      (joinBooth js db req now).1.error = none ∧ (joinBooth js db req now).2 = db) ∧
    (booth.status = Status.active → booth.isMember req.userId = false →
      (booth.members.length : Int) ≥ booth.maxMembers →
      (joinBooth js db req now).1.error = some "This booth is full" ∧
      (joinBooth js db req now).2 = db) ∧
    (booth.status = Status.active → booth.isMember req.userId = false →
      (booth.members.length : Int) < booth.maxMembers →
      booth.settings.allowedEmailDomains ≠ [] →
      ((db.findUserById req.userId).bind (fun x => x.email) = none ∨
       (db.findUserById req.userId).bind (fun x => x.email) = some "") →
      (joinBooth js db req now).1.error
        = some "User account must have a valid email address to join this booth" ∧
      (joinBooth js db req now).2 = db) ∧
    (booth.status = Status.active → booth.isMember req.userId = false →
      (booth.members.length : Int) < booth.maxMembers →
      booth.settings.allowedEmailDomains ≠ [] →
      ∀ email dom, (db.findUserById req.userId).bind (fun x => x.email) = some email →
        email.data ≠ [] → (splitChars '@' email.data)[1]? = some dom →
        (∀ d ∈ booth.settings.allowedEmailDomains,
          js.toLowerCase (cleanDomain d) ≠ js.toLowerCase (String.mk dom)) →
        (joinBooth js db req now).1.error
          = some (domainErrorMessage booth.settings.allowedEmailDomains) ∧
        (joinBooth js db req now).2 = db) ∧
    ((joinBooth js db req now).2 ≠ db →
      (joinBooth js db req now).2.booths
        = (db.replaceBooth (booth.admitted req.userId now)).booths ∧
      booth.status = Status.active ∧ booth.isMember req.userId = false ∧
      (booth.members.length : Int) < booth.maxMembers ∧
      (booth.settings.allowedEmailDomains = [] ∨
        ∃ email dom, (db.findUserById req.userId).bind (fun x => x.email) = some email ∧
          email.data ≠ [] ∧ (splitChars '@' email.data)[1]? = some dom ∧
          ∃ d ∈ booth.settings.allowedEmailDomains,
            js.toLowerCase (cleanDomain d) = js.toLowerCase (String.mk dom))) := by
  refine ⟨?_, ?_, ?_, ?_, ?_, ?_⟩
  · intro hs
    simp [joinBooth, hfmt, hb, hs, joinError_error]
  · intro hs hm
    simp only [joinBooth, hfmt, hb, hs, hm]
    cases req.acceptsHtml <;> simp [redirectTo]
  · intro hs hm hcap
    simp [joinBooth, hfmt, hb, hs, hm, hcap, joinError_error]
  · intro hs hm hcap hd he
    have hcap2 : ¬ ((booth.members.length : Int) ≥ booth.maxMembers) := by omega
    have hlen : booth.settings.allowedEmailDomains.length > 0 := List.length_pos.mpr hd
    have hcheck : emailDomainCheck js db booth req = some (joinError req.acceptsHtml 400
        "User account must have a valid email address to join this booth") := by
      unfold emailDomainCheck
      rcases he with he | he
      · simp [hlen, he]
      · simp [hlen, he]
    simp [joinBooth, hfmt, hb, hs, hm, hcap2, hcheck, joinError_error]
  · intro hs hm hcap hd email dom he hem hdom hno
    have hcap2 : ¬ ((booth.members.length : Int) ≥ booth.maxMembers) := by omega
    have hlen : booth.settings.allowedEmailDomains.length > 0 := List.length_pos.mpr hd
    have hany : (booth.settings.allowedEmailDomains.any (fun allowedDomain =>
        js.toLowerCase (cleanDomain allowedDomain) == js.toLowerCase (String.mk dom))) = false := by
      rw [Bool.eq_false_iff]
      intro h
      obtain ⟨d, hd1, hd2⟩ := List.any_eq_true.mp h
      exact hno d hd1 (by simpa using hd2)
    have hem2 : email.data.isEmpty = false := by
      cases h : email.data with
      | nil => exact absurd h hem
      | cons a t => rfl
    have hcheck : emailDomainCheck js db booth req = some (joinError req.acceptsHtml 403
        (domainErrorMessage booth.settings.allowedEmailDomains)) := by
      unfold emailDomainCheck
      simp only [hlen, if_true, he, hem2, Bool.false_eq_true, if_false, hdom, hany, Bool.not_false]
    simp [joinBooth, hfmt, hb, hs, hm, hcap2, hcheck, joinError_error]
  · intro hne
    unfold joinBooth at hne ⊢
    simp only [hfmt, Bool.false_eq_true, if_false, hb] at hne ⊢
    by_cases hs : booth.status = Status.active
    · simp only [hs, ne_eq, not_true_eq_false, if_false] at hne ⊢
      cases hm : booth.isMember req.userId with
      | true =>
        simp only [hm, if_true] at hne
        split at hne <;> exact absurd rfl hne
      | false =>
        simp only [hm, Bool.false_eq_true, if_false] at hne ⊢
        by_cases hcap : (booth.members.length : Int) ≥ booth.maxMembers
        · simp only [hcap, if_true] at hne
          exact absurd trivial hne
        · simp only [hcap, if_false] at hne ⊢
          cases hcheck : emailDomainCheck js db booth req with
          | some r =>
            simp only [hcheck] at hne
            exact absurd trivial hne
          | none =>
            simp only [hcheck] at hne ⊢
            rcases joinAdmit_booths js db booth req now with h | h
            · exact absurd h hne
            · exact ⟨h, trivial, trivial, by omega, emailDomainCheck_none js db booth req hcheck⟩
    · simp only [ne_eq, hs, not_false_eq_true, if_true] at hne
      exact absurd trivial hne

theorem findByCode_replace (l : List Booth) (code : String) (b d : Booth)
    (h : l.find? (fun x => x.inviteCode == code) = some b)
    (hc : d.inviteCode = code) (hid : b.id = d.id) :
    (l.map (fun x => if x.id == d.id then d else x)).find? (fun x => x.inviteCode == code)
      = some d := by
  induction l with
  | nil => simp at h
  | cons a t ih =>
    simp only [List.map_cons, List.find?_cons] at h ⊢
    by_cases ha : (a.id == d.id) = true
    · simp [ha, hc]
    · have ha2 : (a.id == d.id) = false := by simpa using ha
      simp only [ha2, Bool.false_eq_true, if_false]
      by_cases hcode : (a.inviteCode == code) = true
      · simp only [hcode, Option.some.injEq] at h
        subst h
        simp [hid] at ha2
      · have hcode2 : (a.inviteCode == code) = false := by simpa using hcode
        simp only [hcode2] at h ⊢
        exact ih h

theorem isMember_admitted (b : Booth) (u : String) (now : Int) :
    (b.admitted u now).isMember u = true := by
  simp [Booth.admitted, Booth.isMember]

theorem joinBooth_member (js : Builtins) (db : Db) (req : JoinRequest) (now : Int) (booth : Booth)
    (hfmt : (req.code.data.isEmpty || !isInviteCodeFormat (js.toUpperCase req.code).data) = false)
    (hb : db.findBoothByInviteCode (js.toUpperCase req.code) = some booth)
    (hs : booth.status = Status.active) (hm : booth.isMember req.userId = true) :
    (joinBooth js db req now).1.error = none ∧ (joinBooth js db req now).2 = db := by
  simp only [joinBooth, hfmt, hb, hs, hm]
  cases req.acceptsHtml <;> simp [redirectTo]

/-- The two outcomes of a join request: for every instant the request leaves the
database as it is and is answered in the same way, or for every instant it
appends the user to the booth of the invite code. -/
theorem joinBooth_shape (js : Builtins) (db : Db) (req : JoinRequest) :
    (∀ now now2, joinBooth js db req now = joinBooth js db req now2 ∧
      (joinBooth js db req now).2 = db) ∨
    (∃ booth,
      (req.code.data.isEmpty || !isInviteCodeFormat (js.toUpperCase req.code).data) = false ∧
      db.findBoothByInviteCode (js.toUpperCase req.code) = some booth ∧
      booth.status = Status.active ∧ booth.isMember req.userId = false ∧
      (booth.members.length : Int) < booth.maxMembers ∧
      ∀ now, (joinBooth js db req now).2.booths
        = (db.replaceBooth (booth.admitted req.userId now)).booths) := by
  by_cases hfmt : (req.code.data.isEmpty || !isInviteCodeFormat (js.toUpperCase req.code).data) = true
  · left; intro now now2
    simp [joinBooth, hfmt]
  · have hfmt2 : (req.code.data.isEmpty ||
        !isInviteCodeFormat (js.toUpperCase req.code).data) = false := by simpa using hfmt
    cases hb : db.findBoothByInviteCode (js.toUpperCase req.code) with
    | none => left; intro now now2; simp [joinBooth, hfmt2, hb]
    | some booth =>
      by_cases hs : booth.status = Status.active
      · cases hm : booth.isMember req.userId with
        | true =>
          left; intro now now2
          simp only [joinBooth, hfmt2, hb, hs, hm]
          cases req.acceptsHtml <;> simp
        | false =>
          by_cases hcap : (booth.members.length : Int) ≥ booth.maxMembers
          · left; intro now now2
            simp [joinBooth, hfmt2, hb, hs, hm, hcap]
          · cases hcheck : emailDomainCheck js db booth req with
            | some r =>
              left; intro now now2
              simp [joinBooth, hfmt2, hb, hs, hm, hcap, hcheck]
            | none =>
              have hjoin : ∀ now, joinBooth js db req now = joinAdmit js db booth req now := by
                intro now
                simp [joinBooth, hfmt2, hb, hs, hm, hcap, hcheck]
              cases hval : booth.validate with
              | false =>
                left; intro now now2
                have hadd : ∀ t, booth.addMember db req.userId t
                    = .error "Booth validation failed" := by
                  intro t
                  have hv2 : ({ booth with members := booth.members ++
                      [{ user := req.userId, joinedAt := t, hasVoted := false }] }
                      : Booth).validate = false :=
                    (validate_congr (b := booth) rfl rfl rfl rfl rfl rfl).trans hval
                  simp [Booth.addMember, hm, hcap, Db.saveBooth, hv2]
                simp [hjoin, joinAdmit, hadd]
              | true =>
                right
                refine ⟨booth, hfmt2, rfl, hs, hm, by omega, ?_⟩
                intro now
                rw [hjoin]
                have hadd := addMember_ok booth db req.userId now hm hcap hval
                unfold joinAdmit
                rw [hadd]
                simp only []
                cases hu : (db.replaceBooth (booth.admitted req.userId now)).findUserById
                    req.userId with
                | none => rfl
                | some user =>
                  simp only []
                  split <;> split <;> simp [Db.saveUser, Db.replaceBooth]
      · left; intro now now2
        simp [joinBooth, hfmt2, hb, hs]

/-- C9, as amended. Two join requests in a row with the same code and user: the
database after the second equals the database after the first, so the members
list is the same. If the first was answered with success, so is the second. If
the first admitted the user, the second is answered with success, and in the
booth of the code the user was appended once and occurs in exactly one entry. -/
theorem joinBooth_twice (js : Builtins) (db : Db) (req : JoinRequest) (now now2 : Int) :
    (joinBooth js (joinBooth js db req now).2 req now2).2 = (joinBooth js db req now).2 ∧
    ((joinBooth js db req now).1.error = none →
      (joinBooth js (joinBooth js db req now).2 req now2).1.error = none) ∧
    ((joinBooth js db req now).2 ≠ db →
      (joinBooth js (joinBooth js db req now).2 req now2).1.error = none ∧
      ∃ booth, db.findBoothByInviteCode (js.toUpperCase req.code) = some booth ∧
        (joinBooth js db req now).2.findBoothByInviteCode (js.toUpperCase req.code)
          = some (booth.admitted req.userId now) ∧
        (booth.admitted req.userId now).members
          = booth.members ++ [{ user := req.userId, joinedAt := now, hasVoted := false }] ∧
        ((booth.admitted req.userId now).members.filter
          (fun m => m.user == req.userId)).length = 1) := by
  rcases joinBooth_shape js db req with h | ⟨booth, hfmt, hb, hs, hm, _, hrun⟩
  · have h1 := (h now now2).2
    refine ⟨?_, ?_, ?_⟩
    · rw [h1]; exact (h now2 now).2
    · intro he
      rw [h1, ← (h now now2).1]; exact he
    · intro hne; exact absurd h1 hne
  · have hcode : booth.inviteCode = js.toUpperCase req.code := by
      have := List.find?_some hb
      simpa using this
    have hfound : (joinBooth js db req now).2.findBoothByInviteCode (js.toUpperCase req.code)
        = some (booth.admitted req.userId now) := by
      unfold Db.findBoothByInviteCode
      rw [hrun now]
      exact findByCode_replace db.booths _ booth _ hb hcode rfl
    have hsecond := joinBooth_member js (joinBooth js db req now).2 req now2
      (booth.admitted req.userId now) hfmt hfound hs (isMember_admitted booth req.userId now)
    refine ⟨hsecond.2, fun _ => hsecond.1, fun _ => ⟨hsecond.1, booth, hb, hfound, rfl, ?_⟩⟩
    have hnone : booth.members.filter (fun m => m.user == req.userId) = [] := by
      rw [List.filter_eq_nil_iff]
      intro m hmem hp
      have : booth.isMember req.userId = true := List.any_eq_true.mpr ⟨m, hmem, hp⟩
      rw [hm] at this
      cases this
    simp [Booth.admitted, List.filter_append, hnone]

/-- C9, counterexample. The booth of the concrete run is active and full after
`bob` joined. Two join requests of `cyd` in a row are both answered with the
booth-full error: the second call returns an error, not success. -/
theorem join_twice_full_booth_counterexample :
    (lunchBooth (afterJoin none false false)).map (fun b => b.status) = some Status.active ∧
    (joinBooth asciiRuntime (afterJoin none false false) (joinReq cyd) 3).1.error
      = some "This booth is full" ∧
    (joinBooth asciiRuntime
        (joinBooth asciiRuntime (afterJoin none false false) (joinReq cyd) 3).2
        (joinReq cyd) 4).1.error = some "This booth is full" := by
  decide

/-- Witness of `joinBooth_first_applicable_rule`: the join request of `cyd` to the
full booth of the concrete run is answered with the booth-full error. -/
theorem joinBooth_first_applicable_rule_witness :
    (afterJoin none false false).findBoothByInviteCode (asciiRuntime.toUpperCase (joinReq cyd).code)
      = lunchBooth (afterJoin none false false) ∧
    (joinBooth asciiRuntime (afterJoin none false false) (joinReq cyd) 3).1.error
      = some "This booth is full" :=
  ⟨by decide,
   ((joinBooth_first_applicable_rule asciiRuntime (afterJoin none false false) (joinReq cyd) 3
      ((lunchBooth (afterJoin none false false)).getD default)
      (by decide) (by decide)).2.2.1 (by decide) (by decide) (by decide)).1⟩

theorem createError_error (a : Bool) (st : Nat) (e : String) :
    (createError a st e).error = some e := by
  unfold createError
  cases a <;> rfl

theorem formatCandidates_zero (l : List CandidateInput) :
    ∀ c ∈ formatCandidates l, c.voteCount = 0 := by
  intro c hc
  unfold formatCandidates at hc
  rw [List.mem_filter] at hc
  obtain ⟨hc, -⟩ := hc
  rw [List.mem_filterMap] at hc
  obtain ⟨x, -, hx⟩ := hc
  cases x with
  | str s => simp at hx; rw [← hx]
  | obj n d => simp at hx; rw [← hx]
  | other => simp at hx

theorem formatFormCandidates_zero (l : List FormCandidate) :
    ∀ c ∈ formatFormCandidates l, c.voteCount = 0 := by
  intro c hc
  unfold formatFormCandidates at hc
  rw [List.mem_filterMap] at hc
  obtain ⟨x, -, hx⟩ := hc
  simp only at hx
  split at hx
  · cases hx
  · simp at hx; rw [← hx]

theorem insertBooth_ok (db : Db) (user : User) (booth doc : Booth) (rng : Nat → Fin 36)
    (fuel : Nat) (db2 : Db) (h : insertBooth db user booth rng fuel = some (.ok (doc, db2))) :
    booth.validate = true ∧
    (∃ code, assignInviteCode db rng fuel 0 = some code ∧ doc = { booth with inviteCode := code }) ∧
    db.booths.any (fun x => x.id == booth.id) = false ∧
    db2.booths = db.booths ++ [doc] ∧ db2.votes = db.votes := by
  unfold insertBooth at h
  split at h
  · cases h
  · rename_i hv
    split at h
    · cases h
    · rename_i code hcode
      split at h
      · cases h
      · rename_i hdup
        simp only [Option.some.injEq, Except.ok.injEq, Prod.mk.injEq] at h
        obtain ⟨h1, h2⟩ := h
        refine ⟨by simpa using hv, ⟨code, hcode, h1.symm⟩, by simpa using hdup, ?_, ?_⟩
        · rw [← h2, ← h1]; simp [Db.saveUser]
        · rw [← h2]; simp [Db.saveUser]

theorem requestedCandidates_zero (req : CreateRequest) :
    ∀ c ∈ requestedCandidates req, c.voteCount = 0 := by
  unfold requestedCandidates
  split
  · exact formatCandidates_zero _
  · exact formatFormCandidates_zero _

/-- The two outcomes of `createBooth`: an error response and the database as it
was, or a success response and the database with the new document appended. -/
theorem createBooth_result (js : Builtins) (db : Db) (req : CreateRequest) (now : Int)
    (newId : String) (rng : Nat → Fin 36) (fuel : Nat) (resp : Response) (db1 : Db)
    (h : createBooth js db req now newId rng fuel = some (resp, db1)) :
    (db1 = db ∧ resp.error ≠ none) ∨
    (∃ code n vst vet doc,
      requestedMaxMembers js req = some n ∧
      assignInviteCode db rng fuel 0 = some code ∧
      doc = newBooth js req now newId (String.mk (trim (req.name.getD "").data))
        (String.mk (trim (req.description.getD "").data)) (requestedCandidates req) n vst vet
        (formDomains req.formAllowedEmailDomains) ∧
      doc.validate = true ∧
      db.booths.any (fun x => x.id == newId) = false ∧
      db1.booths = db.booths ++ [{ doc with inviteCode := code }] ∧
      db1.votes = db.votes ∧ resp.error = none) := by
  unfold createBooth at h
  simp only at h
  split at h
  · simp only [Option.some.injEq, Prod.mk.injEq] at h
    left; exact ⟨h.2.symm, by rw [← h.1, createError_error]; simp⟩
  · rename_i user huser
    split at h
    · simp only [Option.some.injEq, Prod.mk.injEq] at h
      left; exact ⟨h.2.symm, by rw [← h.1, createError_error]; simp⟩
    · split at h
      · simp only [Option.some.injEq, Prod.mk.injEq] at h
        left; exact ⟨h.2.symm, by rw [← h.1, createError_error]; simp⟩
      · split at h
        · simp only [Option.some.injEq, Prod.mk.injEq] at h
          left; exact ⟨h.2.symm, by rw [← h.1, createError_error]; simp⟩
        · split at h
          · simp only [Option.some.injEq, Prod.mk.injEq] at h
            left; exact ⟨h.2.symm, by rw [← h.1, createError_error]; simp⟩
          · split at h
            · simp only [Option.some.injEq, Prod.mk.injEq] at h
              left; exact ⟨h.2.symm, by rw [← h.1, createError_error]; simp⟩
            · simp only [Option.some.injEq, Prod.mk.injEq] at h
              left; exact ⟨h.2.symm, by rw [← h.1, createError_error]; simp⟩
            · simp only [Option.some.injEq, Prod.mk.injEq] at h
              left; exact ⟨h.2.symm, by rw [← h.1, createError_error]; simp⟩
            · rename_i _ _ _ n hn _ _
              split at h
              · cases h
              · simp only [Option.some.injEq, Prod.mk.injEq] at h
                left; exact ⟨h.2.symm, by rw [← h.1, createError_error]; simp⟩
              · rename_i doc db2 hins
                obtain ⟨hv, ⟨code, hcode, hdoc⟩, hdup, hb, hvotes⟩ :=
                  insertBooth_ok _ _ _ _ _ _ _ hins
                right
                refine ⟨code, n, (formDate js req.formVotingStartTime).getD none,
                  (formDate js req.formVotingEndTime).getD none, _, hn, hcode, rfl, hv, hdup,
                  ?_, ?_, ?_⟩
                · split at h <;>
                    (simp only [Option.some.injEq, Prod.mk.injEq] at h; rw [← h.2, hb, hdoc])
                · split at h <;>
                    (simp only [Option.some.injEq, Prod.mk.injEq] at h; rw [← h.2, hvotes])
                · split at h <;>
                    (simp only [Option.some.injEq, Prod.mk.injEq] at h; rw [← h.1])
                  rfl

theorem inviteChars_bmp : ∀ i : Fin 36, (inviteChars[i.val]?.getD ' ').toNat < 0x10000 := by
  decide

theorem generateInviteCode_length (rng : Nat → Fin 36) (pos : Nat) :
    jsLength (generateInviteCode rng pos).data = 6 := by
  have e : ∀ i : Fin 36,
      (if 65536 ≤ (inviteChars[i.val]?.getD ' ').toNat then 2 else 1) = 1 := by
    intro i
    have := inviteChars_bmp i
    rw [if_neg (by omega)]
  simp [generateInviteCode, jsLength, List.range, List.range.loop, e]

theorem assignInviteCode_spec (db : Db) (rng : Nat → Fin 36) (fuel pos : Nat) (code : String)
    (h : assignInviteCode db rng fuel pos = some code) :
    db.findBoothByInviteCode code = none ∧ ∃ p, code = generateInviteCode rng p := by
  induction fuel generalizing pos with
  | zero => simp [assignInviteCode] at h
  | succ n ih =>
    unfold assignInviteCode at h
    simp only at h
    split at h
    · rename_i hfree
      simp only [Option.some.injEq] at h
      subst h
      exact ⟨hfree, pos, rfl⟩
    · exact ih _ h

theorem joinBooth_admits (js : Builtins) (db : Db) (req : JoinRequest) (now : Int) (booth : Booth)
    (hfmt : (req.code.data.isEmpty || !isInviteCodeFormat (js.toUpperCase req.code).data) = false)
    (hb : db.findBoothByInviteCode (js.toUpperCase req.code) = some booth)
    (hs : booth.status = Status.active) (hm : booth.isMember req.userId = false)
    (hcap : (booth.members.length : Int) < booth.maxMembers)
    (hd : booth.settings.allowedEmailDomains = []) (hval : booth.validate = true) :
    (joinBooth js db req now).2.booths
      = (db.replaceBooth (booth.admitted req.userId now)).booths := by
  have hcap2 : ¬ ((booth.members.length : Int) ≥ booth.maxMembers) := by omega
  have hcheck : emailDomainCheck js db booth req = none := by
    simp [emailDomainCheck, hd]
  have hjoin : joinBooth js db req now = joinAdmit js db booth req now := by
    simp [joinBooth, hfmt, hb, hs, hm, hcap2, hcheck]
  rw [hjoin]
  have hadd := addMember_ok booth db req.userId now hm hcap2 hval
  unfold joinAdmit
  rw [hadd]
  simp only []
  cases hu : (db.replaceBooth (booth.admitted req.userId now)).findUserById req.userId with
  | none => rfl
  | some user =>
    simp only []
    split <;> split <;> simp [Db.saveUser, Db.replaceBooth]

theorem joinBooth_full (js : Builtins) (db : Db) (req : JoinRequest) (now : Int) (booth : Booth)
    (hfmt : (req.code.data.isEmpty || !isInviteCodeFormat (js.toUpperCase req.code).data) = false)
    (hb : db.findBoothByInviteCode (js.toUpperCase req.code) = some booth)
    (hs : booth.status = Status.active) (hm : booth.isMember req.userId = false)
    (hcap : (booth.members.length : Int) ≥ booth.maxMembers) :
    (joinBooth js db req now).1.error = some "This booth is full" ∧
    (joinBooth js db req now).2 = db := by
  simp [joinBooth, hfmt, hb, hs, hm, hcap, joinError_error]

theorem isMember_admitted_other (b : Booth) (u v : String) (now : Int) (h : v ≠ u) :
    (b.admitted u now).isMember v = b.isMember v := by
  have : (u == v) = false := by simpa using (Ne.symm h)
  simp [Booth.admitted, Booth.isMember, List.any_append, this]

/-- Capacity of a booth under a sequence of join requests of distinct users who
are not members: the first `maxMembers - members.length` of them are appended
to `members`, in order, and no other. -/
theorem joinAll_members (js : Builtins) (code : String)
    (hfmt : (code.data.isEmpty || !isInviteCodeFormat (js.toUpperCase code).data) = false)
    (us : List (String × Int)) :
    ∀ (db : Db) (booth : Booth),
      db.findBoothByInviteCode (js.toUpperCase code) = some booth →
      booth.status = Status.active → booth.validate = true →
      booth.settings.allowedEmailDomains = [] →
      (us.map Prod.fst).Nodup → (∀ p ∈ us, booth.isMember p.1 = false) →
      ∃ after, (joinAll js code db us).findBoothByInviteCode (js.toUpperCase code) = some after ∧
        after.members = booth.members ++
          (us.take (booth.maxMembers - booth.members.length).toNat).map
            (fun p => { user := p.1, joinedAt := p.2, hasVoted := false }) ∧
        after.maxMembers = booth.maxMembers ∧ after.status = Status.active := by
  induction us with
  | nil =>
    intro db booth hb hs _ _ _ _
    exact ⟨booth, hb, by simp, rfl, hs⟩
  | cons p rest ih =>
    intro db booth hb hs hval hd hnd hnm
    obtain ⟨u, t⟩ := p
    have hm : booth.isMember u = false := hnm (u, t) (List.mem_cons_self _ _)
    simp only [List.map_cons, List.nodup_cons] at hnd
    have hcode : booth.inviteCode = js.toUpperCase code := by
      have := List.find?_some hb
      simpa using this
    by_cases hcap : (booth.members.length : Int) < booth.maxMembers
    · have hrun := joinBooth_admits js db ⟨code, u, false⟩ t booth hfmt hb hs hm hcap hd hval
      have hfound : (joinBooth js db ⟨code, u, false⟩ t).2.findBoothByInviteCode
          (js.toUpperCase code) = some (booth.admitted u t) := by
        unfold Db.findBoothByInviteCode
        rw [hrun]
        exact findByCode_replace db.booths _ booth _ hb hcode rfl
      have hval2 : (booth.admitted u t).validate = true :=
        (validate_congr (b := booth) rfl rfl rfl rfl rfl rfl).trans hval
      have hnm2 : ∀ q ∈ rest, (booth.admitted u t).isMember q.1 = false := by
        intro q hq
        have hne : q.1 ≠ u := by
          intro he
          exact hnd.1 (List.mem_map.mpr ⟨q, hq, he⟩)
        rw [isMember_admitted_other booth u q.1 t hne]
        exact hnm q (List.mem_cons_of_mem _ hq)
      obtain ⟨after, ha1, ha2, ha3, ha4⟩ :=
        ih (joinBooth js db ⟨code, u, false⟩ t).2 (booth.admitted u t) hfound hs hval2 hd
          hnd.2 hnm2
      refine ⟨after, ha1, ?_, ha3, ha4⟩
      rw [ha2]
      have hk : (booth.maxMembers - (booth.members.length : Int)).toNat
          = ((booth.admitted u t).maxMembers
              - ((booth.admitted u t).members.length : Int)).toNat + 1 := by
        simp only [Booth.admitted, List.length_append, List.length_singleton]
        omega
      rw [hk]
      simp [Booth.admitted]
    · have hcap2 : (booth.members.length : Int) ≥ booth.maxMembers := by omega
      have hrun := (joinBooth_full js db ⟨code, u, false⟩ t booth hfmt hb hs hm hcap2).2
      obtain ⟨after, ha1, ha2, ha3, ha4⟩ :=
        ih db booth hb hs hval hd hnd.2 (fun q hq => hnm q (List.mem_cons_of_mem _ hq))
      refine ⟨after, ?_, ?_, ha3, ha4⟩
      · simp only [joinAll, hrun]; exact ha1
      · rw [ha2]
        have hk : (booth.maxMembers - (booth.members.length : Int)).toNat = 0 := by omega
        simp [hk]

theorem validate_inviteCode (b : Booth) (code : String) (h : b.validate = true)
    (hc : jsLength code.data = 6) : ({ b with inviteCode := code } : Booth).validate = true := by
  simp only [Booth.validate, Bool.and_eq_true] at h ⊢
  obtain ⟨⟨⟨⟨⟨⟨⟨⟨h1, h2⟩, h3⟩, h4⟩, _⟩, h6⟩, h7⟩, h8⟩, h9⟩ := h
  refine ⟨⟨⟨⟨⟨⟨⟨⟨h1, h2⟩, h3⟩, h4⟩, ?_⟩, h6⟩, h7⟩, h8⟩, h9⟩
  simp [hc]

/-- C10, as amended. A booth created through `createBooth` with `maxMembers = n`
and no email-domain restriction has its creator as first member. Under join
requests of distinct users other than the creator, with a code that upper-cases
to its invite code, exactly the first `n - 1` users are appended to `members`;
once `n - 1` have asked, every further user is refused with the booth-full
error and changes nothing. With `maxMembers = 2` the booth accepts one joiner
and refuses the second. -/
theorem created_booth_capacity (js : Builtins) (db : Db) (req : CreateRequest) (now : Int)
    (newId : String) (rng : Nat → Fin 36) (fuel : Nat) (resp : Response) (db1 : Db)
    (h : createBooth js db req now newId rng fuel = some (resp, db1))
    (hok : resp.error = none)
    (hdom : formDomains req.formAllowedEmailDomains = []) :
    ∃ doc n, requestedMaxMembers js req = some n ∧
      db1.findBoothByInviteCode doc.inviteCode = some doc ∧
      doc.members = [{ user := req.userId, joinedAt := now, hasVoted := false }] ∧
      doc.maxMembers = n ∧
      ∀ (code : String) (us : List (String × Int)),
        (code.data.isEmpty || !isInviteCodeFormat (js.toUpperCase code).data) = false →
        js.toUpperCase code = doc.inviteCode →
        (us.map Prod.fst).Nodup → (∀ p ∈ us, p.1 ≠ req.userId) →
        ∃ after, (joinAll js code db1 us).findBoothByInviteCode doc.inviteCode = some after ∧
          after.members = { user := req.userId, joinedAt := now, hasVoted := false } ::
            (us.take (n - 1).toNat).map
              (fun p => { user := p.1, joinedAt := p.2, hasVoted := false }) ∧
          ∀ (v : String) (t : Int), n - 1 ≤ (us.length : Int) → v ≠ req.userId →
            v ∉ us.map Prod.fst →
            (joinBooth js (joinAll js code db1 us) ⟨code, v, false⟩ t).1.error
              = some "This booth is full" ∧
            (joinBooth js (joinAll js code db1 us) ⟨code, v, false⟩ t).2
              = joinAll js code db1 us := by
  rcases createBooth_result js db req now newId rng fuel resp db1 h with
    ⟨-, he⟩ | ⟨code, n, vst, vet, doc, hn, hcode, hdoc, hval, -, hbooths, -, -⟩
  · exact absurd hok he
  · obtain ⟨hfree, p, hp⟩ := assignInviteCode_spec db rng fuel 0 code hcode
    have hlen : jsLength code.data = 6 := by rw [hp]; exact generateInviteCode_length rng p
    have hval2 := validate_inviteCode doc code hval hlen
    have hfound : db1.findBoothByInviteCode code = some { doc with inviteCode := code } := by
      unfold Db.findBoothByInviteCode at hfree ⊢
      rw [hbooths, List.find?_append, hfree]
      simp
    have hmembers : ({ doc with inviteCode := code } : Booth).members
        = [{ user := req.userId, joinedAt := now, hasVoted := false }] := by
      rw [hdoc]; rfl
    have hmax : ({ doc with inviteCode := code } : Booth).maxMembers = n := by
      rw [hdoc]; rfl
    refine ⟨{ doc with inviteCode := code }, n, hn, hfound, hmembers, hmax, ?_⟩
    intro c us hfmt hup hnd hne
    have hb : db1.findBoothByInviteCode (js.toUpperCase c)
        = some { doc with inviteCode := code } := by rw [hup]; exact hfound
    have hs : ({ doc with inviteCode := code } : Booth).status = Status.active := by
      rw [hdoc]; rfl
    have hd : ({ doc with inviteCode := code } : Booth).settings.allowedEmailDomains = [] := by
      rw [hdoc]; simp [newBooth, hdom]
    have hnm : ∀ q ∈ us, ({ doc with inviteCode := code } : Booth).isMember q.1 = false := by
      intro q hq
      have := hne q hq
      rw [hdoc]
      simp [Booth.isMember, newBooth, Ne.symm this]
    obtain ⟨after, ha1, ha2, ha3, ha4⟩ :=
      joinAll_members js c hfmt us db1 _ hb hs hval2 hd hnd hnm
    rw [hup] at ha1
    rw [hmembers, hmax] at ha2
    rw [hmax] at ha3
    have ha2' : after.members = { user := req.userId, joinedAt := now, hasVoted := false } ::
        (us.take (n - 1).toNat).map
          (fun p => { user := p.1, joinedAt := p.2, hasVoted := false }) := by
      rw [ha2]; simp
    refine ⟨after, ha1, ha2', ?_⟩
    intro v t hge hv hvn
    have hb2 : (joinAll js c db1 us).findBoothByInviteCode (js.toUpperCase c) = some after := by
      rw [hup]; exact ha1
    have hm : after.isMember v = false := by
      rw [Bool.eq_false_iff]
      intro hmem
      obtain ⟨m, hm1, hm2⟩ := List.any_eq_true.mp hmem
      rw [ha2'] at hm1
      rcases List.mem_cons.mp hm1 with hm1 | hm1
      · rw [hm1] at hm2
        have hm3 : req.userId = v := by simpa using hm2
        exact hv hm3.symm
      · obtain ⟨q, hq1, hq2⟩ := List.mem_map.mp hm1
        have hq3 := List.mem_of_mem_take hq1
        apply hvn
        rw [List.mem_map]
        refine ⟨q, hq3, ?_⟩
        rw [← hq2] at hm2
        simpa using hm2
    have hcap : (after.members.length : Int) ≥ after.maxMembers := by
      rw [ha3, ha2']
      simp only [List.length_cons, List.length_map, List.length_take]
      omega
    exact joinBooth_full js (joinAll js c db1 us) ⟨c, v, false⟩ t after hfmt hb2 ha4 hm hcap

/-- C10, counterexample. The booth of the concrete run is created with
`maxMembers = 2`. The first joiner `bob` is accepted and the second distinct
joiner `cyd` is refused with the booth-full error: the booth accepts one
joiner, not two. -/
theorem second_joiner_refused_counterexample :
    (lunchBooth (afterCreate none false false)).map (fun b => b.maxMembers) = some 2 ∧
    (joinBooth asciiRuntime (afterCreate none false false) (joinReq bob) 2).1.error = none ∧
    (lunchBooth (afterJoin none false false)).map (fun b => b.members.map (fun m => m.user))
      = some [ann, bob] ∧
    (joinBooth asciiRuntime (afterJoin none false false) (joinReq cyd) 3).1.error
      = some "This booth is full" ∧
    (joinBooth asciiRuntime (afterJoin none false false) (joinReq cyd) 3).2
      = afterJoin none false false := by
  decide

/-- Witness of `created_booth_capacity`: the booth of the concrete run is created
with the requested `maxMembers` and is found by its invite code. -/
theorem created_booth_capacity_witness :
    createBooth asciiRuntime db0 (lunchRequest none false false) 1 lunchId (fun _ => 0) 1
      = some (lunchCreated, afterCreate none false false) ∧
    ∃ doc n, requestedMaxMembers asciiRuntime (lunchRequest none false false) = some n ∧
      (afterCreate none false false).findBoothByInviteCode doc.inviteCode = some doc ∧
      doc.maxMembers = n :=
  ⟨by decide,
   match created_booth_capacity asciiRuntime db0 (lunchRequest none false false) 1 lunchId
      (fun _ => 0) 1 lunchCreated (afterCreate none false false) (by decide) (by decide)
      (by decide) with
   | ⟨doc, n, h1, h2, _, h4, _⟩ => ⟨doc, n, h1, h2, h4⟩⟩

theorem sum_mapVoteCount (f : Int → Int) (k : Nat) (l : List Candidate) (c : Candidate)
    (h : l[k]? = some c) :
    ((mapVoteCount f k l).map (fun c => c.voteCount)).sum
      = (l.map (fun c => c.voteCount)).sum - c.voteCount + f c.voteCount := by
  induction l generalizing k with
  | nil => simp at h
  | cons a t ih =>
    cases k with
    | zero =>
      simp at h
      subst h
      simp [mapVoteCount]
      omega
    | succ n =>
      simp at h
      simp [mapVoteCount, ih n h]
      omega

theorem voteCount_le_sum (l : List Candidate) (hnn : ∀ c ∈ l, 0 ≤ c.voteCount) (k : Nat)
    (c : Candidate) (h : l[k]? = some c) : c.voteCount ≤ (l.map (fun c => c.voteCount)).sum := by
  induction l generalizing k with
  | nil => simp at h
  | cons a t ih =>
    have h0 : 0 ≤ (t.map (fun c => c.voteCount)).sum := by
      apply List.sum_nonneg
      intro x hx
      obtain ⟨y, hy, rfl⟩ := List.mem_map.mp hx
      exact hnn y (List.mem_cons_of_mem _ hy)
    cases k with
    | zero =>
      simp at h
      subst h
      simp
      omega
    | succ n =>
      simp at h
      have := ih (fun c hc => hnn c (List.mem_cons_of_mem _ hc)) n h
      have ha := hnn a (List.mem_cons_self _ _)
      simp
      omega

theorem voteCount_nonneg_of_validate (b : Booth) (h : b.validate = true) :
    ∀ c ∈ b.candidates, 0 ≤ c.voteCount := by
  intro c hc
  simp only [Booth.validate, Bool.and_eq_true] at h
  have h6 := h.1.1.1.2
  rw [List.all_eq_true] at h6
  have := h6 c hc
  simp only [Bool.and_eq_true, decide_eq_true_eq] at this
  exact this.2

theorem filter_eraseP_length (l : List Vote) (p q : Vote → Bool) (pv : Vote)
    (h : l.find? p = some pv) :
    ((l.eraseP p).filter q).length + (if q pv then 1 else 0) = (l.filter q).length := by
  induction l with
  | nil => simp at h
  | cons a t ih =>
    simp only [List.find?_cons] at h
    by_cases ha : p a = true
    · simp only [ha, Option.some.injEq] at h
      subst h
      simp only [List.eraseP_cons, ha, cond_true, List.filter_cons]
      by_cases hq : q a = true
      · simp [hq]
      · simp [hq]
    · have ha2 : p a = false := by simpa using ha
      simp only [ha2] at h
      simp only [List.eraseP_cons, ha2, cond_false, List.filter_cons]
      have := ih h
      by_cases hq : q a = true
      · simp only [hq, if_true, List.length_cons]
        omega
      · simp only [hq, Bool.false_eq_true, if_false]
        exact this

theorem filter_eraseP_le (l : List Vote) (p q : Vote → Bool) :
    ((l.eraseP p).filter q).length ≤ (l.filter q).length := by
  apply List.Sublist.length_le
  exact (List.eraseP_sublist l).filter q

theorem mem_replaceBooth (db : Db) (d b : Booth) (h : b ∈ (db.replaceBooth d).booths) :
    (b = d ∧ ∃ b0 ∈ db.booths, b0.id = d.id) ∨ (b ∈ db.booths ∧ b.id ≠ d.id) := by
  simp only [Db.replaceBooth, List.mem_map] at h
  obtain ⟨x, hx, hxb⟩ := h
  by_cases hid : x.id = d.id
  · have : (x.id == d.id) = true := by simpa using hid
    simp only [this, if_true] at hxb
    exact Or.inl ⟨hxb.symm, x, hx, hid⟩
  · have : (x.id == d.id) = false := by simpa using hid
    simp only [this, Bool.false_eq_true, if_false] at hxb
    subst hxb
    exact Or.inr ⟨hx, hid⟩

theorem exists_id_replaceBooth (db : Db) (d b0 : Booth) (h : b0 ∈ db.booths) :
    ∃ b ∈ (db.replaceBooth d).booths, b.id = b0.id := by
  simp only [Db.replaceBooth, List.mem_map]
  by_cases hid : b0.id = d.id
  · refine ⟨d, ⟨b0, h, ?_⟩, hid.symm⟩
    simp [hid]
  · refine ⟨b0, ⟨b0, h, ?_⟩, rfl⟩
    have : (b0.id == d.id) = false := by simpa using hid
    simp [this]

theorem consistent_replace (db : Db) (d : Booth) (hc : db.Consistent)
    (hv : d.validate = true) (hs : d.tallies.sum = d.totalVotes)
    (ha : ∀ i, (countVotes db.votes d.id i : Int) ≤ d.voteCountAt i)
    (hvt : ∀ v ∈ db.votes, v.booth = d.id → d.hasUserVoted v.voter = true) :
    (db.replaceBooth d).Consistent := by
  refine ⟨?_, ?_, ?_, ?_, ?_⟩
  rotate_right
  · intro v hv2 b hb hid
    rcases mem_replaceBooth db d b hb with ⟨rfl, -⟩ | ⟨hb, -⟩
    · exact hvt v hv2 hid.symm
    · exact hc.voted v hv2 b hb hid
  · intro b hb
    rcases mem_replaceBooth db d b hb with ⟨rfl, -⟩ | ⟨hb, -⟩
    · exact hv
    · exact hc.valid b hb
  · intro b hb
    rcases mem_replaceBooth db d b hb with ⟨rfl, -⟩ | ⟨hb, -⟩
    · exact hs
    · exact hc.sum b hb
  · intro b hb i
    rcases mem_replaceBooth db d b hb with ⟨rfl, -⟩ | ⟨hb, -⟩
    · exact ha i
    · exact hc.audit b hb i
  · intro v hv
    obtain ⟨b0, hb0, hid⟩ := hc.owner v hv
    obtain ⟨b, hb, hbid⟩ := exists_id_replaceBooth db d b0 hb0
    exact ⟨b, hb, hbid.trans hid⟩

theorem consistent_of_votes (db : Db) (votes : List Vote) (hc : db.Consistent)
    (hle : ∀ id i, countVotes votes id i ≤ countVotes db.votes id i)
    (hsub : ∀ v ∈ votes, v ∈ db.votes) : ({ db with votes := votes } : Db).Consistent := by
  refine ⟨hc.valid, hc.sum, ?_, ?_, fun v hv => hc.voted v (hsub v hv)⟩
  · intro b hb i
    have h1 := hc.audit b hb i
    have h2 := hle b.id i
    show (countVotes votes b.id i : Int) ≤ _
    omega
  · intro v hv
    exact hc.owner v (hsub v hv)

theorem consistent_deleteVote (db : Db) (id u : String) (hc : db.Consistent) :
    (db.deleteVote id u).Consistent := by
  apply consistent_of_votes db _ hc
  · intro id2 i
    exact filter_eraseP_le _ _ _
  · intro v hv
    exact List.mem_of_mem_eraseP hv

theorem consistent_congr (db db2 : Db) (hc : db.Consistent) (hb : db2.booths = db.booths)
    (hv : db2.votes = db.votes) : db2.Consistent := by
  refine ⟨?_, ?_, ?_, ?_, ?_⟩
  · rw [hb]; exact hc.valid
  · rw [hb]; exact hc.sum
  · rw [hb, hv]; exact hc.audit
  · rw [hb, hv]; exact hc.owner
  · rw [hb, hv]; exact hc.voted

theorem countVotes_append (votes : List Vote) (v : Vote) (id : String) (i : Nat) :
    countVotes (votes ++ [v]) id i
      = countVotes votes id i + (if v.booth = id ∧ v.candidateIndex = (i : Int) then 1 else 0) := by
  unfold countVotes
  rw [List.filter_append, List.length_append]
  congr 1
  by_cases h : v.booth = id ∧ v.candidateIndex = (i : Int)
  · simp [h.1, h.2]
  · rw [if_neg h]
    have : (v.booth == id && v.candidateIndex == (i : Int)) = false := by
      rw [Bool.eq_false_iff]
      intro hh
      simp only [Bool.and_eq_true, beq_iff_eq] at hh
      exact h hh
    simp [List.filter_cons, this]

theorem consistent_insert (db : Db) (v : Vote) (hc : db.Consistent)
    (ho : ∃ b ∈ db.booths, b.id = v.booth)
    (ha : ∀ b ∈ db.booths, b.id = v.booth → ∀ i,
      (countVotes db.votes b.id i : Int) + (if v.candidateIndex = (i : Int) then 1 else 0)
        ≤ b.voteCountAt i)
    (hvt : ∀ b ∈ db.booths, b.id = v.booth → b.hasUserVoted v.voter = true) :
    ({ db with votes := db.votes ++ [v] } : Db).Consistent := by
  refine ⟨hc.valid, hc.sum, ?_, ?_, ?_⟩
  rotate_right
  · intro w hw b hb hid
    rcases List.mem_append.mp hw with hw | hw
    · exact hc.voted w hw b hb hid
    · simp only [List.mem_singleton] at hw
      subst hw
      exact hvt b hb hid
  · intro b hb i
    show (countVotes (db.votes ++ [v]) b.id i : Int) ≤ _
    rw [countVotes_append]
    by_cases hid : b.id = v.booth
    · have := ha b hb hid i
      by_cases hi : v.candidateIndex = (i : Int)
      · simp only [hi, if_true] at this
        simp only [hid, hi, and_self, if_true]
        rw [hid] at this
        push_cast
        omega
      · simp only [hi, if_false] at this
        simp only [hi, and_false, if_false]
        push_cast
        omega
    · have := hc.audit b hb i
      have hne : ¬ (v.booth = b.id ∧ v.candidateIndex = (i : Int)) := fun h => hid h.1.symm
      rw [if_neg hne]
      push_cast
      omega
  · intro w hw
    rcases List.mem_append.mp hw with hw | hw
    · exact hc.owner w hw
    · simp only [List.mem_singleton] at hw
      subst hw
      exact ho

theorem mem_of_findBoothById (db : Db) (id : String) (b : Booth)
    (h : db.findBoothById id = some b) : b ∈ db.booths :=
  List.mem_of_find?_eq_some h

theorem voteCountAt_mapVoteCount_self (b : Booth) (f : Int → Int) (k : Nat) (c : Candidate)
    (t : Int) (h : b.candidates[k]? = some c) :
    ({ b with candidates := mapVoteCount f k b.candidates, totalVotes := t } : Booth).voteCountAt k
      = f c.voteCount := by
  simp [Booth.voteCountAt, mapVoteCount_get_self f k b.candidates c h]

theorem voteCountAt_mapVoteCount_other (b : Booth) (f : Int → Int) (k i : Nat) (t : Int)
    (h : i ≠ k) :
    ({ b with candidates := mapVoteCount f k b.candidates, totalVotes := t } : Booth).voteCountAt i
      = b.voteCountAt i := by
  simp [Booth.voteCountAt, mapVoteCount_get_other f k i b.candidates h]

theorem hasUserVoted_of_members (b b2 : Booth) (h : b2.members = b.members) (w : String) :
    b2.hasUserVoted w = b.hasUserVoted w := by
  unfold Booth.hasUserVoted
  rw [h]

theorem setVoted_find_other (u w : String) (l : List Member) (h : w ≠ u) :
    ((setVoted u l).find? (fun x => x.user == w)).map (fun m => m.hasVoted)
      = (l.find? (fun x => x.user == w)).map (fun m => m.hasVoted) := by
  induction l with
  | nil => rfl
  | cons a t ih =>
    simp only [setVoted]
    by_cases ha : (a.user == u) = true
    · have hau : a.user = u := by simpa using ha
      have haw : (a.user == w) = false := by
        rw [hau]; simpa using (Ne.symm h)
      simp only [ha, if_true, List.find?_cons, haw]
    · have ha2 : (a.user == u) = false := by simpa using ha
      simp only [ha2, Bool.false_eq_true, if_false, List.find?_cons]
      cases haw : (a.user == w) with
      | true => rfl
      | false => exact ih

theorem hasUserVoted_voted (b : Booth) (u w : String) (now : Int)
    (h : b.hasUserVoted w = true) : (b.voted u now).hasUserVoted w = true := by
  unfold Booth.hasUserVoted at h ⊢
  by_cases hw : w = u
  · subst hw
    cases hf : b.members.find? (fun x => x.user == w) with
    | none => simp [hf] at h
    | some m =>
      have := setVoted_find w b.members m hf
      simp [Booth.voted, this]
  · have := setVoted_find_other u w b.members hw
    simp only [Booth.voted]
    cases hf : b.members.find? (fun x => x.user == w) with
    | none => simp [hf] at h
    | some m =>
      rw [hf] at this h
      cases hf2 : (setVoted u b.members).find? (fun x => x.user == w) with
      | none => rw [hf2] at this; simp at this
      | some m2 =>
        rw [hf2] at this
        simp only [Option.map_some', Option.some.injEq] at this
        simp only at h ⊢
        rw [this]; exact h

theorem hasUserVoted_voted_self (b : Booth) (u : String) (now : Int) (m : Member)
    (hm : b.members.find? (fun x => x.user == u) = some m) :
    (b.voted u now).hasUserVoted u = true := by
  have := setVoted_find u b.members m hm
  simp [Booth.hasUserVoted, Booth.voted, this]

theorem hasUserVoted_admitted (b : Booth) (u w : String) (now : Int)
    (h : b.hasUserVoted w = true) : (b.admitted u now).hasUserVoted w = true := by
  unfold Booth.hasUserVoted at h ⊢
  cases hf : b.members.find? (fun x => x.user == w) with
  | none => simp [hf] at h
  | some m =>
    rw [hf] at h
    have happ : (b.admitted u now).members.find? (fun x => x.user == w) = some m := by
      show (b.members ++ _).find? _ = _
      rw [List.find?_append, hf]; rfl
    rw [happ]
    exact h

/-- The vote-change block keeps the stored data consistent, and the in-memory
document it hands on has `totalVotes` equal to the sum of its tallies and
tallies that cover the remaining audit records. -/
theorem voteChange_consistent (db : Db) (booth : Booth) (req : VoteRequest)
    (booth1 : Booth) (db1 : Db) (hc : db.Consistent)
    (hb : db.findBoothById req.boothId = some booth)
    (h : voteChange db booth req = .ok (booth1, db1)) :
    db1.Consistent ∧ db1.booths = db.booths ∧ booth1.id = booth.id ∧
    booth1.members = booth.members ∧ booth1.settings = booth.settings ∧
    booth1.tallies.sum = booth1.totalVotes ∧
    ∀ i, (countVotes db1.votes booth.id i : Int) ≤ booth1.voteCountAt i := by
  have hmem := mem_of_findBoothById db _ _ hb
  have hid := findBoothById_id db _ _ hb
  have hsame : db.Consistent ∧ db.booths = db.booths ∧ booth.id = booth.id ∧
      booth.members = booth.members ∧ booth.settings = booth.settings ∧
      booth.tallies.sum = booth.totalVotes ∧
      ∀ i, (countVotes db.votes booth.id i : Int) ≤ booth.voteCountAt i :=
    ⟨hc, rfl, rfl, rfl, rfl, hc.sum booth hmem, hc.audit booth hmem⟩
  have hdel : (db.deleteVote req.boothId req.userId).Consistent ∧
      (db.deleteVote req.boothId req.userId).booths = db.booths ∧ booth.id = booth.id ∧
      booth.members = booth.members ∧ booth.settings = booth.settings ∧
      booth.tallies.sum = booth.totalVotes ∧
      ∀ i, (countVotes (db.deleteVote req.boothId req.userId).votes booth.id i : Int)
        ≤ booth.voteCountAt i := by
    refine ⟨consistent_deleteVote db _ _ hc, rfl, rfl, rfl, rfl, hc.sum booth hmem, ?_⟩
    intro i
    have h1 := hc.audit booth hmem i
    have h2 : countVotes (db.deleteVote req.boothId req.userId).votes booth.id i
        ≤ countVotes db.votes booth.id i := filter_eraseP_le _ _ _
    omega
  unfold voteChange at h
  split at h
  · split at h
    · simp only [Except.ok.injEq, Prod.mk.injEq] at h
      obtain ⟨rfl, rfl⟩ := h
      exact hsame
    · rename_i pv hpv
      split at h
      · rename_i hlt
        split at h
        · cases h
        · rename_i hneg
          simp only [Except.ok.injEq, Prod.mk.injEq] at h
          obtain ⟨rfl, rfl⟩ := h
          -- the previous record names an existing candidate
          have hp0 : 0 ≤ pv.candidateIndex := by omega
          have hpn : pv.candidateIndex.toNat < booth.candidates.length := by omega
          obtain ⟨c, hcand⟩ : ∃ c, booth.candidates[pv.candidateIndex.toNat]? = some c :=
            ⟨booth.candidates[pv.candidateIndex.toNat], List.getElem?_eq_getElem hpn⟩
          have hpvP := List.find?_some hpv
          simp only [Bool.and_eq_true, beq_iff_eq] at hpvP
          have hq : (pv.booth == booth.id &&
              pv.candidateIndex == ((pv.candidateIndex.toNat : Nat) : Int)) = true := by
            simp only [Bool.and_eq_true, beq_iff_eq]
            exact ⟨hpvP.1.trans hid.symm, (Int.toNat_of_nonneg hp0).symm⟩
          have hcount := fun (i : Nat) => filter_eraseP_length db.votes
            (fun v => v.booth == req.boothId && v.voter == req.userId)
            (fun v => v.booth == booth.id && v.candidateIndex == (i : Int)) pv hpv
          have hone : 1 ≤ countVotes db.votes booth.id pv.candidateIndex.toNat := by
            have := hcount pv.candidateIndex.toNat
            simp only [hq, if_true] at this
            unfold countVotes
            omega
          have haud := hc.audit booth hmem pv.candidateIndex.toNat
          have hvc : booth.voteCountAt pv.candidateIndex.toNat = c.voteCount := by
            simp [Booth.voteCountAt, hcand]
          have hc1 : 1 ≤ c.voteCount := by omega
          have hnn := voteCount_nonneg_of_validate booth (hc.valid booth hmem)
          have hle := voteCount_le_sum booth.candidates hnn _ c hcand
          have hsum := hc.sum booth hmem
          have hsum' : (booth.candidates.map (fun c => c.voteCount)).sum = booth.totalVotes := hsum
          refine ⟨consistent_deleteVote db _ _ hc, rfl, rfl, rfl, rfl, ?_, ?_⟩
          · show ((mapVoteCount _ _ booth.candidates).map (fun c => c.voteCount)).sum = _
            rw [sum_mapVoteCount _ _ _ c hcand]
            show _ = max 0 (booth.totalVotes - 1)
            have e1 : max 0 (c.voteCount - 1) = c.voteCount - 1 := max_eq_right (by omega)
            have e2 : max 0 (booth.totalVotes - 1) = booth.totalVotes - 1 :=
              max_eq_right (by omega)
            rw [e2]
            simp only [e1]
            omega
          · intro i
            have hci := hcount i
            have hai := hc.audit booth hmem i
            by_cases hi : i = pv.candidateIndex.toNat
            · subst hi
              rw [voteCountAt_mapVoteCount_self booth _ _ c _ hcand]
              simp only [hq, if_true] at hci
              have e1 : max 0 (c.voteCount - 1) = c.voteCount - 1 := max_eq_right (by omega)
              show (countVotes (db.deleteVote req.boothId req.userId).votes booth.id _ : Int) ≤ _
              simp only [e1]
              unfold countVotes Db.deleteVote at *
              simp only at *
              omega
            · rw [voteCountAt_mapVoteCount_other booth _ _ i _ hi]
              have h2 : countVotes (db.deleteVote req.boothId req.userId).votes booth.id i
                  ≤ countVotes db.votes booth.id i := filter_eraseP_le _ _ _
              omega
      · simp only [Except.ok.injEq, Prod.mk.injEq] at h
        obtain ⟨rfl, rfl⟩ := h
        exact hdel
  · simp only [Except.ok.injEq, Prod.mk.injEq] at h
    obtain ⟨rfl, rfl⟩ := h
    exact hsame

theorem saveBooth_spec (db : Db) (b doc : Booth) (db2 : Db) (now : Int)
    (h : db.saveBooth b now = .ok (doc, db2)) :
    b.validate = true ∧ doc = { b with updatedAt := now } ∧ db2 = db.replaceBooth doc := by
  unfold Db.saveBooth at h
  split at h
  · rename_i hv
    simp only [Except.ok.injEq, Prod.mk.injEq] at h
    exact ⟨hv, h.1.symm, by rw [← h.2, ← h.1]⟩
  · cases h

theorem markAsVoted_spec (b : Booth) (db : Db) (u : String) (now : Int) (doc : Booth) (db2 : Db)
    (h : b.markAsVoted db u now = .ok (doc, db2)) :
    b.validate = true ∧ doc = b.voted u now ∧ db2 = db.replaceBooth doc ∧
    ∃ m, b.members.find? (fun x => x.user == u) = some m := by
  unfold Booth.markAsVoted at h
  split at h
  · cases h
  · rename_i m hm
    split at h
    · cases h
    · obtain ⟨hv, hd, hdb⟩ := saveBooth_spec _ _ _ _ _ h
      exact ⟨(validate_congr (b := b) rfl rfl rfl rfl rfl rfl).symm.trans hv, hd, hdb, m, hm⟩

theorem incrementVote_spec (b : Booth) (db : Db) (k : Int) (now : Int) (doc : Booth) (db2 : Db)
    (h : b.incrementVote db k now = .ok (doc, db2)) :
    0 ≤ k ∧ k < b.candidates.length ∧ doc = b.incremented k.toNat now ∧
    doc.validate = true ∧ db2 = db.replaceBooth doc := by
  unfold Booth.incrementVote at h
  split at h
  · cases h
  · rename_i hr
    obtain ⟨hv, hd, hdb⟩ := saveBooth_spec _ _ _ _ _ h
    refine ⟨by omega, by omega, hd, ?_, hdb⟩
    rw [hd]
    exact (validate_congr (b := _) rfl rfl rfl rfl rfl rfl).trans hv

theorem insertVote_spec (db : Db) (v : Vote) (db2 : Db) (h : db.insertVote v = .ok db2) :
    db2 = { db with votes := db.votes ++ [v] } := by
  unfold Db.insertVote at h
  split at h
  · cases h
  · split at h
    · cases h
    · simp only [Except.ok.injEq] at h
      exact h.symm

/-- The statements of `vote` after the checks keep the stored data consistent,
whether they complete or throw. -/
theorem castVote_consistent (db : Db) (booth : Booth) (req : VoteRequest) (k : Int) (now : Int)
    (hc : db.Consistent) (hb : db.findBoothById req.boothId = some booth) :
    (∀ e d, castVote db booth req k now = .error (e, d) → d.Consistent) ∧
    (∀ n d, castVote db booth req k now = .ok (n, d) → d.Consistent) := by
  have hid := findBoothById_id db _ _ hb
  have hmem := mem_of_findBoothById db _ _ hb
  unfold castVote
  cases h1 : voteChange db booth req with
  | error e => exact ⟨fun _ _ h => (by cases h; exact hc), fun _ _ h => (by cases h)⟩
  | ok r1 =>
    obtain ⟨booth1, db1⟩ := r1
    obtain ⟨hc1, hb1, hid1, hm1, -, hs1, ha1⟩ := voteChange_consistent db booth req _ _ hc hb h1
    simp only
    cases h2 : booth1.markAsVoted db1 req.userId now with
    | error e => exact ⟨fun _ _ h => (by cases h; exact hc1), fun _ _ h => (by cases h)⟩
    | ok r2 =>
      obtain ⟨booth2, db2⟩ := r2
      obtain ⟨hv2, hd2, hdb2, m, hfind⟩ := markAsVoted_spec _ _ _ _ _ _ h2
      have hid2 : booth2.id = booth.id := by rw [hd2]; exact hid1
      have hmem1 : booth ∈ db1.booths := by rw [hb1]; exact hmem
      have hvt2 : ∀ v ∈ db1.votes, v.booth = booth2.id → booth2.hasUserVoted v.voter = true := by
        intro v hv hvb
        have h0 := hc1.voted v hv booth hmem1 (by rw [hvb, hid2])
        rw [hd2]
        apply hasUserVoted_voted
        rw [hasUserVoted_of_members booth booth1 hm1]
        exact h0
      have hself2 : booth2.hasUserVoted req.userId = true := by
        rw [hd2]; exact hasUserVoted_voted_self booth1 req.userId now m hfind
      have hc2 : db2.Consistent := by
        rw [hdb2]
        apply consistent_replace db1 booth2 hc1
        · rw [hd2]; exact (validate_congr (b := booth1) rfl rfl rfl rfl rfl rfl).trans hv2
        · rw [hd2]; exact hs1
        · intro i; rw [hid2, hd2]; exact ha1 i
        · exact hvt2
      simp only
      cases h3 : booth2.incrementVote db2 k now with
      | error e => exact ⟨fun _ _ h => (by cases h; exact hc2), fun _ _ h => (by cases h)⟩
      | ok r3 =>
        obtain ⟨booth3, db3⟩ := r3
        obtain ⟨hk0, hkn, hd3, hv3, hdb3⟩ := incrementVote_spec _ _ _ _ _ _ h3
        have hid3 : booth3.id = booth.id := by rw [hd3]; exact hid2
        have hlen2 : booth2.candidates.length = booth1.candidates.length := by rw [hd2]; rfl
        have hkn2 : k.toNat < booth2.candidates.length := by omega
        have hex : ∃ c, booth2.candidates[k.toNat]? = some c :=
          Exists.intro _ (List.getElem?_eq_getElem hkn2)
        obtain ⟨c, hcand⟩ := hex
        have hvotes2 : db2.votes = db1.votes := by rw [hdb2]; rfl
        have hvotes3 : db3.votes = db1.votes := by rw [hdb3]; exact hvotes2
        have hvc2 : ∀ i, booth2.voteCountAt i = booth1.voteCountAt i := by
          intro i; rw [hd2]; rfl
        have hvc3 : ∀ i, booth3.voteCountAt i
            = booth1.voteCountAt i + (if k = (i : Int) then 1 else 0) := by
          intro i
          rw [hd3]
          by_cases hi : i = k.toNat
          · subst hi
            have := voteCountAt_mapVoteCount_self booth2 (fun v => v + 1) k.toNat c
              (booth2.totalVotes + 1) hcand
            have e : booth2.voteCountAt k.toNat = c.voteCount := by
              simp [Booth.voteCountAt, hcand]
            have hk : k = ((k.toNat : Nat) : Int) := (Int.toNat_of_nonneg hk0).symm
            rw [if_pos hk, ← hvc2, e]
            exact this
          · have := voteCountAt_mapVoteCount_other booth2 (fun v => v + 1) k.toNat i
              (booth2.totalVotes + 1) hi
            have hk : ¬ k = (i : Int) := by omega
            rw [if_neg hk, ← hvc2, add_zero]
            exact this
        have hmem3 : ∀ w, booth3.hasUserVoted w = booth2.hasUserVoted w := by
          intro w; rw [hd3]; rfl
        have hc3 : db3.Consistent := by
          rw [hdb3]
          apply consistent_replace db2 booth3 hc2 hv3
          rotate_right
          · intro v hv hvb
            rw [hmem3]
            rw [hvotes2] at hv
            exact hvt2 v hv (by rw [hvb, hid3, hid2])
          · rw [hd3]
            show ((mapVoteCount _ _ booth2.candidates).map (fun c => c.voteCount)).sum = _
            rw [sum_mapVoteCount _ _ _ c hcand]
            have : (booth2.candidates.map (fun c => c.voteCount)).sum = booth2.totalVotes := by
              rw [hd2]; exact hs1
            show _ = booth2.totalVotes + 1
            omega
          · intro i
            rw [hid3, hvotes2, hvc3]
            have := ha1 i
            split <;> omega
        simp only
        cases h4 : booth3.candidates[k.toNat]? with
        | none => exact ⟨fun _ _ h => (by cases h; exact hc3), fun _ _ h => (by cases h)⟩
        | some cand =>
          simp only
          cases h5 : db3.insertVote
              { booth := req.boothId, voter := req.userId, candidateIndex := k,
                candidateName := cand.name, votedAt := now,
                ipAddress := req.ip, userAgent := req.userAgent } with
          | error e => exact ⟨fun _ _ h => (by cases h; exact hc3), fun _ _ h => (by cases h)⟩
          | ok db4 =>
            refine ⟨fun _ _ h => (by cases h), fun _ _ h => ?_⟩
            simp only [Except.ok.injEq, Prod.mk.injEq] at h
            rw [← h.2, insertVote_spec _ _ _ h5]
            apply consistent_insert db3 _ hc3
            · have hmem2 : booth ∈ db1.booths := by rw [hb1]; exact hmem
              obtain ⟨x, hx, hxid⟩ := exists_id_replaceBooth db1 booth2 booth hmem2
              rw [← hdb2] at hx
              obtain ⟨y, hy, hyid⟩ := exists_id_replaceBooth db2 booth3 x hx
              rw [← hdb3] at hy
              exact ⟨y, hy, by rw [hyid, hxid, hid]⟩
            · intro b hbm hbid i
              have hbid' : b.id = booth3.id := by rw [hbid, hid3, hid]
              rw [hdb3] at hbm
              rcases mem_replaceBooth db2 booth3 b hbm with ⟨rfl, -⟩ | ⟨-, hne⟩
              · rw [hvotes3, hid3, hvc3]
                have := ha1 i
                simp only
                omega
              · exact absurd hbid' hne
            · intro b hbm hbid
              have hbid' : b.id = booth3.id := by rw [hbid, hid3, hid]
              rw [hdb3] at hbm
              rcases mem_replaceBooth db2 booth3 b hbm with ⟨rfl, -⟩ | ⟨-, hne⟩
              · show b.hasUserVoted req.userId = true
                rw [hmem3]; exact hself2
              · exact absurd hbid' hne

theorem vote_consistent (js : Builtins) (db : Db) (req : VoteRequest) (now : Int)
    (hc : db.Consistent) : (vote js db req now).2.Consistent := by
  unfold vote
  split
  · exact hc
  · split
    · exact hc
    · rename_i booth hb
      simp only
      split
      · exact hc
      · split
        · exact hc
        · split
          · exact hc
          · split
            · exact hc
            · rename_i k hk
              split
              · exact hc
              · have hcast := castVote_consistent db booth req k now hc hb
                split
                · rename_i e d hcv
                  exact hcast.1 e d hcv
                · rename_i n d hcv
                  split
                  · exact hcast.2 n d hcv
                  · exact hcast.2 n d hcv

theorem joinBooth_consistent (js : Builtins) (db : Db) (req : JoinRequest) (now : Int)
    (hc : db.Consistent) : (joinBooth js db req now).2.Consistent := by
  rcases joinBooth_shape js db req with h | ⟨booth, hfmt, hb, hs, hm, hcap, hrun⟩
  · rw [(h now now).2]; exact hc
  · have hmem : booth ∈ db.booths := List.mem_of_find?_eq_some hb
    by_cases hne : (joinBooth js db req now).2 = db
    · rw [hne]; exact hc
    · have hvotes : (joinBooth js db req now).2.votes = db.votes := by
        unfold joinBooth
        simp only [hfmt, Bool.false_eq_true, if_false, hb, hs, ne_eq, not_true_eq_false, hm]
        have hcap2 : ¬ ((booth.members.length : Int) ≥ booth.maxMembers) := by omega
        simp only [hcap2, if_false]
        split
        · rfl
        · unfold joinAdmit
          split
          · rfl
          · rename_i b1 d1 hadd
            have hd1 : d1.votes = db.votes := by
              unfold Booth.addMember at hadd
              simp only [hm, Bool.false_eq_true, if_false, hcap2] at hadd
              obtain ⟨-, -, hdb⟩ := saveBooth_spec _ _ _ _ _ hadd
              rw [hdb]; rfl
            simp only
            split
            · exact hd1
            · split <;> split <;> simp [Db.saveUser, hd1]
      have hrep : (db.replaceBooth (booth.admitted req.userId now)).Consistent := by
        apply consistent_replace db _ hc
        · exact (validate_congr (b := booth) rfl rfl rfl rfl rfl rfl).trans (hc.valid booth hmem)
        · exact hc.sum booth hmem
        · exact hc.audit booth hmem
        · intro v hv hvb
          exact hasUserVoted_admitted booth req.userId v.voter now
            (hc.voted v hv booth hmem hvb.symm)
      exact consistent_congr _ _ hrep (hrun now) hvotes

theorem createBooth_consistent (js : Builtins) (db : Db) (req : CreateRequest) (now : Int)
    (newId : String) (rng : Nat → Fin 36) (fuel : Nat) (resp : Response) (db1 : Db)
    (h : createBooth js db req now newId rng fuel = some (resp, db1)) (hc : db.Consistent) :
    db1.Consistent := by
  rcases createBooth_result js db req now newId rng fuel resp db1 h with
    ⟨rfl, -⟩ | ⟨code, n, vst, vet, doc, -, hcode, hdoc, hval, hfresh, hbooths, hvotes, -⟩
  · exact hc
  · obtain ⟨-, p, hp⟩ := assignInviteCode_spec db rng fuel 0 code hcode
    have hlen : jsLength code.data = 6 := by rw [hp]; exact generateInviteCode_length rng p
    have hval2 := validate_inviteCode doc code hval hlen
    have hzero : ∀ c ∈ doc.candidates, c.voteCount = 0 := by
      rw [hdoc]; exact requestedCandidates_zero req
    have hnew : ∀ v ∈ db.votes, v.booth ≠ newId := by
      intro v hv he
      obtain ⟨b, hb, hbid⟩ := hc.owner v hv
      have : db.booths.any (fun x => x.id == newId) = true :=
        List.any_eq_true.mpr ⟨b, hb, by simp [hbid, he]⟩
      rw [hfresh] at this
      cases this
    refine ⟨?_, ?_, ?_, ?_, ?_⟩
    · intro b hb
      rw [hbooths] at hb
      rcases List.mem_append.mp hb with hb | hb
      · exact hc.valid b hb
      · simp only [List.mem_singleton] at hb
        rw [hb]; exact hval2
    · intro b hb
      rw [hbooths] at hb
      rcases List.mem_append.mp hb with hb | hb
      · exact hc.sum b hb
      · simp only [List.mem_singleton] at hb
        rw [hb]
        have h0 : ({ doc with inviteCode := code } : Booth).totalVotes = 0 := by rw [hdoc]; rfl
        rw [h0]
        apply List.sum_eq_zero
        intro x hx
        obtain ⟨c, hcm, rfl⟩ := List.mem_map.mp hx
        exact hzero c hcm
    · intro b hb i
      rw [hbooths] at hb
      rw [hvotes]
      rcases List.mem_append.mp hb with hb | hb
      · exact hc.audit b hb i
      · simp only [List.mem_singleton] at hb
        have hid : b.id = newId := by rw [hb, hdoc]; rfl
        have hcount : countVotes db.votes b.id i = 0 := by
          unfold countVotes
          rw [List.length_eq_zero, List.filter_eq_nil_iff]
          intro v hv hq
          simp only [Bool.and_eq_true, beq_iff_eq] at hq
          exact hnew v hv (hq.1.trans hid)
        rw [hcount]
        have hnn : 0 ≤ b.voteCountAt i := by
          unfold Booth.voteCountAt
          split
          · rename_i c hci
            have hcm : c ∈ b.candidates := List.getElem?_mem hci
            rw [hb] at hcm
            have := hzero c hcm
            omega
          · exact le_refl _
        exact_mod_cast hnn
    · intro v hv
      rw [hvotes] at hv
      obtain ⟨b, hb, hbid⟩ := hc.owner v hv
      exact ⟨b, by rw [hbooths]; exact List.mem_append_left _ hb, hbid⟩
    · intro v hv b hb hbid
      rw [hvotes] at hv
      rw [hbooths] at hb
      rcases List.mem_append.mp hb with hb | hb
      · exact hc.voted v hv b hb hbid
      · simp only [List.mem_singleton] at hb
        have hid : b.id = newId := by rw [hb, hdoc]; rfl
        exact absurd (hbid.symm.trans hid) (hnew v hv)

/-- Every reachable database is consistent. -/
theorem reachable_consistent (js : Builtins) (db : Db) (h : Reachable js db) : db.Consistent := by
  induction h with
  | init users =>
    exact ⟨fun b hb => (by cases hb), fun b hb => (by cases hb), fun b hb => (by cases hb),
      fun v hv => (by cases hv), fun v hv => (by cases hv)⟩
  | create db req now newId rng fuel resp db1 _ hcreate ih =>
    exact createBooth_consistent js db req now newId rng fuel resp db1 hcreate ih
  | join db req now _ ih => exact joinBooth_consistent js db req now ih
  | vote db req now _ ih => exact vote_consistent js db req now ih
  | account db users _ ih => exact consistent_congr db _ ih rfl rfl

/-- C2. Tally-sum invariant. In every database reachable from an empty booth
collection through requests to `createBooth`, `joinBooth` and `vote` (first
votes and vote changes, completed or failed), every booth has the sum of its
`voteCount` values equal to `totalVotes`, and every `voteCount` is at least
zero. -/
theorem tally_sum_invariant (js : Builtins) (db : Db) (h : Reachable js db) :
    ∀ b ∈ db.booths,
      (b.candidates.map (fun c => c.voteCount)).sum = b.totalVotes ∧
      ∀ c ∈ b.candidates, 0 ≤ c.voteCount := by
  intro b hb
  have hc := reachable_consistent js db h
  exact ⟨hc.sum b hb, voteCount_nonneg_of_validate b (hc.valid b hb)⟩

/-- The database of the concrete run after a completed vote change is reachable:
the booth allows vote change and multiple votes, `bob` votes for candidate 0
and then changes to candidate 1. -/
theorem changed_vote_reachable :
    Reachable asciiRuntime (vote asciiRuntime (afterVote none true true) (voteReq bob "1") 6).2 :=
  Reachable.vote _ (voteReq bob "1") 6
    (Reachable.vote _ (voteReq bob "0") 5
      (Reachable.join _ (joinReq bob) 2
        (Reachable.create db0 (lunchRequest none true true) 1 lunchId (fun _ => 0) 1 lunchCreated
          (afterCreate none true true) (Reachable.init db0.users) (by decide))))

/-- Witness of `tally_sum_invariant`: after the completed vote change of the
concrete run the tallies are `[0, 1]` and `totalVotes` is 1. -/
theorem tally_sum_invariant_witness :
    (lunchBooth (vote asciiRuntime (afterVote none true true) (voteReq bob "1") 6).2).map
      (fun b => (b.tallies, b.totalVotes)) = some ([0, 1], 1) ∧
    ∀ b ∈ (vote asciiRuntime (afterVote none true true) (voteReq bob "1") 6).2.booths,
      (b.candidates.map (fun c => c.voteCount)).sum = b.totalVotes ∧
      ∀ c ∈ b.candidates, 0 ≤ c.voteCount :=
  ⟨by decide, tally_sum_invariant asciiRuntime _ changed_vote_reachable⟩

/-- C6. First-vote effect. In a consistent database (every reachable one is),
for a booth where voting is allowed, a member `u` with `hasVoted = false` and an
index `k` of a candidate `c`, the vote request succeeds; afterwards `totalVotes`
and the `voteCount` of candidate `k` are each greater by one, every other
candidate entry is unchanged, `u` has voted, every entry of another member is
unchanged, and the audit records are the old ones followed by the one record
of booth, `u`, `k` and the name of `c`. -/
theorem first_vote_effect (js : Builtins) (db : Db) (req : VoteRequest) (now : Int)
    (booth : Booth) (k : Nat) (c : Candidate)
    (hstore : db.Consistent)
    (hid : js.isMongoId req.boothId = true)
    (hb : db.findBoothById req.boothId = some booth)
    (ha : (booth.isVotingAllowed now).allowed = true)
    (hm : booth.isMember req.userId = true)
    (hnv : booth.hasUserVoted req.userId = false)
    (hk : parseInt js req.candidateIndex = some (k : Int))
    (hc : booth.candidates[k]? = some c) :
    (vote js db req now).1 =
      (if req.acceptsHtml then redirectTo ("/booth/" ++ req.boothId ++ "/results")
       else { status := 200, kind := .json, message := some "Vote recorded successfully",
              candidate := some c.name }) ∧
    (vote js db req now).2.votes =
      db.votes ++ [⟨req.boothId, req.userId, k, c.name, now, req.ip, req.userAgent⟩] ∧
    ∃ after, (vote js db req now).2.findBoothById req.boothId = some after ∧
      after.totalVotes = booth.totalVotes + 1 ∧
      after.candidates[k]? = some { c with voteCount := c.voteCount + 1 } ∧
      (∀ i, i ≠ k → after.candidates[i]? = booth.candidates[i]?) ∧
      after.candidates.length = booth.candidates.length ∧
      after.hasUserVoted req.userId = true ∧
      after.members.length = booth.members.length ∧
      (∀ (i : Nat) (m : Member), booth.members[i]? = some m → m.user ≠ req.userId →
        after.members[i]? = some m) := by
  have hmem := mem_of_findBoothById db _ _ hb
  have hbid := findBoothById_id db _ _ hb
  have hnr : db.findVote req.boothId req.userId = none := by
    cases hf : db.findVote req.boothId req.userId with
    | none => rfl
    | some v =>
      have hv : v ∈ db.votes := List.mem_of_find?_eq_some hf
      have hp := List.find?_some hf
      simp only [Bool.and_eq_true, beq_iff_eq] at hp
      have := hstore.voted v hv booth hmem (hbid.trans hp.1.symm)
      rw [hp.2, hnv] at this
      cases this
  exact first_vote_run js db req now booth k c hid hb (hstore.valid booth hmem) hnr ha hm hnv
    hk hc

/-- The database of the concrete run after `bob` joined is reachable. -/
theorem afterJoin_reachable : Reachable asciiRuntime (afterJoin none false false) :=
  Reachable.join _ (joinReq bob) 2
    (Reachable.create db0 (lunchRequest none false false) 1 lunchId (fun _ => 0) 1 lunchCreated
      (afterCreate none false false) (Reachable.init db0.users) (by decide))

/-- Witness of `first_vote_effect`: the first vote of `bob` in the concrete run,
for candidate 0, adds the one audit record of that vote. -/
theorem first_vote_effect_witness :
    (lunchBooth (afterJoin none false false)).map (fun b => b.hasUserVoted bob) = some false ∧
    (vote asciiRuntime (afterJoin none false false) (voteReq bob "0") 5).2.votes
      = (afterJoin none false false).votes ++
        [⟨(voteReq bob "0").boothId, (voteReq bob "0").userId, ((0 : Nat) : Int),
          (⟨"A", "", 0⟩ : Candidate).name, 5, (voteReq bob "0").ip,
          (voteReq bob "0").userAgent⟩] :=
  ⟨by decide,
   (first_vote_effect asciiRuntime (afterJoin none false false) (voteReq bob "0") 5
      ((lunchBooth (afterJoin none false false)).getD default) 0 ⟨"A", "", 0⟩
      (reachable_consistent asciiRuntime _ afterJoin_reachable)
      (by decide) (by decide) (by decide) (by decide) (by decide) (by decide)
      (by decide)).2.1⟩

theorem splitChars_no_sep (sep : Char) (l : List Char) (h : sep ∉ l) :
    splitChars sep l = [l] := by
  induction l with
  | nil => rfl
  | cons c t ih =>
    have hc : (c == sep) = false := by
      simp only [beq_eq_false_iff_ne, ne_eq]
      intro hcs; exact h (by simp [hcs])
    have ht : sep ∉ t := fun hm => h (List.mem_cons_of_mem _ hm)
    simp [splitChars, hc, ih ht]

theorem splitChars_at (sep : Char) (l r : List Char) (h : sep ∉ l) :
    splitChars sep (l ++ sep :: r) = l :: splitChars sep r := by
  induction l with
  | nil => simp [splitChars]
  | cons c t ih =>
    have hc : (c == sep) = false := by
      simp only [beq_eq_false_iff_ne, ne_eq]
      intro hcs; exact h (by simp [hcs])
    have ht : sep ∉ t := fun hm => h (List.mem_cons_of_mem _ hm)
    simp [splitChars, hc, ih ht]

theorem email_domain_segment (loc dom : List Char) (hl : '@' ∉ loc) (hd : '@' ∉ dom) :
    (splitChars '@' (loc ++ '@' :: dom))[1]? = some dom := by
  rw [splitChars_at _ _ _ hl, splitChars_no_sep _ _ hd]
  rfl

theorem joinAdmit_ok (js : Builtins) (db : Db) (booth : Booth) (req : JoinRequest) (now : Int)
    (user : User) (hm : booth.isMember req.userId = false)
    (hcap : ¬ ((booth.members.length : Int) ≥ booth.maxMembers)) (hval : booth.validate = true)
    (hu : db.findUserById req.userId = some user) :
    (joinAdmit js db booth req now).1.error = none ∧
    (joinAdmit js db booth req now).2.booths
      = (db.replaceBooth (booth.admitted req.userId now)).booths := by
  have hadd := addMember_ok booth db req.userId now hm hcap hval
  have hu2 : (db.replaceBooth (booth.admitted req.userId now)).findUserById req.userId
      = some user := hu
  unfold joinAdmit
  rw [hadd]
  simp only [hu2]
  constructor
  · split <;> simp [redirectTo]
  · split <;> split <;> simp [Db.saveUser, Db.replaceBooth]

/-- The email check of `joinBooth` in terms of `cleanDomain`. A user whose email
address is `loc@dom` asks to join an active booth with room, of which the user
is not a member and whose `allowedEmailDomains` is not empty. The check passes
exactly when `cleanDomain` of some entry equals `dom` after both are put in
lower case; then the user is appended to the members, and otherwise the request
is refused with the email-domain error and the database is as it was. -/
theorem joinBooth_email_domain_clean (js : Builtins) (db : Db) (req : JoinRequest) (now : Int)
    (booth : Booth) (user : User) (loc dom : List Char)
    (hfmt : (req.code.data.isEmpty || !isInviteCodeFormat (js.toUpperCase req.code).data) = false)
    (hb : db.findBoothByInviteCode (js.toUpperCase req.code) = some booth)
    (hs : booth.status = Status.active) (hm : booth.isMember req.userId = false)
    (hcap : (booth.members.length : Int) < booth.maxMembers)
    (hd : booth.settings.allowedEmailDomains ≠ [])
    (hval : booth.validate = true)
    (hu : db.findUserById req.userId = some user)
    (he : user.email = some (String.mk (loc ++ '@' :: dom)))
    (hl : '@' ∉ loc) (hdm : '@' ∉ dom) :
    (emailDomainCheck js db booth req = none ↔
      ∃ d ∈ booth.settings.allowedEmailDomains,
        js.toLowerCase (cleanDomain d) = js.toLowerCase (String.mk dom)) ∧
    ((∃ d ∈ booth.settings.allowedEmailDomains,
        js.toLowerCase (cleanDomain d) = js.toLowerCase (String.mk dom)) →
      (joinBooth js db req now).1.error = none ∧
      (joinBooth js db req now).2.booths
        = (db.replaceBooth (booth.admitted req.userId now)).booths) ∧
    ((¬ ∃ d ∈ booth.settings.allowedEmailDomains,
        js.toLowerCase (cleanDomain d) = js.toLowerCase (String.mk dom)) →
      (joinBooth js db req now).1.error
        = some ("Only users with " ++
            ", ".intercalate (booth.settings.allowedEmailDomains.map atDomain) ++
            " email addresses can join this booth") ∧
      (req.acceptsHtml = false → (joinBooth js db req now).1.status = 403) ∧
      (joinBooth js db req now).2 = db) := by
  have hcap2 : ¬ ((booth.members.length : Int) ≥ booth.maxMembers) := by omega
  have hlen : booth.settings.allowedEmailDomains.length > 0 := List.length_pos.mpr hd
  have hemail : (db.findUserById req.userId).bind (fun x => x.email)
      = some (String.mk (loc ++ '@' :: dom)) := by
    rw [hu]; exact he
  have hne : (String.mk (loc ++ '@' :: dom)).data.isEmpty = false := by
    cases loc <;> rfl
  have hseg : (splitChars '@' (String.mk (loc ++ '@' :: dom)).data)[1]? = some dom :=
    email_domain_segment loc dom hl hdm
  have hcheck : emailDomainCheck js db booth req =
      if !(booth.settings.allowedEmailDomains.any (fun allowedDomain =>
          js.toLowerCase (cleanDomain allowedDomain) == js.toLowerCase (String.mk dom)))
      then some (joinError req.acceptsHtml 403
        (domainErrorMessage booth.settings.allowedEmailDomains))
      else none := by
    unfold emailDomainCheck
    simp only [hlen, if_true, hemail, hne, Bool.false_eq_true, if_false, hseg]
  have hany : (booth.settings.allowedEmailDomains.any (fun allowedDomain =>
        js.toLowerCase (cleanDomain allowedDomain) == js.toLowerCase (String.mk dom))) = true ↔
      ∃ d ∈ booth.settings.allowedEmailDomains,
        js.toLowerCase (cleanDomain d) = js.toLowerCase (String.mk dom) := by
    rw [List.any_eq_true]
    constructor
    · rintro ⟨d, h1, h2⟩; exact ⟨d, h1, by simpa using h2⟩
    · rintro ⟨d, h1, h2⟩; exact ⟨d, h1, by simpa using h2⟩
  refine ⟨?_, ?_, ?_⟩
  · rw [hcheck, ← hany]
    cases booth.settings.allowedEmailDomains.any (fun allowedDomain =>
        js.toLowerCase (cleanDomain allowedDomain) == js.toLowerCase (String.mk dom)) <;> simp
  · intro hex
    have h1 := hany.mpr hex
    have hc2 : emailDomainCheck js db booth req = none := by rw [hcheck, h1]; rfl
    have hjoin : joinBooth js db req now = joinAdmit js db booth req now := by
      simp [joinBooth, hfmt, hb, hs, hm, hcap2, hc2]
    rw [hjoin]
    exact joinAdmit_ok js db booth req now user hm hcap2 hval hu
  · intro hno
    have h1 : (booth.settings.allowedEmailDomains.any (fun allowedDomain =>
        js.toLowerCase (cleanDomain allowedDomain) == js.toLowerCase (String.mk dom))) = false := by
      rw [Bool.eq_false_iff]
      exact fun h => hno (hany.mp h)
    have hc2 : emailDomainCheck js db booth req = some (joinError req.acceptsHtml 403
        (domainErrorMessage booth.settings.allowedEmailDomains)) := by rw [hcheck, h1]; rfl
    have hjoin : joinBooth js db req now = (joinError req.acceptsHtml 403
        (domainErrorMessage booth.settings.allowedEmailDomains), db) := by
      simp [joinBooth, hfmt, hb, hs, hm, hcap2, hc2]
    rw [hjoin]
    refine ⟨joinError_error _ _ _, ?_, rfl⟩
    intro hj
    simp [joinError, hj]

theorem joinError_message (a : Bool) (st : Nat) (e : String) :
    (joinError a st e).message = none := by
  unfold joinError
  cases a <;> rfl

theorem addMember_spec (b : Booth) (db : Db) (u : String) (now : Int) (doc : Booth) (db1 : Db)
    (h : b.addMember db u now = .ok (doc, db1)) :
    b.isMember u = false ∧ (b.members.length : Int) < b.maxMembers ∧ b.validate = true ∧
    doc = b.admitted u now ∧ db1 = db.replaceBooth doc := by
  unfold Booth.addMember at h
  split at h
  · cases h
  · rename_i hm
    split at h
    · cases h
    · rename_i hcap
      obtain ⟨hv, hd, hdb⟩ := saveBooth_spec _ _ _ _ _ h
      exact ⟨by simpa using hm, by omega,
        (validate_congr (b := b) rfl rfl rfl rfl rfl rfl).symm.trans hv, hd, hdb⟩

theorem joinAdmit_votes (js : Builtins) (db : Db) (booth : Booth) (req : JoinRequest) (now : Int) :
    (joinAdmit js db booth req now).2.votes = db.votes := by
  unfold joinAdmit
  cases hadd : booth.addMember db req.userId now with
  | error e => rfl
  | ok r =>
    obtain ⟨booth1, db1⟩ := r
    obtain ⟨-, -, -, -, hdb⟩ := addMember_spec _ _ _ _ _ _ hadd
    subst hdb
    simp only
    cases hu : (db.replaceBooth booth1).findUserById req.userId with
    | none => rfl
    | some user =>
      simp only
      split <;> split <;> simp [Db.saveUser, Db.replaceBooth]

theorem joinBooth_votes (js : Builtins) (db : Db) (req : JoinRequest) (now : Int) :
    (joinBooth js db req now).2.votes = db.votes := by
  unfold joinBooth
  split
  · rfl
  · split
    · rfl
    · split
      · rfl
      · split
        · split <;> rfl
        · split
          · rfl
          · split
            · rfl
            · exact joinAdmit_votes js db _ req now

theorem emailDomainCheck_message (js : Builtins) (db : Db) (booth : Booth) (req : JoinRequest)
    (r : Response) (h : emailDomainCheck js db booth req = some r) : r.message = none := by
  unfold emailDomainCheck at h
  split at h
  · split at h
    · cases h; exact joinError_message _ _ _
    · split at h
      · cases h; exact joinError_message _ _ _
      · split at h
        · cases h; exact joinError_message _ _ _
        · simp only [] at h
          split at h
          · cases h; exact joinError_message _ _ _
          · cases h
  · cases h

/-- A join request that is answered with the success message of an admission
went through every check and wrote the booth with the user appended. -/
theorem joinBooth_success (js : Builtins) (db : Db) (req : JoinRequest) (now : Int)
    (h : (joinBooth js db req now).1.message = some "Successfully joined booth") :
    ∃ booth, db.findBoothByInviteCode (js.toUpperCase req.code) = some booth ∧
      booth.isMember req.userId = false ∧
      (joinBooth js db req now).2.booths
        = (db.replaceBooth (booth.admitted req.userId now)).booths := by
  by_cases hfmt : (req.code.data.isEmpty || !isInviteCodeFormat (js.toUpperCase req.code).data) = true
  · simp [joinBooth, hfmt, joinError_message] at h
  · have hfmt2 : (req.code.data.isEmpty ||
        !isInviteCodeFormat (js.toUpperCase req.code).data) = false := by simpa using hfmt
    cases hb : db.findBoothByInviteCode (js.toUpperCase req.code) with
    | none => simp [joinBooth, hfmt2, hb, joinError_message] at h
    | some booth =>
      by_cases hs : booth.status = Status.active
      · cases hm : booth.isMember req.userId with
        | true =>
          simp only [joinBooth, hfmt2, hb, hs, hm] at h
          cases ha : req.acceptsHtml <;> simp [ha, redirectTo] at h
        | false =>
          by_cases hcap : (booth.members.length : Int) ≥ booth.maxMembers
          · simp [joinBooth, hfmt2, hb, hs, hm, hcap, joinError_message] at h
          · cases hcheck : emailDomainCheck js db booth req with
            | some r =>
              have := emailDomainCheck_message js db booth req r hcheck
              simp [joinBooth, hfmt2, hb, hs, hm, hcap, hcheck, this] at h
            | none =>
              have hjoin : joinBooth js db req now = joinAdmit js db booth req now := by
                simp [joinBooth, hfmt2, hb, hs, hm, hcap, hcheck]
              refine ⟨booth, rfl, hm, ?_⟩
              rw [hjoin] at h ⊢
              unfold joinAdmit at h ⊢
              cases hadd : booth.addMember db req.userId now with
              | error e => simp [hadd, joinError_message] at h
              | ok r =>
                obtain ⟨booth1, db1⟩ := r
                obtain ⟨-, -, -, hdoc, hdb⟩ := addMember_spec _ _ _ _ _ _ hadd
                subst hdb
                subst hdoc
                simp only
                cases hu : (db.replaceBooth (booth.admitted req.userId now)).findUserById
                    req.userId with
                | none => rfl
                | some user =>
                  simp only
                  split <;> split <;> simp [Db.saveUser, Db.replaceBooth]
      · simp [joinBooth, hfmt2, hb, hs, joinError_message] at h

/-- C12. Join success effect and frame. When `joinBooth` admits a user (the
request is answered with the success message of an admission, or the request
changed the database), the user was not a member of the booth of the code, and
afterwards the members of that booth are the old list followed by one entry
for the user with `hasVoted = false`; the candidates with their vote counts,
`totalVotes`, the status, the settings and the invite code of the booth are
unchanged, and so are every other booth and the audit records. -/
theorem joinBooth_effect (js : Builtins) (db : Db) (req : JoinRequest) (now : Int)
    (hadm : (joinBooth js db req now).1.message = some "Successfully joined booth" ∨
      (joinBooth js db req now).2 ≠ db) :
    ∃ booth booth1,
      db.findBoothByInviteCode (js.toUpperCase req.code) = some booth ∧
      booth.isMember req.userId = false ∧
      (joinBooth js db req now).2.findBoothByInviteCode (js.toUpperCase req.code)
        = some booth1 ∧
      booth1.id = booth.id ∧
      booth1.members
        = booth.members ++ [{ user := req.userId, joinedAt := now, hasVoted := false }] ∧
      booth1.candidates = booth.candidates ∧ booth1.totalVotes = booth.totalVotes ∧
      booth1.status = booth.status ∧ booth1.settings = booth.settings ∧
      booth1.inviteCode = booth.inviteCode ∧ booth1.maxMembers = booth.maxMembers ∧
      (∀ b ∈ (joinBooth js db req now).2.booths, b.id ≠ booth.id → b ∈ db.booths) ∧
      (joinBooth js db req now).2.votes = db.votes := by
  have key : ∃ booth, db.findBoothByInviteCode (js.toUpperCase req.code) = some booth ∧
      booth.isMember req.userId = false ∧
      (joinBooth js db req now).2.booths
        = (db.replaceBooth (booth.admitted req.userId now)).booths := by
    rcases hadm with h | h
    · exact joinBooth_success js db req now h
    · rcases joinBooth_shape js db req with hsame | ⟨booth, -, hb, -, hm, -, hrun⟩
      · exact absurd (hsame now now).2 h
      · exact ⟨booth, hb, hm, hrun now⟩
  obtain ⟨booth, hb, hm, hrun⟩ := key
  have hcode : booth.inviteCode = js.toUpperCase req.code := by
    have := List.find?_some hb
    simpa using this
  refine ⟨booth, booth.admitted req.userId now, hb, hm, ?_, rfl, rfl, rfl, rfl, rfl, rfl, rfl,
    rfl, ?_, joinBooth_votes js db req now⟩
  · unfold Db.findBoothByInviteCode
    rw [hrun]
    exact findByCode_replace db.booths _ booth _ hb hcode rfl
  · intro b hbm hid
    rw [hrun] at hbm
    rcases mem_replaceBooth db _ b hbm with ⟨rfl, -⟩ | ⟨hmem, -⟩
    · exact absurd rfl hid
    · exact hmem

/-- Witness of `joinBooth_effect`: the join request of `bob` to the booth of the
concrete run is answered with the success message; the members are then `ann`
and `bob`, and the tallies are as before. -/
theorem joinBooth_effect_witness :
    (joinBooth asciiRuntime (afterCreate none false false) (joinReq bob) 2).1.message
      = some "Successfully joined booth" ∧
    (lunchBooth (afterCreate none false false)).map
      (fun b => (b.members, b.tallies, b.totalVotes)) = some ([⟨ann, 1, false⟩], [0, 0], 0) ∧
    (lunchBooth (joinBooth asciiRuntime (afterCreate none false false) (joinReq bob) 2).2).map
      (fun b => (b.members, b.tallies, b.totalVotes))
      = some ([⟨ann, 1, false⟩, ⟨bob, 2, false⟩], [0, 0], 0) ∧
    ∃ booth booth1,
      (afterCreate none false false).findBoothByInviteCode
        (asciiRuntime.toUpperCase (joinReq bob).code) = some booth ∧
      booth.isMember (joinReq bob).userId = false ∧
      (joinBooth asciiRuntime (afterCreate none false false) (joinReq bob)
        2).2.findBoothByInviteCode (asciiRuntime.toUpperCase (joinReq bob).code) = some booth1 ∧
      booth1.id = booth.id ∧
      booth1.members
        = booth.members ++ [{ user := (joinReq bob).userId, joinedAt := 2, hasVoted := false }] ∧
      booth1.candidates = booth.candidates ∧ booth1.totalVotes = booth.totalVotes ∧
      booth1.status = booth.status ∧ booth1.settings = booth.settings ∧
      booth1.inviteCode = booth.inviteCode ∧ booth1.maxMembers = booth.maxMembers ∧
      (∀ b ∈ (joinBooth asciiRuntime (afterCreate none false false) (joinReq bob) 2).2.booths,
        b.id ≠ booth.id → b ∈ (afterCreate none false false).booths) ∧
      (joinBooth asciiRuntime (afterCreate none false false) (joinReq bob) 2).2.votes
        = (afterCreate none false false).votes :=
  ⟨by decide, by decide, by decide,
   joinBooth_effect asciiRuntime (afterCreate none false false) (joinReq bob) 2
     (Or.inl (by decide))⟩

theorem voteChange_frame (db : Db) (booth : Booth) (req : VoteRequest)
    (booth1 : Booth) (db1 : Db) (h : voteChange db booth req = .ok (booth1, db1)) :
    db1.booths = db.booths ∧ db1.users = db.users ∧ booth1.id = booth.id ∧
    booth1.members = booth.members ∧ booth1.settings = booth.settings ∧
    booth1.maxMembers = booth.maxMembers ∧ booth1.status = booth.status ∧
    (db1.votes = db.votes ∨ db1.votes
      = db.votes.eraseP (fun v => v.booth == req.boothId && v.voter == req.userId)) := by
  unfold voteChange at h
  split at h
  · split at h
    · simp only [Except.ok.injEq, Prod.mk.injEq] at h
      obtain ⟨rfl, rfl⟩ := h
      exact ⟨rfl, rfl, rfl, rfl, rfl, rfl, rfl, Or.inl rfl⟩
    · split at h
      · split at h
        · cases h
        · simp only [Except.ok.injEq, Prod.mk.injEq] at h
          obtain ⟨rfl, rfl⟩ := h
          exact ⟨rfl, rfl, rfl, rfl, rfl, rfl, rfl, Or.inr rfl⟩
      · simp only [Except.ok.injEq, Prod.mk.injEq] at h
        obtain ⟨rfl, rfl⟩ := h
        exact ⟨rfl, rfl, rfl, rfl, rfl, rfl, rfl, Or.inr rfl⟩
  · simp only [Except.ok.injEq, Prod.mk.injEq] at h
    obtain ⟨rfl, rfl⟩ := h
    exact ⟨rfl, rfl, rfl, rfl, rfl, rfl, rfl, Or.inl rfl⟩

/-- What the statements of `vote` after the checks can do to a stored booth:
whether they complete or throw, a booth of the database at the end is a booth
of the database at the start, or it is the booth of the request with the flag
of the voter set and, possibly, other tallies. -/
theorem castVote_booths (db : Db) (booth : Booth) (req : VoteRequest) (k : Int) (now : Int)
    (d : Db)
    (h : (∃ e, castVote db booth req k now = .error (e, d)) ∨
      (∃ n, castVote db booth req k now = .ok (n, d))) :
    d.users = db.users ∧
    ∀ b ∈ d.booths, b ∈ db.booths ∨
      (b.id = booth.id ∧ b.settings = booth.settings ∧ b.maxMembers = booth.maxMembers ∧
        b.status = booth.status ∧ b.members = setVoted req.userId booth.members) := by
  have hstart : db.users = db.users ∧ ∀ b ∈ db.booths, b ∈ db.booths ∨
      (b.id = booth.id ∧ b.settings = booth.settings ∧ b.maxMembers = booth.maxMembers ∧
        b.status = booth.status ∧ b.members = setVoted req.userId booth.members) :=
    ⟨rfl, fun b hb => Or.inl hb⟩
  unfold castVote at h
  cases h1 : voteChange db booth req with
  | error e =>
    simp only [h1] at h
    rcases h with ⟨e2, h⟩ | ⟨n, h⟩
    · cases h; exact hstart
    · cases h
  | ok r1 =>
    obtain ⟨booth1, db1⟩ := r1
    obtain ⟨hb1, hu1, hid1, hm1, hs1, hmax1, hst1, -⟩ := voteChange_frame db booth req _ _ h1
    have hstep1 : db1.users = db.users ∧ ∀ b ∈ db1.booths, b ∈ db.booths ∨
        (b.id = booth.id ∧ b.settings = booth.settings ∧ b.maxMembers = booth.maxMembers ∧
          b.status = booth.status ∧ b.members = setVoted req.userId booth.members) :=
      ⟨hu1, fun b hb => Or.inl (hb1 ▸ hb)⟩
    simp only [h1] at h
    cases h2 : booth1.markAsVoted db1 req.userId now with
    | error e =>
      simp only [h2] at h
      rcases h with ⟨e2, h⟩ | ⟨n, h⟩
      · cases h; exact hstep1
      · cases h
    | ok r2 =>
      obtain ⟨booth2, db2⟩ := r2
      obtain ⟨-, hd2, hdb2, -⟩ := markAsVoted_spec _ _ _ _ _ _ h2
      have hf2 : booth2.id = booth.id ∧ booth2.settings = booth.settings ∧
          booth2.maxMembers = booth.maxMembers ∧ booth2.status = booth.status ∧
          booth2.members = setVoted req.userId booth.members := by
        rw [hd2]
        exact ⟨hid1, hs1, hmax1, hst1, by simp [Booth.voted, hm1]⟩
      have hstep2 : db2.users = db.users ∧ ∀ b ∈ db2.booths, b ∈ db.booths ∨
          (b.id = booth.id ∧ b.settings = booth.settings ∧ b.maxMembers = booth.maxMembers ∧
            b.status = booth.status ∧ b.members = setVoted req.userId booth.members) := by
        refine ⟨by rw [hdb2]; exact hu1, ?_⟩
        intro b hb
        rw [hdb2] at hb
        rcases mem_replaceBooth db1 booth2 b hb with ⟨rfl, -⟩ | ⟨hmem, -⟩
        · exact Or.inr hf2
        · exact Or.inl (hb1 ▸ hmem)
      simp only [h2] at h
      cases h3 : booth2.incrementVote db2 k now with
      | error e =>
        simp only [h3] at h
        rcases h with ⟨e2, h⟩ | ⟨n, h⟩
        · cases h; exact hstep2
        · cases h
      | ok r3 =>
        obtain ⟨booth3, db3⟩ := r3
        obtain ⟨-, -, hd3, -, hdb3⟩ := incrementVote_spec _ _ _ _ _ _ h3
        have hf3 : booth3.id = booth.id ∧ booth3.settings = booth.settings ∧
            booth3.maxMembers = booth.maxMembers ∧ booth3.status = booth.status ∧
            booth3.members = setVoted req.userId booth.members := by
          rw [hd3]
          exact hf2
        have hstep3 : db3.users = db.users ∧ ∀ b ∈ db3.booths, b ∈ db.booths ∨
            (b.id = booth.id ∧ b.settings = booth.settings ∧ b.maxMembers = booth.maxMembers ∧
              b.status = booth.status ∧ b.members = setVoted req.userId booth.members) := by
          refine ⟨by rw [hdb3]; exact hstep2.1, ?_⟩
          intro b hb
          rw [hdb3] at hb
          rcases mem_replaceBooth db2 booth3 b hb with ⟨rfl, -⟩ | ⟨hmem, -⟩
          · exact Or.inr hf3
          · exact hstep2.2 b hmem
        simp only [h3] at h
        cases h4 : booth3.candidates[k.toNat]? with
        | none =>
          simp only [h4] at h
          rcases h with ⟨e2, h⟩ | ⟨n, h⟩
          · cases h; exact hstep3
          · cases h
        | some c =>
          simp only [h4] at h
          cases h5 : db3.insertVote
              { booth := req.boothId, voter := req.userId, candidateIndex := k,
                candidateName := c.name, votedAt := now,
                ipAddress := req.ip, userAgent := req.userAgent } with
          | error e =>
            simp only [h5] at h
            rcases h with ⟨e2, h⟩ | ⟨n, h⟩
            · cases h; exact hstep3
            · cases h
          | ok db4 =>
            simp only [h5] at h
            have := insertVote_spec _ _ _ h5
            rcases h with ⟨e2, h⟩ | ⟨n, h⟩
            · cases h
            · cases h
              subst this
              exact hstep3

/-- What a vote request can do to a stored booth. -/
theorem vote_booths (js : Builtins) (db : Db) (req : VoteRequest) (now : Int) :
    (vote js db req now).2.users = db.users ∧
    ∀ b ∈ (vote js db req now).2.booths, b ∈ db.booths ∨
      ∃ b0 ∈ db.booths, b0.id = req.boothId ∧
        (b0.hasUserVoted req.userId && !b0.settings.allowVoteChange) = false ∧
        b.id = b0.id ∧ b.settings = b0.settings ∧ b.maxMembers = b0.maxMembers ∧
        b.status = b0.status ∧ b.members = setVoted req.userId b0.members := by
  have hsame : db.users = db.users ∧ ∀ b ∈ db.booths, b ∈ db.booths ∨
      ∃ b0 ∈ db.booths, b0.id = req.boothId ∧
        (b0.hasUserVoted req.userId && !b0.settings.allowVoteChange) = false ∧
        b.id = b0.id ∧ b.settings = b0.settings ∧ b.maxMembers = b0.maxMembers ∧
        b.status = b0.status ∧ b.members = setVoted req.userId b0.members :=
    ⟨rfl, fun b hb => Or.inl hb⟩
  unfold vote
  split
  · exact hsame
  · split
    · exact hsame
    · rename_i booth hb
      have hmem := mem_of_findBoothById db _ _ hb
      have hid := findBoothById_id db _ _ hb
      simp only
      split
      · exact hsame
      · split
        · exact hsame
        · split
          · exact hsame
          · rename_i hv
            split
            · exact hsame
            · rename_i k hk
              split
              · exact hsame
              · have hv2 : (booth.hasUserVoted req.userId && !booth.settings.allowVoteChange)
                    = false := by simpa using hv
                have key : ∀ d, ((∃ e, castVote db booth req k now = .error (e, d)) ∨
                    (∃ n, castVote db booth req k now = .ok (n, d))) →
                    d.users = db.users ∧ ∀ b ∈ d.booths, b ∈ db.booths ∨
                    ∃ b0 ∈ db.booths, b0.id = req.boothId ∧
                      (b0.hasUserVoted req.userId && !b0.settings.allowVoteChange) = false ∧
                      b.id = b0.id ∧ b.settings = b0.settings ∧ b.maxMembers = b0.maxMembers ∧
                      b.status = b0.status ∧ b.members = setVoted req.userId b0.members := by
                  intro d hd
                  obtain ⟨hu, hbs⟩ := castVote_booths db booth req k now d hd
                  refine ⟨hu, fun b hbm => ?_⟩
                  rcases hbs b hbm with h | h
                  · exact Or.inl h
                  · exact Or.inr ⟨booth, hmem, hid, hv2, h⟩
                split
                · rename_i e d hcv
                  exact key d (Or.inl ⟨e, hcv⟩)
                · rename_i n d hcv
                  split
                  · exact key d (Or.inr ⟨n, hcv⟩)
                  · exact key d (Or.inr ⟨n, hcv⟩)


/-- What a join request can do to a stored booth. -/
theorem joinBooth_booths (js : Builtins) (db : Db) (req : JoinRequest) (now : Int) :
    ∀ b ∈ (joinBooth js db req now).2.booths, b ∈ db.booths ∨
      ∃ b0 ∈ db.booths, b0.isMember req.userId = false ∧
        (b0.members.length : Int) < b0.maxMembers ∧ b0.status = Status.active ∧
        b = b0.admitted req.userId now := by
  rcases joinBooth_shape js db req with hsame | ⟨booth, -, hb, hs, hm, hcap, hrun⟩
  · intro b hbm
    rw [(hsame now now).2] at hbm
    exact Or.inl hbm
  · intro b hbm
    rw [hrun now] at hbm
    rcases mem_replaceBooth db _ b hbm with ⟨rfl, -⟩ | ⟨hmem, -⟩
    · exact Or.inr ⟨booth, List.mem_of_find?_eq_some hb, hm, hcap, hs, rfl⟩
    · exact Or.inl hmem

/-- The booth document that `removeMember` saves for user `u` at time `now`. -/
theorem removeMember_spec (b : Booth) (db : Db) (u : String) (now : Int) (doc : Booth) (db1 : Db)
    (h : b.removeMember db u now = .ok (doc, db1)) :
    b.validate = true ∧
    doc = { b with members := b.members.filter (fun m => m.user != u), updatedAt := now } ∧
    db1 = db.replaceBooth doc := by
  unfold Booth.removeMember at h
  obtain ⟨hv, hd, hdb⟩ := saveBooth_spec _ _ _ _ _ h
  exact ⟨(validate_congr (b := b) rfl rfl rfl rfl rfl rfl).symm.trans hv, hd, hdb⟩

/-- The two outcomes of a request to the member-removal route: nothing is
written, or the booth of the request is saved without the entries of the
member, and the audit records of the pair are deleted. -/
theorem removeMemberRoute_shape (db : Db) (req : RemoveRequest) (now : Int) :
    (removeMemberRoute db req now).2 = db ∨
    ∃ b0, db.findBoothById req.boothId = some b0 ∧ b0.validate = true ∧
      b0.creator = req.userId ∧ req.memberId ≠ req.userId ∧
      (removeMemberRoute db req now).2.booths = (db.replaceBooth
        { b0 with members := b0.members.filter (fun m => m.user != req.memberId),
                  updatedAt := now }).booths ∧
      (removeMemberRoute db req now).2.votes
        = db.votes.filter (fun v => !(v.booth == req.boothId && v.voter == req.memberId)) := by
  unfold removeMemberRoute
  cases hb : db.findBoothById req.boothId with
  | none => left; rfl
  | some booth =>
    simp only
    by_cases hc : (booth.creator != req.userId) = true
    · left; simp [hc]
    · by_cases hself : (req.memberId == req.userId) = true
      · left; simp [hc, hself]
      · simp only [hc, hself, if_false, Bool.false_eq_true]
        cases hrm : booth.removeMember db req.memberId now with
        | error e => left; rfl
        | ok r =>
          obtain ⟨doc, db1⟩ := r
          obtain ⟨hv, hd, hdb⟩ := removeMember_spec _ _ _ _ _ _ hrm
          right
          refine ⟨booth, rfl, hv, by simpa using hc, by simpa using hself, ?_, ?_⟩
          · subst hdb; subst hd
            simp only
            split <;> simp [Db.deleteVotes, Db.saveUser, Db.replaceBooth]
          · subst hdb; subst hd
            simp only
            split <;> simp [Db.deleteVotes, Db.saveUser, Db.replaceBooth]

/-- What a request to the member-removal route can do to a stored booth. -/
theorem removeMemberRoute_booths (db : Db) (req : RemoveRequest) (now : Int) :
    ∀ b ∈ (removeMemberRoute db req now).2.booths, b ∈ db.booths ∨
      ∃ b0 ∈ db.booths, b0.id = req.boothId ∧
        b = { b0 with members := b0.members.filter (fun m => m.user != req.memberId),
                      updatedAt := now } := by
  rcases removeMemberRoute_shape db req now with hsame | ⟨b0, hb, -, -, -, hbooths, -⟩
  · intro b hbm
    rw [hsame] at hbm
    exact Or.inl hbm
  · intro b hbm
    rw [hbooths] at hbm
    rcases mem_replaceBooth db _ b hbm with ⟨rfl, -⟩ | ⟨hmem, -⟩
    · exact Or.inr ⟨b0, mem_of_findBoothById db _ _ hb, findBoothById_id db _ _ hb, rfl⟩
    · exact Or.inl hmem

/-- What an edit request can do to a stored booth: the members stay, and a new
`maxMembers` is not below their number. -/
theorem editBooth_booths (js : Builtins) (db : Db) (req : EditRequest) (now : Int) :
    (editBooth js db req now).2.votes = db.votes ∧
    ∀ b ∈ (editBooth js db req now).2.booths, b ∈ db.booths ∨
      ∃ b0 ∈ db.booths, b.id = b0.id ∧ b.members = b0.members ∧ b.settings = b0.settings ∧
        b.candidates = b0.candidates ∧ b.totalVotes = b0.totalVotes ∧
        (b.maxMembers = b0.maxMembers ∨ (b0.members.length : Int) ≤ b.maxMembers) := by
  have hsame : db.votes = db.votes ∧ ∀ b ∈ db.booths, b ∈ db.booths ∨
      ∃ b0 ∈ db.booths, b.id = b0.id ∧ b.members = b0.members ∧ b.settings = b0.settings ∧
        b.candidates = b0.candidates ∧ b.totalVotes = b0.totalVotes ∧
        (b.maxMembers = b0.maxMembers ∨ (b0.members.length : Int) ≤ b.maxMembers) :=
    ⟨rfl, fun b hb => Or.inl hb⟩
  unfold editBooth
  simp only
  split
  · exact hsame
  · split
    · exact hsame
    · rename_i booth hb
      have hmem := mem_of_findBoothById db _ _ hb
      split
      · exact hsame
      · split
        · exact hsame
        · rename_i herr
          split
          · exact hsame
          · rename_i doc db1 hsave
            obtain ⟨-, hd, hdb⟩ := saveBooth_spec _ _ _ _ _ hsave
            subst hdb
            refine ⟨rfl, ?_⟩
            intro b hbm
            rcases mem_replaceBooth db _ b hbm with ⟨rfl, -⟩ | ⟨hmem2, -⟩
            · right
              refine ⟨booth, hmem, by rw [hd], by rw [hd], by rw [hd], by rw [hd], by rw [hd], ?_⟩
              rw [hd]
              simp only
              cases hmm : editedMaxMembers js req with
              | none => left; rfl
              | some n =>
                right
                simp only [Option.getD_some]
                by_contra hlt
                apply herr
                have : n < (booth.members.length : Int) := by omega
                simp [editErrors, hmm, this]
            · exact Or.inl hmem2

theorem maxMembers_of_validate (b : Booth) (h : b.validate = true) :
    1 ≤ b.maxMembers ∧ b.maxMembers ≤ 10000 := by
  simp only [Booth.validate, Bool.and_eq_true, decide_eq_true_eq] at h
  exact ⟨h.1.1.2, h.1.2⟩

/-- What a request to `createBooth` can do to the booth collection: nothing, or
one new booth whose only member is its creator. -/
theorem createBooth_booths (js : Builtins) (db : Db) (req : CreateRequest) (now : Int)
    (newId : String) (rng : Nat → Fin 36) (fuel : Nat) (resp : Response) (db1 : Db)
    (h : createBooth js db req now newId rng fuel = some (resp, db1)) :
    db1.votes = db.votes ∧
    ∀ b ∈ db1.booths, b ∈ db.booths ∨
      (b.members = [{ user := req.userId, joinedAt := now, hasVoted := false }] ∧
        1 ≤ b.maxMembers) := by
  rcases createBooth_result js db req now newId rng fuel resp db1 h with
    ⟨rfl, -⟩ | ⟨code, n, vst, vet, doc, -, hcode, hdoc, hval, -, hbooths, hvotes, -⟩
  · exact ⟨rfl, fun b hb => Or.inl hb⟩
  · refine ⟨hvotes, ?_⟩
    intro b hb
    rw [hbooths] at hb
    rcases List.mem_append.mp hb with hb | hb
    · exact Or.inl hb
    · right
      simp only [List.mem_singleton] at hb
      subst hb
      constructor
      · rw [hdoc]; rfl
      · exact (maxMembers_of_validate doc hval).1

theorem users_nodup_filter (l : List Member) (p : Member → Bool)
    (h : (l.map (fun m => m.user)).Nodup) : ((l.filter p).map (fun m => m.user)).Nodup :=
  List.Nodup.sublist ((List.filter_sublist l).map _) h

theorem users_nodup_admitted (b : Booth) (u : String) (now : Int)
    (h : (b.members.map (fun m => m.user)).Nodup) (hm : b.isMember u = false) :
    ((b.admitted u now).members.map (fun m => m.user)).Nodup := by
  simp only [Booth.admitted, List.map_append, List.map_cons, List.map_nil]
  rw [List.nodup_append]
  refine ⟨h, List.nodup_singleton _, ?_⟩
  intro a ha hb
  simp only [List.mem_singleton] at hb
  subst hb
  obtain ⟨m, hmem, hmu⟩ := List.mem_map.mp ha
  have : b.isMember m.user = true := List.any_eq_true.mpr ⟨m, hmem, by simp⟩
  rw [hmu, hm] at this
  cases this

/-- The membership invariants of the stored booths: the members fit into
`maxMembers`, and no user has two entries. -/
theorem membership_invariant (js : Builtins) (db : Db) (h : MembershipReachable js db) :
    ∀ b ∈ db.booths, (b.members.length : Int) ≤ b.maxMembers ∧
      (b.members.map (fun m => m.user)).Nodup := by
  induction h with
  | init users => intro b hb; cases hb
  | create db req now newId rng fuel resp db1 _ hrun ih =>
    intro b hb
    rcases (createBooth_booths js db req now newId rng fuel resp db1 hrun).2 b hb with h | ⟨hm, hx⟩
    · exact ih b h
    · rw [hm]
      exact ⟨by simpa using hx, by simp⟩
  | join db req now _ ih =>
    intro b hb
    rcases joinBooth_booths js db req now b hb with h | ⟨b0, hb0, hm, hcap, -, rfl⟩
    · exact ih b h
    · refine ⟨?_, users_nodup_admitted b0 _ _ (ih b0 hb0).2 hm⟩
      simp only [Booth.admitted, List.length_append, List.length_singleton]
      push_cast
      omega
  | vote db req now _ ih =>
    intro b hb
    rcases (vote_booths js db req now).2 b hb with h | ⟨b0, hb0, -, -, -, -, hmax, -, hmem⟩
    · exact ih b h
    · rw [hmem, hmax, setVoted_length, setVoted_users]
      exact ih b0 hb0
  | remove db req now _ ih =>
    intro b hb
    rcases removeMemberRoute_booths db req now b hb with h | ⟨b0, hb0, -, rfl⟩
    · exact ih b h
    · refine ⟨?_, users_nodup_filter _ _ (ih b0 hb0).2⟩
      have h1 := (ih b0 hb0).1
      have h2 := List.length_filter_le (fun m : Member => m.user != req.memberId) b0.members
      simp only
      omega
  | edit db req now _ ih =>
    intro b hb
    rcases (editBooth_booths js db req now).2 b hb with h | ⟨b0, hb0, -, hm, -, -, -, hmax⟩
    · exact ih b h
    · rw [hm]
      refine ⟨?_, (ih b0 hb0).2⟩
      rcases hmax with h | h
      · rw [h]; exact (ih b0 hb0).1
      · exact h
  | addMember db b0 u now doc db1 _ hb0 hrun ih =>
    intro b hb
    obtain ⟨hm, hcap, -, hdoc, hdb⟩ := addMember_spec _ _ _ _ _ _ hrun
    rw [hdb] at hb
    rcases mem_replaceBooth db _ b hb with ⟨rfl, -⟩ | ⟨hmem, -⟩
    · rw [hdoc]
      refine ⟨?_, users_nodup_admitted b0 _ _ (ih b0 hb0).2 hm⟩
      simp only [Booth.admitted, List.length_append, List.length_singleton]
      push_cast
      omega
    · exact ih b hmem
  | removeMember db b0 u now doc db1 _ hb0 hrun ih =>
    intro b hb
    obtain ⟨-, hdoc, hdb⟩ := removeMember_spec _ _ _ _ _ _ hrun
    rw [hdb] at hb
    rcases mem_replaceBooth db _ b hb with ⟨rfl, -⟩ | ⟨hmem, -⟩
    · rw [hdoc]
      refine ⟨?_, users_nodup_filter _ _ (ih b0 hb0).2⟩
      have h1 := (ih b0 hb0).1
      have h2 := List.length_filter_le (fun m : Member => m.user != u) b0.members
      simp only
      omega
    · exact ih b hmem
  | account db users _ ih => exact ih

/-- The database of the concrete run after `bob` joined and `ann` sent the two
edit requests is reachable through the membership operations. -/
theorem afterEditUp_reachable : MembershipReachable asciiRuntime afterEditUp :=
  MembershipReachable.edit _ _ 4
    (MembershipReachable.edit _ _ 3
      (MembershipReachable.join _ (joinReq bob) 2
        (MembershipReachable.create db0 (lunchRequest none false false) 1 lunchId (fun _ => 0) 1
          lunchCreated (afterCreate none false false) (MembershipReachable.init db0.users)
          (by decide))))

/-- C15. Capacity invariant. In every database reachable from an empty booth
collection through `createBooth`, `joinBooth`, `addMember`, `removeMember`, the
member-removal route, `editBooth` and `vote`, every booth has at most
`maxMembers` members. -/
theorem capacity_invariant (js : Builtins) (db : Db) (h : MembershipReachable js db) :
    ∀ b ∈ db.booths, (b.members.length : Int) ≤ b.maxMembers :=
  fun b hb => (membership_invariant js db h b hb).1

/-- Witness of `capacity_invariant`: the booth of the concrete run is full with
two members; the request to lower `maxMembers` to 1 is refused and the request
to raise it to 3 is carried out. -/
theorem capacity_invariant_witness :
    (editBooth asciiRuntime (afterJoin none false false)
      ⟨lunchId, ann, none, none, .text "1"⟩ 3).1.error
      = some ("Maximum members must be between 2 and 10,000. " ++
          "Cannot reduce maximum members below current member count (2)") ∧
    (lunchBooth afterEditDown).map (fun b => (b.members.length, b.maxMembers)) = some (2, 2) ∧
    (lunchBooth afterEditUp).map (fun b => (b.members.length, b.maxMembers)) = some (2, 3) ∧
    ∀ b ∈ afterEditUp.booths, (b.members.length : Int) ≤ b.maxMembers :=
  ⟨by decide, by decide, by decide, capacity_invariant asciiRuntime afterEditUp afterEditUp_reachable⟩

/-- C16. Member uniqueness. In every database reachable from an empty booth
collection through `createBooth`, `joinBooth`, `addMember`, `removeMember` (and
the other membership operations), no user id occurs in two entries of the
members of a booth; and `addMember` for a user who is a member of the booth
throws the error `User is already a member` without saving anything. -/
theorem member_uniqueness (js : Builtins) (db : Db) (h : MembershipReachable js db) :
    (∀ b ∈ db.booths, (b.members.map (fun m => m.user)).Nodup) ∧
    ∀ (b : Booth) (u : String) (now : Int), b.isMember u = true →
      b.addMember db u now = .error "User is already a member" := by
  refine ⟨fun b hb => (membership_invariant js db h b hb).2, ?_⟩
  intro b u now hm
  simp [Booth.addMember, hm]

/-- The database of the concrete run after `bob` joined is reachable through
the membership operations. -/
theorem afterJoin_membership : MembershipReachable asciiRuntime (afterJoin none false false) :=
  MembershipReachable.join _ (joinReq bob) 2
    (MembershipReachable.create db0 (lunchRequest none false false) 1 lunchId (fun _ => 0) 1
      lunchCreated (afterCreate none false false) (MembershipReachable.init db0.users)
      (by decide))

/-- Witness of `member_uniqueness`: after `bob` joined the booth of the concrete
run its members are `ann` and `bob`, one entry each, and `addMember` for `bob`
throws. -/
theorem member_uniqueness_witness :
    (lunchBooth (afterJoin none false false)).map (fun b => b.members.map (fun m => m.user))
      = some [ann, bob] ∧
    ((lunchBooth (afterJoin none false false)).getD default).addMember
      (afterJoin none false false) bob 3 = .error "User is already a member" ∧
    ∀ b ∈ (afterJoin none false false).booths, (b.members.map (fun m => m.user)).Nodup :=
  ⟨by decide,
   (member_uniqueness asciiRuntime (afterJoin none false false) afterJoin_membership).2
     _ bob 3 (by decide),
   (member_uniqueness asciiRuntime (afterJoin none false false) afterJoin_membership).1⟩

theorem find_filter_of_imp (l : List Member) (p q : Member → Bool)
    (h : ∀ x, p x = true → q x = true) : (l.filter q).find? p = l.find? p := by
  induction l with
  | nil => rfl
  | cons a t ih =>
    by_cases hq : q a = true
    · simp only [List.filter_cons, hq, if_true, List.find?_cons, ih]
    · have hp : p a = false := by
        cases hpa : p a with
        | false => rfl
        | true => exact absurd (h a hpa) hq
      simp only [List.filter_cons, hq, if_false, Bool.false_eq_true, List.find?_cons, hp, ih]

theorem hasUserVoted_removed (b : Booth) (u w : String) (t : Int) (h : w ≠ u) :
    ({ b with members := b.members.filter (fun m => m.user != u), updatedAt := t }
      : Booth).hasUserVoted w = b.hasUserVoted w := by
  unfold Booth.hasUserVoted
  simp only
  rw [find_filter_of_imp]
  intro x hx
  have hxw : x.user = w := by simpa using hx
  simp only [bne_iff_ne, ne_eq]
  rw [hxw]
  exact h

theorem hasUserVoted_setVoted (b b2 : Booth) (u w : String)
    (hm : b2.members = setVoted u b.members) (h : b.hasUserVoted w = true) :
    b2.hasUserVoted w = true := by
  have h1 := hasUserVoted_voted b u w 0 h
  rw [← h1]
  exact hasUserVoted_of_members (b.voted u 0) b2 hm w

/-- A vote request of a user who has voted in a booth that does not allow vote
changes writes nothing. -/
theorem vote_unchanged_of_voted (js : Builtins) (db : Db) (req : VoteRequest) (now : Int)
    (h : ∀ b ∈ db.booths, b.id = req.boothId →
      b.hasUserVoted req.userId = true ∧ b.settings.allowVoteChange = false) :
    (vote js db req now).2 = db := by
  unfold vote
  split
  · rfl
  · split
    · rfl
    · rename_i booth hb
      obtain ⟨h1, h2⟩ := h booth (mem_of_findBoothById db _ _ hb) (findBoothById_id db _ _ hb)
      simp only
      split
      · rfl
      · split
        · rfl
        · split
          · rfl
          · rename_i hv
            simp [h1, h2] at hv

/-- One operation that is not the removal of user `u` from booth `bid` keeps
the flag of `u` in that booth, when the booth does not allow vote changes. -/
theorem voted_step (js : Builtins) (db : Db) (bid u : String) (op : BoothOp)
    (h0 : ∀ b ∈ db.booths, b.id = bid →
      b.hasUserVoted u = true ∧ b.settings.allowVoteChange = false)
    (hop : op.removes bid u = false) :
    ∀ b ∈ (op.run js db).booths, b.id = bid →
      b.hasUserVoted u = true ∧ b.settings.allowVoteChange = false := by
  intro b hb hid
  cases op with
  | join req now =>
    rcases joinBooth_booths js db req now b hb with h | ⟨b0, hb0, -, -, -, rfl⟩
    · exact h0 b h hid
    · obtain ⟨h1, h2⟩ := h0 b0 hb0 hid
      exact ⟨hasUserVoted_admitted b0 _ u now h1, h2⟩
  | vote req now =>
    rcases (vote_booths js db req now).2 b hb with h | ⟨b0, hb0, -, -, hid0, hs, -, -, hm⟩
    · exact h0 b h hid
    · obtain ⟨h1, h2⟩ := h0 b0 hb0 (hid0 ▸ hid)
      exact ⟨hasUserVoted_setVoted b0 b req.userId u hm h1, by rw [hs]; exact h2⟩
  | remove req now =>
    rcases removeMemberRoute_booths db req now b hb with h | ⟨b0, hb0, hreq, rfl⟩
    · exact h0 b h hid
    · have hid0 : b0.id = bid := hid
      obtain ⟨h1, h2⟩ := h0 b0 hb0 hid0
      have hne : u ≠ req.memberId := by
        intro hu
        simp [BoothOp.removes, hreq.symm.trans hid0, hu] at hop
      exact ⟨(hasUserVoted_removed b0 req.memberId u now hne).trans h1, h2⟩

theorem voted_run (js : Builtins) (bid u : String) (ops : List BoothOp) :
    ∀ db : Db, (∀ b ∈ db.booths, b.id = bid →
      b.hasUserVoted u = true ∧ b.settings.allowVoteChange = false) →
    (∀ op ∈ ops, op.removes bid u = false) →
    ∀ b ∈ (runOps js db ops).booths, b.id = bid →
      b.hasUserVoted u = true ∧ b.settings.allowVoteChange = false := by
  induction ops with
  | nil => intro db h0 _; exact h0
  | cons op rest ih =>
    intro db h0 hops
    exact ih (op.run js db)
      (voted_step js db bid u op h0 (hops op (List.mem_cons_self _ _)))
      (fun o ho => hops o (List.mem_cons_of_mem _ ho))

/-- C13, failing input. In the concrete run the booth does not allow multiple
votes; `bob` joins and votes, and then the creator removes him. The removal
deletes his member entry and his audit record and leaves the tallies: the booth
has `totalVotes = 1` and no member with `hasVoted = true`. The state is
reachable through create, join, vote and member removal. -/
theorem removal_keeps_tally :
    (lunchBooth (afterVote none false false)).map
      (fun b => (b.settings.allowMultipleVotes, b.tallies, b.totalVotes, b.votedCount))
      = some (false, [1, 0], 1, 1) ∧
    (afterVote none false false).votes.length = 1 ∧
    afterRemoval = (removeMemberRoute (afterVote none false false) ⟨lunchId, bob, ann⟩ 6).2 ∧
    (lunchBooth afterRemoval).map
      (fun b => (b.settings.allowMultipleVotes, b.tallies, b.totalVotes, b.votedCount))
      = some (false, [1, 0], 1, 0) ∧
    (lunchBooth afterRemoval).map (fun b => b.members.map (fun m => m.user)) = some [ann] ∧
    afterRemoval.votes = [] ∧
    ReachableWithRemoval asciiRuntime afterRemoval :=
  ⟨by decide, by decide, rfl, by decide, by decide, by decide,
   ReachableWithRemoval.remove _ ⟨lunchId, bob, ann⟩ 6
    (ReachableWithRemoval.vote _ (voteReq bob "0") 5
      (ReachableWithRemoval.join _ (joinReq bob) 2
        (ReachableWithRemoval.create db0 (lunchRequest none false false) 1 lunchId (fun _ => 0) 1
          lunchCreated (afterCreate none false false) (ReachableWithRemoval.init db0.users)
          (by decide))))⟩

/-- C14, counterexample. The booth of the concrete run does not allow vote
changes and `bob` has voted for candidate 0. The creator removes `bob`, `bob`
joins again with the invite code and votes for candidate 0 again: after the
re-join his flag `hasVoted` is false, and his second vote is accepted and
brings the tally of candidate 0 from 1 to 2. -/
theorem revote_after_rejoin_counterexample :
    (lunchBooth (afterVote none false false)).map
      (fun b => (b.settings.allowVoteChange, b.hasUserVoted bob, b.tallies))
      = some (false, true, [1, 0]) ∧
    runOps asciiRuntime (afterVote none false false)
      [.remove ⟨lunchId, bob, ann⟩ 6, .join (joinReq bob) 7] = afterRejoin ∧
    (lunchBooth afterRejoin).map
      (fun b => (b.settings.allowVoteChange, b.hasUserVoted bob, b.tallies))
      = some (false, false, [1, 0]) ∧
    (vote asciiRuntime afterRejoin (voteReq bob "0") 8).1.message
      = some "Vote recorded successfully" ∧
    (lunchBooth (vote asciiRuntime afterRejoin (voteReq bob "0") 8).2).map
      (fun b => (b.settings.allowVoteChange, b.hasUserVoted bob, b.tallies, b.totalVotes))
      = some (false, true, [2, 0], 2) := by
  refine ⟨by decide, by decide, by decide, by decide, by decide⟩

/-- C14, as amended. Take a booth that does not allow vote changes and a user
whose flag `hasVoted` is true in it, and any run of join requests, vote
requests and member removals, by any users and for any booths, in which this
user is not removed from this booth. After every step of the run the flag of
the user in the booth is still true and vote changes are still not allowed, and
a vote request of the user for the booth, for any candidate and at any instant,
leaves the database as it is: the tallies and `totalVotes` do not change on the
account of the user. -/
theorem vote_irrevocable_until_removed (js : Builtins) (db : Db) (bid u : String)
    (ops : List BoothOp)
    (h0 : ∀ b ∈ db.booths, b.id = bid →
      b.hasUserVoted u = true ∧ b.settings.allowVoteChange = false)
    (hops : ∀ op ∈ ops, op.removes bid u = false) (n : Nat) :
    (∀ b ∈ (runOps js db (ops.take n)).booths, b.id = bid →
      b.hasUserVoted u = true ∧ b.settings.allowVoteChange = false) ∧
    ∀ (req : VoteRequest) (now : Int), req.boothId = bid → req.userId = u →
      (vote js (runOps js db (ops.take n)) req now).2 = runOps js db (ops.take n) := by
  have hrun := voted_run js bid u (ops.take n) db h0
    (fun op hop => hops op (List.mem_of_mem_take hop))
  refine ⟨hrun, ?_⟩
  intro req now hb hu
  apply vote_unchanged_of_voted
  intro b hbm hid
  rw [hu]
  exact hrun b hbm (hid.trans hb)

/-- Witness of `vote_irrevocable_until_removed`: after `bob` voted in the
concrete run, `cyd` asks to join, `bob` asks to join and to vote again, and
`ann` removes `cyd`; the flag of `bob` stays true, the tallies stay `[1, 0]`,
and a further vote request of `bob` changes nothing. -/
theorem vote_irrevocable_until_removed_witness :
    (lunchBooth (runOps asciiRuntime (afterVote none false false)
      [.join (joinReq cyd) 6, .join (joinReq bob) 7, .vote (voteReq bob "1") 8,
       .remove ⟨lunchId, cyd, ann⟩ 9])).map (fun b => (b.hasUserVoted bob, b.tallies))
      = some (true, [1, 0]) ∧
    (∀ b ∈ (runOps asciiRuntime (afterVote none false false)
      ([BoothOp.join (joinReq cyd) 6, .join (joinReq bob) 7, .vote (voteReq bob "1") 8,
       .remove ⟨lunchId, cyd, ann⟩ 9].take 4)).booths, b.id = lunchId →
      b.hasUserVoted bob = true ∧ b.settings.allowVoteChange = false) ∧
    ∀ (req : VoteRequest) (now : Int), req.boothId = lunchId → req.userId = bob →
      (vote asciiRuntime (runOps asciiRuntime (afterVote none false false)
        ([BoothOp.join (joinReq cyd) 6, .join (joinReq bob) 7, .vote (voteReq bob "1") 8,
          .remove ⟨lunchId, cyd, ann⟩ 9].take 4)) req now).2
        = runOps asciiRuntime (afterVote none false false)
          ([BoothOp.join (joinReq cyd) 6, .join (joinReq bob) 7, .vote (voteReq bob "1") 8,
            .remove ⟨lunchId, cyd, ann⟩ 9].take 4) :=
  ⟨by decide,
   vote_irrevocable_until_removed asciiRuntime (afterVote none false false) lunchId bob
     [.join (joinReq cyd) 6, .join (joinReq bob) 7, .vote (voteReq bob "1") 8,
      .remove ⟨lunchId, cyd, ann⟩ 9] (by decide) (by decide) 4⟩

theorem removeMemberRoute_consistent (db : Db) (req : RemoveRequest) (now : Int)
    (hc : db.Consistent) : (removeMemberRoute db req now).2.Consistent := by
  rcases removeMemberRoute_shape db req now with hsame | ⟨b0, hb, hval, -, -, hbooths, hvotes⟩
  · rw [hsame]; exact hc
  · have hmem := mem_of_findBoothById db _ _ hb
    have hid := findBoothById_id db _ _ hb
    have hA : (db.deleteVotes req.boothId req.memberId).Consistent := by
      unfold Db.deleteVotes
      apply consistent_of_votes db _ hc
      · intro id i
        unfold countVotes
        rw [List.filter_filter]
        apply List.Sublist.length_le
        apply List.monotone_filter_right
        intro v hv
        simp only [Bool.and_eq_true] at hv ⊢
        exact hv.1
      · intro v hv
        exact List.mem_of_mem_filter hv
    have hB := consistent_replace _
      { b0 with members := b0.members.filter (fun m => m.user != req.memberId),
                updatedAt := now } hA
      ((validate_members b0 _ now).trans hval) (hc.sum b0 hmem)
      (fun i => hA.audit b0 hmem i)
      (by
        intro v hv hvb
        have hv1 : v ∈ db.votes := List.mem_of_mem_filter hv
        have hv2 := (List.mem_filter.mp hv).2
        have hvb2 : v.booth = req.boothId := hvb.trans hid
        have hne : v.voter ≠ req.memberId := by
          intro hvm
          simp [hvb2, hvm] at hv2
        rw [hasUserVoted_removed b0 req.memberId v.voter now hne]
        exact hc.voted v hv1 b0 hmem hvb.symm)
    exact consistent_congr _ _ hB hbooths hvotes

theorem reachableWithRemoval_consistent (js : Builtins) (db : Db)
    (h : ReachableWithRemoval js db) : db.Consistent := by
  induction h with
  | init users =>
    exact ⟨fun b hb => (by cases hb), fun b hb => (by cases hb), fun b hb => (by cases hb),
      fun v hv => (by cases hv), fun v hv => (by cases hv)⟩
  | create db req now newId rng fuel resp db1 _ hcreate ih =>
    exact createBooth_consistent js db req now newId rng fuel resp db1 hcreate ih
  | join db req now _ ih => exact joinBooth_consistent js db req now ih
  | vote db req now _ ih => exact vote_consistent js db req now ih
  | remove db req now _ ih => exact removeMemberRoute_consistent db req now ih
  | account db users _ ih => exact consistent_congr db _ ih rfl rfl

theorem keys_nodup_eraseP (l : List Vote) (p : Vote → Bool)
    (h : (l.map (fun v => (v.booth, v.voter))).Nodup) :
    ((l.eraseP p).map (fun v => (v.booth, v.voter))).Nodup :=
  List.Nodup.sublist ((List.eraseP_sublist l).map _) h

theorem keys_nodup_filter (l : List Vote) (p : Vote → Bool)
    (h : (l.map (fun v => (v.booth, v.voter))).Nodup) :
    ((l.filter p).map (fun v => (v.booth, v.voter))).Nodup :=
  List.Nodup.sublist ((List.filter_sublist l).map _) h

theorem keys_nodup_append (l : List Vote) (v : Vote)
    (h : (l.map (fun v => (v.booth, v.voter))).Nodup)
    (hany : l.any (fun w => w.booth == v.booth && w.voter == v.voter) = false) :
    ((l ++ [v]).map (fun v => (v.booth, v.voter))).Nodup := by
  simp only [List.map_append, List.map_cons, List.map_nil]
  rw [List.nodup_append]
  refine ⟨h, List.nodup_singleton _, ?_⟩
  intro a ha hb
  simp only [List.mem_singleton] at hb
  subst hb
  obtain ⟨w, hw, hwk⟩ := List.mem_map.mp ha
  simp only [Prod.mk.injEq] at hwk
  have : l.any (fun w => w.booth == v.booth && w.voter == v.voter) = true :=
    List.any_eq_true.mpr ⟨w, hw, by simp [hwk.1, hwk.2]⟩
  rw [hany] at this
  cases this

/-- With one record per pair, the pair has no record after `deleteOne`. -/
theorem any_eraseP_of_nodup (l : List Vote) (id u : String)
    (h : (l.map (fun v => (v.booth, v.voter))).Nodup) :
    (l.eraseP (fun v => v.booth == id && v.voter == u)).any
      (fun v => v.booth == id && v.voter == u) = false := by
  induction l with
  | nil => rfl
  | cons a t ih =>
    simp only [List.map_cons, List.nodup_cons] at h
    by_cases hp : (a.booth == id && a.voter == u) = true
    · simp only [List.eraseP_cons, hp, cond_true]
      rw [Bool.eq_false_iff]
      intro hany
      obtain ⟨w, hw, hwp⟩ := List.any_eq_true.mp hany
      simp only [Bool.and_eq_true, beq_iff_eq] at hp hwp
      apply h.1
      exact List.mem_map.mpr ⟨w, hw, by simp [hp.1, hp.2, hwp.1, hwp.2]⟩
    · have hp2 : (a.booth == id && a.voter == u) = false := by simpa using hp
      simp only [List.eraseP_cons, hp2, cond_false, List.any_cons, Bool.false_or]
      exact ih h.2

theorem insertVote_guard (db : Db) (v : Vote) (db2 : Db) (h : db.insertVote v = .ok db2) :
    db.votes.any (fun w => w.booth == v.booth && w.voter == v.voter) = false := by
  unfold Db.insertVote at h
  split at h
  · cases h
  · split at h
    · cases h
    · rename_i hany
      simpa using hany


theorem voteChange_error (db : Db) (booth : Booth) (req : VoteRequest) (e : String)
    (h : voteChange db booth req = .error e) : e = "TypeError" := by
  unfold voteChange at h
  split at h
  · split at h
    · cases h
    · split at h
      · split at h
        · cases h; rfl
        · cases h
      · cases h
  · cases h

theorem saveBooth_error (db : Db) (b : Booth) (now : Int) (e : String)
    (h : db.saveBooth b now = .error e) : e = "Booth validation failed" := by
  unfold Db.saveBooth at h
  split at h
  · cases h
  · cases h; rfl

theorem markAsVoted_error (b : Booth) (db : Db) (u : String) (now : Int) (e : String)
    (h : b.markAsVoted db u now = .error e) : e ≠ "E11000 duplicate key error" := by
  unfold Booth.markAsVoted at h
  split at h
  · cases h; decide
  · split at h
    · cases h; decide
    · rw [saveBooth_error _ _ _ _ h]; decide

theorem incrementVote_error (b : Booth) (db : Db) (k : Int) (now : Int) (e : String)
    (h : b.incrementVote db k now = .error e) : e ≠ "E11000 duplicate key error" := by
  unfold Booth.incrementVote at h
  split at h
  · cases h; decide
  · rw [saveBooth_error _ _ _ _ h]; decide

/-- After the vote-change block the pair of the request has no audit record,
when the request passed the already-voted check, the stored data are
consistent and no pair has two records. -/
theorem voteChange_free (db : Db) (booth : Booth) (req : VoteRequest)
    (booth1 : Booth) (db1 : Db) (hc : db.Consistent)
    (hn : (db.votes.map (fun v => (v.booth, v.voter))).Nodup)
    (hb : db.findBoothById req.boothId = some booth)
    (hchk : (booth.hasUserVoted req.userId && !booth.settings.allowVoteChange) = false)
    (h : voteChange db booth req = .ok (booth1, db1)) :
    db1.votes.any (fun w => w.booth == req.boothId && w.voter == req.userId) = false := by
  have hmem := mem_of_findBoothById db _ _ hb
  have hid := findBoothById_id db _ _ hb
  have hdel : (db.deleteVote req.boothId req.userId).votes.any
      (fun w => w.booth == req.boothId && w.voter == req.userId) = false :=
    any_eraseP_of_nodup db.votes req.boothId req.userId hn
  unfold voteChange at h
  split at h
  · split at h
    · rename_i hfind
      simp only [Except.ok.injEq, Prod.mk.injEq] at h
      obtain ⟨-, rfl⟩ := h
      rw [Bool.eq_false_iff]
      intro hany
      obtain ⟨w, hw, hwp⟩ := List.any_eq_true.mp hany
      have := List.find?_eq_none.mp hfind w hw
      exact this hwp
    · split at h
      · split at h
        · cases h
        · simp only [Except.ok.injEq, Prod.mk.injEq] at h
          obtain ⟨-, rfl⟩ := h
          exact hdel
      · simp only [Except.ok.injEq, Prod.mk.injEq] at h
        obtain ⟨-, rfl⟩ := h
        exact hdel
  · rename_i hcond
    simp only [Except.ok.injEq, Prod.mk.injEq] at h
    obtain ⟨-, rfl⟩ := h
    have hnot : booth.hasUserVoted req.userId = false := by
      cases hv : booth.hasUserVoted req.userId with
      | false => rfl
      | true =>
        cases ha : booth.settings.allowVoteChange with
        | false => simp [hv, ha] at hchk
        | true => simp [hv, ha] at hcond
    rw [Bool.eq_false_iff]
    intro hany
    obtain ⟨w, hw, hwp⟩ := List.any_eq_true.mp hany
    simp only [Bool.and_eq_true, beq_iff_eq] at hwp
    have := hc.voted w hw booth hmem (hid.trans hwp.1.symm)
    rw [hwp.2, hnot] at this
    cases this

/-- The insert of the audit record in `vote` does not hit the unique index. -/
theorem castVote_no_collision (db : Db) (booth : Booth) (req : VoteRequest) (k : Int)
    (now : Int) (hc : db.Consistent)
    (hn : (db.votes.map (fun v => (v.booth, v.voter))).Nodup)
    (hb : db.findBoothById req.boothId = some booth)
    (hchk : (booth.hasUserVoted req.userId && !booth.settings.allowVoteChange) = false)
    (d : Db) : castVote db booth req k now ≠ .error ("E11000 duplicate key error", d) := by
  intro h
  unfold castVote at h
  cases h1 : voteChange db booth req with
  | error e =>
    simp only [h1, Except.error.injEq, Prod.mk.injEq] at h
    have := voteChange_error _ _ _ _ h1
    rw [this] at h
    exact absurd h.1 (by decide)
  | ok r1 =>
    obtain ⟨booth1, db1⟩ := r1
    have hfree := voteChange_free db booth req booth1 db1 hc hn hb hchk h1
    simp only [h1] at h
    cases h2 : booth1.markAsVoted db1 req.userId now with
    | error e =>
      simp only [h2, Except.error.injEq, Prod.mk.injEq] at h
      exact markAsVoted_error _ _ _ _ _ h2 h.1
    | ok r2 =>
      obtain ⟨booth2, db2⟩ := r2
      obtain ⟨-, -, hdb2, -⟩ := markAsVoted_spec _ _ _ _ _ _ h2
      simp only [h2] at h
      cases h3 : booth2.incrementVote db2 k now with
      | error e =>
        simp only [h3, Except.error.injEq, Prod.mk.injEq] at h
        exact incrementVote_error _ _ _ _ _ h3 h.1
      | ok r3 =>
        obtain ⟨booth3, db3⟩ := r3
        obtain ⟨-, -, -, -, hdb3⟩ := incrementVote_spec _ _ _ _ _ _ h3
        have hvotes : db3.votes = db1.votes := by rw [hdb3, hdb2]; rfl
        simp only [h3] at h
        cases h4 : booth3.candidates[k.toNat]? with
        | none =>
          simp only [h4, Except.error.injEq, Prod.mk.injEq] at h
          exact absurd h.1 (by decide)
        | some c =>
          simp only [h4] at h
          cases h5 : db3.insertVote
              { booth := req.boothId, voter := req.userId, candidateIndex := k,
                candidateName := c.name, votedAt := now,
                ipAddress := req.ip, userAgent := req.userAgent } with
          | error e =>
            simp only [h5, Except.error.injEq, Prod.mk.injEq] at h
            unfold Db.insertVote at h5
            split at h5
            · cases h5
              exact absurd h.1 (by decide)
            · split at h5
              · rename_i hany
                rw [hvotes] at hany
                simp only at hany
                rw [hfree] at hany
                cases hany
              · cases h5
          | ok db4 =>
            simp only [h5] at h
            cases h

/-- The statements of `vote` after the checks keep one record per pair. -/
theorem castVote_keys (db : Db) (booth : Booth) (req : VoteRequest) (k : Int) (now : Int)
    (d : Db) (hn : (db.votes.map (fun v => (v.booth, v.voter))).Nodup)
    (h : (∃ e, castVote db booth req k now = .error (e, d)) ∨
      (∃ n, castVote db booth req k now = .ok (n, d))) :
    (d.votes.map (fun v => (v.booth, v.voter))).Nodup := by
  unfold castVote at h
  cases h1 : voteChange db booth req with
  | error e =>
    simp only [h1] at h
    rcases h with ⟨e2, h⟩ | ⟨n, h⟩
    · cases h; exact hn
    · cases h
  | ok r1 =>
    obtain ⟨booth1, db1⟩ := r1
    obtain ⟨-, -, -, -, -, -, -, hv1⟩ := voteChange_frame db booth req _ _ h1
    have hn1 : (db1.votes.map (fun v => (v.booth, v.voter))).Nodup := by
      rcases hv1 with h | h
      · rw [h]; exact hn
      · rw [h]; exact keys_nodup_eraseP _ _ hn
    simp only [h1] at h
    cases h2 : booth1.markAsVoted db1 req.userId now with
    | error e =>
      simp only [h2] at h
      rcases h with ⟨e2, h⟩ | ⟨n, h⟩
      · cases h; exact hn1
      · cases h
    | ok r2 =>
      obtain ⟨booth2, db2⟩ := r2
      obtain ⟨-, -, hdb2, -⟩ := markAsVoted_spec _ _ _ _ _ _ h2
      have hn2 : (db2.votes.map (fun v => (v.booth, v.voter))).Nodup := by
        rw [hdb2]; exact hn1
      simp only [h2] at h
      cases h3 : booth2.incrementVote db2 k now with
      | error e =>
        simp only [h3] at h
        rcases h with ⟨e2, h⟩ | ⟨n, h⟩
        · cases h; exact hn2
        · cases h
      | ok r3 =>
        obtain ⟨booth3, db3⟩ := r3
        obtain ⟨-, -, -, -, hdb3⟩ := incrementVote_spec _ _ _ _ _ _ h3
        have hn3 : (db3.votes.map (fun v => (v.booth, v.voter))).Nodup := by
          rw [hdb3]; exact hn2
        simp only [h3] at h
        cases h4 : booth3.candidates[k.toNat]? with
        | none =>
          simp only [h4] at h
          rcases h with ⟨e2, h⟩ | ⟨n, h⟩
          · cases h; exact hn3
          · cases h
        | some c =>
          simp only [h4] at h
          cases h5 : db3.insertVote
              { booth := req.boothId, voter := req.userId, candidateIndex := k,
                candidateName := c.name, votedAt := now,
                ipAddress := req.ip, userAgent := req.userAgent } with
          | error e =>
            simp only [h5] at h
            rcases h with ⟨e2, h⟩ | ⟨n, h⟩
            · cases h; exact hn3
            · cases h
          | ok db4 =>
            simp only [h5] at h
            have hg := insertVote_guard _ _ _ h5
            have hs := insertVote_spec _ _ _ h5
            rcases h with ⟨e2, h⟩ | ⟨n, h⟩
            · cases h
            · cases h
              subst hs
              exact keys_nodup_append db3.votes _ hn3 hg

theorem vote_keys (js : Builtins) (db : Db) (req : VoteRequest) (now : Int)
    (hn : (db.votes.map (fun v => (v.booth, v.voter))).Nodup) :
    ((vote js db req now).2.votes.map (fun v => (v.booth, v.voter))).Nodup := by
  unfold vote
  split
  · exact hn
  · split
    · exact hn
    · rename_i booth hb
      simp only
      split
      · exact hn
      · split
        · exact hn
        · split
          · exact hn
          · split
            · exact hn
            · rename_i k hk
              split
              · exact hn
              · split
                · rename_i e d hcv
                  exact castVote_keys db booth req k now d hn (Or.inl ⟨e, hcv⟩)
                · rename_i n d hcv
                  split
                  · exact castVote_keys db booth req k now d hn (Or.inr ⟨n, hcv⟩)
                  · exact castVote_keys db booth req k now d hn (Or.inr ⟨n, hcv⟩)

theorem removeMemberRoute_keys (db : Db) (req : RemoveRequest) (now : Int)
    (hn : (db.votes.map (fun v => (v.booth, v.voter))).Nodup) :
    ((removeMemberRoute db req now).2.votes.map (fun v => (v.booth, v.voter))).Nodup := by
  rcases removeMemberRoute_shape db req now with hsame | ⟨b0, -, -, -, -, -, hvotes⟩
  · rw [hsame]; exact hn
  · rw [hvotes]; exact keys_nodup_filter _ _ hn

theorem reachableWithRemoval_keys (js : Builtins) (db : Db) (h : ReachableWithRemoval js db) :
    (db.votes.map (fun v => (v.booth, v.voter))).Nodup := by
  induction h with
  | init users => exact List.nodup_nil
  | create db req now newId rng fuel resp db1 _ hcreate ih =>
    rw [(createBooth_booths js db req now newId rng fuel resp db1 hcreate).1]; exact ih
  | join db req now _ ih => rw [joinBooth_votes]; exact ih
  | vote db req now _ ih => exact vote_keys js db req now ih
  | remove db req now _ ih => exact removeMemberRoute_keys db req now ih
  | account db users _ ih => exact ih

/-- The database of the concrete run after `bob` voted in a booth that allows
vote changes and multiple votes is reachable. -/
theorem afterVote_change_reachable :
    ReachableWithRemoval asciiRuntime (afterVote none true true) :=
  ReachableWithRemoval.vote _ (voteReq bob "0") 5
    (ReachableWithRemoval.join _ (joinReq bob) 2
      (ReachableWithRemoval.create db0 (lunchRequest none true true) 1 lunchId (fun _ => 0) 1
        lunchCreated (afterCreate none true true) (ReachableWithRemoval.init db0.users)
        (by decide)))

/-- C17. Audit-record uniqueness. In every database reachable from an empty
booth collection through `createBooth`, `joinBooth`, `vote` (first votes and
vote changes) and the member-removal route, no pair of booth and voter has two
audit records; and for a vote request that passed the already-voted check, the
statements of `vote` never end with the duplicate-key error of the unique index
on the pair: the insert of the new audit record does not collide. -/
theorem audit_record_unique (js : Builtins) (db : Db) (h : ReachableWithRemoval js db) :
    (db.votes.map (fun v => (v.booth, v.voter))).Nodup ∧
    ∀ (req : VoteRequest) (now : Int) (booth : Booth) (k : Int) (d : Db),
      db.findBoothById req.boothId = some booth →
      (booth.hasUserVoted req.userId && !booth.settings.allowVoteChange) = false →
      castVote db booth req k now ≠ .error ("E11000 duplicate key error", d) := by
  have hn := reachableWithRemoval_keys js db h
  have hc := reachableWithRemoval_consistent js db h
  exact ⟨hn, fun req now booth k d hb hchk =>
    castVote_no_collision db booth req k now hc hn hb hchk d⟩

/-- Witness of `audit_record_unique`: after `bob` voted for candidate 0 in a
booth that allows vote changes there is one audit record; his change to
candidate 1 replaces it, and there is one audit record again. -/
theorem audit_record_unique_witness :
    (afterVote none true true).votes.map (fun v => (v.booth, v.voter, v.candidateIndex))
      = [(lunchId, bob, 0)] ∧
    (vote asciiRuntime (afterVote none true true) (voteReq bob "1") 6).2.votes.map
      (fun v => (v.booth, v.voter, v.candidateIndex)) = [(lunchId, bob, 1)] ∧
    ((afterVote none true true).votes.map (fun v => (v.booth, v.voter))).Nodup ∧
    ∀ d, castVote (afterVote none true true)
      ((lunchBooth (afterVote none true true)).getD default) (voteReq bob "1") 1 6
      ≠ .error ("E11000 duplicate key error", d) :=
  ⟨by decide, by decide,
   (audit_record_unique asciiRuntime (afterVote none true true) afterVote_change_reachable).1,
   fun d => (audit_record_unique asciiRuntime (afterVote none true true)
     afterVote_change_reachable).2 (voteReq bob "1") 6 _ 1 d (by decide) (by decide)⟩

theorem roundHalfEven_cases (x : ℚ) : roundHalfEven x = ⌊x⌋ ∨ roundHalfEven x = ⌊x⌋ + 1 := by
  unfold roundHalfEven
  split
  · exact Or.inl rfl
  · split
    · exact Or.inr rfl
    · split
      · exact Or.inl rfl
      · exact Or.inr rfl

theorem roundHalfEven_near (x : ℚ) :
    x - 1 / 2 ≤ (roundHalfEven x : ℚ) ∧ (roundHalfEven x : ℚ) ≤ x + 1 / 2 := by
  have h1 := Int.floor_le x
  have h2 := Int.lt_floor_add_one x
  unfold roundHalfEven
  split
  · rename_i h
    constructor <;> linarith
  · rename_i h
    split
    · rename_i h3
      push_cast
      constructor <;> linarith
    · rename_i h3
      have he : x - ⌊x⌋ = 1 / 2 := le_antisymm (not_lt.mp h3) (not_lt.mp h)
      split
      · constructor <;> linarith
      · push_cast
        constructor <;> linarith

theorem roundHalfEven_intCast (n : ℤ) : roundHalfEven (n : ℚ) = n := by
  unfold roundHalfEven
  simp

theorem roundHalfEven_mono {x y : ℚ} (h : x ≤ y) : roundHalfEven x ≤ roundHalfEven y := by
  have hf : ⌊x⌋ ≤ ⌊y⌋ := Int.floor_mono h
  rcases lt_or_eq_of_le hf with hlt | heq
  · rcases roundHalfEven_cases x with hx | hx <;> rcases roundHalfEven_cases y with hy | hy <;>
      omega
  · unfold roundHalfEven
    rw [← heq]
    have hxy : x - ⌊x⌋ ≤ y - ⌊x⌋ := by linarith
    split
    · split
      · exact le_refl _
      · split
        · omega
        · split <;> omega
    · rename_i h1
      split
      · rename_i h2
        have : ¬ (y - ⌊x⌋ < 1 / 2) := by intro h3; linarith
        simp only [this, if_false]
        have : 1 / 2 < y - ⌊x⌋ := by linarith
        simp only [this, if_true]
        exact le_refl _
      · rename_i h2
        have h3 : ¬ (y - ⌊x⌋ < 1 / 2) := by intro h3; linarith [not_lt.mp h1]
        simp only [h3, if_false]
        split
        · split <;> omega
        · split
          · exact le_refl _
          · exact le_refl _

theorem ulp_pos (q : ℚ) : 0 < ulp q := by
  unfold ulp
  positivity

theorem toNumber_nonneg {q : ℚ} (h : 0 ≤ q) : 0 ≤ toNumber q := by
  unfold toNumber
  have hu := ulp_pos q
  have : (0 : ℤ) ≤ roundHalfEven (q / ulp q) := by
    have := roundHalfEven_mono (show (0 : ℚ) ≤ q / ulp q from div_nonneg h hu.le)
    have h0 : roundHalfEven (0 : ℚ) = 0 := by
      have := roundHalfEven_intCast 0
      simpa using this
    rw [h0] at this
    exact this
  have : (0 : ℚ) ≤ (roundHalfEven (q / ulp q) : ℚ) := by exact_mod_cast this
  positivity

/-- The unit in the last place at a known binary exponent. -/
theorem ulp_of_exponent (q : ℚ) (e : ℤ) (h1 : (2 : ℚ) ^ e ≤ |q|) (h2 : |q| < (2 : ℚ) ^ (e + 1))
    (he : -1022 ≤ e) : ulp q = (2 : ℚ) ^ (e - 52) := by
  have hpos : 0 < |q| := lt_of_lt_of_le (by positivity) h1
  have hlog : Int.log 2 |q| = e := by
    apply le_antisymm
    · have := (Int.lt_zpow_iff_log_lt (b := 2) (by norm_num) hpos (x := e + 1)).mp
        (by simpa using h2)
      omega
    · exact (Int.zpow_le_iff_le_log (b := 2) (by norm_num) hpos).mp (by simpa using h1)
  unfold ulp
  rw [hlog, max_eq_left he]

theorem toNumber_of_exponent (q : ℚ) (e m : ℤ) (h1 : (2 : ℚ) ^ e ≤ |q|)
    (h2 : |q| < (2 : ℚ) ^ (e + 1)) (he : -1022 ≤ e)
    (hm : roundHalfEven (q / (2 : ℚ) ^ (e - 52)) = m) :
    toNumber q = m * (2 : ℚ) ^ (e - 52) := by
  unfold toNumber
  rw [ulp_of_exponent q e h1 h2 he, hm]

theorem roundHalfEven_of_near (x : ℚ) (m : ℤ) (h1 : (m : ℚ) - 1 / 2 < x) (h2 : x < m + 1 / 2) :
    roundHalfEven x = m := by
  have hn := roundHalfEven_near x
  have : ((roundHalfEven x : ℤ) : ℚ) < m + 1 ∧ (m : ℚ) - 1 < roundHalfEven x := by
    constructor <;> linarith [hn.1, hn.2]
  have h3 : roundHalfEven x < m + 1 := by exact_mod_cast this.1
  have h4 : m - 1 < roundHalfEven x := by exact_mod_cast this.2
  omega

theorem natCast_two : ((2 : ℕ) : ℚ) = 2 := by norm_num

theorem toNumber_le_pow {a : ℚ} (ha : 0 < a) :
    toNumber a ≤ (2 : ℚ) ^ (max (Int.log 2 |a|) (-1022) + 1) := by
  have habs : |a| = a := abs_of_pos ha
  have hlt := Int.lt_zpow_succ_log_self (b := 2) (by norm_num) |a|
  rw [natCast_two, habs] at hlt
  have hle : (2 : ℚ) ^ (Int.log 2 a + 1) ≤ (2 : ℚ) ^ (max (Int.log 2 a) (-1022) + 1) := by
    apply zpow_le_zpow_right₀ (by norm_num)
    have := le_max_left (Int.log 2 a) (-1022)
    omega
  have hu : ulp a = (2 : ℚ) ^ (max (Int.log 2 a) (-1022) - 52) := by
    unfold ulp; rw [habs]
  have hup := ulp_pos a
  have hdiv : a / ulp a ≤ ((2 ^ 53 : ℤ) : ℚ) := by
    rw [div_le_iff₀ hup, hu]
    have : ((2 ^ 53 : ℤ) : ℚ) * (2 : ℚ) ^ (max (Int.log 2 a) (-1022) - 52)
        = (2 : ℚ) ^ (max (Int.log 2 a) (-1022) + 1) := by
      push_cast
      rw [show max (Int.log 2 a) (-1022) + 1 = 53 + (max (Int.log 2 a) (-1022) - 52) by ring]
      rw [zpow_add₀ (by norm_num : (2 : ℚ) ≠ 0)]
      norm_num
    rw [this]
    linarith
  have hr := roundHalfEven_mono hdiv
  rw [roundHalfEven_intCast] at hr
  have hr2 : (roundHalfEven (a / ulp a) : ℚ) ≤ ((2 ^ 53 : ℤ) : ℚ) := by exact_mod_cast hr
  unfold toNumber
  rw [habs]
  calc (roundHalfEven (a / ulp a) : ℚ) * ulp a ≤ ((2 ^ 53 : ℤ) : ℚ) * ulp a :=
        mul_le_mul_of_nonneg_right hr2 hup.le
    _ = (2 : ℚ) ^ (max (Int.log 2 a) (-1022) + 1) := by
        rw [hu]
        push_cast
        rw [show max (Int.log 2 a) (-1022) + 1 = 53 + (max (Int.log 2 a) (-1022) - 52) by ring]
        rw [zpow_add₀ (by norm_num : (2 : ℚ) ≠ 0)]
        norm_num

theorem pow_le_toNumber {b : ℚ} (hb : 0 < b) (hn : -1022 ≤ Int.log 2 |b|) :
    (2 : ℚ) ^ (Int.log 2 |b|) ≤ toNumber b := by
  have habs : |b| = b := abs_of_pos hb
  rw [habs] at hn ⊢
  have hle := Int.zpow_log_le_self (b := 2) (by norm_num) hb
  rw [natCast_two] at hle
  have hu : ulp b = (2 : ℚ) ^ (Int.log 2 b - 52) := by
    unfold ulp; rw [habs, max_eq_left hn]
  have hup := ulp_pos b
  have hdiv : ((2 ^ 52 : ℤ) : ℚ) ≤ b / ulp b := by
    rw [le_div_iff₀ hup, hu]
    have : ((2 ^ 52 : ℤ) : ℚ) * (2 : ℚ) ^ (Int.log 2 b - 52) = (2 : ℚ) ^ (Int.log 2 b) := by
      push_cast
      rw [show Int.log 2 b = 52 + (Int.log 2 b - 52) by ring]
      rw [zpow_add₀ (by norm_num : (2 : ℚ) ≠ 0)]
      norm_num
    rw [this]
    exact hle
  have hr := roundHalfEven_mono hdiv
  rw [roundHalfEven_intCast] at hr
  have hr2 : ((2 ^ 52 : ℤ) : ℚ) ≤ (roundHalfEven (b / ulp b) : ℚ) := by exact_mod_cast hr
  unfold toNumber
  calc (2 : ℚ) ^ (Int.log 2 b) = ((2 ^ 52 : ℤ) : ℚ) * ulp b := by
        rw [hu]
        push_cast
        rw [show Int.log 2 b = 52 + (Int.log 2 b - 52) by ring]
        rw [zpow_add₀ (by norm_num : (2 : ℚ) ≠ 0)]
        norm_num
    _ ≤ (roundHalfEven (b / ulp b) : ℚ) * ulp b := mul_le_mul_of_nonneg_right hr2 hup.le

/-- Rounding to the nearest double is monotone on the non-negative numbers. -/
theorem toNumber_mono {a b : ℚ} (ha : 0 ≤ a) (hab : a ≤ b) : toNumber a ≤ toNumber b := by
  rcases eq_or_lt_of_le ha with h0 | hpos
  · subst h0
    have : toNumber 0 = 0 := by unfold toNumber; simp [roundHalfEven]
    rw [this]
    exact toNumber_nonneg hab
  · have hbpos : 0 < b := lt_of_lt_of_le hpos hab
    have hlog := Int.log_mono_right (b := 2) (show 0 < |a| from abs_pos.mpr hpos.ne')
      (show |a| ≤ |b| by rw [abs_of_pos hpos, abs_of_pos hbpos]; exact hab)
    rcases eq_or_lt_of_le (max_le_max_right (-1022) hlog) with heq | hlt
    · have hu : ulp a = ulp b := by unfold ulp; rw [heq]
      unfold toNumber
      rw [hu]
      have hup := ulp_pos b
      have := roundHalfEven_mono (div_le_div_of_nonneg_right hab hup.le)
      have h2 : (roundHalfEven (a / ulp b) : ℚ) ≤ (roundHalfEven (b / ulp b) : ℚ) := by
        exact_mod_cast this
      exact mul_le_mul_of_nonneg_right h2 hup.le
    · have hbn : -1022 ≤ Int.log 2 |b| := by
        rcases le_total (Int.log 2 |b|) (-1022) with h | h
        · rw [max_eq_right h] at hlt
          have := le_max_right (Int.log 2 |a|) (-1022)
          omega
        · exact h
      rw [max_eq_left hbn] at hlt
      calc toNumber a ≤ (2 : ℚ) ^ (max (Int.log 2 |a|) (-1022) + 1) := toNumber_le_pow hpos
        _ ≤ (2 : ℚ) ^ (Int.log 2 |b|) := zpow_le_zpow_right₀ (by norm_num) (by omega)
        _ ≤ toNumber b := pow_le_toNumber hbpos hbn

theorem toNumber_one : toNumber 1 = 1 := by
  have := toNumber_of_exponent 1 0 (2 ^ 52) (by norm_num) (by norm_num) (by norm_num)
    (by rw [show (1 : ℚ) / 2 ^ ((0 : ℤ) - 52) = ((2 ^ 52 : ℤ) : ℚ) by norm_num [zpow_neg]]
        exact roundHalfEven_intCast _)
  rw [this]; norm_num [zpow_neg]

theorem toNumber_hundred : toNumber 100 = 100 := by
  have := toNumber_of_exponent 100 6 (100 * 2 ^ 46) (by norm_num) (by norm_num) (by norm_num)
    (by rw [show (100 : ℚ) / 2 ^ ((6 : ℤ) - 52) = ((100 * 2 ^ 46 : ℤ) : ℚ) by norm_num [zpow_neg]]
        exact roundHalfEven_intCast _)
  rw [this]; norm_num [zpow_neg]

theorem toNumber_tenThousand : toNumber 10000 = 10000 := by
  have := toNumber_of_exponent 10000 13 (10000 * 2 ^ 39) (by norm_num) (by norm_num)
    (by norm_num)
    (by rw [show (10000 : ℚ) / 2 ^ ((13 : ℤ) - 52) = ((10000 * 2 ^ 39 : ℤ) : ℚ) by
          norm_num [zpow_neg]]
        exact roundHalfEven_intCast _)
  rw [this]; norm_num [zpow_neg]

/-- The error of rounding to the nearest double is at most half a unit in the
last place. -/
theorem toNumber_error (q : ℚ) : |toNumber q - q| ≤ ulp q / 2 := by
  have hup := ulp_pos q
  have hn := roundHalfEven_near (q / ulp q)
  unfold toNumber
  have hq : q = q / ulp q * ulp q := by field_simp
  rw [abs_le]
  constructor
  · have : (q / ulp q - 1 / 2) * ulp q ≤ (roundHalfEven (q / ulp q) : ℚ) * ulp q :=
      mul_le_mul_of_nonneg_right hn.1 hup.le
    nlinarith
  · have : (roundHalfEven (q / ulp q) : ℚ) * ulp q ≤ (q / ulp q + 1 / 2) * ulp q :=
      mul_le_mul_of_nonneg_right hn.2 hup.le
    nlinarith

theorem toNumber_zero : toNumber 0 = 0 := by
  unfold toNumber; simp [roundHalfEven]

/-- The rounding error of a number of magnitude at most `2^E`. -/
theorem toNumber_error_le {q : ℚ} (E : ℤ) (h0 : 0 ≤ q) (h : q ≤ (2 : ℚ) ^ E) (hE : -1022 ≤ E) :
    |toNumber q - q| ≤ (2 : ℚ) ^ (E - 53) := by
  rcases eq_or_lt_of_le h0 with h1 | hpos
  · subst h1
    rw [toNumber_zero]
    simp only [sub_zero, abs_zero]
    positivity
  · have hlog : Int.log 2 |q| ≤ E := by
      rw [abs_of_pos hpos]
      have h3 := Int.log_mono_right (b := 2) hpos h
      have h4 : Int.log 2 ((2 : ℚ) ^ E) = E := by
        have := Int.log_zpow (R := ℚ) (b := 2) (by norm_num) E
        simpa using this
      omega
    have hu : ulp q ≤ (2 : ℚ) ^ (E - 52) := by
      unfold ulp
      apply zpow_le_zpow_right₀ (by norm_num)
      have := max_le hlog hE
      omega
    have he := toNumber_error q
    have h2 : (2 : ℚ) ^ (E - 52) / 2 = (2 : ℚ) ^ (E - 53) := by
      rw [show E - 52 = (E - 53) + 1 by ring, zpow_add₀ (by norm_num : (2 : ℚ) ≠ 0)]
      norm_num
    linarith

theorem mathRound_near (x : ℚ) : x - 1 / 2 < (mathRound x : ℚ) ∧ (mathRound x : ℚ) ≤ x + 1 / 2 := by
  unfold mathRound
  have h1 := Int.floor_le (x + 1 / 2)
  have h2 := Int.lt_floor_add_one (x + 1 / 2)
  constructor <;> linarith

/-- The steps of the percentage expression for a tally between 0 and the
total: every intermediate value stays in its range, and the result is within
0.005, plus the rounding errors, of the exact percentage. -/
theorem percent_steps (x : ℚ) (h0 : 0 ≤ x) (h1 : x ≤ 1) :
    0 ≤ toNumber ((mathRound (toNumber (toNumber (toNumber x * 100) * 100)) : ℚ) / 100) ∧
    toNumber ((mathRound (toNumber (toNumber (toNumber x * 100) * 100)) : ℚ) / 100) ≤ 100 ∧
    |toNumber ((mathRound (toNumber (toNumber (toNumber x * 100) * 100)) : ℚ) / 100) - x * 100|
      ≤ 1 / 200 + 1 / 10 ^ 13 := by
  have a0 : 0 ≤ toNumber x := toNumber_nonneg h0
  have a1 : toNumber x ≤ 1 := by
    have := toNumber_mono h0 h1
    rwa [toNumber_one] at this
  have b0' : 0 ≤ toNumber x * 100 := by positivity
  have b1' : toNumber x * 100 ≤ 100 := by linarith
  have b0 : 0 ≤ toNumber (toNumber x * 100) := toNumber_nonneg b0'
  have b1 : toNumber (toNumber x * 100) ≤ 100 := by
    have := toNumber_mono b0' b1'
    rwa [toNumber_hundred] at this
  have c0' : 0 ≤ toNumber (toNumber x * 100) * 100 := by positivity
  have c1' : toNumber (toNumber x * 100) * 100 ≤ 10000 := by linarith
  have c0 : 0 ≤ toNumber (toNumber (toNumber x * 100) * 100) := toNumber_nonneg c0'
  have c1 : toNumber (toNumber (toNumber x * 100) * 100) ≤ 10000 := by
    have := toNumber_mono c0' c1'
    rwa [toNumber_tenThousand] at this
  have hk := mathRound_near (toNumber (toNumber (toNumber x * 100) * 100))
  have k0 : (0 : ℤ) ≤ mathRound (toNumber (toNumber (toNumber x * 100) * 100)) := by
    unfold mathRound
    apply Int.floor_nonneg.mpr
    linarith
  have k1 : mathRound (toNumber (toNumber (toNumber x * 100) * 100)) ≤ 10000 := by
    unfold mathRound
    have : ⌊toNumber (toNumber (toNumber x * 100) * 100) + 1 / 2⌋ < 10001 := by
      apply Int.floor_lt.mpr
      push_cast
      linarith
    omega
  have k0q : (0 : ℚ) ≤ (mathRound (toNumber (toNumber (toNumber x * 100) * 100)) : ℚ) := by
    exact_mod_cast k0
  have k1q : (mathRound (toNumber (toNumber (toNumber x * 100) * 100)) : ℚ) ≤ 10000 := by
    exact_mod_cast k1
  have d0' : 0 ≤ (mathRound (toNumber (toNumber (toNumber x * 100) * 100)) : ℚ) / 100 := by
    positivity
  have d1' : (mathRound (toNumber (toNumber (toNumber x * 100) * 100)) : ℚ) / 100 ≤ 100 := by
    rw [div_le_iff₀ (by norm_num)]
    linarith
  refine ⟨toNumber_nonneg d0', ?_, ?_⟩
  · have := toNumber_mono d0' d1'
    rwa [toNumber_hundred] at this
  · have e1 := toNumber_error_le 0 h0 (by simpa using h1) (by norm_num)
    have e2 := toNumber_error_le 7 b0' (by norm_num; linarith) (by norm_num)
    have e3 := toNumber_error_le 14 c0' (by norm_num; linarith) (by norm_num)
    have e4 := toNumber_error_le 7 d0' (by norm_num; linarith) (by norm_num)
    norm_num [zpow_neg] at e1 e2 e3 e4
    rw [abs_le] at e1 e2 e3 e4 ⊢
    obtain ⟨e1a, e1b⟩ := e1
    obtain ⟨e2a, e2b⟩ := e2
    obtain ⟨e3a, e3b⟩ := e3
    obtain ⟨e4a, e4b⟩ := e4
    obtain ⟨hka, hkb⟩ := hk
    constructor <;> norm_num <;> linarith

theorem roundedPercent_zero (c t : Int) (h : t ≤ 0) : roundedPercent c t = 0 := by
  unfold roundedPercent
  simp [not_lt.mpr h]

theorem roundedPercent_pos (c t : Int) (h : 0 < t) :
    roundedPercent c t = toNumber ((mathRound (toNumber (toNumber
      (toNumber ((c : ℚ) / t) * 100) * 100)) : ℚ) / 100) := by
  unfold roundedPercent
  simp [h]

theorem roundedPercent_range (c t : Int) (h0 : 0 ≤ c) (hct : c ≤ t) :
    0 ≤ roundedPercent c t ∧ roundedPercent c t ≤ 100 ∧
    (0 < t → |roundedPercent c t - (c : ℚ) / t * 100| ≤ 1 / 200 + 1 / 10 ^ 13) := by
  rcases le_or_lt t 0 with ht | ht
  · rw [roundedPercent_zero c t ht]
    exact ⟨le_refl _, by norm_num, fun h => absurd h (not_lt.mpr ht)⟩
  · rw [roundedPercent_pos c t ht]
    have htq : (0 : ℚ) < t := by exact_mod_cast ht
    have h0q : (0 : ℚ) ≤ c := by exact_mod_cast h0
    have hctq : (c : ℚ) ≤ t := by exact_mod_cast hct
    have hx0 : 0 ≤ (c : ℚ) / t := div_nonneg h0q htq.le
    have hx1 : (c : ℚ) / t ≤ 1 := (div_le_one htq).mpr hctq
    obtain ⟨r0, r1, r2⟩ := percent_steps _ hx0 hx1
    exact ⟨r0, r1, fun _ => r2⟩

/-- A number that is an integer multiple of the unit in the last place of its
binade is a double. -/
theorem toNumber_exact (q : ℚ) (e n : ℤ) (h1 : (2 : ℚ) ^ e ≤ |q|)
    (h2 : |q| < (2 : ℚ) ^ (e + 1)) (he : -1022 ≤ e) (hq : q / (2 : ℚ) ^ (e - 52) = n) :
    toNumber q = q := by
  rw [toNumber_of_exponent q e n h1 h2 he (by rw [hq]; exact roundHalfEven_intCast n), ← hq]
  field_simp

theorem mathRound_intCast (n : ℤ) : mathRound (n : ℚ) = n := by
  unfold mathRound
  rw [Int.floor_eq_iff]
  constructor <;> linarith

/-- One vote of two is reported as 50. -/
theorem roundedPercent_half : roundedPercent 1 2 = 50 := by
  rw [roundedPercent_pos 1 2 (by norm_num)]
  have s1 : toNumber (((1 : ℤ) : ℚ) / ((2 : ℤ) : ℚ)) = 1 / 2 := by
    rw [show (((1 : ℤ) : ℚ) / ((2 : ℤ) : ℚ)) = 1 / 2 by norm_num]
    exact toNumber_exact _ (-1) (2 ^ 52) (by norm_num [abs_of_pos])
      (by norm_num [abs_of_pos]) (by norm_num) (by norm_num [zpow_neg])
  have s2 : toNumber ((1 : ℚ) / 2 * 100) = 50 := by
    rw [show (1 : ℚ) / 2 * 100 = 50 by norm_num]
    exact toNumber_exact _ 5 (50 * 2 ^ 47) (by norm_num) (by norm_num) (by norm_num)
      (by norm_num [zpow_neg])
  have s3 : toNumber ((50 : ℚ) * 100) = 5000 := by
    rw [show (50 : ℚ) * 100 = 5000 by norm_num]
    exact toNumber_exact _ 12 (5000 * 2 ^ 40) (by norm_num) (by norm_num) (by norm_num)
      (by norm_num [zpow_neg])
  have s4 : mathRound (5000 : ℚ) = 5000 := by
    have := mathRound_intCast 5000
    simpa using this
  have s5 : toNumber ((50 : ℚ)) = 50 :=
    toNumber_exact _ 5 (50 * 2 ^ 47) (by norm_num) (by norm_num) (by norm_num)
      (by norm_num [zpow_neg])
  rw [s1, s2, s3, s4]
  rw [show (((5000 : ℤ) : ℚ) / 100) = 50 by norm_num]
  exact s5

/-- The double nearest to 14.37. -/
theorem toNumber_1437 :
    toNumber (1437 / 100) = 8089590830664253 / 562949953421312 := by
  rw [toNumber_of_exponent _ 3 8089590830664253 (by norm_num [abs_of_pos])
    (by norm_num [abs_of_pos]) (by norm_num)
    (by apply roundHalfEven_of_near <;> norm_num [zpow_neg])]
  norm_num [zpow_neg]

/-- The double nearest to 14.38. -/
theorem toNumber_1438 :
    toNumber (1438 / 100) = 8095220330198467 / 562949953421312 := by
  rw [toNumber_of_exponent _ 3 8095220330198467 (by norm_num [abs_of_pos])
    (by norm_num [abs_of_pos]) (by norm_num)
    (by apply roundHalfEven_of_near <;> norm_num [zpow_neg])]
  norm_num [zpow_neg]

/-- The value of the percentage expression for 23 of 160: the quotient and the
two products are rounded below 1437.5, so that `Math.round` gives 1437. -/
theorem percent_23_160 :
    toNumber ((mathRound (toNumber (toNumber (toNumber ((23 : ℚ) / 160) * 100) * 100)) : ℚ) / 100)
      = 8089590830664253 / 562949953421312 := by
  have s1 : toNumber ((23 : ℚ) / 160) = 2589569785738035 / 18014398509481984 := by
    rw [toNumber_of_exponent _ (-3) 5179139571476070 (by norm_num [abs_of_pos])
      (by norm_num [abs_of_pos]) (by norm_num)
      (by apply roundHalfEven_of_near <;> norm_num [zpow_neg])]
    norm_num [zpow_neg]
  have s2 : toNumber ((2589569785738035 : ℚ) / 18014398509481984 * 100)
      = 8092405580431359 / 562949953421312 := by
    rw [toNumber_of_exponent _ 3 8092405580431359 (by norm_num [abs_of_pos])
      (by norm_num [abs_of_pos]) (by norm_num)
      (by apply roundHalfEven_of_near <;> norm_num [zpow_neg])]
    norm_num [zpow_neg]
  have s3 : toNumber ((8092405580431359 : ℚ) / 562949953421312 * 100)
      = 6322191859711999 / 4398046511104 := by
    rw [toNumber_of_exponent _ 10 6322191859711999 (by norm_num [abs_of_pos])
      (by norm_num [abs_of_pos]) (by norm_num)
      (by apply roundHalfEven_of_near <;> norm_num [zpow_neg])]
    norm_num [zpow_neg]
  have s4 : mathRound ((6322191859711999 : ℚ) / 4398046511104) = 1437 := by
    unfold mathRound
    rw [Int.floor_eq_iff]
    constructor <;> norm_num
  rw [s1, s2, s3, s4]
  have := toNumber_1437
  norm_num at this ⊢
  exact this

theorem roundedPercent_23_160 :
    roundedPercent 23 160 = 8089590830664253 / 562949953421312 := by
  rw [roundedPercent_pos 23 160 (by norm_num)]
  have := percent_23_160
  norm_num at this ⊢
  exact this

theorem specPercent_23_160 : specPercent 23 160 = 1438 / 100 := by
  unfold specPercent
  have : ⌊((23 : ℤ) : ℚ) / ((160 : ℤ) : ℚ) * 100 * 100 + 1 / 2⌋ = 1438 := by
    rw [Int.floor_eq_iff]
    constructor <;> norm_num
  simp only [this]
  norm_num


theorem candidateResultsFrom_get (t : Int) (l : List Candidate) (i j : Nat) (c : Candidate)
    (h : l[j]? = some c) :
    (candidateResultsFrom t i l)[j]? = some
      { index := i + j, name := c.name, description := c.description, voteCount := c.voteCount,
        percentage := roundedPercent c.voteCount t } := by
  induction l generalizing i j with
  | nil => simp at h
  | cons a rest ih =>
    cases j with
    | zero =>
      simp only [List.getElem?_cons_zero, Option.some.injEq] at h
      subst h
      simp [candidateResultsFrom]
    | succ k =>
      simp only [List.getElem?_cons_succ] at h
      simp only [candidateResultsFrom, List.getElem?_cons_succ]
      rw [ih (i + 1) k h]
      simp only [Option.some.injEq, CandidateResult.mk.injEq, and_true, true_and]
      omega

theorem foldl_voteCount (l : List Candidate) (a : Int) :
    l.foldl (fun sum c => sum + c.voteCount) a = a + (l.map (fun c => c.voteCount)).sum := by
  induction l generalizing a with
  | nil => simp
  | cons c rest ih =>
    simp only [List.foldl_cons, List.map_cons, List.sum_cons]
    rw [ih]
    ring

/-- The sum that the results route computes is the sum of the tallies. -/
theorem routeResults_totalVotes (b : Booth) (cr : String) (isC : Bool) :
    (b.routeResults cr isC).totalVotes = b.tallies.sum := by
  simp [Booth.routeResults, foldl_voteCount, Booth.tallies]

/-- The response of `getResults` and of the results route for a booth that is
found and whose creator has a user document, by the two permission checks. -/
theorem results_by_access (js : Builtins) (db : Db) (req : ResultsRequest) (now : Int)
    (booth : Booth) (creator : User)
    (hid : js.isMongoId req.boothId = true)
    (hb : db.findBoothById req.boothId = some booth)
    (hcr : db.findUserById booth.creator = some creator) :
    ((booth.creator = req.userId ∨
        (booth.isMember req.userId = true ∧ booth.settings.resultsVisibleToVoters = true)) →
      getResults js db req now = ⟨200, none,
        some (booth.results req.userId (booth.creator == req.userId) now)⟩ ∧
      resultsRoute db req = ⟨200, none,
        some (booth.routeResults booth.creator (booth.creator == req.userId))⟩) ∧
    (¬ (booth.creator = req.userId ∨
        (booth.isMember req.userId = true ∧ booth.settings.resultsVisibleToVoters = true)) →
      (getResults js db req now).status = 403 ∧ (getResults js db req now).results = none ∧
      (resultsRoute db req).status = 403 ∧ (resultsRoute db req).data = none) := by
  have hcid : creator.id = booth.creator := by
    have := List.find?_some hcr
    simpa using this
  constructor
  · intro hacc
    unfold getResults resultsRoute
    simp only [hid, hb, hcr, Bool.not_true, Bool.false_eq_true, if_false, hcid]
    rcases hacc with hc | ⟨hm, hv⟩
    · simp [hc]
    · simp [hm, hv]
  · intro hno
    have hc : ¬ booth.creator = req.userId := fun h => hno (Or.inl h)
    unfold getResults resultsRoute
    simp only [hid, hb, hcr, Bool.not_true, Bool.false_eq_true, if_false, hcid]
    cases hv : booth.settings.resultsVisibleToVoters with
    | false => simp [hc]
    | true =>
      cases hm : booth.isMember req.userId with
      | false => simp [hc]
      | true => exact absurd (Or.inr ⟨hm, hv⟩) hno

theorem getStats_votingPercentage (b : Booth) :
    b.getStats.votingPercentage
      = roundedPercent (b.getStats.totalVoted : Int) (b.getStats.totalMembers : Int) := by
  unfold Booth.getStats
  simp only
  by_cases h : b.members.length > 0
  · rw [roundedPercent_pos _ _ (by exact_mod_cast h)]
    simp only [h, if_true]
    push_cast
    rfl
  · have h0 : b.members.length = 0 := by omega
    rw [roundedPercent_zero _ _ (by simp [h0])]
    simp only [h, if_false, zero_mul, toNumber_zero]
    have : mathRound (0 : ℚ) = 0 := by
      have := mathRound_intCast 0
      simpa using this
    rw [this]
    simp [toNumber_zero]


/-- C20. Results access rule. For a booth that is found and whose creator has a
user document, `getResults` and the results route send the results exactly when
the requesting user is the creator of the booth, or is a member of it and
`resultsVisibleToVoters` is set. Then the response has status 200 and carries
the results of the booth; otherwise it has status 403 and carries no results,
so no tallies. -/
theorem results_access_rule (js : Builtins) (db : Db) (req : ResultsRequest) (now : Int)
    (booth : Booth) (creator : User)
    (hid : js.isMongoId req.boothId = true)
    (hb : db.findBoothById req.boothId = some booth)
    (hcr : db.findUserById booth.creator = some creator) :
    ((getResults js db req now).results.isSome = true ↔
      (booth.creator = req.userId ∨
        (booth.isMember req.userId = true ∧ booth.settings.resultsVisibleToVoters = true))) ∧
    ((resultsRoute db req).data.isSome = true ↔
      (booth.creator = req.userId ∨
        (booth.isMember req.userId = true ∧ booth.settings.resultsVisibleToVoters = true))) ∧
    ((booth.creator = req.userId ∨
        (booth.isMember req.userId = true ∧ booth.settings.resultsVisibleToVoters = true)) →
      getResults js db req now = ⟨200, none,
        some (booth.results req.userId (booth.creator == req.userId) now)⟩ ∧
      resultsRoute db req = ⟨200, none,
        some (booth.routeResults booth.creator (booth.creator == req.userId))⟩) ∧
    (¬ (booth.creator = req.userId ∨
        (booth.isMember req.userId = true ∧ booth.settings.resultsVisibleToVoters = true)) →
      (getResults js db req now).status = 403 ∧ (getResults js db req now).results = none ∧
      (resultsRoute db req).status = 403 ∧ (resultsRoute db req).data = none) := by
  obtain ⟨hyes, hno⟩ := results_by_access js db req now booth creator hid hb hcr
  refine ⟨?_, ?_, hyes, hno⟩
  · constructor
    · intro h
      by_contra hn
      rw [(hno hn).2.1] at h
      cases h
    · intro h
      rw [(hyes h).1]
      rfl
  · constructor
    · intro h
      by_contra hn
      rw [(hno hn).2.2.2] at h
      cases h
    · intro h
      rw [(hyes h).2]
      rfl

/-- Witness of `results_access_rule`: in the booth with visible results the
creator `ann` and the member `bob` receive the results and `cyd`, who is not a
member, is refused; in the booth of the concrete run, whose results are not
visible to voters, the member `bob` is refused. -/
theorem results_access_rule_witness :
    (getResults asciiRuntime openDb ⟨lunchId, ann⟩ 6).status = 200 ∧
    (getResults asciiRuntime openDb ⟨lunchId, bob⟩ 6).status = 200 ∧
    (getResults asciiRuntime openDb ⟨lunchId, bob⟩ 6).results.isSome = true ∧
    (getResults asciiRuntime openDb ⟨lunchId, cyd⟩ 6).status = 403 ∧
    (getResults asciiRuntime openDb ⟨lunchId, cyd⟩ 6).results = none ∧
    (resultsRoute openDb ⟨lunchId, cyd⟩).status = 403 ∧
    (getResults asciiRuntime (afterVote none false false) ⟨lunchId, bob⟩ 6).status = 403 :=
  ⟨congrArg ResultsResponse.status
     ((results_access_rule asciiRuntime openDb ⟨lunchId, ann⟩ 6
       ((openDb.findBoothById lunchId).getD default)
       ⟨ann, some "ann@org.edu", 5, [lunchId], [lunchId]⟩
       (by decide) (by decide) (by decide)).2.2.1 (Or.inl (by decide))).1,
   congrArg ResultsResponse.status
     ((results_access_rule asciiRuntime openDb ⟨lunchId, bob⟩ 6
       ((openDb.findBoothById lunchId).getD default)
       ⟨ann, some "ann@org.edu", 5, [lunchId], [lunchId]⟩
       (by decide) (by decide) (by decide)).2.2.1 (Or.inr ⟨by decide, by decide⟩)).1,
   (results_access_rule asciiRuntime openDb ⟨lunchId, bob⟩ 6
       ((openDb.findBoothById lunchId).getD default)
       ⟨ann, some "ann@org.edu", 5, [lunchId], [lunchId]⟩
       (by decide) (by decide) (by decide)).1.mpr (Or.inr ⟨by decide, by decide⟩),
   ((results_access_rule asciiRuntime openDb ⟨lunchId, cyd⟩ 6
       ((openDb.findBoothById lunchId).getD default)
       ⟨ann, some "ann@org.edu", 5, [lunchId], [lunchId]⟩
       (by decide) (by decide) (by decide)).2.2.2 (by decide)).1,
   ((results_access_rule asciiRuntime openDb ⟨lunchId, cyd⟩ 6
       ((openDb.findBoothById lunchId).getD default)
       ⟨ann, some "ann@org.edu", 5, [lunchId], [lunchId]⟩
       (by decide) (by decide) (by decide)).2.2.2 (by decide)).2.1,
   ((results_access_rule asciiRuntime openDb ⟨lunchId, cyd⟩ 6
       ((openDb.findBoothById lunchId).getD default)
       ⟨ann, some "ann@org.edu", 5, [lunchId], [lunchId]⟩
       (by decide) (by decide) (by decide)).2.2.2 (by decide)).2.2.1,
   ((results_access_rule asciiRuntime (afterVote none false false) ⟨lunchId, bob⟩ 6
       ((lunchBooth (afterVote none false false)).getD default)
       ⟨ann, some "ann@org.edu", 5, [lunchId], [lunchId]⟩
       (by decide) (by decide) (by decide)).2.2.2 (by decide)).1⟩


/-- The rounded product that reaches `Math.round` is within `10^-11` of the
exact product, for a tally between 0 and the total. -/
theorem percent_product_close (x : ℚ) (h0 : 0 ≤ x) (h1 : x ≤ 1) :
    |toNumber (toNumber (toNumber x * 100) * 100) - x * 100 * 100| ≤ 1 / 10 ^ 11 := by
  have a0 : 0 ≤ toNumber x := toNumber_nonneg h0
  have a1 : toNumber x ≤ 1 := by
    have := toNumber_mono h0 h1
    rwa [toNumber_one] at this
  have b0' : 0 ≤ toNumber x * 100 := by positivity
  have b1' : toNumber x * 100 ≤ 100 := by linarith
  have b0 : 0 ≤ toNumber (toNumber x * 100) := toNumber_nonneg b0'
  have b1 : toNumber (toNumber x * 100) ≤ 100 := by
    have := toNumber_mono b0' b1'
    rwa [toNumber_hundred] at this
  have c0' : 0 ≤ toNumber (toNumber x * 100) * 100 := by positivity
  have c1' : toNumber (toNumber x * 100) * 100 ≤ 10000 := by linarith
  have e1 := toNumber_error_le 0 h0 (by simpa using h1) (by norm_num)
  have e2 := toNumber_error_le 7 b0' (by norm_num; linarith) (by norm_num)
  have e3 := toNumber_error_le 14 c0' (by norm_num; linarith) (by norm_num)
  norm_num [zpow_neg] at e1 e2 e3
  rw [abs_le] at e1 e2 e3 ⊢
  obtain ⟨e1a, e1b⟩ := e1
  obtain ⟨e2a, e2b⟩ := e2
  obtain ⟨e3a, e3b⟩ := e3
  constructor <;> norm_num <;> linarith

/-- The floor of a number close to a fraction that is not an integer is the
floor of the fraction. -/
theorem floor_near_fraction (n d : Int) (y : ℚ) (hd : 0 < d) (hnd : ¬ d ∣ n)
    (hy : |y - (n : ℚ) / d| < 1 / d) : ⌊y⌋ = ⌊(n : ℚ) / d⌋ := by
  have hdq : (0 : ℚ) < d := by exact_mod_cast hd
  have hr0 : 0 < n % d := by
    have h1 := Int.emod_nonneg n hd.ne'
    rcases eq_or_lt_of_le h1 with h | h
    · exact absurd (Int.dvd_of_emod_eq_zero h.symm) hnd
    · exact h
  have hr1 : n % d < d := Int.emod_lt_of_pos n hd
  have hdiv : (n : ℚ) / d = (n / d : ℤ) + ((n % d : ℤ) : ℚ) / d := by
    have h := Int.ediv_add_emod n d
    have hq : (n : ℚ) = (d : ℚ) * ((n / d : ℤ) : ℚ) + ((n % d : ℤ) : ℚ) := by
      exact_mod_cast h.symm
    field_simp
    linarith
  have hr0q : (1 : ℚ) ≤ ((n % d : ℤ) : ℚ) := by exact_mod_cast hr0
  have hr1q : ((n % d : ℤ) : ℚ) ≤ d - 1 := by
    have : n % d ≤ d - 1 := by omega
    exact_mod_cast this
  have hlo : (1 : ℚ) / d ≤ ((n % d : ℤ) : ℚ) / d := div_le_div_of_nonneg_right hr0q hdq.le
  have hhi : ((n % d : ℤ) : ℚ) / d ≤ 1 - 1 / d := by
    rw [div_le_iff₀ hdq]
    have : (1 - 1 / (d : ℚ)) * d = d - 1 := by field_simp
    linarith
  rw [abs_lt] at hy
  have hfl : ⌊(n : ℚ) / d⌋ = n / d := by
    rw [Int.floor_eq_iff]
    constructor <;> linarith [div_pos (show (0 : ℚ) < 1 by norm_num) hdq]
  rw [hfl, Int.floor_eq_iff]
  constructor <;> linarith [hy.1, hy.2]

/-- Away from a tie the percentage expression gives the exact percentage
rounded to two decimal places, as a double: for a tally between 0 and a total
below `5 * 10^10`, unless `10000 * voteCount / totalVotes` is halfway between
two integers. -/
theorem roundedPercent_eq_spec (c t : Int) (h0 : 0 ≤ c) (hct : c ≤ t) (ht : 0 < t)
    (hbig : t < 50000000000) (htie : ¬ (2 * t ∣ 20000 * c + t)) :
    roundedPercent c t = toNumber (specPercent c t) := by
  have htq : (0 : ℚ) < t := by exact_mod_cast ht
  have h0q : (0 : ℚ) ≤ c := by exact_mod_cast h0
  have hctq : (c : ℚ) ≤ t := by exact_mod_cast hct
  have hx0 : 0 ≤ (c : ℚ) / t := div_nonneg h0q htq.le
  have hx1 : (c : ℚ) / t ≤ 1 := (div_le_one htq).mpr hctq
  have hclose := percent_product_close _ hx0 hx1
  have hfrac : (c : ℚ) / t * 100 * 100 + 1 / 2 = ((20000 * c + t : ℤ) : ℚ) / ((2 * t : ℤ) : ℚ) := by
    push_cast
    field_simp
    ring
  have hsmall : (1 : ℚ) / 10 ^ 11 < 1 / ((2 * t : ℤ) : ℚ) := by
    have h2t : (0 : ℚ) < ((2 * t : ℤ) : ℚ) := by push_cast; linarith
    have : ((2 * t : ℤ) : ℚ) < 10 ^ 11 := by
      have : 2 * t < 100000000000 := by omega
      have h3 : ((2 * t : ℤ) : ℚ) < ((100000000000 : ℤ) : ℚ) := by exact_mod_cast this
      norm_num at h3 ⊢
      exact h3
    exact one_div_lt_one_div_of_lt h2t this
  have hk : mathRound (toNumber (toNumber (toNumber ((c : ℚ) / t) * 100) * 100))
      = ⌊(c : ℚ) / t * 100 * 100 + 1 / 2⌋ := by
    unfold mathRound
    rw [hfrac]
    apply floor_near_fraction _ _ _ (by omega) htie
    rw [← hfrac]
    have : toNumber (toNumber (toNumber ((c : ℚ) / t) * 100) * 100) + 1 / 2
        - ((c : ℚ) / t * 100 * 100 + 1 / 2)
        = toNumber (toNumber (toNumber ((c : ℚ) / t) * 100) * 100) - (c : ℚ) / t * 100 * 100 := by
      ring
    rw [this]
    exact lt_of_le_of_lt hclose hsmall
  rw [roundedPercent_pos c t ht, hk]
  unfold specPercent
  simp [ht]

/-- C19, counterexample. In a booth with 160 members of whom 23 have voted,
`getStats` reports the double nearest to 14.37 as `votingPercentage`, while
`23 / 160 * 100` is 14.375 and rounds to 14.38: in double arithmetic the
quotient and the products are rounded, and the value that reaches `Math.round`
is below 1437.5, where the exact product is the tie 1437.5. -/
theorem getStats_tie_counterexample :
    (ballotBooth 23 23 0).getStats.totalMembers = 160 ∧
    (ballotBooth 23 23 0).getStats.totalVoted = 23 ∧
    (ballotBooth 23 23 0).getStats.votingPercentage = 8089590830664253 / 562949953421312 ∧
    toNumber (1437 / 100) = 8089590830664253 / 562949953421312 ∧
    specPercent 23 160 = 1438 / 100 ∧
    toNumber (specPercent 23 160) = 8095220330198467 / 562949953421312 ∧
    (ballotBooth 23 23 0).getStats.votingPercentage ≠ specPercent 23 160 ∧
    (ballotBooth 23 23 0).getStats.votingPercentage ≠ toNumber (specPercent 23 160) ∧
    (2 * 160 : Int) ∣ 20000 * 23 + 160 := by
  have hm : (ballotBooth 23 23 0).getStats.totalMembers = 160 := by
    simp [Booth.getStats, ballotBooth]
  have hv : (ballotBooth 23 23 0).getStats.totalVoted = 23 := by
    show (((List.range 160).map (fun i => (⟨String.mk (natDigits i), 2, decide (i < 23)⟩
      : Member))).filter (fun m => m.hasVoted)).length = 23
    rw [List.filter_map, List.length_map]
    decide
  have hp : (ballotBooth 23 23 0).getStats.votingPercentage
      = 8089590830664253 / 562949953421312 := by
    rw [getStats_votingPercentage, hm, hv]
    exact roundedPercent_23_160
  have hs : toNumber (specPercent 23 160) = 8095220330198467 / 562949953421312 := by
    rw [specPercent_23_160]; exact toNumber_1438
  refine ⟨hm, hv, hp, toNumber_1437, specPercent_23_160, hs, ?_, ?_, ⟨1438, by norm_num⟩⟩
  · rw [hp, specPercent_23_160]; norm_num
  · rw [hp, hs]; norm_num

/-- C19, as amended. The statistics of `getStats`: `totalMembers` is the number
of members, `totalVoted` the number of members with `hasVoted = true`,
`candidatesCount` the number of candidates and `totalVotes` the stored total.
`votingPercentage` is the value of
`Math.round((totalVoted / totalMembers) * 100 * 100) / 100` in double
arithmetic, and 0 when there are no members. Hence
`0 ≤ totalVoted ≤ totalMembers`, `0 ≤ votingPercentage ≤ 100`, and
`votingPercentage` is within 0.005, plus a rounding error below `10^-13`, of
`totalVoted / totalMembers * 100`. For fewer than `5 * 10^10` members it is
the double nearest to `totalVoted / totalMembers * 100` rounded to two decimal
places, unless `10000 * totalVoted / totalMembers` is halfway between two
integers. -/
theorem getStats_spec (b : Booth) :
    b.getStats.totalMembers = b.members.length ∧
    b.getStats.totalVoted = (b.members.filter (fun m => m.hasVoted)).length ∧
    b.getStats.candidatesCount = b.candidates.length ∧
    b.getStats.totalVotes = b.totalVotes ∧
    (b.members ≠ [] → b.getStats.votingPercentage
      = toNumber ((mathRound (toNumber (toNumber (toNumber
          ((b.getStats.totalVoted : ℚ) / b.getStats.totalMembers) * 100) * 100)) : ℚ) / 100)) ∧
    (b.members = [] → b.getStats.votingPercentage = 0) ∧
    0 ≤ b.getStats.totalVoted ∧ b.getStats.totalVoted ≤ b.getStats.totalMembers ∧
    0 ≤ b.getStats.votingPercentage ∧ b.getStats.votingPercentage ≤ 100 ∧
    (b.members ≠ [] →
      |b.getStats.votingPercentage
        - (b.getStats.totalVoted : ℚ) / b.getStats.totalMembers * 100| ≤ 1 / 200 + 1 / 10 ^ 13) ∧
    (b.members ≠ [] → (b.getStats.totalMembers : Int) < 50000000000 →
      ¬ (2 * (b.getStats.totalMembers : Int)
          ∣ 20000 * (b.getStats.totalVoted : Int) + (b.getStats.totalMembers : Int)) →
      b.getStats.votingPercentage
        = toNumber (specPercent (b.getStats.totalVoted : Int) (b.getStats.totalMembers : Int))) := by
  have hle : b.getStats.totalVoted ≤ b.getStats.totalMembers :=
    List.length_filter_le _ _
  have hr := roundedPercent_range (b.getStats.totalVoted : Int) (b.getStats.totalMembers : Int)
    (by positivity) (by exact_mod_cast hle)
  have hpos : b.members ≠ [] → (0 : Int) < (b.getStats.totalMembers : Int) := by
    intro h
    have : 0 < b.members.length := List.length_pos.mpr h
    exact_mod_cast this
  refine ⟨rfl, rfl, rfl, rfl, ?_, ?_, Nat.zero_le _, hle, ?_, ?_, ?_, ?_⟩
  rotate_right
  · intro h hbig htie
    rw [getStats_votingPercentage]
    exact roundedPercent_eq_spec _ _ (by positivity) (by exact_mod_cast hle) (hpos h) hbig htie
  · intro h
    rw [getStats_votingPercentage, roundedPercent_pos _ _ (hpos h)]
    push_cast
    rfl
  · intro h
    rw [getStats_votingPercentage, roundedPercent_zero]
    show ((b.members.length : Nat) : Int) ≤ 0
    rw [h]
    rfl
  · rw [getStats_votingPercentage]; exact hr.1
  · rw [getStats_votingPercentage]; exact hr.2.1
  · intro h
    rw [getStats_votingPercentage]
    have := hr.2.2 (hpos h)
    push_cast at this
    exact this

/-- C18, counterexample. In a booth with 160 members who have all voted, 23 for
candidate `A` and 137 for candidate `B`, `getResults` reports for `A` the double
nearest to 14.37, while `23 / 160 * 100` is 14.375 and rounds to 14.38: in
double arithmetic the quotient and the two products are rounded, and the value
that reaches `Math.round` is below 1437.5, where the exact product is the tie
1437.5. -/
theorem percentage_tie_counterexample :
    (ballotBooth 160 23 137).validate = true ∧
    (ballotBooth 160 23 137).tallies = [23, 137] ∧
    (ballotBooth 160 23 137).totalVotes = 160 ∧
    (ballotBooth 160 23 137).getStats.totalVoted = 160 ∧
    ((getResults asciiRuntime ballotDb ⟨lunchId, ann⟩ 6).results.bind
      (fun r => r.candidates[0]?)).map (fun x => x.percentage)
      = some (8089590830664253 / 562949953421312) ∧
    toNumber (1437 / 100) = 8089590830664253 / 562949953421312 ∧
    specPercent 23 160 = 1438 / 100 ∧
    toNumber (specPercent 23 160) = 8095220330198467 / 562949953421312 ∧
    (8089590830664253 / 562949953421312 : ℚ) ≠ specPercent 23 160 ∧
    (8089590830664253 / 562949953421312 : ℚ) ≠ toNumber (specPercent 23 160) ∧
    (2 * 160 : Int) ∣ 20000 * 23 + 160 := by
  have hs : toNumber (specPercent 23 160) = 8095220330198467 / 562949953421312 := by
    rw [specPercent_23_160]; exact toNumber_1438
  have hres := ((results_by_access asciiRuntime ballotDb ⟨lunchId, ann⟩ 6
    (ballotBooth 160 23 137) ⟨ann, some "ann@org.edu", 5, [], []⟩
    (by decide) rfl rfl).1 (Or.inl rfl)).1
  have hv : (ballotBooth 160 23 137).getStats.totalVoted = 160 := by
    show (((List.range 160).map (fun i => (⟨String.mk (natDigits i), 2, decide (i < 160)⟩
      : Member))).filter (fun m => m.hasVoted)).length = 160
    rw [List.filter_map, List.length_map]
    set_option maxRecDepth 10000 in decide
  refine ⟨by simp [Booth.validate, ballotBooth, jsLength], rfl, rfl, hv, ?_, toNumber_1437,
    specPercent_23_160, hs, ?_, ?_, ⟨1438, by norm_num⟩⟩
  · rw [hres]
    simp only [Option.some_bind, Booth.results]
    rw [candidateResultsFrom_get _ _ 0 0 ⟨"A", "", 23⟩ rfl]
    simp only [Option.map_some']
    have : (ballotBooth 160 23 137).totalVotes = 160 := rfl
    rw [this]
    exact congrArg some roundedPercent_23_160
  · rw [specPercent_23_160]; norm_num
  · rw [hs]; norm_num

/-- C18, as amended. Result percentages. For every booth and every candidate,
the percentage that `getResults` reports is the value of
`Math.round((voteCount / totalVotes) * 100 * 100) / 100` in double arithmetic
when `totalVotes > 0`, and 0 otherwise; the results route reports the same
expression with the sum of the tallies for `totalVotes`. When the tally-sum
invariant holds, each percentage lies in `[0, 100]` and is within 0.005, plus a
rounding error below `10^-13`, of `voteCount / totalVotes * 100`; for
`totalVotes` below `5 * 10^10` it is the double nearest to
`voteCount / totalVotes * 100` rounded to two decimal places, unless
`10000 * voteCount / totalVotes` is halfway between two integers. -/
theorem result_percentages (b : Booth) (i : Nat) (c : Candidate) (userId creator : String)
    (isCreator : Bool) (now : Int) (h : b.candidates[i]? = some c) :
    ((b.results userId isCreator now).candidates[i]?).map (fun r => r.percentage)
      = some (roundedPercent c.voteCount b.totalVotes) ∧
    ((b.routeResults creator isCreator).candidates[i]?).map (fun r => r.percentage)
      = some (roundedPercent c.voteCount b.tallies.sum) ∧
    (b.totalVotes ≤ 0 → roundedPercent c.voteCount b.totalVotes = 0) ∧
    (0 < b.totalVotes → roundedPercent c.voteCount b.totalVotes
      = toNumber ((mathRound (toNumber (toNumber
          (toNumber ((c.voteCount : ℚ) / b.totalVotes) * 100) * 100)) : ℚ) / 100)) ∧
    (b.tallies.sum = b.totalVotes → (∀ x ∈ b.candidates, 0 ≤ x.voteCount) →
      0 ≤ roundedPercent c.voteCount b.totalVotes ∧
      roundedPercent c.voteCount b.totalVotes ≤ 100 ∧
      (0 < b.totalVotes →
        |roundedPercent c.voteCount b.totalVotes - (c.voteCount : ℚ) / b.totalVotes * 100|
          ≤ 1 / 200 + 1 / 10 ^ 13) ∧
      (0 < b.totalVotes → b.totalVotes < 50000000000 →
        ¬ (2 * b.totalVotes ∣ 20000 * c.voteCount + b.totalVotes) →
        roundedPercent c.voteCount b.totalVotes
          = toNumber (specPercent c.voteCount b.totalVotes))) := by
  refine ⟨?_, ?_, roundedPercent_zero _ _, roundedPercent_pos _ _, ?_⟩
  · simp only [Booth.results]
    rw [candidateResultsFrom_get _ _ 0 i c h]
    rfl
  · simp only [Booth.routeResults, List.getElem?_map, h, Option.map_some', foldl_voteCount,
      zero_add, Booth.tallies]
  · intro hsum hnn
    have h0 : 0 ≤ c.voteCount := hnn c (List.getElem?_mem h)
    have hle : c.voteCount ≤ b.totalVotes := by
      rw [← hsum]
      exact voteCount_le_sum b.candidates hnn i c h
    obtain ⟨r0, r1, r2⟩ := roundedPercent_range c.voteCount b.totalVotes h0 hle
    exact ⟨r0, r1, r2, fun ht hbig htie =>
      roundedPercent_eq_spec c.voteCount b.totalVotes h0 hle ht hbig htie⟩

/-- Witness of `result_percentages`: after `bob` voted for candidate 0 and `ann`
for candidate 1 the tallies are one vote each of two, and both candidates are
reported with 50. -/
theorem result_percentages_witness :
    (lunchBooth afterBothVoted).map (fun b => (b.tallies, b.totalVotes)) = some ([1, 1], 2) ∧
    roundedPercent 1 2 = 50 ∧
    ((((lunchBooth afterBothVoted).getD default).results bob false 7).candidates[0]?).map
      (fun r => r.percentage) = some (roundedPercent 1 2) ∧
    ((((lunchBooth afterBothVoted).getD default).results bob false 7).candidates[1]?).map
      (fun r => r.percentage) = some (roundedPercent 1 2) :=
  ⟨by decide, roundedPercent_half,
   (result_percentages ((lunchBooth afterBothVoted).getD default) 0 ⟨"A", "", 1⟩ bob ann false 7
     (by decide)).1,
   (result_percentages ((lunchBooth afterBothVoted).getD default) 1 ⟨"B", "", 1⟩ bob ann false 7
     (by decide)).1⟩


/-- Witness of `getStats_spec`: after `bob` voted in the concrete run one of the
two members has voted, and the statistics report 50. -/
theorem getStats_spec_witness :
    ((lunchBooth (afterVote none false false)).getD default).getStats.totalMembers = 2 ∧
    ((lunchBooth (afterVote none false false)).getD default).getStats.totalVoted = 1 ∧
    ((lunchBooth (afterVote none false false)).getD default).getStats.votingPercentage = 50 ∧
    ((lunchBooth (afterVote none false false)).getD default).getStats.votingPercentage ≤ 100 := by
  have hm : ((lunchBooth (afterVote none false false)).getD default).getStats.totalMembers = 2 := by
    decide
  have hv : ((lunchBooth (afterVote none false false)).getD default).getStats.totalVoted = 1 := by
    decide
  refine ⟨hm, hv, ?_,
    (getStats_spec ((lunchBooth (afterVote none false false)).getD default)).2.2.2.2.2.2.2.2.2.1⟩
  rw [getStats_votingPercentage, hm, hv]
  exact roundedPercent_half

theorem inviteChars_alnum : ∀ i : Fin 36,
    (65 ≤ (inviteChars.getD i.val ' ').toNat ∧ (inviteChars.getD i.val ' ').toNat ≤ 90) ∨
    (48 ≤ (inviteChars.getD i.val ' ').toNat ∧ (inviteChars.getD i.val ' ').toNat ≤ 57) := by
  decide

/-- The index that `generateInviteCode` computes from a random double below 1 is
one of the 36 positions of the alphabet: the product with 36, rounded to a
double, stays below 36. -/
theorem randomIndex_range (r : ℚ) (h0 : 0 ≤ r) (h1 : r ≤ 1 - 1 / 2 ^ 53) :
    0 ≤ randomIndex r ∧ randomIndex r < 36 := by
  unfold randomIndex
  have hp0 : 0 ≤ r * 36 := by positivity
  have hp1 : r * 36 ≤ (1 - 1 / 2 ^ 53) * 36 := by linarith
  have hn := toNumber_nonneg hp0
  have hm := toNumber_mono hp0 hp1
  have hb : toNumber ((1 - 1 / 2 ^ 53) * 36) = 36 - 1 / 2 ^ 47 := by
    rw [toNumber_of_exponent _ 5 (36 * 2 ^ 47 - 1) (by norm_num [abs_of_pos])
      (by norm_num [abs_of_pos]) (by norm_num)
      (by apply roundHalfEven_of_near <;> norm_num [zpow_neg])]
    norm_num [zpow_neg]
  rw [hb] at hm
  constructor
  · exact Int.floor_nonneg.mpr hn
  · apply Int.floor_lt.mpr
    have : (36 : ℚ) - 1 / 2 ^ 47 < 36 := by norm_num
    push_cast
    linarith

/-- C23. Invite-code shape. For every outcome of the random source,
`generateInviteCode` returns a string of exactly six characters (six UTF-16
units), each of them one of `A`-`Z` or `0`-`9`; and each draw
`Math.floor(Math.random() * 36)`, for a random double `r` in `[0, 1)`, is one of
the 36 positions of the alphabet. -/
theorem generateInviteCode_shape (rng : Nat → Fin 36) (pos : Nat) :
    (generateInviteCode rng pos).data.length = 6 ∧
    jsLength (generateInviteCode rng pos).data = 6 ∧
    (∀ c ∈ (generateInviteCode rng pos).data,
      (65 ≤ c.toNat ∧ c.toNat ≤ 90) ∨ (48 ≤ c.toNat ∧ c.toNat ≤ 57)) ∧
    (∀ i, i < 6 → (generateInviteCode rng pos).data[i]?
      = inviteChars[(rng (pos + i)).val]?) ∧
    (∀ r : ℚ, 0 ≤ r → r ≤ 1 - 1 / 2 ^ 53 → 0 ≤ randomIndex r ∧ randomIndex r < 36) := by
  refine ⟨by simp [generateInviteCode], generateInviteCode_length rng pos, ?_, ?_,
    randomIndex_range⟩
  · intro c hc
    simp only [generateInviteCode, List.mem_map, List.mem_range] at hc
    obtain ⟨i, -, rfl⟩ := hc
    exact inviteChars_alnum (rng (pos + i))
  · intro i hi
    have hlt : (rng (pos + i)).val < inviteChars.length := by
      have h36 : inviteChars.length = 36 := rfl
      rw [h36]
      exact (rng (pos + i)).isLt
    simp only [generateInviteCode, List.getElem?_map, List.getElem?_range hi, Option.map_some']
    rw [List.getD_eq_getElem?_getD, List.getElem?_eq_getElem hlt]
    rfl

theorem generateInviteCode_format (rng : Nat → Fin 36) (pos : Nat) :
    isInviteCodeFormat (generateInviteCode rng pos).data = true := by
  have hlen : (generateInviteCode rng pos).data.length = 6 := by simp [generateInviteCode]
  unfold isInviteCodeFormat
  simp only [hlen, Bool.and_eq_true, decide_eq_true_eq, List.all_eq_true, Bool.or_eq_true]
  refine ⟨⟨by omega, by omega⟩, ?_⟩
  intro c hc
  simp only [generateInviteCode, List.mem_map, List.mem_range] at hc
  obtain ⟨i, -, rfl⟩ := hc
  exact inviteChars_alnum (rng (pos + i))

theorem generateInviteCode_alnum (rng : Nat → Fin 36) (pos : Nat) :
    ∀ c ∈ (generateInviteCode rng pos).data,
      (65 ≤ c.toNat ∧ c.toNat ≤ 90) ∨ (48 ≤ c.toNat ∧ c.toNat ≤ 57) := by
  intro c hc
  simp only [generateInviteCode, List.mem_map, List.mem_range] at hc
  obtain ⟨i, -, rfl⟩ := hc
  exact inviteChars_alnum (rng (pos + i))

/-- The upper-case mapping of the concrete runtime leaves a string over `A`-`Z`
and `0`-`9` as it is. -/
theorem asciiRuntime_upper_alnum (s : String)
    (h : ∀ c ∈ s.data, (65 ≤ c.toNat ∧ c.toNat ≤ 90) ∨ (48 ≤ c.toNat ∧ c.toNat ≤ 57)) :
    asciiRuntime.toUpperCase s = s := by
  have hmap : s.data.map (fun c =>
      if 97 ≤ c.toNat ∧ c.toNat ≤ 122 then Char.ofNat (c.toNat - 32) else c) = s.data := by
    conv_rhs => rw [← List.map_id s.data]
    apply List.map_congr_left
    intro c hc
    have := h c hc
    rw [if_neg (by omega)]
    rfl
  show String.mk (s.data.map (fun c =>
      if 97 ≤ c.toNat ∧ c.toNat ≤ 122 then Char.ofNat (c.toNat - 32) else c)) = s
  rw [hmap]

/-- C30. Generated codes are joinable. In a runtime whose `toUpperCase` leaves
every string over `A`-`Z` and `0`-`9` as it is, every string that
`generateInviteCode` returns passes the format check of `joinBooth` and is
unchanged by `toUpperCase`, and a join request whose code is the generated code
written in any letter case (a non-empty string with the generated code as its
upper-case form) is processed exactly as the request with the generated code
itself: the same booth is looked up and the response and the database after
the request are the same. -/
theorem generated_code_joinable (js : Builtins) (db : Db) (rng : Nat → Fin 36) (pos : Nat)
    (req : JoinRequest) (now : Int)
    (hjs : ∀ s : String,
      (∀ c ∈ s.data, (65 ≤ c.toNat ∧ c.toNat ≤ 90) ∨ (48 ≤ c.toNat ∧ c.toNat ≤ 57)) →
      js.toUpperCase s = s)
    (hcase : js.toUpperCase req.code = generateInviteCode rng pos)
    (hne : req.code.data ≠ []) :
    isInviteCodeFormat (generateInviteCode rng pos).data = true ∧
    js.toUpperCase (generateInviteCode rng pos) = generateInviteCode rng pos ∧
    isInviteCodeFormat (js.toUpperCase req.code).data = true ∧
    db.findBoothByInviteCode (js.toUpperCase req.code)
      = db.findBoothByInviteCode (generateInviteCode rng pos) ∧
    joinBooth js db req now
      = joinBooth js db { req with code := generateInviteCode rng pos } now := by
  have hfmt := generateInviteCode_format rng pos
  have hup := hjs (generateInviteCode rng pos) (generateInviteCode_alnum rng pos)
  refine ⟨hfmt, hup, by rw [hcase]; exact hfmt, by rw [hcase], ?_⟩
  have he1 : req.code.data.isEmpty = false := by
    cases h : req.code.data with
    | nil => exact absurd h hne
    | cons a t => rfl
  have he2 : (generateInviteCode rng pos).data.isEmpty = false := by
    simp [generateInviteCode, List.range, List.range.loop]
  unfold joinBooth
  simp only [hcase, hup, he1, he2]
  rfl

/-- Witness of `generated_code_joinable`: the invite code of the booth of the
concrete run is `AAAAAA`, generated from draws that are all 0; `bob` joins with
the code written `aaaaaa` as he would with `AAAAAA`. -/
theorem generated_code_joinable_witness :
    generateInviteCode (fun _ => 0) 0 = "AAAAAA" ∧
    (lunchBooth (afterCreate none false false)).map (fun b => b.inviteCode) = some "AAAAAA" ∧
    asciiRuntime.toUpperCase (generateInviteCode (fun _ => 0) 0)
      = generateInviteCode (fun _ => 0) 0 ∧
    joinBooth asciiRuntime (afterCreate none false false) (joinReq bob) 2
      = joinBooth asciiRuntime (afterCreate none false false)
          { joinReq bob with code := generateInviteCode (fun _ => 0) 0 } 2 :=
  ⟨by decide, by decide,
   (generated_code_joinable asciiRuntime (afterCreate none false false) (fun _ => 0) 0
     (joinReq bob) 2 asciiRuntime_upper_alnum (by decide) (by decide)).2.1,
   (generated_code_joinable asciiRuntime (afterCreate none false false) (fun _ => 0) 0
     (joinReq bob) 2 asciiRuntime_upper_alnum (by decide) (by decide)).2.2.2.2⟩

/-- C29. The two result computations agree. For every booth whose `totalVotes`
equals the sum of the tallies, the `totalVotes` and the percentages, candidate
by candidate, that `getResults` reports (it divides by `booth.totalVotes`) are
those that the results route reports (it divides by the sum of the tallies that
it computes), and so are the names, descriptions and vote counts. -/
theorem results_agree (b : Booth) (userId creator : String) (isCreator : Bool) (now : Int)
    (h : b.tallies.sum = b.totalVotes) :
    (b.routeResults creator isCreator).totalVotes = (b.results userId isCreator now).totalVotes ∧
    (b.routeResults creator isCreator).candidates.map (fun r => r.percentage)
      = (b.results userId isCreator now).candidates.map (fun r => r.percentage) ∧
    (b.routeResults creator isCreator).candidates.map
        (fun r => (r.name, r.description, r.voteCount))
      = (b.results userId isCreator now).candidates.map
        (fun r => (r.name, r.description, r.voteCount)) ∧
    (b.routeResults creator isCreator).stats = (b.results userId isCreator now).statistics := by
  have hsum : b.candidates.foldl (fun sum c => sum + c.voteCount) 0 = b.totalVotes := by
    rw [foldl_voteCount, zero_add]
    exact h
  have hmap : ∀ (t : Int) (i : Nat) (l : List Candidate),
      (candidateResultsFrom t i l).map (fun r => r.percentage)
        = l.map (fun c => roundedPercent c.voteCount t) ∧
      (candidateResultsFrom t i l).map (fun r => (r.name, r.description, r.voteCount))
        = l.map (fun c => (c.name, c.description, c.voteCount)) := by
    intro t i l
    induction l generalizing i with
    | nil => exact ⟨rfl, rfl⟩
    | cons c rest ih =>
      simp only [candidateResultsFrom, List.map_cons, (ih (i + 1)).1, (ih (i + 1)).2]
      exact ⟨trivial, trivial⟩
  refine ⟨?_, ?_, ?_, rfl⟩
  · simp only [Booth.routeResults, Booth.results, hsum]
  · simp only [Booth.routeResults, Booth.results, hsum, List.map_map, (hmap _ 0 _).1]
    rfl
  · simp only [Booth.routeResults, Booth.results, List.map_map, (hmap _ 0 _).2]
    rfl

/-- Witness of `results_agree`: after `bob` and `ann` voted in the concrete run
the sum of the tallies and `totalVotes` are both 2, and the two computations
report the same percentages. -/
theorem results_agree_witness :
    (lunchBooth afterBothVoted).map (fun b => (b.tallies.sum, b.totalVotes)) = some (2, 2) ∧
    (((lunchBooth afterBothVoted).getD default).routeResults ann false).candidates.map
        (fun r => r.percentage)
      = (((lunchBooth afterBothVoted).getD default).results bob false 7).candidates.map
        (fun r => r.percentage) :=
  ⟨by decide,
   (results_agree ((lunchBooth afterBothVoted).getD default) bob ann false 7 (by decide)).2.1⟩

/-- The audit records after the statements of `vote`: records of the database at
the start, and possibly the new record of the request, whose index was
checked. -/
theorem castVote_votes (db : Db) (booth : Booth) (req : VoteRequest) (k : Int) (now : Int)
    (d : Db)
    (h : (∃ e, castVote db booth req k now = .error (e, d)) ∨
      (∃ n, castVote db booth req k now = .ok (n, d))) :
    ∀ v ∈ d.votes, v ∈ db.votes ∨
      (v.booth = req.boothId ∧ v.voter = req.userId ∧ v.candidateIndex = k ∧ 0 ≤ k) := by
  have hstart : ∀ v ∈ db.votes, v ∈ db.votes ∨
      (v.booth = req.boothId ∧ v.voter = req.userId ∧ v.candidateIndex = k ∧ 0 ≤ k) :=
    fun v hv => Or.inl hv
  unfold castVote at h
  cases h1 : voteChange db booth req with
  | error e =>
    simp only [h1] at h
    rcases h with ⟨e2, h⟩ | ⟨n, h⟩
    · cases h; exact hstart
    · cases h
  | ok r1 =>
    obtain ⟨booth1, db1⟩ := r1
    obtain ⟨-, -, -, -, -, -, -, hv1⟩ := voteChange_frame db booth req _ _ h1
    have hsub1 : ∀ v ∈ db1.votes, v ∈ db.votes := by
      intro v hv
      rcases hv1 with h | h
      · rw [h] at hv; exact hv
      · rw [h] at hv; exact List.mem_of_mem_eraseP hv
    have hs1 : ∀ v ∈ db1.votes, v ∈ db.votes ∨
        (v.booth = req.boothId ∧ v.voter = req.userId ∧ v.candidateIndex = k ∧ 0 ≤ k) :=
      fun v hv => Or.inl (hsub1 v hv)
    simp only [h1] at h
    cases h2 : booth1.markAsVoted db1 req.userId now with
    | error e =>
      simp only [h2] at h
      rcases h with ⟨e2, h⟩ | ⟨n, h⟩
      · cases h; exact hs1
      · cases h
    | ok r2 =>
      obtain ⟨booth2, db2⟩ := r2
      obtain ⟨-, -, hdb2, -⟩ := markAsVoted_spec _ _ _ _ _ _ h2
      have hs2 : ∀ v ∈ db2.votes, v ∈ db.votes ∨
          (v.booth = req.boothId ∧ v.voter = req.userId ∧ v.candidateIndex = k ∧ 0 ≤ k) := by
        rw [hdb2]; exact hs1
      simp only [h2] at h
      cases h3 : booth2.incrementVote db2 k now with
      | error e =>
        simp only [h3] at h
        rcases h with ⟨e2, h⟩ | ⟨n, h⟩
        · cases h; exact hs2
        · cases h
      | ok r3 =>
        obtain ⟨booth3, db3⟩ := r3
        obtain ⟨hk0, -, -, -, hdb3⟩ := incrementVote_spec _ _ _ _ _ _ h3
        have hs3 : ∀ v ∈ db3.votes, v ∈ db.votes ∨
            (v.booth = req.boothId ∧ v.voter = req.userId ∧ v.candidateIndex = k ∧ 0 ≤ k) := by
          rw [hdb3]; exact hs2
        simp only [h3] at h
        cases h4 : booth3.candidates[k.toNat]? with
        | none =>
          simp only [h4] at h
          rcases h with ⟨e2, h⟩ | ⟨n, h⟩
          · cases h; exact hs3
          · cases h
        | some c =>
          simp only [h4] at h
          cases h5 : db3.insertVote
              { booth := req.boothId, voter := req.userId, candidateIndex := k,
                candidateName := c.name, votedAt := now,
                ipAddress := req.ip, userAgent := req.userAgent } with
          | error e =>
            simp only [h5] at h
            rcases h with ⟨e2, h⟩ | ⟨n, h⟩
            · cases h; exact hs3
            · cases h
          | ok db4 =>
            simp only [h5] at h
            have hs := insertVote_spec _ _ _ h5
            rcases h with ⟨e2, h⟩ | ⟨n, h⟩
            · cases h
            · cases h
              subst hs
              intro v hv
              rcases List.mem_append.mp hv with hv | hv
              · exact hs3 v hv
              · simp only [List.mem_singleton] at hv
                subst hv
                exact Or.inr ⟨rfl, rfl, rfl, hk0⟩

theorem vote_votes (js : Builtins) (db : Db) (req : VoteRequest) (now : Int) :
    ∀ v ∈ (vote js db req now).2.votes, v ∈ db.votes ∨
      (v.booth = req.boothId ∧ v.voter = req.userId ∧ 0 ≤ v.candidateIndex) := by
  have hsame : ∀ v ∈ db.votes, v ∈ db.votes ∨
      (v.booth = req.boothId ∧ v.voter = req.userId ∧ 0 ≤ v.candidateIndex) :=
    fun v hv => Or.inl hv
  unfold vote
  split
  · exact hsame
  · split
    · exact hsame
    · rename_i booth hb
      simp only
      split
      · exact hsame
      · split
        · exact hsame
        · split
          · exact hsame
          · split
            · exact hsame
            · rename_i k hk
              split
              · exact hsame
              · have key : ∀ d, ((∃ e, castVote db booth req k now = .error (e, d)) ∨
                    (∃ n, castVote db booth req k now = .ok (n, d))) →
                    ∀ v ∈ d.votes, v ∈ db.votes ∨
                      (v.booth = req.boothId ∧ v.voter = req.userId ∧ 0 ≤ v.candidateIndex) := by
                  intro d hd v hv
                  rcases castVote_votes db booth req k now d hd v hv with h | ⟨h1, h2, h3, h4⟩
                  · exact Or.inl h
                  · exact Or.inr ⟨h1, h2, by rw [h3]; exact h4⟩
                split
                · rename_i e d hcv
                  exact key d (Or.inl ⟨e, hcv⟩)
                · rename_i n d hcv
                  split
                  · exact key d (Or.inr ⟨n, hcv⟩)
                  · exact key d (Or.inr ⟨n, hcv⟩)

/-- In every reachable database the candidate index of an audit record is not
negative. -/
theorem reachableWithRemoval_index (js : Builtins) (db : Db) (h : ReachableWithRemoval js db) :
    ∀ v ∈ db.votes, 0 ≤ v.candidateIndex := by
  induction h with
  | init users => intro v hv; cases hv
  | create db req now newId rng fuel resp db1 _ hcreate ih =>
    rw [(createBooth_booths js db req now newId rng fuel resp db1 hcreate).1]; exact ih
  | join db req now _ ih => rw [joinBooth_votes]; exact ih
  | vote db req now _ ih =>
    intro v hv
    rcases vote_votes js db req now v hv with h | ⟨-, -, h⟩
    · exact ih v h
    · exact h
  | remove db req now _ ih =>
    intro v hv
    rcases removeMemberRoute_shape db req now with hsame | ⟨b0, -, -, -, -, -, hvotes⟩
    · rw [hsame] at hv; exact ih v hv
    · rw [hvotes] at hv; exact ih v (List.mem_of_mem_filter hv)
  | account db users _ ih => exact ih

/-- C28. The floor at zero of the vote-change path is never effective. In every
database reachable from an empty booth collection through `createBooth`,
`joinBooth`, `vote` (first votes and vote changes) and the member-removal route,
the tally of every candidate is at least the number of audit records of the
booth that name the candidate. So whenever the vote-change path finds a
previous audit record, the index of the record is not negative, and when the
index is below the number of candidates, so that the tallies are decremented,
the tally of the previous candidate and `totalVotes` are both at least 1 and
`Math.max(0, x - 1)` is `x - 1` for both. -/
theorem floor_at_zero_not_effective (js : Builtins) (db : Db)
    (h : ReachableWithRemoval js db) :
    (∀ b ∈ db.booths, ∀ i, (countVotes db.votes b.id i : Int) ≤ b.voteCountAt i) ∧
    ∀ (req : VoteRequest) (booth : Booth) (previousVote : Vote),
      db.findBoothById req.boothId = some booth →
      db.findVote req.boothId req.userId = some previousVote →
      0 ≤ previousVote.candidateIndex ∧
      (previousVote.candidateIndex < (booth.candidates.length : Int) →
        1 ≤ booth.voteCountAt previousVote.candidateIndex.toNat ∧ 1 ≤ booth.totalVotes ∧
        max 0 (booth.voteCountAt previousVote.candidateIndex.toNat - 1)
          = booth.voteCountAt previousVote.candidateIndex.toNat - 1 ∧
        max 0 (booth.totalVotes - 1) = booth.totalVotes - 1) := by
  have hc := reachableWithRemoval_consistent js db h
  have hidx := reachableWithRemoval_index js db h
  refine ⟨hc.audit, ?_⟩
  intro req booth pv hb hfind
  have hmem := mem_of_findBoothById db _ _ hb
  have hid := findBoothById_id db _ _ hb
  have hpv : pv ∈ db.votes := List.mem_of_find?_eq_some hfind
  have hkey : (pv.booth == req.boothId && pv.voter == req.userId) = true := by
    have := List.find?_some hfind
    simpa using this
  simp only [Bool.and_eq_true, beq_iff_eq] at hkey
  have h0 := hidx pv hpv
  refine ⟨h0, ?_⟩
  intro hlt
  have hcount : 1 ≤ countVotes db.votes booth.id pv.candidateIndex.toNat := by
    unfold countVotes
    apply List.length_pos.mpr
    apply List.ne_nil_of_mem
    apply List.mem_filter.mpr
    refine ⟨hpv, ?_⟩
    simp only [Bool.and_eq_true, beq_iff_eq]
    exact ⟨hkey.1.trans hid.symm, (Int.toNat_of_nonneg h0).symm⟩
  have haud := hc.audit booth hmem pv.candidateIndex.toNat
  have h1 : 1 ≤ booth.voteCountAt pv.candidateIndex.toNat := by
    have : (1 : Int) ≤ (countVotes db.votes booth.id pv.candidateIndex.toNat : Int) := by
      exact_mod_cast hcount
    omega
  have hlt2 : pv.candidateIndex.toNat < booth.candidates.length := by omega
  have hget : booth.candidates[pv.candidateIndex.toNat]?
      = some (booth.candidates[pv.candidateIndex.toNat]) := List.getElem?_eq_getElem hlt2
  have hle := voteCount_le_sum booth.candidates
    (voteCount_nonneg_of_validate booth (hc.valid booth hmem)) _ _ hget
  have hat : booth.voteCountAt pv.candidateIndex.toNat
      = (booth.candidates[pv.candidateIndex.toNat]).voteCount := by
    simp [Booth.voteCountAt, hget]
  have hsum := hc.sum booth hmem
  have h2 : 1 ≤ booth.totalVotes := by
    rw [← hsum]
    unfold Booth.tallies
    omega
  refine ⟨h1, h2, ?_, ?_⟩
  · exact max_eq_right (by omega)
  · exact max_eq_right (by omega)

/-- Witness of `floor_at_zero_not_effective`: after `bob` voted for candidate 0
in the booth that allows vote changes, his audit record is found and the tally
of candidate 0 and `totalVotes` are 1. -/
theorem floor_at_zero_not_effective_witness :
    ((afterVote none true true).findVote lunchId bob).map (fun v => v.candidateIndex)
      = some 0 ∧
    (lunchBooth (afterVote none true true)).map (fun b => (b.voteCountAt 0, b.totalVotes))
      = some (1, 1) ∧
    ∀ b ∈ (afterVote none true true).booths, ∀ i,
      (countVotes (afterVote none true true).votes b.id i : Int) ≤ b.voteCountAt i :=
  ⟨by decide, by decide,
   (floor_at_zero_not_effective asciiRuntime (afterVote none true true)
     afterVote_change_reachable).1⟩

/-- A request that `createBooth` answers without an error passed every check of
the list `errors`. -/
theorem createBooth_no_errors (js : Builtins) (db : Db) (req : CreateRequest) (now : Int)
    (newId : String) (rng : Nat → Fin 36) (fuel : Nat) (resp : Response) (db1 : Db)
    (h : createBooth js db req now newId rng fuel = some (resp, db1))
    (hok : resp.error = none) :
    createErrors js (String.mk (trim (req.name.getD "").data))
      (String.mk (trim (req.description.getD "").data)) (requestedMaxMembers js req)
      (requestedCandidates req) = [] := by
  unfold createBooth at h
  simp only at h
  split at h
  · simp only [Option.some.injEq, Prod.mk.injEq] at h
    rw [← h.1, createError_error] at hok; cases hok
  · split at h
    · simp only [Option.some.injEq, Prod.mk.injEq] at h
      rw [← h.1, createError_error] at hok; cases hok
    · split at h
      · simp only [Option.some.injEq, Prod.mk.injEq] at h
        rw [← h.1, createError_error] at hok; cases hok
      · rename_i herr
        exact List.length_eq_zero.mp (by omega)

/-- The response of `createBooth` to a request of a user below the creation limit
that fails a check of the list `errors`. -/
theorem createBooth_errors (js : Builtins) (db : Db) (req : CreateRequest) (now : Int)
    (newId : String) (rng : Nat → Fin 36) (fuel : Nat) (user : User)
    (hu : db.findUserById req.userId = some user) (hc : user.canCreateBooth db = true)
    (he : createErrors js (String.mk (trim (req.name.getD "").data))
      (String.mk (trim (req.description.getD "").data)) (requestedMaxMembers js req)
      (requestedCandidates req) ≠ []) :
    createBooth js db req now newId rng fuel
      = some (createError req.acceptsHtml 400 (". ".intercalate
          (createErrors js (String.mk (trim (req.name.getD "").data))
            (String.mk (trim (req.description.getD "").data)) (requestedMaxMembers js req)
            (requestedCandidates req))), db) := by
  have hl : (createErrors js (String.mk (trim (req.name.getD "").data))
      (String.mk (trim (req.description.getD "").data)) (requestedMaxMembers js req)
      (requestedCandidates req)).length > 0 := List.length_pos.mpr he
  unfold createBooth
  simp only [hu, hc, Bool.not_true, Bool.false_eq_true, if_false, hl, if_true]

theorem createErrors_nil (js : Builtins) (name description : String) (maxMembers : Option Int)
    (cs : List Candidate) (h : createErrors js name description maxMembers cs = []) :
    validateBoothName name = true ∧ validateDescription description = true ∧
    validateMaxMembers js maxMembers = true ∧ validateCandidates cs = true ∧
    allDistinct (cs.map (fun c => js.toLowerCase c.name)) = true := by
  unfold createErrors at h
  simp only [List.append_eq_nil, ite_eq_right_iff, List.cons_ne_nil, imp_false,
    Bool.not_eq_true, Bool.not_eq_false, Bool.not_eq_eq_eq_not, Bool.not_true,
    Bool.not_false] at h
  obtain ⟨⟨⟨⟨h1, h2⟩, h3⟩, h4⟩, h5⟩ := h
  exact ⟨by simpa using h1, by simpa using h2, by simpa using h3, by simpa using h4,
    by simpa using h5⟩

theorem validateCandidates_length (cs : List Candidate) (h : validateCandidates cs = true) :
    2 ≤ cs.length := by
  unfold validateCandidates at h
  split at h
  · cases h
  · omega

theorem requestedCandidates_names (req : CreateRequest) :
    ∀ c ∈ requestedCandidates req, c.name.data ≠ [] := by
  unfold requestedCandidates
  split
  · intro c hc
    unfold formatCandidates at hc
    rw [List.mem_filter] at hc
    have := hc.2
    intro hn
    rw [hn] at this
    simp at this
  · intro c hc
    unfold formatFormCandidates at hc
    rw [List.mem_filterMap] at hc
    obtain ⟨x, -, hx⟩ := hc
    simp only at hx
    split at hx
    · cases hx
    · rename_i hne
      simp only [Option.some.injEq] at hx
      rw [← hx]
      intro hn
      apply hne
      simp only at hn
      rw [hn]
      rfl

theorem formatCandidates_strings (l : List String) :
    (formatCandidates (l.map CandidateInput.str)).map (fun c => c.name)
      = ((l.map (fun s => String.mk (trim s.data))).filter (fun n => !n.data.isEmpty)) := by
  induction l with
  | nil => rfl
  | cons s t ih =>
    unfold formatCandidates at ih ⊢
    simp only [List.map_cons, List.filterMap_cons, List.filter_cons]
    by_cases hs : (trim s.data).isEmpty
    · simp only [hs, Bool.not_true, Bool.false_eq_true, if_false]
      exact ih
    · simp only [hs, Bool.not_false, if_true, List.map_cons]
      rw [ih]

/-- C25, as amended. The candidates of a request to `createBooth` are the
entries of the request with trimmed names, without the entries whose trimmed
name is empty, with tally 0. A booth is created only if there are at least two
of them and their names are pairwise distinct when compared in lower case.
Otherwise nothing is created and the response carries an error; for a user who
exists and is below the creation limit it is the response `createError` of
status 400, which is the JSON response 400 for a client that does not accept
HTML and the rendered creation form, with status 200, for one that does, and
its text contains the message of the failed check. A created booth has the
candidates of the request, all with `voteCount = 0`, and `totalVotes = 0`. -/
theorem createBooth_candidate_validation (js : Builtins) (db : Db) (req : CreateRequest)
    (now : Int) (newId : String) (rng : Nat → Fin 36) (fuel : Nat) (resp : Response) (db1 : Db)
    (h : createBooth js db req now newId rng fuel = some (resp, db1)) :
    (∀ c ∈ requestedCandidates req, c.name.data ≠ [] ∧ c.voteCount = 0) ∧
    (∀ l : List String, req.candidates = some (l.map CandidateInput.str) →
      (requestedCandidates req).map (fun c => c.name)
        = (l.map (fun s => String.mk (trim s.data))).filter (fun n => !n.data.isEmpty)) ∧
    (db1 ≠ db → 2 ≤ (requestedCandidates req).length ∧
      allDistinct ((requestedCandidates req).map (fun c => js.toLowerCase c.name)) = true) ∧
    (¬ (2 ≤ (requestedCandidates req).length ∧
        allDistinct ((requestedCandidates req).map (fun c => js.toLowerCase c.name)) = true) →
      db1 = db ∧ resp.error ≠ none ∧
      ∀ user, db.findUserById req.userId = some user → user.canCreateBooth db = true →
        resp = createError req.acceptsHtml 400 (". ".intercalate
          (createErrors js (String.mk (trim (req.name.getD "").data))
            (String.mk (trim (req.description.getD "").data)) (requestedMaxMembers js req)
            (requestedCandidates req))) ∧
        (req.acceptsHtml = false → resp.status = 400 ∧ resp.kind = ResponseKind.json) ∧
        (req.acceptsHtml = true → resp.status = 200 ∧ resp.kind = ResponseKind.render) ∧
        ((requestedCandidates req).length < 2 →
          "At least 2 valid candidates are required" ∈
            createErrors js (String.mk (trim (req.name.getD "").data))
              (String.mk (trim (req.description.getD "").data)) (requestedMaxMembers js req)
              (requestedCandidates req)) ∧
        (allDistinct ((requestedCandidates req).map (fun c => js.toLowerCase c.name)) = false →
          "Candidate names must be unique" ∈
            createErrors js (String.mk (trim (req.name.getD "").data))
              (String.mk (trim (req.description.getD "").data)) (requestedMaxMembers js req)
              (requestedCandidates req))) ∧
    (∀ b ∈ db1.booths, b ∉ db.booths →
      b.candidates = requestedCandidates req ∧ b.totalVotes = 0 ∧
      ∀ c ∈ b.candidates, c.voteCount = 0) := by
  have hres := createBooth_result js db req now newId rng fuel resp db1 h
  have hcreated : db1 ≠ db → 2 ≤ (requestedCandidates req).length ∧
      allDistinct ((requestedCandidates req).map (fun c => js.toLowerCase c.name)) = true := by
    intro hne
    rcases hres with ⟨hsame, -⟩ | ⟨code, n, vst, vet, doc, -, -, -, -, -, -, -, hok⟩
    · exact absurd hsame hne
    · obtain ⟨-, -, -, h4, h5⟩ :=
        createErrors_nil js _ _ _ _ (createBooth_no_errors js db req now newId rng fuel resp db1 h hok)
      exact ⟨validateCandidates_length _ h4, h5⟩
  refine ⟨fun c hc => ⟨requestedCandidates_names req c hc, requestedCandidates_zero req c hc⟩,
    ?_, hcreated, ?_, ?_⟩
  · intro l hl
    unfold requestedCandidates
    rw [hl]
    exact formatCandidates_strings l
  · intro hbad
    have hsame : db1 = db := by
      by_contra hne
      exact hbad (hcreated hne)
    have herr : resp.error ≠ none := by
      rcases hres with ⟨-, he⟩ | ⟨code, n, vst, vet, doc, -, -, -, -, -, -, -, hok⟩
      · exact he
      · intro _
        obtain ⟨-, -, -, h4, h5⟩ :=
          createErrors_nil js _ _ _ _
            (createBooth_no_errors js db req now newId rng fuel resp db1 h hok)
        exact hbad ⟨validateCandidates_length _ h4, h5⟩
    refine ⟨hsame, herr, ?_⟩
    intro user hu hc
    have hne : createErrors js (String.mk (trim (req.name.getD "").data))
        (String.mk (trim (req.description.getD "").data)) (requestedMaxMembers js req)
        (requestedCandidates req) ≠ [] := by
      intro hnil
      obtain ⟨-, -, -, h4, h5⟩ := createErrors_nil js _ _ _ _ hnil
      exact hbad ⟨validateCandidates_length _ h4, h5⟩
    have hrun := createBooth_errors js db req now newId rng fuel user hu hc hne
    rw [hrun] at h
    simp only [Option.some.injEq, Prod.mk.injEq] at h
    refine ⟨h.1.symm, ?_, ?_, ?_, ?_⟩
    · intro ha
      rw [← h.1]
      simp [createError, ha]
    · intro ha
      rw [← h.1]
      simp [createError, ha]
    · intro hlen
      have : validateCandidates (requestedCandidates req) = false := by
        simp [validateCandidates, hlen]
      simp [createErrors, this]
    · intro hd
      simp [createErrors, hd]
  · intro b hb hnb
    rcases hres with ⟨hsame, -⟩ | ⟨code, n, vst, vet, doc, -, -, hdoc, -, -, hbooths, -, -⟩
    · rw [hsame] at hb; exact absurd hb hnb
    · rw [hbooths] at hb
      rcases List.mem_append.mp hb with hb | hb
      · exact absurd hb hnb
      · simp only [List.mem_singleton] at hb
        subst hb
        have hc : ({ doc with inviteCode := code } : Booth).candidates = requestedCandidates req := by
          rw [hdoc]; rfl
        refine ⟨hc, by rw [hdoc]; rfl, ?_⟩
        rw [hc]
        exact requestedCandidates_zero req

/-- C25, counterexample. A form request (the client accepts HTML) with a single
candidate after trimming creates nothing, and the response is not a 400: the
creation form is rendered, with status 200 and the error text. -/
theorem single_candidate_form_counterexample :
    (requestedCandidates soloRequest).length = 1 ∧
    createBooth asciiRuntime db0 soloRequest 1 lunchId (fun _ => 0) 1
      = some ({ status := 200, kind := .render, target := some "booth/create",
                error := some "At least 2 valid candidates are required" }, db0) := by
  decide

/-- Witness of `createBooth_candidate_validation`: the request of the concrete
run has the two candidates `A` and `B`, and the created booth starts with
tallies 0. -/
theorem createBooth_candidate_validation_witness :
    createBooth asciiRuntime db0 (lunchRequest none false false) 1 lunchId (fun _ => 0) 1
      = some (lunchCreated, afterCreate none false false) ∧
    (lunchBooth (afterCreate none false false)).map (fun b => (b.tallies, b.totalVotes))
      = some ([0, 0], 0) ∧
    ∀ b ∈ (afterCreate none false false).booths, b ∉ db0.booths →
      b.candidates = requestedCandidates (lunchRequest none false false) ∧ b.totalVotes = 0 ∧
      ∀ c ∈ b.candidates, c.voteCount = 0 :=
  ⟨by decide, by decide,
   (createBooth_candidate_validation asciiRuntime db0 (lunchRequest none false false) 1 lunchId
     (fun _ => 0) 1 lunchCreated (afterCreate none false false) (by decide)).2.2.2.2⟩

/-- The helper `validateMaxMembers` on an integer of magnitude below `10^21` is
the range test. -/
theorem validateMaxMembers_small (js : Builtins) (n : Int)
    (h : n.natAbs < 1000000000000000000000) :
    validateMaxMembers js (some n) = (decide (n ≥ 2) && decide (n ≤ 10000)) := by
  have hp : parseIntChars (numberToString js n) = some n := parseInt_number js n h
  simp only [validateMaxMembers, hp]

/-- A value of `maxMembers` that passes `validateMaxMembers` and the schema is in
the range. -/
theorem maxMembers_in_range (js : Builtins) (n : Int)
    (h1 : validateMaxMembers js (some n) = true) (h2 : 1 ≤ n ∧ n ≤ 10000) :
    2 ≤ n ∧ n ≤ 10000 := by
  rw [validateMaxMembers_small js n (by omega)] at h1
  simp only [Bool.and_eq_true, decide_eq_true_eq] at h1
  omega

theorem editErrors_nil (js : Builtins) (booth : Booth) (name description : String) (n : Int)
    (h : ¬ (editErrors js booth name description (some n)).length > 0) :
    validateMaxMembers js (some n) = true := by
  by_contra hv
  apply h
  simp [editErrors, hv]

/-- The booths after an edit request: the stored ones, or one of them saved with
a valid document; a new `maxMembers` passed `validateMaxMembers`. -/
theorem editBooth_maxMembers (js : Builtins) (db : Db) (req : EditRequest) (now : Int) :
    ((editBooth js db req now).2 = db ∧ (editBooth js db req now).1.message = none) ∨
    ((editBooth js db req now).1.message = some "Booth updated successfully" ∧
      (∀ n, editedMaxMembers js req = some n → 2 ≤ n ∧ n ≤ 10000) ∧
      ∀ b ∈ (editBooth js db req now).2.booths, b ∈ db.booths ∨
        ∃ b0 ∈ db.booths, b.maxMembers = (editedMaxMembers js req).getD b0.maxMembers) := by
  unfold editBooth
  simp only
  split
  · exact Or.inl ⟨rfl, by simp [errorPage]⟩
  · split
    · exact Or.inl ⟨rfl, by simp [errorPage]⟩
    · rename_i booth hb
      have hmem := mem_of_findBoothById db _ _ hb
      split
      · exact Or.inl ⟨rfl, by simp [errorPage]⟩
      · split
        · exact Or.inl ⟨rfl, by simp [errorPage]⟩
        · rename_i herr
          split
          · exact Or.inl ⟨rfl, by simp [errorPage]⟩
          · rename_i doc db1 hsave
            obtain ⟨hval, hd, hdb⟩ := saveBooth_spec _ _ _ _ _ hsave
            right
            refine ⟨rfl, ?_, ?_⟩
            · intro n hn
              have hv := maxMembers_of_validate _ hval
              simp only [hn, Option.getD_some] at hv
              rw [hn] at herr
              exact maxMembers_in_range js n (editErrors_nil js booth _ _ n herr) hv
            · intro b hbm
              simp only at hbm
              rw [hdb] at hbm
              rcases mem_replaceBooth db _ b hbm with ⟨rfl, -⟩ | ⟨hmem2, -⟩
              · right
                refine ⟨booth, hmem, ?_⟩
                rw [hd]
              · exact Or.inl hmem2

/-- C26, as amended. Every booth created through `createBooth` has the integer
`maxMembers` of the request, and it is in the range 2 to 10000; a request
whose `maxMembers` is `NaN` or an integer outside the range creates nothing
and is answered with an error. An edit request keeps the range: if every
stored booth has `maxMembers` in the range, so has every booth after
`editBooth`; an edit request whose `maxMembers` is a nonzero integer outside
the range changes nothing and reports no success. The value of the request is
the one the handler computes: an absent, empty or zero JSON value is replaced
by 100 in `createBooth`, and a value that is falsy or parses to 0 is ignored by
`editBooth`, which then keeps the stored `maxMembers`. -/
theorem maxMembers_range (js : Builtins) :
    (∀ (db : Db) (req : CreateRequest) (now : Int) (newId : String) (rng : Nat → Fin 36)
        (fuel : Nat) (resp : Response) (db1 : Db),
      createBooth js db req now newId rng fuel = some (resp, db1) →
      (∀ b ∈ db1.booths, b ∉ db.booths →
        requestedMaxMembers js req = some b.maxMembers ∧
        2 ≤ b.maxMembers ∧ b.maxMembers ≤ 10000) ∧
      ((∀ n, requestedMaxMembers js req = some n → n < 2 ∨ 10000 < n) →
        db1 = db ∧ resp.error ≠ none)) ∧
    (∀ (req : CreateRequest), req.maxMembers.truthy = false →
      requestedMaxMembers js req = some 100) ∧
    (∀ (db : Db) (req : EditRequest) (now : Int),
      (∀ b ∈ db.booths, 2 ≤ b.maxMembers ∧ b.maxMembers ≤ 10000) →
      ∀ b ∈ (editBooth js db req now).2.booths, 2 ≤ b.maxMembers ∧ b.maxMembers ≤ 10000) ∧
    (∀ (db : Db) (req : EditRequest) (now : Int) (n : Int),
      editedMaxMembers js req = some n → n < 2 ∨ 10000 < n →
      (editBooth js db req now).2 = db ∧
      (editBooth js db req now).1.message ≠ some "Booth updated successfully") ∧
    (∀ (db : Db) (req : EditRequest) (now : Int),
      editedMaxMembers js req = none →
      ∀ b ∈ (editBooth js db req now).2.booths, ∃ b0 ∈ db.booths, b.maxMembers = b0.maxMembers) := by
  refine ⟨?_, ?_, ?_, ?_, ?_⟩
  · intro db req now newId rng fuel resp db1 h
    have hres := createBooth_result js db req now newId rng fuel resp db1 h
    have hcreated : ∀ b ∈ db1.booths, b ∉ db.booths →
        requestedMaxMembers js req = some b.maxMembers ∧
        2 ≤ b.maxMembers ∧ b.maxMembers ≤ 10000 := by
      intro b hb hnb
      rcases hres with ⟨hsame, -⟩ | ⟨code, n, vst, vet, doc, hn, -, hdoc, hval, -, hbooths, -, hok⟩
      · rw [hsame] at hb; exact absurd hb hnb
      · rw [hbooths] at hb
        rcases List.mem_append.mp hb with hb | hb
        · exact absurd hb hnb
        · simp only [List.mem_singleton] at hb
          subst hb
          have hm : doc.maxMembers = n := by rw [hdoc]; rfl
          obtain ⟨-, -, h3, -, -⟩ :=
            createErrors_nil js _ _ _ _
              (createBooth_no_errors js db req now newId rng fuel resp db1 h hok)
          rw [hn] at h3
          have hv := maxMembers_of_validate doc hval
          rw [hm] at hv
          simp only [hm]
          exact ⟨hn, maxMembers_in_range js n h3 hv⟩
    refine ⟨hcreated, ?_⟩
    intro hout
    rcases hres with ⟨hsame, he⟩ | ⟨code, n, vst, vet, doc, hn, -, hdoc, hval, -, hbooths, -, hok⟩
    · exact ⟨hsame, he⟩
    · exfalso
      obtain ⟨-, -, h3, -, -⟩ :=
        createErrors_nil js _ _ _ _
          (createBooth_no_errors js db req now newId rng fuel resp db1 h hok)
      rw [hn] at h3
      have hv := maxMembers_of_validate doc hval
      have hm : doc.maxMembers = n := by rw [hdoc]; rfl
      rw [hm] at hv
      have := maxMembers_in_range js n h3 hv
      have := hout n hn
      omega
  · intro req hf
    simp [requestedMaxMembers, hf]
  · intro db req now hinv b hb
    rcases editBooth_maxMembers js db req now with ⟨hsame, hnone⟩ | ⟨-, hrange, hbooths⟩
    · rw [hsame] at hb; exact hinv b hb
    · rcases hbooths b hb with hold | ⟨b0, hb0, hmax⟩
      · exact hinv b hold
      · cases hn : editedMaxMembers js req with
        | none => rw [hmax, hn]; exact hinv b0 hb0
        | some n => rw [hmax, hn]; exact hrange n hn
  · intro db req now n hn hout
    rcases editBooth_maxMembers js db req now with ⟨hsame, hnone⟩ | ⟨hmsg, hrange, -⟩
    · refine ⟨hsame, ?_⟩
      rw [hnone]
      simp
    · have := hrange n hn
      omega
  · intro db req now hn b hb
    rcases editBooth_maxMembers js db req now with ⟨hsame, hnone⟩ | ⟨-, -, hbooths⟩
    · rw [hsame] at hb; exact ⟨b, hb, rfl⟩
    · rcases hbooths b hb with hold | ⟨b0, hb0, hmax⟩
      · exact ⟨b, hold, rfl⟩
      · exact ⟨b0, hb0, by rw [hmax, hn]; rfl⟩

/-- C26, counterexample. The creator edits the booth of the concrete run with
the form value `0` as `maxMembers`, which is outside the range: the request is
not rejected, the booth is renamed and keeps `maxMembers = 2`. A request to
`createBooth` with the JSON number 0 as `maxMembers` is not rejected either:
the booth is created with `maxMembers = 100`. -/
theorem zero_maxMembers_accepted_counterexample :
    parseInt asciiRuntime zeroEdit.maxMembers = some 0 ∧
    (lunchBooth (afterJoin none false false)).map (fun b => (b.name, b.maxMembers))
      = some ("Lunch", 2) ∧
    (editBooth asciiRuntime (afterJoin none false false) zeroEdit 9).1.message
      = some "Booth updated successfully" ∧
    (lunchBooth (editBooth asciiRuntime (afterJoin none false false) zeroEdit 9).2).map
      (fun b => (b.name, b.maxMembers)) = some ("Dinner", 2) ∧
    (createBooth asciiRuntime db0 zeroRequest 1 lunchId (fun _ => 0) 1).map
      (fun r => (r.1.status, r.2.booths.map (fun b => b.maxMembers))) = some (201, [100]) := by
  decide

/-- Witness of `maxMembers_range`: the booth of the concrete run is created with
the `maxMembers = 2` of the request. -/
theorem maxMembers_range_witness :
    ∀ b ∈ (afterCreate none false false).booths, b ∉ db0.booths →
      requestedMaxMembers asciiRuntime (lunchRequest none false false) = some b.maxMembers ∧
      2 ≤ b.maxMembers ∧ b.maxMembers ≤ 10000 :=
  ((maxMembers_range asciiRuntime).1 db0 (lunchRequest none false false) 1 lunchId (fun _ => 0) 1
    lunchCreated (afterCreate none false false) (by decide)).1

theorem findByCode_none_iff (db : Db) (code : String) :
    db.findBoothByInviteCode code = none ↔ db.codeHeld code = false := by
  unfold Db.findBoothByInviteCode Db.codeHeld
  rw [List.find?_eq_none, List.any_eq_false]

/-- The first candidate code that no booth holds is the code that the loop of
the pre-save hook assigns, when the bound on its iterations is above the
position of the candidate. -/
theorem assignInviteCode_first_free (db : Db) (rng : Nat → Fin 36) (k : Nat) :
    ∀ pos, (∀ j < k, db.codeHeld (generateInviteCode rng (pos + 6 * j)) = true) →
      db.codeHeld (generateInviteCode rng (pos + 6 * k)) = false →
      ∀ fuel, k < fuel →
        assignInviteCode db rng fuel pos = some (generateInviteCode rng (pos + 6 * k)) := by
  induction k with
  | zero =>
    intro pos _ hfree fuel hf
    obtain ⟨f, rfl⟩ : ∃ f, fuel = f + 1 := ⟨fuel - 1, by omega⟩
    have hnone := (findByCode_none_iff db _).mpr hfree
    simp only [Nat.mul_zero, Nat.add_zero] at hnone ⊢
    unfold assignInviteCode
    simp only [hnone]
  | succ k ih =>
    intro pos hheld hfree fuel hf
    obtain ⟨f, rfl⟩ : ∃ f, fuel = f + 1 := ⟨fuel - 1, by omega⟩
    have h0 := hheld 0 (by omega)
    simp only [Nat.mul_zero, Nat.add_zero] at h0
    have hsome : db.findBoothByInviteCode (generateInviteCode rng pos) ≠ none := by
      intro hn
      rw [(findByCode_none_iff db _).mp hn] at h0
      cases h0
    obtain ⟨e, he⟩ := Option.ne_none_iff_exists'.mp hsome
    unfold assignInviteCode
    simp only [he]
    have e1 : pos + 6 * (k + 1) = pos + 6 + 6 * k := by omega
    rw [e1]
    apply ih (pos + 6)
    · intro j hj
      have := hheld (j + 1) (by omega)
      have e2 : pos + 6 * (j + 1) = pos + 6 + 6 * j := by omega
      rw [e2] at this
      exact this
    · rw [← e1]; exact hfree
    · omega

/-- Under pairwise distinct invite codes, the test of the loop of
`generateNewInviteCode` accepts a code exactly when no other booth holds it. -/
theorem regenerate_accepts (db : Db) (self : Booth) (code : String)
    (hcodes : (db.booths.map (fun b => b.inviteCode)).Nodup) :
    (match db.findBoothByInviteCode code with
      | none => true
      | some existing => existing.id == self.id) = !db.codeHeldByOther self code := by
  cases hfind : db.findBoothByInviteCode code with
  | none =>
    have hall := List.find?_eq_none.mp hfind
    have : db.codeHeldByOther self code = false := by
      unfold Db.codeHeldByOther
      rw [List.any_eq_false]
      intro x hx
      have := hall x hx
      simp only [Bool.and_eq_true, not_and]
      intro h1
      exact absurd h1 this
    simp [this]
  | some e =>
    have hmem : e ∈ db.booths := List.mem_of_find?_eq_some hfind
    have hcode : e.inviteCode = code := by
      have := List.find?_some hfind
      simpa using this
    by_cases hid : e.id = self.id
    · have : db.codeHeldByOther self code = false := by
        unfold Db.codeHeldByOther
        rw [List.any_eq_false]
        intro x hx
        simp only [Bool.and_eq_true, beq_iff_eq, bne_iff_ne, ne_eq, not_and, Decidable.not_not]
        intro hxc
        have hxe : x = e :=
          List.inj_on_of_nodup_map hcodes hx hmem (hxc.trans hcode.symm)
        rw [hxe]; exact hid
      simp [this, hid]
    · have : db.codeHeldByOther self code = true := by
        unfold Db.codeHeldByOther
        rw [List.any_eq_true]
        exact ⟨e, hmem, by simp [hcode, hid]⟩
      simp [this, hid]

/-- The first candidate code that no other booth holds is the code that the loop
of `generateNewInviteCode` assigns, when the bound on its iterations is above
the position of the candidate. -/
theorem regenerateInviteCode_first_free (db : Db) (self : Booth) (rng : Nat → Fin 36)
    (hcodes : (db.booths.map (fun b => b.inviteCode)).Nodup) (k : Nat) :
    ∀ pos, (∀ j < k, db.codeHeldByOther self (generateInviteCode rng (pos + 6 * j)) = true) →
      db.codeHeldByOther self (generateInviteCode rng (pos + 6 * k)) = false →
      ∀ fuel, k < fuel →
        regenerateInviteCode db self rng fuel pos
          = some (generateInviteCode rng (pos + 6 * k)) := by
  induction k with
  | zero =>
    intro pos _ hfree fuel hf
    obtain ⟨f, rfl⟩ : ∃ f, fuel = f + 1 := ⟨fuel - 1, by omega⟩
    simp only [Nat.mul_zero, Nat.add_zero] at hfree ⊢
    have hacc := regenerate_accepts db self (generateInviteCode rng pos) hcodes
    rw [hfree] at hacc
    unfold regenerateInviteCode
    simp only
    cases hfind : db.findBoothByInviteCode (generateInviteCode rng pos) with
    | none => rfl
    | some e =>
      rw [hfind] at hacc
      simp only [Bool.not_false] at hacc
      simp only [hacc, if_true]
  | succ k ih =>
    intro pos hheld hfree fuel hf
    obtain ⟨f, rfl⟩ : ∃ f, fuel = f + 1 := ⟨fuel - 1, by omega⟩
    have h0 := hheld 0 (by omega)
    simp only [Nat.mul_zero, Nat.add_zero] at h0
    have hacc := regenerate_accepts db self (generateInviteCode rng pos) hcodes
    rw [h0] at hacc
    have e1 : pos + 6 * (k + 1) = pos + 6 + 6 * k := by omega
    have hrec : regenerateInviteCode db self rng f (pos + 6)
        = some (generateInviteCode rng (pos + 6 * (k + 1))) := by
      rw [e1]
      apply ih (pos + 6)
      · intro j hj
        have := hheld (j + 1) (by omega)
        have e2 : pos + 6 * (j + 1) = pos + 6 + 6 * j := by omega
        rw [e2] at this
        exact this
      · rw [← e1]; exact hfree
      · omega
    unfold regenerateInviteCode
    simp only
    cases hfind : db.findBoothByInviteCode (generateInviteCode rng pos) with
    | none => rw [hfind] at hacc; simp at hacc
    | some e =>
      rw [hfind] at hacc
      simp only [Bool.not_true] at hacc
      simp only [hacc, Bool.false_eq_true, if_false]
      exact hrec

/-- Replacing the document of one id by a document whose invite code no other
booth holds keeps the invite codes pairwise distinct. -/
theorem codes_nodup_replace (l : List Booth) (doc : Booth)
    (hids : (l.map (fun b => b.id)).Nodup) (hcodes : (l.map (fun b => b.inviteCode)).Nodup)
    (hfree : ∀ x ∈ l, x.id ≠ doc.id → x.inviteCode ≠ doc.inviteCode) :
    ((l.map (fun x => if x.id == doc.id then doc else x)).map (fun b => b.inviteCode)).Nodup := by
  induction l with
  | nil => simp
  | cons x t ih =>
    simp only [List.map_cons, List.nodup_cons] at hids hcodes ⊢
    have htail := ih hids.2 hcodes.2 (fun y hy => hfree y (List.mem_cons_of_mem _ hy))
    refine ⟨?_, htail⟩
    intro hmem
    obtain ⟨y', hy', hcode⟩ := List.mem_map.mp hmem
    obtain ⟨y, hy, hyy⟩ := List.mem_map.mp hy'
    by_cases hx : x.id = doc.id
    · simp only [hx, beq_self_eq_true, if_true] at hcode
      have hyid : y.id ≠ doc.id := by
        intro he
        apply hids.1
        exact List.mem_map.mpr ⟨y, hy, by rw [he, hx]⟩
      have hyb : (y.id == doc.id) = false := by simpa using hyid
      simp only [hyb, Bool.false_eq_true, if_false] at hyy
      rw [← hyy] at hcode
      exact hfree y (List.mem_cons_of_mem _ hy) hyid hcode
    · have hxb : (x.id == doc.id) = false := by simpa using hx
      simp only [hxb, Bool.false_eq_true, if_false] at hcode
      by_cases hyid : y.id = doc.id
      · simp only [hyid, beq_self_eq_true, if_true] at hyy
        rw [← hyy] at hcode
        exact hfree x (List.mem_cons_self _ _) hx hcode.symm
      · have hyb : (y.id == doc.id) = false := by simpa using hyid
        simp only [hyb, Bool.false_eq_true, if_false] at hyy
        rw [← hyy] at hcode
        apply hcodes.1
        exact List.mem_map.mpr ⟨y, hy, hcode⟩

/-- C24. Invite-code uniqueness. In a collection of booths with pairwise
distinct ids and invite codes, for every random source: the code assigned on
first save (the loop of the pre-save hook, run by `insertBooth`) is the first
candidate code of the sequence that no booth of the collection holds, and the
code assigned by `generateNewInviteCode` is the first candidate that no other
booth holds, the current code of the booth counting as free; with a bound on
the iterations above the position of that candidate the loop returns it. After
either assignment the invite codes of the collection are pairwise distinct. -/
theorem invite_code_uniqueness (db : Db) (rng : Nat → Fin 36)
    (hcodes : (db.booths.map (fun b => b.inviteCode)).Nodup)
    (hids : (db.booths.map (fun b => b.id)).Nodup) :
    (∀ k, (∀ j < k, db.codeHeld (generateInviteCode rng (6 * j)) = true) →
      db.codeHeld (generateInviteCode rng (6 * k)) = false →
      ∀ fuel, k < fuel →
        assignInviteCode db rng fuel 0 = some (generateInviteCode rng (6 * k)) ∧
        ∀ (user : User) (booth doc : Booth) (db2 : Db),
          insertBooth db user booth rng fuel = some (.ok (doc, db2)) →
          doc = { booth with inviteCode := generateInviteCode rng (6 * k) } ∧
          db2.booths = db.booths ++ [doc] ∧
          (db2.booths.map (fun b => b.inviteCode)).Nodup) ∧
    (∀ self ∈ db.booths, ∀ k,
      (∀ j < k, db.codeHeldByOther self (generateInviteCode rng (6 * j)) = true) →
      db.codeHeldByOther self (generateInviteCode rng (6 * k)) = false →
      ∀ fuel, k < fuel →
        regenerateInviteCode db self rng fuel 0 = some (generateInviteCode rng (6 * k)) ∧
        ∀ (now : Int) (doc : Booth) (db2 : Db),
          self.generateNewInviteCode db rng fuel now = some (.ok (doc, db2)) →
          doc = { self with inviteCode := generateInviteCode rng (6 * k), updatedAt := now } ∧
          db2 = db.replaceBooth doc ∧
          (db2.booths.map (fun b => b.inviteCode)).Nodup) := by
  constructor
  · intro k hheld hfree fuel hf
    have hassign : assignInviteCode db rng fuel 0 = some (generateInviteCode rng (6 * k)) := by
      have := assignInviteCode_first_free db rng k 0
        (by intro j hj; rw [Nat.zero_add]; exact hheld j hj)
        (by rw [Nat.zero_add]; exact hfree) fuel hf
      rw [Nat.zero_add] at this
      exact this
    refine ⟨hassign, ?_⟩
    intro user booth doc db2 hins
    obtain ⟨-, ⟨code, hcode, hdoc⟩, -, hbooths, -⟩ := insertBooth_ok _ _ _ _ _ _ _ hins
    rw [hassign] at hcode
    simp only [Option.some.injEq] at hcode
    subst hcode
    refine ⟨hdoc, hbooths, ?_⟩
    rw [hbooths, List.map_append, List.nodup_append]
    refine ⟨hcodes, by simp, ?_⟩
    intro a ha hb
    simp only [List.map_cons, List.map_nil, List.mem_singleton] at hb
    obtain ⟨x, hx, hxa⟩ := List.mem_map.mp ha
    unfold Db.codeHeld at hfree
    rw [List.any_eq_false] at hfree
    apply hfree x hx
    rw [hdoc] at hb
    simp only at hb
    simp only [beq_iff_eq]
    rw [hxa, hb]
  · intro self hself k hheld hfree fuel hf
    have hregen : regenerateInviteCode db self rng fuel 0
        = some (generateInviteCode rng (6 * k)) := by
      have := regenerateInviteCode_first_free db self rng hcodes k 0
        (by intro j hj; rw [Nat.zero_add]; exact hheld j hj)
        (by rw [Nat.zero_add]; exact hfree) fuel hf
      rw [Nat.zero_add] at this
      exact this
    refine ⟨hregen, ?_⟩
    intro now doc db2 hgen
    unfold Booth.generateNewInviteCode at hgen
    rw [hregen] at hgen
    simp only [Option.some.injEq] at hgen
    obtain ⟨-, hdoc, hdb⟩ := saveBooth_spec _ _ _ _ _ hgen
    refine ⟨hdoc, hdb, ?_⟩
    rw [hdb]
    unfold Db.replaceBooth
    simp only
    apply codes_nodup_replace db.booths doc hids hcodes
    intro x hx hxid
    unfold Db.codeHeldByOther at hfree
    rw [List.any_eq_false] at hfree
    have := hfree x hx
    rw [hdoc] at hxid ⊢
    simp only at hxid ⊢
    intro hc
    apply this
    simp [hc, hxid]

/-- Witness of `invite_code_uniqueness`: in the database of the concrete run the
booth holds `AAAAAA`. With a random source that draws `AAAAAA` and then
`BBBBBB`, a first save is given `BBBBBB`, and a regeneration for the booth
itself is given `AAAAAA`, its own code. -/
theorem invite_code_uniqueness_witness :
    assignInviteCode (afterJoin none false false) secondDraw 2 0 = some "BBBBBB" ∧
    ∀ self ∈ (afterJoin none false false).booths,
      regenerateInviteCode (afterJoin none false false) self secondDraw 1 0 = some "AAAAAA" :=
  ⟨((invite_code_uniqueness (afterJoin none false false) secondDraw (by decide) (by decide)).1 1
      (by decide) (by decide) 2 (by decide)).1,
   fun self hself =>
    ((invite_code_uniqueness (afterJoin none false false) secondDraw (by decide) (by decide)).2
      self hself 0 (by intro j hj; omega)
      (by
        have hb : self = ((afterJoin none false false).booths.headD default) := by
          revert self; decide
        rw [hb]; decide) 1 (by decide)).1⟩

/-- C22. Creator-only mutations. For a booth that exists and a caller whose id
differs from the creator of the booth, `updateBoothSettings`,
`toggleBoothStatus` and `resetInviteCode` each respond 403 with the error of
the operation and leave the database as it was, so the settings, the status
and the invite code of the booth are unchanged. The id of the request passes
`isMongoId`, as the id of a stored document does. -/
theorem creator_only_mutations (js : Builtins) (db : Db) (boothId userId : String)
    (booth : Booth) (body : SettingsBody) (protocol host : String) (rng : Nat → Fin 36)
    (fuel : Nat) (now : Int)
    (hid : js.isMongoId boothId = true)
    (hb : db.findBoothById boothId = some booth)
    (hne : booth.creator ≠ userId) :
    updateBoothSettings js db ⟨boothId, userId, body⟩ now
      = ({ status := 403, error := some "Only booth creator can update settings" }, db) ∧
    toggleBoothStatus js db ⟨boothId, userId⟩ now
      = ({ status := 403, error := some "Only booth creator can toggle status" }, db) ∧
    resetInviteCode js db ⟨boothId, userId, protocol, host⟩ rng fuel now
      = some ({ status := 403, error := some "Only booth creator can reset invite code" }, db) ∧
    (updateBoothSettings js db ⟨boothId, userId, body⟩ now).2.findBoothById boothId
      = some booth ∧
    (toggleBoothStatus js db ⟨boothId, userId⟩ now).2.findBoothById boothId = some booth ∧
    (resetInviteCode js db ⟨boothId, userId, protocol, host⟩ rng fuel now).map
      (fun r => r.2.findBoothById boothId) = some (some booth) := by
  have h1 : updateBoothSettings js db ⟨boothId, userId, body⟩ now
      = ({ status := 403, error := some "Only booth creator can update settings" }, db) := by
    simp [updateBoothSettings, hid, hb, hne]
  have h2 : toggleBoothStatus js db ⟨boothId, userId⟩ now
      = ({ status := 403, error := some "Only booth creator can toggle status" }, db) := by
    simp [toggleBoothStatus, hid, hb, hne]
  have h3 : resetInviteCode js db ⟨boothId, userId, protocol, host⟩ rng fuel now
      = some ({ status := 403, error := some "Only booth creator can reset invite code" },
          db) := by
    simp [resetInviteCode, hid, hb, hne]
  refine ⟨h1, h2, h3, ?_, ?_, ?_⟩
  · rw [h1]; exact hb
  · rw [h2]; exact hb
  · rw [h3]; simp [hb]

/-- Witness of `creator_only_mutations`: `bob`, a member of the booth of the
concrete run, is refused by the three operations; the same requests of the
creator `ann` are carried out. -/
theorem creator_only_mutations_witness :
    (toggleBoothStatus asciiRuntime (afterJoin none false false) ⟨lunchId, bob⟩ 9
      = ({ status := 403, error := some "Only booth creator can toggle status" },
          afterJoin none false false)) ∧
    (updateBoothSettings asciiRuntime (afterJoin none false false)
      ⟨lunchId, bob, { allowVoteChange := some true }⟩ 9).1.status = 403 ∧
    (toggleBoothStatus asciiRuntime (afterJoin none false false) ⟨lunchId, ann⟩ 9).1
      = { status := 200, message := some "Booth status changed to closed",
          boothStatus := some Status.closed } ∧
    (updateBoothSettings asciiRuntime (afterJoin none false false)
      ⟨lunchId, ann, { allowVoteChange := some true }⟩ 9).1.status = 200 ∧
    (resetInviteCode asciiRuntime (afterJoin none false false) ⟨lunchId, ann, "https", "vote.org"⟩
      secondDraw 1 9).map (fun r => r.1)
      = some { status := 200, message := some "Invite code reset successfully",
               inviteCode := some "AAAAAA",
               inviteLink := some "https://vote.org/booth/join/AAAAAA" } :=
  ⟨(creator_only_mutations asciiRuntime (afterJoin none false false) lunchId bob
      ((afterJoin none false false).booths.headD default) { allowVoteChange := some true }
      "https" "vote.org" secondDraw 1 9 (by decide) (by decide) (by decide)).2.1,
   by decide, by decide, by decide, by decide⟩

/-- C27, failing input. The creator creates the booth of the concrete run with
the end of the voting window at the instant 200 and no start, and then sends
the settings `votingStartTime = 300` alone. `updateBoothSettings` compares the
two dates only when both are in the body, so the request is carried out: the
stored booth has both dates set and its window ends before it starts. -/
theorem settings_update_breaks_window :
    (lunchBooth (afterCreate (some "200") false false)).map
        (fun b => (b.settings.votingStartTime, b.settings.votingEndTime))
      = some (none, some 200) ∧
    (updateBoothSettings asciiRuntime (afterCreate (some "200") false false) lateStart 2).1.status
      = 200 ∧
    (updateBoothSettings asciiRuntime (afterCreate (some "200") false false) lateStart 2).1.message
      = some "Settings updated successfully" ∧
    (lunchBooth afterLateStart).map
        (fun b => (b.settings.votingStartTime, b.settings.votingEndTime))
      = some (some 300, some 200) ∧
    (updateBoothSettings asciiRuntime (afterCreate (some "200") false false)
      ⟨lunchId, ann, { votingStartTime := some (some "300"), votingEndTime := some (some "200") }⟩
      2).1 = { status := 400, error := some "Voting end time must be after start time" } := by
  decide

theorem find_withoutTallies (l : List Booth) (i : String) :
    (l.map Booth.withoutTallies).find? (fun b => b.id == i)
      = (l.find? (fun b => b.id == i)).map Booth.withoutTallies := by
  induction l with
  | nil => rfl
  | cons x t ih =>
    simp only [List.map_cons, List.find?_cons]
    have hx : (x.withoutTallies.id == i) = (x.id == i) := rfl
    rw [hx]
    cases h : (x.id == i) with
    | true => rfl
    | false => exact ih

theorem findMemberPopulated_users (docToString : User → String) (db1 db2 : Db)
    (h : db1.users = db2.users) (l : List Member) (userId : String) :
    findMemberPopulated docToString db1 l userId
      = findMemberPopulated docToString db2 l userId := by
  have hf : ∀ u, db1.findUserById u = db2.findUserById u := by
    intro u; unfold Db.findUserById; rw [h]
  induction l with
  | nil => rfl
  | cons m t ih =>
    unfold findMemberPopulated
    rw [hf, ih]

/-- What `getBoothDetails` sends about a booth to a caller who is not its
creator, when `resultsVisibleToVoters` is off, does not depend on the
tallies. -/
theorem detailsResponse_withoutTallies (docToString : User → String) (db : Db) (b : Booth)
    (req : DetailsRequest) (now : Int)
    (hne : b.creator ≠ req.userId) (hvis : b.settings.resultsVisibleToVoters = false) :
    b.detailsResponse docToString db req now
      = b.withoutTallies.detailsResponse docToString db req now := by
  unfold Booth.detailsResponse
  have hm : b.withoutTallies.members = b.members := rfl
  have hc : b.withoutTallies.creator = b.creator := rfl
  rw [hm, hc]
  cases hfound : findMemberPopulated docToString db b.members req.userId with
  | none => rfl
  | some found =>
    cases hcr : db.findUserById b.creator with
    | none => rfl
    | some creator =>
      have hid : creator.id = b.creator := by
        have := List.find?_some hcr
        simpa using this
      have hnc : (creator.id == req.userId) = false := by
        rw [hid]; simpa using hne
      have hd : b.details creator found false req now
          = b.withoutTallies.details creator found false req now := by
        unfold Booth.details
        simp [Booth.withoutTallies, hvis, Booth.isVotingAllowed, List.map_map, Function.comp_def]
      simp only [hnc]
      rw [hd]

/-- Tally confidentiality of `getBoothDetails`. For a caller who is not the
creator of the booth, with `resultsVisibleToVoters` off, the responses in two
databases with the same users, whose booths differ only in the tallies and in
`totalVotes`, are equal, whatever text `toString()` gives for a populated user
document. -/
theorem getBoothDetails_hides_tallies (docToString : User → String) (js : Builtins)
    (db1 db2 : Db) (req : DetailsRequest) (now : Int)
    (husers : db1.users = db2.users)
    (hbooths : db1.booths.map Booth.withoutTallies = db2.booths.map Booth.withoutTallies)
    (hcaller : ∀ b, db1.findBoothById req.boothId = some b →
      b.creator ≠ req.userId ∧ b.settings.resultsVisibleToVoters = false) :
    getBoothDetails docToString js db1 req now = getBoothDetails docToString js db2 req now := by
  have hfind : (db1.findBoothById req.boothId).map Booth.withoutTallies
      = (db2.findBoothById req.boothId).map Booth.withoutTallies := by
    unfold Db.findBoothById
    rw [← find_withoutTallies, ← find_withoutTallies, hbooths]
  unfold getBoothDetails
  split
  · rfl
  · cases h1 : db1.findBoothById req.boothId with
    | none =>
      rw [h1] at hfind
      cases h2 : db2.findBoothById req.boothId with
      | none => rfl
      | some b2 => rw [h2] at hfind; cases hfind
    | some b1 =>
      rw [h1] at hfind
      cases h2 : db2.findBoothById req.boothId with
      | none => rw [h2] at hfind; cases hfind
      | some b2 =>
        rw [h2] at hfind
        simp only [Option.map_some', Option.some.injEq] at hfind
        obtain ⟨hne, hvis⟩ := hcaller b1 h1
        have hne2 : b2.creator ≠ req.userId := by
          have : b2.creator = b1.creator := congrArg (fun b => b.creator) hfind.symm
          rw [this]; exact hne
        have hvis2 : b2.settings.resultsVisibleToVoters = false := by
          have : b2.settings = b1.settings := congrArg (fun b => b.settings) hfind.symm
          rw [this]; exact hvis
        simp only
        rw [detailsResponse_withoutTallies docToString db1 b1 req now hne hvis,
          detailsResponse_withoutTallies docToString db2 b2 req now hne2 hvis2, hfind]
        unfold Booth.detailsResponse
        rw [findMemberPopulated_users docToString db1 db2 husers]
        unfold Db.findUserById
        rw [husers]

theorem findMemberPopulated_no_match (docToString : User → String) (db : Db) (userId : String)
    (h : ∀ u, docToString u ≠ userId) (l : List Member) :
    findMemberPopulated docToString db l userId = none ∨
    findMemberPopulated docToString db l userId = some none := by
  induction l with
  | nil => right; rfl
  | cons m t ih =>
    unfold findMemberPopulated
    cases db.findUserById m.user with
    | none => left; rfl
    | some u =>
      have : (docToString u == userId) = false := by simpa using h u
      simp only [this, Bool.false_eq_true, if_false]
      exact ih

/-- When the text that `toString()` gives for a populated user document is never
the id of the caller, the membership test of the two details operations fails
for every caller, and a caller who is not the creator receives no booth
data. -/
theorem details_need_text_match (docToString : User → String) (js : Builtins) (db : Db)
    (booth : Booth) (req : DetailsRequest) (now : Int)
    (h : ∀ u, docToString u ≠ req.userId)
    (hb : db.findBoothById req.boothId = some booth) (hne : booth.creator ≠ req.userId) :
    (getBoothDetails docToString js db req now).booth = none ∧
    (detailsRoute docToString db ⟨req.boothId, req.userId⟩ now).data = none := by
  have hcr : ∀ creator, db.findUserById booth.creator = some creator →
      (creator.id == req.userId) = false := by
    intro creator hcr
    have hid : creator.id = booth.creator := by
      have := List.find?_some hcr
      simpa using this
    rw [hid]; simpa using hne
  constructor
  · unfold getBoothDetails
    split
    · unfold detailsError; split <;> rfl
    · rw [hb]
      simp only
      unfold Booth.detailsResponse
      rcases findMemberPopulated_no_match docToString db req.userId h booth.members with hf | hf
      · rw [hf]; simp only; unfold detailsError; split <;> rfl
      · rw [hf]
        cases hc : db.findUserById booth.creator with
        | none => simp only; unfold detailsError; split <;> rfl
        | some creator =>
          simp only [hcr creator hc, Option.isSome_none, Bool.not_false, Bool.and_self, if_true]
          unfold detailsError; split <;> rfl
  · unfold detailsRoute
    rw [hb]
    simp only
    rcases findMemberPopulated_no_match docToString db req.userId h booth.members with hf | hf
    · rw [hf]
    · rw [hf]
      cases hc : db.findUserById booth.creator with
      | none => rfl
      | some creator =>
        simp only [hcr creator hc, Option.isSome_none, Bool.not_false, Bool.and_self, if_true]

/-- C4, counterexample. In the concrete run `bob`, a member who has not voted,
sends the candidate index `1abc`, which is not an integer: `parseInt` reads the
prefix `1`, the request is answered 200 and the vote is counted for candidate
1. The index `0.9` is read as 0 and counted for candidate 0. -/
theorem vote_prefix_index_counterexample :
    parseInt asciiRuntime (BodyValue.text "1abc") = some 1 ∧
    (vote asciiRuntime (afterJoin none false false) (voteReq bob "1abc") 5).1
      = { status := 200, kind := .json, message := some "Vote recorded successfully",
          candidate := some "B" } ∧
    (lunchBooth (vote asciiRuntime (afterJoin none false false) (voteReq bob "1abc") 5).2).map
      (fun b => (b.tallies, b.totalVotes)) = some ([0, 1], 1) ∧
    parseInt asciiRuntime (BodyValue.text "0.9") = some 0 ∧
    (vote asciiRuntime (afterJoin none false false) (voteReq bob "0.9") 5).1.status = 200 ∧
    (lunchBooth (vote asciiRuntime (afterJoin none false false) (voteReq bob "0.9") 5).2).map
      (fun b => (b.tallies, b.totalVotes)) = some ([1, 0], 1) := by
  decide

/-- The expression `d.startsWith('@') ? d.slice(1) : d` removes the first
character of an entry that begins with `@` and leaves every other entry as it
is. -/
theorem cleanDomain_cases (d : String) :
    (d.data.head? = some '@' ∧ cleanDomain d = String.mk d.data.tail) ∨
    (d.data.head? ≠ some '@' ∧ cleanDomain d = d) := by
  unfold cleanDomain
  cases hd : d.data with
  | nil => right; simp
  | cons c t =>
    by_cases hc : c = '@'
    · left; subst hc; simp
    · right
      refine ⟨by simpa using hc, ?_⟩
      split
      · rename_i rest heq
        simp only [List.cons.injEq] at heq
        exact absurd heq.1 hc
      · rfl

/-- The match of the email check on one entry, written on the characters of the
entry. -/
theorem cleanDomain_match (js : Builtins) (d x : String) :
    js.toLowerCase (cleanDomain d) = x ↔
      ((d.data.head? = some '@' ∧ js.toLowerCase (String.mk d.data.tail) = x) ∨
       (d.data.head? ≠ some '@' ∧ js.toLowerCase d = x)) := by
  rcases cleanDomain_cases d with ⟨h1, h2⟩ | ⟨h1, h2⟩
  · rw [h2]
    constructor
    · intro h; exact Or.inl ⟨h1, h⟩
    · rintro (⟨-, h⟩ | ⟨hn, -⟩)
      · exact h
      · exact absurd h1 hn
  · rw [h2]
    constructor
    · intro h; exact Or.inr ⟨h1, h⟩
    · rintro (⟨hy, -⟩ | ⟨-, h⟩)
      · exact absurd hy h1
      · exact h

/-- C11. Email-domain admission. A user whose email address is `loc@dom` asks
to join an active booth with room, of which the user is not a member and whose
`allowedEmailDomains` is not empty. The user is admitted exactly when some
entry `d` of the list matches: either `d` begins with `@` and `d` without that
first character equals `dom` after both are put in lower case, or `d` does not
begin with `@` and `d` itself equals `dom` after both are put in lower case.
Only one leading `@` is removed. If there is such an entry, the request is
answered without error and the user is appended to the members of the booth.
If there is none, the request is refused with the email-domain error, whose
text lists the allowed domains (status 403 in the JSON form), and the database
is as it was. -/
theorem joinBooth_email_domain (js : Builtins) (db : Db) (req : JoinRequest) (now : Int)
    (booth : Booth) (user : User) (loc dom : List Char)
    (hfmt : (req.code.data.isEmpty || !isInviteCodeFormat (js.toUpperCase req.code).data) = false)
    (hb : db.findBoothByInviteCode (js.toUpperCase req.code) = some booth)
    (hs : booth.status = Status.active) (hm : booth.isMember req.userId = false)
    (hcap : (booth.members.length : Int) < booth.maxMembers)
    (hd : booth.settings.allowedEmailDomains ≠ [])
    (hval : booth.validate = true)
    (hu : db.findUserById req.userId = some user)
    (he : user.email = some (String.mk (loc ++ '@' :: dom)))
    (hl : '@' ∉ loc) (hdm : '@' ∉ dom) :
    (emailDomainCheck js db booth req = none ↔
      ∃ d ∈ booth.settings.allowedEmailDomains,
        (d.data.head? = some '@' ∧
          js.toLowerCase (String.mk d.data.tail) = js.toLowerCase (String.mk dom)) ∨
        (d.data.head? ≠ some '@' ∧ js.toLowerCase d = js.toLowerCase (String.mk dom))) ∧
    ((∃ d ∈ booth.settings.allowedEmailDomains,
        (d.data.head? = some '@' ∧
          js.toLowerCase (String.mk d.data.tail) = js.toLowerCase (String.mk dom)) ∨
        (d.data.head? ≠ some '@' ∧ js.toLowerCase d = js.toLowerCase (String.mk dom))) →
      (joinBooth js db req now).1.error = none ∧
      (joinBooth js db req now).2.booths
        = (db.replaceBooth (booth.admitted req.userId now)).booths) ∧
    ((¬ ∃ d ∈ booth.settings.allowedEmailDomains,
        (d.data.head? = some '@' ∧
          js.toLowerCase (String.mk d.data.tail) = js.toLowerCase (String.mk dom)) ∨
        (d.data.head? ≠ some '@' ∧ js.toLowerCase d = js.toLowerCase (String.mk dom))) →
      (joinBooth js db req now).1.error
        = some ("Only users with " ++
            ", ".intercalate (booth.settings.allowedEmailDomains.map atDomain) ++
            " email addresses can join this booth") ∧
      (req.acceptsHtml = false → (joinBooth js db req now).1.status = 403) ∧
      (joinBooth js db req now).2 = db) ∧
    (∀ t : List Char, cleanDomain (String.mk ('@' :: t)) = String.mk t) ∧
    (∀ t : List Char, cleanDomain (String.mk ('@' :: '@' :: t)) = String.mk ('@' :: t)) := by
  obtain ⟨h1, h2, h3⟩ :=
    joinBooth_email_domain_clean js db req now booth user loc dom hfmt hb hs hm hcap hd hval hu he
      hl hdm
  have hiff : (∃ d ∈ booth.settings.allowedEmailDomains,
        js.toLowerCase (cleanDomain d) = js.toLowerCase (String.mk dom)) ↔
      ∃ d ∈ booth.settings.allowedEmailDomains,
        (d.data.head? = some '@' ∧
          js.toLowerCase (String.mk d.data.tail) = js.toLowerCase (String.mk dom)) ∨
        (d.data.head? ≠ some '@' ∧ js.toLowerCase d = js.toLowerCase (String.mk dom)) := by
    constructor
    · rintro ⟨d, hd1, hd2⟩
      exact ⟨d, hd1, (cleanDomain_match js d _).mp hd2⟩
    · rintro ⟨d, hd1, hd2⟩
      exact ⟨d, hd1, (cleanDomain_match js d _).mpr hd2⟩
  refine ⟨h1.trans hiff, fun h => h2 (hiff.mpr h), fun h => h3 (fun hx => h (hiff.mp hx)),
    fun t => rfl, fun t => rfl⟩

/-- Witness of `joinBooth_email_domain`: in the booth whose `allowedEmailDomains`
is `["org.edu"]`, the user with the address `x@other.com` is refused and the
user with the address `x@org.edu` is admitted; and so they are in the booth
whose one entry is written `@org.edu`, with a leading `@`. -/
theorem joinBooth_email_domain_witness :
    (campusDb.booths.map (fun b => b.settings.allowedEmailDomains)) = [["org.edu"]] ∧
    (joinBooth asciiRuntime campusDb ⟨"aaaaaa", xOther, false⟩ 2).1.error
      = some "Only users with @org.edu email addresses can join this booth" ∧
    (joinBooth asciiRuntime campusDb ⟨"aaaaaa", xOther, false⟩ 2).2 = campusDb ∧
    (joinBooth asciiRuntime campusDb ⟨"aaaaaa", xOrg, false⟩ 2).1.error = none ∧
    ((joinBooth asciiRuntime campusDb ⟨"aaaaaa", xOrg, false⟩ 2).2.booths.map
      (fun b => b.members.map (fun m => m.user))) = [[ann, xOrg]] ∧
    (atCampusDb.booths.map (fun b => b.settings.allowedEmailDomains)) = [["@org.edu"]] ∧
    (joinBooth asciiRuntime atCampusDb ⟨"aaaaaa", xOrg, false⟩ 2).1.error = none ∧
    ((joinBooth asciiRuntime atCampusDb ⟨"aaaaaa", xOrg, false⟩ 2).2.booths.map
      (fun b => b.members.map (fun m => m.user))) = [[ann, xOrg]] ∧
    (joinBooth asciiRuntime atCampusDb ⟨"aaaaaa", xOther, false⟩ 2).1.error
      = some "Only users with @org.edu email addresses can join this booth" :=
  ⟨by decide,
   ((joinBooth_email_domain asciiRuntime campusDb ⟨"aaaaaa", xOther, false⟩ 2
      ((campusDb.findBoothById lunchId).getD default) ⟨xOther, some "x@other.com", 5, [], []⟩
      ['x'] "other.com".data (by decide) (by decide) (by decide) (by decide) (by decide)
      (by decide) (by decide) (by decide) (by decide) (by decide) (by decide)).2.2.1
        (by decide)).1.trans (by decide),
   ((joinBooth_email_domain asciiRuntime campusDb ⟨"aaaaaa", xOther, false⟩ 2
      ((campusDb.findBoothById lunchId).getD default) ⟨xOther, some "x@other.com", 5, [], []⟩
      ['x'] "other.com".data (by decide) (by decide) (by decide) (by decide) (by decide)
      (by decide) (by decide) (by decide) (by decide) (by decide) (by decide)).2.2.1
        (by decide)).2.2,
   ((joinBooth_email_domain asciiRuntime campusDb ⟨"aaaaaa", xOrg, false⟩ 2
      ((campusDb.findBoothById lunchId).getD default) ⟨xOrg, some "x@org.edu", 5, [], []⟩
      ['x'] "org.edu".data (by decide) (by decide) (by decide) (by decide) (by decide)
      (by decide) (by decide) (by decide) (by decide) (by decide) (by decide)).2.1
        ⟨"org.edu", by decide, Or.inr ⟨by decide, by decide⟩⟩).1,
   by decide, by decide,
   ((joinBooth_email_domain asciiRuntime atCampusDb ⟨"aaaaaa", xOrg, false⟩ 2
      ((atCampusDb.findBoothById lunchId).getD default) ⟨xOrg, some "x@org.edu", 5, [], []⟩
      ['x'] "org.edu".data (by decide) (by decide) (by decide) (by decide) (by decide)
      (by decide) (by decide) (by decide) (by decide) (by decide) (by decide)).2.1
        ⟨"@org.edu", by decide, Or.inl ⟨by decide, by decide⟩⟩).1,
   by decide,
   ((joinBooth_email_domain asciiRuntime atCampusDb ⟨"aaaaaa", xOther, false⟩ 2
      ((atCampusDb.findBoothById lunchId).getD default) ⟨xOther, some "x@other.com", 5, [], []⟩
      ['x'] "other.com".data (by decide) (by decide) (by decide) (by decide) (by decide)
      (by decide) (by decide) (by decide) (by decide) (by decide) (by decide)).2.2.1
        (by decide)).1.trans (by decide)⟩

theorem inspectText_ne (u : User) (userId : String) (h : userId.data.head? ≠ some '\x7b') :
    inspectText u ≠ userId := by
  intro he
  apply h
  rw [← he]
  rfl

/-- What the route `GET /api/:boothId` sends when it answers with data: the
stored candidates with their tallies and the stored `totalVotes`, whatever the
setting `resultsVisibleToVoters` is. -/
theorem detailsRoute_data (docToString : User → String) (db : Db) (req : ResultsRequest)
    (now : Int) (booth : Booth) (d : RouteDetails)
    (hb : db.findBoothById req.boothId = some booth)
    (h : (detailsRoute docToString db req now).data = some d) :
    d.booth.candidates = booth.candidates ∧ d.booth.totalVotes = booth.totalVotes ∧
    d.stats = booth.getStats := by
  unfold detailsRoute at h
  rw [hb] at h
  simp only at h
  split at h
  · split at h
    · cases h
    · simp only [Option.some.injEq] at h
      rw [← h]
      exact ⟨rfl, rfl, rfl⟩
  · cases h

/-- The responses of the route `GET /api/:boothId` to a caller who is not the
creator, when the text of no populated user document is the id of the caller:
the membership test fails, and the responses in two databases with the same
users whose booths differ only in the tallies are equal. -/
theorem detailsRoute_hides_tallies (docToString : User → String) (db1 db2 : Db)
    (req : ResultsRequest) (now : Int)
    (husers : db1.users = db2.users)
    (hbooths : db1.booths.map Booth.withoutTallies = db2.booths.map Booth.withoutTallies)
    (hcaller : ∀ b, db1.findBoothById req.boothId = some b → b.creator ≠ req.userId)
    (htext : ∀ u, docToString u ≠ req.userId) :
    detailsRoute docToString db1 req now = detailsRoute docToString db2 req now := by
  have hfind : (db1.findBoothById req.boothId).map Booth.withoutTallies
      = (db2.findBoothById req.boothId).map Booth.withoutTallies := by
    unfold Db.findBoothById
    rw [← find_withoutTallies, ← find_withoutTallies, hbooths]
  have hf : ∀ u, db1.findUserById u = db2.findUserById u := by
    intro u; unfold Db.findUserById; rw [husers]
  have hdenied : ∀ (db : Db) (b : Booth), db.findBoothById req.boothId = some b →
      b.creator ≠ req.userId →
      detailsRoute docToString db req now =
        (match findMemberPopulated docToString db b.members req.userId,
            db.findUserById b.creator with
          | some _, some _ =>
            { status := 403,
              error := some
                "You are not a member of this booth. Please join using an invite code." }
          | _, _ => { status := 500, error := some "Failed to load booth details" }) := by
    intro db b hb hne
    unfold detailsRoute
    rw [hb]
    simp only
    rcases findMemberPopulated_no_match docToString db req.userId htext b.members with hm | hm
    · rw [hm]
    · rw [hm]
      cases hc : db.findUserById b.creator with
      | none => rfl
      | some creator =>
        have hid : creator.id = b.creator := by
          have := List.find?_some hc
          simpa using this
        have hnc : (creator.id == req.userId) = false := by
          rw [hid]; simpa using hne
        simp only [hnc, Option.isSome_none, Bool.not_false, Bool.and_self, if_true]
  cases h1 : db1.findBoothById req.boothId with
  | none =>
    rw [h1] at hfind
    cases h2 : db2.findBoothById req.boothId with
    | none => unfold detailsRoute; rw [h1, h2]
    | some b2 => rw [h2] at hfind; cases hfind
  | some b1 =>
    rw [h1] at hfind
    cases h2 : db2.findBoothById req.boothId with
    | none => rw [h2] at hfind; cases hfind
    | some b2 =>
      rw [h2] at hfind
      simp only [Option.map_some', Option.some.injEq] at hfind
      have hne := hcaller b1 h1
      have hcr : b2.creator = b1.creator := congrArg (fun b => b.creator) hfind.symm
      have hmem : b2.members = b1.members := congrArg (fun b => b.members) hfind.symm
      rw [hdenied db1 b1 h1 hne, hdenied db2 b2 h2 (by rw [hcr]; exact hne), hcr, hmem,
        findMemberPopulated_users docToString db1 db2 husers, hf]

/-- C21. Tally confidentiality at the boundary. The caller is not the creator
of the booth, whose `resultsVisibleToVoters` is off, and the two databases have
the same users and booths that differ only in the tallies and in `totalVotes`.
The responses of `getBoothDetails` in the two databases are equal, whatever
text `toString()` gives for a populated user document, and a response with
booth data carries no `voteCount`. The route `GET /api/:boothId` has no test of
`resultsVisibleToVoters`; its responses in the two databases are equal when the
text of no populated user document is the id of the caller, because the
membership test then fails and the route sends no data. -/
theorem details_tally_confidentiality (docToString : User → String) (js : Builtins)
    (db1 db2 : Db) (req : DetailsRequest) (now : Int)
    (husers : db1.users = db2.users)
    (hbooths : db1.booths.map Booth.withoutTallies = db2.booths.map Booth.withoutTallies)
    (hcaller : ∀ b, db1.findBoothById req.boothId = some b →
      b.creator ≠ req.userId ∧ b.settings.resultsVisibleToVoters = false) :
    getBoothDetails docToString js db1 req now = getBoothDetails docToString js db2 req now ∧
    (∀ d, (getBoothDetails docToString js db1 req now).booth = some d →
      ∀ c ∈ d.candidates, c.voteCount = none) ∧
    ((∀ u, docToString u ≠ req.userId) →
      detailsRoute docToString db1 ⟨req.boothId, req.userId⟩ now
        = detailsRoute docToString db2 ⟨req.boothId, req.userId⟩ now ∧
      (detailsRoute docToString db1 ⟨req.boothId, req.userId⟩ now).data = none ∧
      (detailsRoute docToString db2 ⟨req.boothId, req.userId⟩ now).data = none) := by
  refine ⟨getBoothDetails_hides_tallies docToString js db1 db2 req now husers hbooths hcaller,
    ?_, ?_⟩
  · intro d hd c hc
    unfold getBoothDetails at hd
    split at hd
    · unfold detailsError at hd; split at hd <;> cases hd
    · cases hb : db1.findBoothById req.boothId with
      | none =>
        rw [hb] at hd
        simp only at hd
        unfold detailsError at hd; split at hd <;> cases hd
      | some b =>
        obtain ⟨hne, hvis⟩ := hcaller b hb
        rw [hb] at hd
        simp only at hd
        unfold Booth.detailsResponse at hd
        split at hd
        · rename_i found creator hfound hcr
          have hid : creator.id = b.creator := by
            have := List.find?_some hcr
            simpa using this
          have hnc : (creator.id == req.userId) = false := by
            rw [hid]; simpa using hne
          simp only [hnc] at hd
          split at hd
          · unfold detailsError at hd; split at hd <;> cases hd
          · split at hd
            · simp only [Option.some.injEq] at hd
              rw [← hd] at hc
              simp only [Booth.details, hvis, Bool.or_self, Bool.false_eq_true, if_false,
                List.mem_map] at hc
              obtain ⟨x, -, hx⟩ := hc
              rw [← hx]
            · simp only [Option.some.injEq] at hd
              rw [← hd] at hc
              simp only [Booth.details, hvis, Bool.or_self, Bool.false_eq_true, if_false,
                List.mem_map] at hc
              obtain ⟨x, -, hx⟩ := hc
              rw [← hx]
        · unfold detailsError at hd; split at hd <;> cases hd
  · intro htext
    have hroute := detailsRoute_hides_tallies docToString db1 db2 ⟨req.boothId, req.userId⟩ now
      husers hbooths (fun b hb => (hcaller b hb).1) htext
    have hnone : (detailsRoute docToString db1 ⟨req.boothId, req.userId⟩ now).data = none := by
      cases hb : db1.findBoothById req.boothId with
      | none => unfold detailsRoute; simp only [hb]
      | some b =>
        exact (details_need_text_match docToString js db1 b req now htext hb (hcaller b hb).1).2
    refine ⟨hroute, hnone, ?_⟩
    rw [← hroute]; exact hnone

/-- Witness of `details_tally_confidentiality`: in the booth of the concrete run
with room for three members, `resultsVisibleToVoters` is off; `ann` is the
creator, `bob` and `cyd` are members, and `bob` voted for candidate 0 in one
database and for candidate 1 in the other. With a text for populated user
documents that begins with a brace, `cyd` is answered 403 by both operations in
both databases. -/
theorem details_tally_confidentiality_witness :
    (lunchBooth (trioDb "0")).map (fun b => (b.tallies, b.isMember cyd)) = some ([1, 0], true) ∧
    (lunchBooth (trioDb "1")).map (fun b => (b.tallies, b.isMember cyd)) = some ([0, 1], true) ∧
    (getBoothDetails inspectText asciiRuntime (trioDb "0")
      ⟨lunchId, cyd, false, "https", "vote.org"⟩ 9).status = 403 ∧
    (detailsRoute inspectText (trioDb "0") ⟨lunchId, cyd⟩ 9).status = 403 ∧
    getBoothDetails inspectText asciiRuntime (trioDb "0")
        ⟨lunchId, cyd, false, "https", "vote.org"⟩ 9
      = getBoothDetails inspectText asciiRuntime (trioDb "1")
        ⟨lunchId, cyd, false, "https", "vote.org"⟩ 9 ∧
    detailsRoute inspectText (trioDb "0") ⟨lunchId, cyd⟩ 9
      = detailsRoute inspectText (trioDb "1") ⟨lunchId, cyd⟩ 9 :=
  ⟨by decide, by decide, by decide, by decide,
   (details_tally_confidentiality inspectText asciiRuntime (trioDb "0") (trioDb "1")
     ⟨lunchId, cyd, false, "https", "vote.org"⟩ 9 (by decide) (by decide) (by decide)).1,
   ((details_tally_confidentiality inspectText asciiRuntime (trioDb "0") (trioDb "1")
     ⟨lunchId, cyd, false, "https", "vote.org"⟩ 9 (by decide) (by decide) (by decide)).2.2
     (fun u => inspectText_ne u cyd (by decide))).1⟩

end VotingApp
